import Mathlib

/-!
go-keywordsai: the request pipeline, the error decoder and the query encoder.

A shallow embedding of `pkg/client` (errors.go, query.go, client.go, multipart.go)
and of the resource services built on it, followed by the properties proved of it.

Conventions of the embedding:

* a Go `string` or `[]byte` holding text is a Lean `String` (a sequence of Unicode
  code points, that is a valid UTF-8 byte string); `utf8Bytes` gives its bytes, and the
  order of Go strings is the lexicographic order of those bytes;
* a Go `int` is a Lean `Int`; where the 64-bit range matters it is checked explicitly;
* a Go `error` is `Option Error`, `none` being `nil`;
* a Go value seen through `reflect` is a `GoValue`, a `reflect.Value` is a `Value`; each
  `reflect` method that panics on the wrong kind returns `Except Panic`;
* the parts of the Go standard library the code calls are modelled next to the code
  that uses them (`encoding/json` decoding, `net/url`, `mime/multipart`) or taken as
  parameters (`Lib`, and the transport inside `HTTPClient`).
-/

namespace KeywordsAI

/-! ## fmt -/

/-- Model of `fmt.Sprintf("%d", n)` for a signed integer: base 10, `-` when negative. -/
def sprintf_d (n : Int) : String :=
  match n with
  | Int.ofNat m => Nat.repr m
  | Int.negSucc m => "-" ++ Nat.repr (m + 1)

/-- Model of `fmt.Sprintf("%t", b)`. -/
def sprintf_t (b : Bool) : String :=
  if b then "true" else "false"

/-! ## strings as byte sequences -/

/-- The bytes of a Go string: the UTF-8 encoding of the text. -/
def utf8Bytes (s : String) : List Nat :=
  s.data.flatMap (fun c => (String.utf8EncodeChar c).map UInt8.toNat)

/-- Lexicographic comparison of byte sequences. -/
def bytesLE : List Nat → List Nat → Bool
  | [], _ => true
  | _ :: _, [] => false
  | a :: as, b :: bs => if a < b then true else if b < a then false else bytesLE as bs

/-- The order `a <= b` of Go strings (byte-wise). -/
def stringLE (a b : String) : Prop :=
  bytesLE (utf8Bytes a) (utf8Bytes b) = true

instance stringLE.decidable : DecidableRel stringLE :=
  fun a b => inferInstanceAs (Decidable (bytesLE (utf8Bytes a) (utf8Bytes b) = true))

/-- Model of `strings.Split(s, sep)` for a one-character separator: the pieces between
the separators, at least one. `cur` is the piece being read, reversed. -/
def splitOnChar (sep : Char) : List Char → List Char → List String
  | [], cur => [String.mk cur.reverse]
  | c :: cs, cur =>
    if c = sep then String.mk cur.reverse :: splitOnChar sep cs []
    else splitOnChar sep cs (c :: cur)

/-- The call `strings.Split(s, ",")`. -/
def stringsSplitComma (s : String) : List String :=
  splitOnChar ',' s.data []

/-- Indexing `xs[i]` of a slice of strings: panics when out of range. -/
def indexString (xs : List String) (i : Nat) : Except String String :=
  match xs[i]? with
  | some x => .ok x
  | none => .error "runtime error: index out of range"

/-! ## encoding/json: the decoder, as far as `json.Unmarshal(body, &apiErr)` uses it -/

/-- A parsed JSON text. Numbers keep their literal; object members keep their order. -/
inductive JSON where
  | null
  | bool (b : Bool)
  | number (lit : String)
  | string (s : String)
  | array (elems : List JSON)
  | object (members : List (String × JSON))

/-- JSON insignificant whitespace. -/
def isSpace (c : Char) : Bool :=
  c = ' ' || c = '\t' || c = '\r' || c = '\n'

/-- Drop leading whitespace. -/
def skipSpace : List Char → List Char
  | [] => []
  | c :: cs => if isSpace c then skipSpace cs else c :: cs

/-- Decimal digit test. -/
def isDigit (c : Char) : Bool :=
  decide ('0' ≤ c) && decide (c ≤ '9')

/-- Value of a hexadecimal digit (either case). -/
def hexVal (c : Char) : Option Nat :=
  if isDigit c then some (c.toNat - 48)
  else if decide ('a' ≤ c) && decide (c ≤ 'f') then some (c.toNat - 87)
  else if decide ('A' ≤ c) && decide (c ≤ 'F') then some (c.toNat - 55)
  else none

/-- Model of `getu4`: the code unit written by four hexadecimal digits. -/
def hex4 (a b c d : Char) : Option Nat :=
  match hexVal a, hexVal b, hexVal c, hexVal d with
  | some x, some y, some z, some w => some (((x * 16 + y) * 16 + z) * 16 + w)
  | _, _, _, _ => none

/-- The rune a single-character escape stands for. -/
def simpleEscape (c : Char) : Option Char :=
  if c = '"' then some '"'
  else if c = '\\' then some '\\'
  else if c = '/' then some '/'
  else if c = 'b' then some (Char.ofNat 8)
  else if c = 'f' then some (Char.ofNat 12)
  else if c = 'n' then some '\n'
  else if c = 'r' then some '\r'
  else if c = 't' then some '\t'
  else none

/-- Unicode replacement character, written for an unpaired surrogate. -/
def replacementChar : Char := Char.ofNat 0xFFFD

/-- Scan and unquote a string literal whose opening quote has been consumed.
Returns the decoded string and the rest of the input, `none` on a syntax error. -/
def parseString : Nat → List Char → List Char → Option (String × List Char)
  | 0, _, _ => none
  | _ + 1, [], _ => none
  | fuel + 1, c :: rest, acc =>
    if c = '"' then some (String.mk acc.reverse, rest)
    else if c = '\\' then
      match rest with
      | [] => none
      | e :: rest1 =>
        if e = 'u' then
          match rest1 with
          | a :: b :: c1 :: d :: rest2 =>
            match hex4 a b c1 d with
            | none => none
            | some r =>
              if 0xD800 ≤ r ∧ r < 0xE000 then
                match rest2 with
                | b1 :: u1 :: a2 :: b2 :: c2 :: d2 :: rest3 =>
                  match hex4 a2 b2 c2 d2 with
                  | some r1 =>
                    if b1 = '\\' ∧ u1 = 'u' ∧ r < 0xDC00 ∧ 0xDC00 ≤ r1 ∧ r1 < 0xE000 then
                      parseString fuel rest3
                        (Char.ofNat ((r - 0xD800) * 1024 + (r1 - 0xDC00) + 0x10000) :: acc)
                    else parseString fuel rest2 (replacementChar :: acc)
                  | none => parseString fuel rest2 (replacementChar :: acc)
                | _ => parseString fuel rest2 (replacementChar :: acc)
              else parseString fuel rest2 (Char.ofNat r :: acc)
          | _ => none
        else
          match simpleEscape e with
          | some x => parseString fuel rest1 (x :: acc)
          | none => none
    else if c.toNat < 0x20 then none
    else parseString fuel rest (c :: acc)

/-- Longest prefix of decimal digits, and the rest. -/
def takeDigits : List Char → List Char × List Char
  | [] => ([], [])
  | c :: cs =>
    if isDigit c then
      let r := takeDigits cs
      (c :: r.1, r.2)
    else ([], c :: cs)

/-- Optional fraction part of a number: `.` and at least one digit. -/
def parseFrac (cs : List Char) : Option (List Char × List Char) :=
  match cs with
  | c :: rest =>
    if c = '.' then
      match takeDigits rest with
      | ([], _) => none
      | (ds, rest1) => some (c :: ds, rest1)
    else some ([], cs)
  | [] => some ([], [])

/-- Optional exponent part of a number: `e` or `E`, an optional sign, at least one digit. -/
def parseExp (cs : List Char) : Option (List Char × List Char) :=
  match cs with
  | c :: rest =>
    if c = 'e' ∨ c = 'E' then
      let signed : List Char × List Char :=
        match rest with
        | s :: rest1 => if s = '+' ∨ s = '-' then ([s], rest1) else ([], rest)
        | [] => ([], [])
      match takeDigits signed.2 with
      | ([], _) => none
      | (ds, rest2) => some (c :: signed.1 ++ ds, rest2)
    else some ([], cs)
  | [] => some ([], [])

/-- Scan a number literal: `-? (0 | [1-9][0-9]*) (. [0-9]+)? ([eE] [+-]? [0-9]+)?`. -/
def parseNumber (cs : List Char) : Option (String × List Char) :=
  let signed : List Char × List Char :=
    match cs with
    | c :: rest => if c = '-' then ([c], rest) else ([], cs)
    | [] => ([], [])
  let intPart : Option (List Char × List Char) :=
    match signed.2 with
    | c :: rest =>
      if c = '0' then some ([c], rest)
      else if isDigit c then
        let r := takeDigits rest
        some (c :: r.1, r.2)
      else none
    | [] => none
  match intPart with
  | none => none
  | some (ip, rest1) =>
    match parseFrac rest1 with
    | none => none
    | some (fp, rest2) =>
      match parseExp rest2 with
      | none => none
      | some (ep, rest3) => some (String.mk (signed.1 ++ ip ++ fp ++ ep), rest3)

/-- If `cs` starts with the characters of `lit`, the rest of `cs`. -/
def stripLit (lit : List Char) (cs : List Char) : Option (List Char) :=
  match lit, cs with
  | [], cs => some cs
  | _ :: _, [] => none
  | l :: ls, c :: cs => if l = c then stripLit ls cs else none

/-- Nesting limit of the scanner (`maxNestingDepth`). -/
def maxNestingDepth : Nat := 10000

mutual
/-- Parse one JSON value at the head of the input (leading whitespace already skipped).
`depth` is the number of enclosing arrays and objects. -/
def parseValue : Nat → Nat → List Char → Option (JSON × List Char)
  | 0, _, _ => none
  | _ + 1, _, [] => none
  | fuel + 1, depth, c :: rest =>
    if c = '{' then
      if depth + 1 > maxNestingDepth then none
      else
        match skipSpace rest with
        | [] => none
        | c1 :: rest1 =>
          if c1 = '}' then some (JSON.object [], rest1)
          else
            match parseMembers fuel (depth + 1) (c1 :: rest1) [] with
            | some (ms, rest2) => some (JSON.object ms, rest2)
            | none => none
    else if c = '[' then
      if depth + 1 > maxNestingDepth then none
      else
        match skipSpace rest with
        | [] => none
        | c1 :: rest1 =>
          if c1 = ']' then some (JSON.array [], rest1)
          else
            match parseElems fuel (depth + 1) (c1 :: rest1) [] with
            | some (es, rest2) => some (JSON.array es, rest2)
            | none => none
    else if c = '"' then
      match parseString (rest.length + 1) rest [] with
      | some (s, rest1) => some (JSON.string s, rest1)
      | none => none
    else if c = 't' then (stripLit ['r', 'u', 'e'] rest).map (fun r => (JSON.bool true, r))
    else if c = 'f' then (stripLit ['a', 'l', 's', 'e'] rest).map (fun r => (JSON.bool false, r))
    else if c = 'n' then (stripLit ['u', 'l', 'l'] rest).map (fun r => (JSON.null, r))
    else
      match parseNumber (c :: rest) with
      | some (lit, rest1) => some (JSON.number lit, rest1)
      | none => none
/-- Parse the elements of an array: the input stands at the first character of an element. -/
def parseElems : Nat → Nat → List Char → List JSON → Option (List JSON × List Char)
  | 0, _, _, _ => none
  | fuel + 1, depth, cs, acc =>
    match parseValue fuel depth cs with
    | none => none
    | some (v, rest) =>
      match skipSpace rest with
      | [] => none
      | c :: rest1 =>
        if c = ',' then parseElems fuel depth (skipSpace rest1) (v :: acc)
        else if c = ']' then some ((v :: acc).reverse, rest1)
        else none
/-- Parse the members of an object: the input stands at the opening quote of a key. -/
def parseMembers : Nat → Nat → List Char → List (String × JSON) →
    Option (List (String × JSON) × List Char)
  | 0, _, _, _ => none
  | _ + 1, _, [], _ => none
  | fuel + 1, depth, q :: cs, acc =>
    if q = '"' then
      match parseString (cs.length + 1) cs [] with
      | none => none
      | some (key, rest) =>
        match skipSpace rest with
        | [] => none
        | c :: rest1 =>
          if c = ':' then
            match parseValue fuel depth (skipSpace rest1) with
            | none => none
            | some (v, rest2) =>
              match skipSpace rest2 with
              | [] => none
              | c2 :: rest3 =>
                if c2 = ',' then parseMembers fuel depth (skipSpace rest3) ((key, v) :: acc)
                else if c2 = '}' then some (((key, v) :: acc).reverse, rest3)
                else none
          else none
    else none
end

/-- Model of the scanner's `checkValid` followed by parsing: the whole input must be
one JSON value surrounded by optional whitespace. `none` is a syntax error. Every
recursive call consumes at least one character, so the fuel `2 * length + 2` never
runs out. -/
def parseJSON (data : String) : Option JSON :=
  match parseValue (2 * data.data.length + 2) 0 (skipSpace data.data) with
  | some (v, rest) => if skipSpace rest = [] then some v else none
  | none => none

/-- Model of `strconv.ParseInt(lit, 10, 64)` on a JSON number literal: an optional `-`
and decimal digits only, within the 64-bit range. -/
def parseInt64 (lit : String) : Option Int :=
  let signed : Bool × List Char :=
    match lit.data with
    | c :: rest => if c = '-' then (true, rest) else (false, lit.data)
    | [] => (false, [])
  if signed.2 = [] ∨ ¬ signed.2.all isDigit = true then none
  else
    let m : Nat := signed.2.foldl (fun acc c => acc * 10 + (c.toNat - 48)) 0
    let n : Int := if signed.1 then -(m : Int) else (m : Int)
    if -(2 ^ 63 : Int) ≤ n ∧ n < (2 ^ 63 : Int) then some n else none

/-- Case folding used to match object keys with field names: ASCII letters ignore
case, and the two non-ASCII characters that fold to ASCII letters (U+017F to `s`, U+212A
to `k`) are folded too. -/
def foldRune (c : Char) : Char :=
  if decide ('A' ≤ c) && decide (c ≤ 'Z') then Char.ofNat (c.toNat + 32)
  else if c = Char.ofNat 0x17F then 's'
  else if c = Char.ofNat 0x212A then 'k'
  else c

/-- Folded form of a name. -/
def foldName (s : String) : String :=
  String.mk (s.data.map foldRune)

/-! ## errors.go -/

/-- The structured error of the API (`APIError`). -/
structure APIError where
  StatusCode : Int
  ErrorText : String
  Message : String
  Details : String
deriving DecidableEq, Repr

/-- The fields of `APIError`, as the decoder addresses them. -/
inductive APIErrorField where
  | StatusCode
  | ErrorText
  | Message
  | Details
deriving DecidableEq, Repr

/-- The `json` tags of `APIError`, in declaration order. -/
def apiErrorFields : List (String × APIErrorField) :=
  [("status_code", APIErrorField.StatusCode), ("error", APIErrorField.ErrorText),
   ("message", APIErrorField.Message), ("details", APIErrorField.Details)]

/-- Field an object key decodes into: an exact match of the tag name is preferred,
otherwise a match under case folding; `none` when the key is unknown (it is skipped). -/
def lookupField (key : String) : Option APIErrorField :=
  match apiErrorFields.find? (fun f => f.1 = key) with
  | some f => some f.2
  | none =>
    match apiErrorFields.find? (fun f => foldName f.1 = foldName key) with
    | some f => some f.2
    | none => none

/-- Decode one JSON value into one field. The flag is true when the value does not fit
the field's type (an `UnmarshalTypeError` is recorded and the field is left alone);
`null` leaves the field alone without an error. -/
def decodeField (e : APIError) (f : APIErrorField) (v : JSON) : APIError × Bool :=
  match f, v with
  | _, JSON.null => (e, false)
  | APIErrorField.StatusCode, JSON.number lit =>
    match parseInt64 lit with
    | some n => ({ e with StatusCode := n }, false)
    | none => (e, true)
  | APIErrorField.ErrorText, JSON.string s => ({ e with ErrorText := s }, false)
  | APIErrorField.Message, JSON.string s => ({ e with Message := s }, false)
  | APIErrorField.Details, JSON.string s => ({ e with Details := s }, false)
  | _, _ => (e, true)

/-- Decode one object member: unknown keys are skipped. -/
def decodeMember (st : APIError × Bool) (m : String × JSON) : APIError × Bool :=
  match lookupField m.1 with
  | none => st
  | some f =>
    let r := decodeField st.1 f m.2
    (r.1, st.2 || r.2)

/-- Model of `json.Unmarshal(data, &apiErr)`: the destination after the call, and whether
an error was returned. A syntax error leaves the destination untouched; a type error is
recorded while the remaining members are still decoded. -/
def jsonUnmarshal (data : String) (dst : APIError) : APIError × Bool :=
  match parseJSON data with
  | none => (dst, true)
  | some JSON.null => (dst, false)
  | some (JSON.object ms) => ms.foldl decodeMember (dst, false)
  | some _ => (dst, true)

/-- The values of the Go type `error` the library returns: a `*APIError`, or any other
error (one built by `fmt.Errorf`, or one of the standard library passed on), given by
its message. -/
inductive Error where
  | api (e : APIError)
  | plain (msg : String)
deriving DecidableEq, Repr

/-- The method `(*APIError).Error`. -/
def APIError.Error (e : APIError) : String :=
  if e.Message ≠ "" then
    "KeywordsAI API error (status " ++ sprintf_d e.StatusCode ++ "): " ++ e.Message
  else if e.ErrorText ≠ "" then
    "KeywordsAI API error (status " ++ sprintf_d e.StatusCode ++ "): " ++ e.ErrorText
  else
    "KeywordsAI API error (status " ++ sprintf_d e.StatusCode ++ ")"

/-- The function `parseAPIError`. The result is a Go `error`: `none` would be `nil`. -/
def parseAPIError (statusCode : Int) (body : String) : Option Error :=
  let apiErr : APIError := { StatusCode := statusCode, ErrorText := "", Message := "", Details := "" }
  let r := jsonUnmarshal body apiErr
  if r.2 then
    some (Error.api { StatusCode := statusCode, ErrorText := body, Message := "", Details := "" })
  else
    some (Error.api r.1)

/-! ## reflect: the values `BuildQueryString` inspects -/

/-- The kinds of `reflect.Kind`. -/
inductive Kind where
  | Invalid | Bool
  | Int | Int8 | Int16 | Int32 | Int64
  | Uint | Uint8 | Uint16 | Uint32 | Uint64 | Uintptr
  | Float32 | Float64 | Complex64 | Complex128
  | Array | Chan | Func | Interface | Map | Ptr | Slice | String | Struct | UnsafePointer
deriving DecidableEq, Repr

/-- Widths of the signed integer types `int`, `int8`, `int16`, `int32`, `int64`. -/
inductive IntWidth where
  | w | w8 | w16 | w32 | w64
deriving DecidableEq, Repr

/-- Widths of the unsigned integer types `uint`, `uint8`, ..., `uint64`, `uintptr`. -/
inductive UintWidth where
  | w | w8 | w16 | w32 | w64 | ptr
deriving DecidableEq, Repr

/-- Widths of the floating-point types. -/
inductive FloatWidth where
  | w32 | w64
deriving DecidableEq, Repr

/-- A floating-point number as `Value.Float` returns it: the bit pattern of a float64. -/
structure Float64 where
  bits : Nat
deriving DecidableEq, Repr

/-- The comparison `f == 0` holds for the two zeros `+0` and `-0`. -/
def Float64.isZero (f : Float64) : Bool :=
  decide (f.bits % 2 ^ 63 = 0)

/-- A `time.Time`: an instant (seconds and nanoseconds since the Unix epoch) and the
offset, in seconds east of UTC, of the zone it is shown in. -/
structure Time where
  unixSec : Int
  nsec : Nat
  offset : Int
deriving DecidableEq, Repr

/-- A struct tag, as the `key:"value"` pairs it is made of, in order. -/
abbrev StructTag := List (String × String)

/-- The method `StructTag.Get`: the value of the first pair with the key, or `""`. -/
def StructTag.Get (tag : StructTag) (key : String) : String :=
  match tag.find? (fun kv => kv.1 = key) with
  | some kv => kv.2
  | none => ""

/-- The part of `reflect.StructField` the code reads. `PkgPath` is empty exactly for
an exported field. -/
structure StructField where
  Name : String
  PkgPath : String
  Tag : StructTag
deriving DecidableEq, Repr

/-- A Go value. A nil pointer or interface holds `none`; a nil slice or map is `none`,
an empty one is `some []`; `time` is a value of the struct type `time.Time`, `struct` a
value of any other struct type, with its fields in declaration order. -/
inductive GoValue where
  | bool (b : Bool)
  | int (width : IntWidth) (n : Int)
  | uint (width : UintWidth) (n : Nat)
  | float (width : FloatWidth) (f : Float64)
  | complex (wide : Bool)
  | array (elems : List GoValue)
  | chan (isNil : Bool) (len : Nat)
  | func (isNil : Bool)
  | iface (v : Option GoValue)
  | map (entries : Option (List (GoValue × GoValue)))
  | ptr (target : Option GoValue)
  | slice (elems : Option (List GoValue))
  | string (s : String)
  | struct (fields : List (StructField × GoValue))
  | time (t : Time)
  | unsafePointer (isNil : Bool)

/-- The type `reflect.Value`: the zero Value (which holds nothing), or the reflection
`reflect.ValueOf(g)` of a Go value. -/
inductive Value where
  | zero
  | of (g : GoValue)

/-- A run-time panic, with the message of the failing operation. -/
abbrev Panic := String

/-- The kind of a Go value. -/
def GoValue.Kind : GoValue → Kind
  | .bool _ => Kind.Bool
  | .int .w _ => Kind.Int
  | .int .w8 _ => Kind.Int8
  | .int .w16 _ => Kind.Int16
  | .int .w32 _ => Kind.Int32
  | .int .w64 _ => Kind.Int64
  | .uint .w _ => Kind.Uint
  | .uint .w8 _ => Kind.Uint8
  | .uint .w16 _ => Kind.Uint16
  | .uint .w32 _ => Kind.Uint32
  | .uint .w64 _ => Kind.Uint64
  | .uint .ptr _ => Kind.Uintptr
  | .float .w32 _ => Kind.Float32
  | .float .w64 _ => Kind.Float64
  | .complex false => Kind.Complex64
  | .complex true => Kind.Complex128
  | .array _ => Kind.Array
  | .chan _ _ => Kind.Chan
  | .func _ => Kind.Func
  | .iface _ => Kind.Interface
  | .map _ => Kind.Map
  | .ptr _ => Kind.Ptr
  | .slice _ => Kind.Slice
  | .string _ => Kind.String
  | .struct _ => Kind.Struct
  | .time _ => Kind.Struct
  | .unsafePointer _ => Kind.UnsafePointer

/-- The method `Value.Kind`: `Invalid` for the zero Value. -/
def Value.Kind : Value → Kind
  | .zero => Kind.Invalid
  | .of g => g.Kind

/-- The method `Value.IsValid`. -/
def Value.IsValid : Value → Bool
  | .zero => false
  | .of _ => true

/-- The reflection of what a pointer or interface holds: the zero Value when nil. -/
def Value.ofOption : Option GoValue → Value
  | some g => Value.of g
  | none => Value.zero

/-- The method `Value.Elem`: panics unless the kind is `Ptr` or `Interface`; the zero
Value for a nil pointer or interface. -/
def Value.Elem : Value → Except Panic Value
  | .of (.ptr target) => .ok (Value.ofOption target)
  | .of (.iface v) => .ok (Value.ofOption v)
  | _ => .error "reflect: call of reflect.Value.Elem on a value that is no pointer or interface"

/-- The method `Value.IsNil`: panics unless the kind is `Chan`, `Func`, `Interface`,
`Map`, `Ptr`, `Slice` or `UnsafePointer`. -/
def Value.IsNil : Value → Except Panic Bool
  | .of (.chan n _) => .ok n
  | .of (.func n) => .ok n
  | .of (.iface v) => .ok v.isNone
  | .of (.map m) => .ok m.isNone
  | .of (.ptr t) => .ok t.isNone
  | .of (.slice s) => .ok s.isNone
  | .of (.unsafePointer n) => .ok n
  | _ => .error "reflect: call of reflect.Value.IsNil on a value that cannot be nil"

/-- The method `Value.Len`: panics unless the kind is `Array`, `Chan`, `Map`, `Slice`
or `String`; the length of a string is its number of bytes. -/
def Value.Len : Value → Except Panic Nat
  | .of (.array es) => .ok es.length
  | .of (.chan _ n) => .ok n
  | .of (.map (some m)) => .ok m.length
  | .of (.map none) => .ok 0
  | .of (.slice (some es)) => .ok es.length
  | .of (.slice none) => .ok 0
  | .of (.string s) => .ok (utf8Bytes s).length
  | _ => .error "reflect: call of reflect.Value.Len on a value without a length"

/-- The method `Value.Bool` (`Bool` names the Lean type): panics unless the kind is
`Bool`. -/
def Value.AsBool : Value → Except Panic Bool
  | .of (.bool b) => .ok b
  | _ => .error "reflect: call of reflect.Value.Bool on a value that is no bool"

/-- The method `Value.Int`: panics unless the kind is a signed integer kind. -/
def Value.AsInt : Value → Except Panic Int
  | .of (.int _ n) => .ok n
  | _ => .error "reflect: call of reflect.Value.Int on a value that is no signed integer"

/-- The method `Value.Uint`: panics unless the kind is an unsigned integer kind. -/
def Value.AsUint : Value → Except Panic Nat
  | .of (.uint _ n) => .ok n
  | _ => .error "reflect: call of reflect.Value.Uint on a value that is no unsigned integer"

/-- The method `Value.Float`: panics unless the kind is a floating-point kind. -/
def Value.AsFloat : Value → Except Panic Float64
  | .of (.float _ f) => .ok f
  | _ => .error "reflect: call of reflect.Value.Float on a value that is no float"

/-- The method `Value.String`. It never panics: for a value that is no string Go returns
a placeholder naming the type, written here without the type name. -/
def Value.AsString : Value → String
  | .of (.string s) => s
  | _ => "<Value>"

/-- The elements `Value.Index(0)`, ..., `Value.Index(Len-1)` of a slice or array;
indexing any other kind panics. -/
def Value.Elems : Value → Except Panic (List GoValue)
  | .of (.slice (some es)) => .ok es
  | .of (.slice none) => .ok []
  | .of (.array es) => .ok es
  | _ => .error "reflect: call of reflect.Value.Index on a value that is no slice or array"

/-- The test `value.Type() == reflect.TypeOf(time.Time{})`; `Type` panics on the
zero Value. -/
def Value.isTime : Value → Except Panic Bool
  | .zero => .error "reflect: call of reflect.Value.Type on zero Value"
  | .of (.time _) => .ok true
  | .of _ => .ok false

/-- The conversion `value.Interface().(time.Time)`: panics when the value is no
`time.Time`. -/
def Value.asTime : Value → Except Panic Time
  | .of (.time t) => .ok t
  | _ => .error "interface conversion: interface is not time.Time"

/-- The call `value.Interface()` of an exported field: the Go value held; it panics
on the zero Value. -/
def Value.Interface : Value → Except Panic GoValue
  | .of g => .ok g
  | .zero => .error "reflect: call of reflect.Value.Interface on zero Value"

/-- The fields `(t.Field(i), v.Field(i))`, `i < v.NumField()`, of a struct value;
`NumField` panics on any other kind. The three fields of `time.Time` (`wall`, `ext`,
`loc`) are unexported; the code never inspects their values, which are left at zero
here. -/
def Value.Fields : Value → Except Panic (List (StructField × GoValue))
  | .of (.struct fs) => .ok fs
  | .of (.time _) =>
    .ok [({ Name := "wall", PkgPath := "time", Tag := [] }, GoValue.uint UintWidth.w64 0),
         ({ Name := "ext", PkgPath := "time", Tag := [] }, GoValue.int IntWidth.w64 0),
         ({ Name := "loc", PkgPath := "time", Tag := [] }, GoValue.ptr none)]
  | _ => .error "reflect: call of reflect.Value.NumField on a value that is no struct"

/-- The standard-library results the embedding does not compute: `%f` of a float,
`%v` of an element of a slice, `json.Marshal` (the JSON text or
the error's message), `Time.Format(time.RFC3339)`, the error (if any) with which
`http.NewRequestWithContext` rejects a method and URL, and the boundary a new
`multipart.Writer` draws. -/
structure Lib where
  sprintf_f : Float64 → String
  sprintf_v : GoValue → String
  jsonMarshal : GoValue → Except String String
  formatRFC3339 : Time → String
  newRequestError : String → String → Option String
  boundary : String

/-- The call `fmt.Sprintf("%v", value.Index(j))` on an element of a slice. The text is
the standard library's: `fmt` calls the `Format`, `Error` or `String` method of the
element's type when it has one (a `time.Duration` of one second prints as `1s`) and
prints a value of a type without such a method by its kind. A Go value of this model
carries no type, so the text is that of `Lib.sprintf_v`. -/
def sprintf_v (lib : Lib) (g : GoValue) : String :=
  lib.sprintf_v g

/-! ## net/url: `url.Values` and `QueryEscape` -/

/-- Bytes left alone by `QueryEscape`: letters, digits, `-`, `_`, `.` and `~`. -/
def isUnreserved (b : Nat) : Bool :=
  (decide (97 ≤ b) && decide (b ≤ 122)) || (decide (65 ≤ b) && decide (b ≤ 90)) ||
  (decide (48 ≤ b) && decide (b ≤ 57)) || b = 45 || b = 95 || b = 46 || b = 126

/-- Upper-case hexadecimal digit. -/
def upperHex (n : Nat) : Char :=
  if n < 10 then Char.ofNat (48 + n) else Char.ofNat (55 + n)

/-- Escaping of one byte in a query component: a space becomes `+`, an unreserved byte
is kept, every other byte becomes `%XX`. -/
def escapeByte (b : Nat) : List Char :=
  if b = 32 then ['+']
  else if isUnreserved b then [Char.ofNat b]
  else ['%', upperHex (b / 16), upperHex (b % 16)]

/-- The function `url.QueryEscape`. -/
def QueryEscape (s : String) : String :=
  String.mk ((utf8Bytes s).flatMap escapeByte)

/-- The type `url.Values` (`map[string][]string`): an association list without
duplicate keys. -/
abbrev Values := List (String × List String)

/-- The index expression `v[key]`: the values of the key, `nil` when absent. -/
def Values.lookup (v : Values) (key : String) : List String :=
  match v.find? (fun e => e.1 = key) with
  | some e => e.2
  | none => []

/-- The method `Values.Set`: the key now holds the single value. -/
def Values.Set (v : Values) (key value : String) : Values :=
  match v with
  | [] => [(key, [value])]
  | e :: rest => if e.1 = key then (key, [value]) :: rest else e :: Values.Set rest key value

/-- The method `Values.Add`: the value is appended to the values of the key. -/
def Values.Add (v : Values) (key value : String) : Values :=
  match v with
  | [] => [(key, [value])]
  | e :: rest =>
    if e.1 = key then (key, e.2 ++ [value]) :: rest else e :: Values.Add rest key value

/-- The call `sort.Strings(keys)`. -/
def sortStrings (keys : List String) : List String :=
  keys.insertionSort stringLE

/-- The parameters in the order in which `Values.Encode` writes them: keys in sorted
order, the values of a key in the order they were added. -/
def Values.params (v : Values) : List (String × String) :=
  (sortStrings (v.map Prod.fst)).flatMap (fun k => (v.lookup k).map (fun x => (k, x)))

/-- The loop body of `Values.Encode`: write one parameter to the buffer, after a `&`
when the buffer is not empty. -/
def writeParam (buf : String) (p : String × String) : String :=
  (if buf.length > 0 then buf ++ "&" else buf) ++ QueryEscape p.1 ++ "=" ++ QueryEscape p.2

/-- The method `Values.Encode`. -/
def Values.Encode (v : Values) : String :=
  v.params.foldl writeParam ""

/-! ## query.go -/

/-- The function `isEmptyValue`. -/
def isEmptyValue (v : Value) : Except Panic Bool :=
  if !v.IsValid then .ok true
  else
    match v.Kind with
    | Kind.Array | Kind.Map | Kind.Slice | Kind.String =>
      v.Len.map (fun n => decide (n = 0))
    | Kind.Bool => v.AsBool.map (fun b => !b)
    | Kind.Int | Kind.Int8 | Kind.Int16 | Kind.Int32 | Kind.Int64 =>
      v.AsInt.map (fun n => decide (n = 0))
    | Kind.Uint | Kind.Uint8 | Kind.Uint16 | Kind.Uint32 | Kind.Uint64 | Kind.Uintptr =>
      v.AsUint.map (fun n => decide (n = 0))
    | Kind.Float32 | Kind.Float64 => v.AsFloat.map (fun f => f.isZero)
    | Kind.Interface | Kind.Ptr => v.IsNil
    | _ => .ok false

/-- The condition `len(tagParts) > 1 && tagParts[1] == "omitempty" && isEmptyValue(value)`,
evaluated left to right. -/
def omitted (tagParts : List String) (value : Value) : Except Panic Bool :=
  if tagParts.length > 1 then
    (indexString tagParts 1).bind (fun part =>
      if part = "omitempty" then isEmptyValue value else .ok false)
  else .ok false

/-- The statement `if value.Kind() == reflect.Ptr && !value.IsNil() { value = value.Elem() }`. -/
def unwrapPtr (value : Value) : Except Panic Value :=
  if value.Kind = Kind.Ptr then
    value.IsNil.bind (fun isNil => if !isNil then value.Elem else .ok value)
  else .ok value

/-- The `switch value.Kind()` of `BuildQueryString`: render one field value into the
parameters. -/
def renderField (lib : Lib) (values : Values) (fieldName : String) (value : Value) :
    Except Panic Values :=
  match value.Kind with
  | Kind.String => .ok (values.Set fieldName value.AsString)
  | Kind.Int | Kind.Int8 | Kind.Int16 | Kind.Int32 | Kind.Int64 =>
    value.AsInt.map (fun n => values.Set fieldName (sprintf_d n))
  | Kind.Bool => value.AsBool.map (fun b => values.Set fieldName (sprintf_t b))
  | Kind.Float32 | Kind.Float64 =>
    value.AsFloat.map (fun f => values.Set fieldName (lib.sprintf_f f))
  | Kind.Slice =>
    value.Elems.map (fun es => es.foldl (fun vs e => vs.Add fieldName (sprintf_v lib e)) values)
  | _ =>
    value.isTime.bind (fun isTime =>
      if isTime then
        value.asTime.map (fun t => values.Set fieldName (lib.formatRFC3339 t))
      else if value.Kind = Kind.Struct ∨ value.Kind = Kind.Map then
        value.Interface.map (fun g =>
          match lib.jsonMarshal g with
          | .ok jsonBytes => values.Set fieldName jsonBytes
          | .error _ => values)
      else .ok values)

/-- The body of the loop over the fields of `BuildQueryString`. -/
def fieldStep (lib : Lib) (values : Values) (fv : StructField × GoValue) :
    Except Panic Values :=
  let field := fv.1
  let value := Value.of fv.2
  if field.PkgPath ≠ "" then .ok values
  else
    let urlTag := field.Tag.Get "url"
    if urlTag = "" ∨ urlTag = "-" then .ok values
    else
      let tagParts := stringsSplitComma urlTag
      (indexString tagParts 0).bind (fun fieldName =>
        (omitted tagParts value).bind (fun skip =>
          if skip then .ok values
          else (unwrapPtr value).bind (fun value => renderField lib values fieldName value)))

/-- The loop over the fields, from the first to the last. -/
def fieldLoop (lib : Lib) : Values → List (StructField × GoValue) → Except Panic Values
  | values, [] => .ok values
  | values, fv :: rest => (fieldStep lib values fv).bind (fun values => fieldLoop lib values rest)

/-- The function `BuildQueryString`. The argument is an `interface{}`: `none` is the nil
interface, `some g` an interface holding the Go value `g`. The result is the returned
string, or the panic the call ends in. -/
def BuildQueryString (lib : Lib) (params : Option GoValue) : Except Panic String :=
  match params with
  | none => .ok ""
  | some p =>
    let v := Value.of p
    (if v.Kind = Kind.Ptr then v.Elem else .ok v).bind (fun v =>
      if v.Kind ≠ Kind.Struct then .ok ""
      else v.Fields.bind (fun fields =>
        (fieldLoop lib [] fields).map (fun values => Values.Encode values)))

/-! ### What the loop body amounts to

The loop body of `BuildQueryString` is written above operation by operation, each
`reflect` call being allowed to panic. The definitions below say what it computes on a
field; `fieldStep_eq` proves that the loop body returns exactly this and never panics. -/

/-- The parameter name a field is encoded under: the first comma-separated part of its
`url` tag; `none` for a field the loop skips (unexported, or with no, an empty or a `-`
`url` tag). -/
def paramName (f : StructField) : Option String :=
  if f.PkgPath ≠ "" then none
  else if f.Tag.Get "url" = "" ∨ f.Tag.Get "url" = "-" then none
  else (stringsSplitComma (f.Tag.Get "url"))[0]?

/-- Whether the second comma-separated part of the `url` tag is `omitempty`. -/
def hasOmitEmpty (f : StructField) : Bool :=
  decide ((stringsSplitComma (f.Tag.Get "url"))[1]? = some "omitempty")

/-- The emptiness rule of `isEmptyValue` on a Go value. -/
def GoValue.isEmpty : GoValue → Bool
  | .array es => decide (es.length = 0)
  | .map m => decide ((m.getD []).length = 0)
  | .slice es => decide ((es.getD []).length = 0)
  | .string s => decide ((utf8Bytes s).length = 0)
  | .bool b => !b
  | .int _ n => decide (n = 0)
  | .uint _ n => decide (n = 0)
  | .float _ f => f.isZero
  | .iface v => v.isNone
  | .ptr t => t.isNone
  | _ => false

/-- The value the `switch` looks at: what a non-nil pointer points to, otherwise the
field value itself. -/
def GoValue.unwrapped : GoValue → GoValue
  | .ptr (some t) => t
  | g => g

/-- The parameters after the `switch` has rendered a Go value under a name. -/
def rendered (lib : Lib) (values : Values) (name : String) : GoValue → Values
  | .string s => values.Set name s
  | .int _ n => values.Set name (sprintf_d n)
  | .bool b => values.Set name (sprintf_t b)
  | .float _ f => values.Set name (lib.sprintf_f f)
  | .slice es => (es.getD []).foldl (fun vs e => vs.Add name (sprintf_v lib e)) values
  | .time t => values.Set name (lib.formatRFC3339 t)
  | .struct fs =>
    match lib.jsonMarshal (.struct fs) with
    | .ok jsonBytes => values.Set name jsonBytes
    | .error _ => values
  | .map m =>
    match lib.jsonMarshal (.map m) with
    | .ok jsonBytes => values.Set name jsonBytes
    | .error _ => values
  | _ => values

/-- The values a name holds after the `switch` has rendered a Go value under it, given
the values `prev` it held before: `Set` replaces them, `Add` appends to them. -/
def renderedValues (lib : Lib) (prev : List String) : GoValue → List String
  | .string s => [s]
  | .int _ n => [sprintf_d n]
  | .bool b => [sprintf_t b]
  | .float _ f => [lib.sprintf_f f]
  | .slice es => prev ++ (es.getD []).map (sprintf_v lib)
  | .time t => [lib.formatRFC3339 t]
  | .struct fs =>
    match lib.jsonMarshal (.struct fs) with
    | .ok jsonBytes => [jsonBytes]
    | .error _ => prev
  | .map m =>
    match lib.jsonMarshal (.map m) with
    | .ok jsonBytes => [jsonBytes]
    | .error _ => prev
  | _ => prev

/-- The parameters after the loop body has run on one field. -/
def fieldStepResult (lib : Lib) (values : Values) (fv : StructField × GoValue) : Values :=
  match paramName fv.1 with
  | none => values
  | some name =>
    if hasOmitEmpty fv.1 && fv.2.isEmpty then values
    else rendered lib values name fv.2.unwrapped

/-- The values of the parameters called `name`, in the order `Values.Encode` writes
them. -/
def Values.paramsNamed (v : Values) (name : String) : List String :=
  (v.params.filter (fun p => decide (p.1 = name))).map Prod.snd

/-! ## client.go -/

/-- An HTTP request as the client builds it: method, URL, the headers in the order
they were set, and the body bytes (`none`: no body). -/
structure Request where
  Method : String
  URL : String
  Header : List (String × String)
  Body : Option (List Nat)
deriving DecidableEq, Repr

/-- The part of an HTTP response the client reads: the status code and the whole body,
as `io.ReadAll` returns it. -/
structure Response where
  StatusCode : Int
  Body : String
deriving DecidableEq, Repr

/-- The type `*http.Client`: its timeout (in nanoseconds) and what `Do` answers to a
request, a response or the message of a transport error. -/
structure HTTPClient where
  Timeout : Int
  Do : Request → Except String Response

/-- The type `Client`. -/
structure Client where
  httpClient : HTTPClient
  baseURL : String
  apiKey : String

/-- The method `Client.BaseURL`. -/
def Client.BaseURL (c : Client) : String := c.baseURL

/-- The method `Client.APIKey`. -/
def Client.APIKey (c : Client) : String := c.apiKey

/-- The method `Client.HTTPClient`. -/
def Client.HTTPClient (c : Client) : HTTPClient := c.httpClient

/-- A destination `result interface{}`: a pointer to a variable, given by the way
`json.NewDecoder(body).Decode` fills a variable of its type from a body (the decoded
value or the error's message). -/
abbrev Dest := String → Except String GoValue

/-- What a call of the pipeline did: the `error` it returned, the value stored through
the destination pointer (if a body was decoded) and the requests handed to the
transport, in order. -/
structure Outcome where
  err : Option Error
  stored : Option GoValue
  sent : List Request

/-- An outcome that is a failure built by `fmt.Errorf(prefix + "%w", cause)`. -/
def Outcome.fail (msg : String) (sent : List Request) : Outcome :=
  { err := some (Error.plain msg), stored := none, sent := sent }

/-- The part of `Client.do` and `Client.PostMultipart` after the request is built:
send it, turn a status of 400 or more into the decoded API error, otherwise decode the
body into the destination when there is one. -/
def Client.send (c : Client) (req : Request) (result : Option Dest) : Outcome :=
  match c.httpClient.Do req with
  | .error err => Outcome.fail ("request failed: " ++ err) [req]
  | .ok resp =>
    if resp.StatusCode ≥ 400 then
      { err := parseAPIError resp.StatusCode resp.Body, stored := none, sent := [req] }
    else
      match result with
      | some decode =>
        match decode resp.Body with
        | .error err => Outcome.fail ("failed to decode response: " ++ err) [req]
        | .ok v => { err := none, stored := some v, sent := [req] }
      | none => { err := none, stored := none, sent := [req] }

/-- The method `Client.do`, the core execute operation. -/
def Client.do (lib : Lib) (c : Client) (method path : String) (body : Option GoValue)
    (result : Option Dest) : Outcome :=
  let reqBody : Except String (Option (List Nat)) :=
    match body with
    | some b =>
      match lib.jsonMarshal b with
      | .error err => .error err
      | .ok jsonBody => .ok (some (utf8Bytes jsonBody))
    | none => .ok none
  match reqBody with
  | .error err => Outcome.fail ("failed to marshal request body: " ++ err) []
  | .ok reqBody =>
    match lib.newRequestError method (c.baseURL ++ path) with
    | some err => Outcome.fail ("failed to create request: " ++ err) []
    | none =>
      let req : Request :=
        { Method := method, URL := c.baseURL ++ path,
          Header := [("Authorization", "Bearer " ++ c.apiKey),
                     ("Content-Type", "application/json"),
                     ("Accept", "application/json")],
          Body := reqBody }
      c.send req result

/-- The method `Client.Get`. -/
def Client.Get (lib : Lib) (c : Client) (path : String) (result : Option Dest) : Outcome :=
  c.do lib "GET" path none result

/-- The method `Client.GetWithQuery`. A panic of `BuildQueryString` would end the call:
it is shown as the error `panic: ...`, nothing being sent. -/
def Client.GetWithQuery (lib : Lib) (c : Client) (path : String) (query : Option GoValue)
    (result : Option Dest) : Outcome :=
  match query with
  | some q =>
    match BuildQueryString lib (some q) with
    | .error p => Outcome.fail ("panic: " ++ p) []
    | .ok queryString =>
      if queryString ≠ "" then c.do lib "GET" (path ++ "?" ++ queryString) none result
      else c.do lib "GET" path none result
  | none => c.do lib "GET" path none result

/-- The method `Client.Post`. -/
def Client.Post (lib : Lib) (c : Client) (path : String) (body : Option GoValue)
    (result : Option Dest) : Outcome :=
  c.do lib "POST" path body result

/-- The method `Client.Put`. -/
def Client.Put (lib : Lib) (c : Client) (path : String) (body : Option GoValue)
    (result : Option Dest) : Outcome :=
  c.do lib "PUT" path body result

/-- The method `Client.Patch`. -/
def Client.Patch (lib : Lib) (c : Client) (path : String) (body : Option GoValue)
    (result : Option Dest) : Outcome :=
  c.do lib "PATCH" path body result

/-- The method `Client.Delete`. -/
def Client.Delete (lib : Lib) (c : Client) (path : String) (result : Option Dest) : Outcome :=
  c.do lib "DELETE" path none result

/-! ## multipart.go -/

/-- The type `MultipartField`. -/
structure MultipartField where
  Name : String
  Value : String
  IsFile : Bool
  FileName : String
  Data : List Nat
deriving DecidableEq, Repr

/-- Model of `escapeQuotes` of `mime/multipart` (the replacer `quoteEscaper`): a
backslash and a double quote get a backslash in front, a carriage return is written as
`%0D` and a line feed as `%0A`. -/
def escapeQuotes (s : String) : String :=
  String.mk (s.data.flatMap (fun c =>
    if c = '\\' ∨ c = '"' then ['\\', c]
    else if c = '\r' then ['%', '0', 'D']
    else if c = '\n' then ['%', '0', 'A']
    else [c]))

/-- A `multipart.Writer` over a `bytes.Buffer`: the boundary, the bytes written so far
and whether a part has been started. -/
structure MultipartWriter where
  boundary : String
  buf : List Nat
  started : Bool
deriving DecidableEq, Repr

/-- The call `multipart.NewWriter(&buf)`. -/
def MultipartWriter.new (lib : Lib) : MultipartWriter :=
  { boundary := lib.boundary, buf := [], started := false }

/-- The method `Writer.CreatePart` for the given header lines (already sorted by key):
the boundary line, the headers, an empty line. Writing to a `bytes.Buffer` never fails. -/
def MultipartWriter.CreatePart (w : MultipartWriter) (header : List (String × String)) :
    Except String MultipartWriter :=
  let opening : String :=
    if w.started then "\r\n--" ++ w.boundary ++ "\r\n" else "--" ++ w.boundary ++ "\r\n"
  let lines : String := header.foldl (fun acc h => acc ++ h.1 ++ ": " ++ h.2 ++ "\r\n") ""
  .ok { w with buf := w.buf ++ utf8Bytes (opening ++ lines ++ "\r\n"), started := true }

/-- The method `Writer.CreateFormFile`. -/
def MultipartWriter.CreateFormFile (w : MultipartWriter) (fieldname filename : String) :
    Except String MultipartWriter :=
  w.CreatePart
    [("Content-Disposition",
      "form-data; name=\"" ++ escapeQuotes fieldname ++ "\"; filename=\"" ++
        escapeQuotes filename ++ "\""),
     ("Content-Type", "application/octet-stream")]

/-- The method `Write` of the current part. -/
def MultipartWriter.Write (w : MultipartWriter) (data : List Nat) : Except String MultipartWriter :=
  .ok { w with buf := w.buf ++ data }

/-- The method `Writer.WriteField`. -/
def MultipartWriter.WriteField (w : MultipartWriter) (fieldname value : String) :
    Except String MultipartWriter :=
  (w.CreatePart
    [("Content-Disposition", "form-data; name=\"" ++ escapeQuotes fieldname ++ "\"")]).bind
    (fun w1 => w1.Write (utf8Bytes value))

/-- The method `Writer.Close`: the closing boundary line. -/
def MultipartWriter.Close (w : MultipartWriter) : Except String MultipartWriter :=
  .ok { w with buf := w.buf ++ utf8Bytes ("\r\n--" ++ w.boundary ++ "--\r\n") }

/-- The method `Writer.FormDataContentType`. -/
def MultipartWriter.FormDataContentType (w : MultipartWriter) : String :=
  "multipart/form-data; boundary=" ++ w.boundary

/-- The loop of `PostMultipart` over the fields: the writer after the fields, or the
error the call returns. -/
def writeFields : MultipartWriter → List MultipartField → Except String MultipartWriter
  | w, [] => .ok w
  | w, field :: rest =>
    if field.IsFile then
      match w.CreateFormFile field.Name field.FileName with
      | .error err => .error ("failed to create form file: " ++ err)
      | .ok part =>
        match part.Write field.Data with
        | .error err => .error ("failed to write file data: " ++ err)
        | .ok w1 => writeFields w1 rest
    else
      match w.WriteField field.Name field.Value with
      | .error err => .error ("failed to write field: " ++ err)
      | .ok w1 => writeFields w1 rest

/-- The method `Client.PostMultipart`. -/
def Client.PostMultipart (lib : Lib) (c : Client) (path : String)
    (fields : List MultipartField) (result : Option Dest) : Outcome :=
  match writeFields (MultipartWriter.new lib) fields with
  | .error err => Outcome.fail err []
  | .ok w =>
    match w.Close with
    | .error err => Outcome.fail ("failed to close multipart writer: " ++ err) []
    | .ok writer =>
      match lib.newRequestError "POST" (c.baseURL ++ path) with
      | some err => Outcome.fail ("failed to create request: " ++ err) []
      | none =>
        let req : Request :=
          { Method := "POST", URL := c.baseURL ++ path,
            Header := [("Authorization", "Bearer " ++ c.apiKey),
                       ("Content-Type", writer.FormDataContentType)],
            Body := some writer.buf }
        c.send req result

/-! ## The resource services (pkg/logs, pkg/prompts, pkg/models, pkg/keys, pkg/integrations)

A service holds the client; its methods take the client directly. Payloads are Go
values; an identifier is spliced into the path by `fmt.Sprintf("...%s", id)`. -/

/-- The destinations the services decode into, one per result type of `pkg/types`. -/
structure Dests where
  logsResponse : Dest
  requestLog : Dest
  threads : Dest
  prompt : Dest
  prompts : Dest
  promptVersion : Dest
  promptVersions : Dest
  models : Dest
  temporaryKey : Dest
  temporaryKeys : Dest
  sttResponse : Dest
  embeddingResponse : Dest

/-- The type `types.STTRequest` (behind a non-nil pointer). -/
structure STTRequest where
  Model : String
  ResponseFormat : Option String
  Language : Option String
  Temperature : Option Float64
  Prompt : Option String

/-- The method `logs.Service.Create`. -/
def logs.Create (lib : Lib) (c : Client) (log : GoValue) : Outcome :=
  c.Post lib "/api/request-logs/create/" (some log) none

/-- The method `logs.Service.BatchCreate`. The payload is the struct
`types.BatchRequestLogsPayload{Logs: logs}`. -/
def logs.BatchCreate (lib : Lib) (c : Client) (logs : Option (List GoValue)) : Outcome :=
  if (logs.getD []).length > 5000 then
    Outcome.fail "batch size exceeds maximum of 5000 logs" []
  else
    let payload : GoValue :=
      GoValue.struct [({ Name := "Logs", PkgPath := "", Tag := [("json", "logs")] }, GoValue.slice logs)]
    c.Post lib "/api/request-logs/batch/create" (some payload) none

/-- The method `logs.Service.List`. The filter is a `*types.LogFilter`. -/
def logs.List (lib : Lib) (d : Dests) (c : Client) (filter : GoValue) : Outcome :=
  c.GetWithQuery lib "/api/request-logs" (some filter) (some d.logsResponse)

/-- The method `logs.Service.Get`. -/
def logs.Get (lib : Lib) (d : Dests) (c : Client) (logID : String) : Outcome :=
  c.Get lib ("/api/request-logs/" ++ logID) (some d.requestLog)

/-- The method `logs.Service.Update`. -/
def logs.Update (lib : Lib) (c : Client) (logID : String) (updates : GoValue) : Outcome :=
  c.Patch lib ("/api/request-logs/" ++ logID) (some updates) none

/-- The method `logs.Service.ListThreads`. -/
def logs.ListThreads (lib : Lib) (d : Dests) (c : Client) (customerIdentifier : String) :
    Outcome :=
  if customerIdentifier ≠ "" then
    let payload : GoValue :=
      GoValue.map (some [(GoValue.string "customer_identifier", GoValue.string customerIdentifier)])
    c.Post lib "/api/threads" (some payload) (some d.threads)
  else c.Get lib "/api/threads" (some d.threads)

/-- The method `prompts.Service.Create`. -/
def prompts.Create (lib : Lib) (d : Dests) (c : Client) (name : String)
    (description : Option String) : Outcome :=
  let payload : List (GoValue × GoValue) := [(GoValue.string "name", GoValue.string name)]
  let payload : List (GoValue × GoValue) :=
    match description with
    | some text => payload ++ [(GoValue.string "description", GoValue.string text)]
    | none => payload
  c.Post lib "/api/prompts/" (some (GoValue.map (some payload))) (some d.prompt)

/-- The method `prompts.Service.List`. -/
def prompts.List (lib : Lib) (d : Dests) (c : Client) : Outcome :=
  c.Get lib "/api/prompts/" (some d.prompts)

/-- The method `prompts.Service.Get`. -/
def prompts.Get (lib : Lib) (d : Dests) (c : Client) (promptID : String) : Outcome :=
  c.Get lib ("/api/prompts/" ++ promptID) (some d.prompt)

/-- The method `prompts.Service.Update`. -/
def prompts.Update (lib : Lib) (d : Dests) (c : Client) (promptID : String) (updates : GoValue) :
    Outcome :=
  c.Patch lib ("/api/prompts/" ++ promptID) (some updates) (some d.prompt)

/-- The method `prompts.Service.Delete`. -/
def prompts.Delete (lib : Lib) (c : Client) (promptID : String) : Outcome :=
  c.Delete lib ("/api/prompts/" ++ promptID) none

/-- The method `prompts.Service.CreateVersion`. -/
def prompts.CreateVersion (lib : Lib) (d : Dests) (c : Client) (promptID : String)
    (version : GoValue) : Outcome :=
  c.Post lib ("/api/prompts/" ++ promptID ++ "/versions") (some version) (some d.promptVersion)

/-- The method `prompts.Service.ListVersions`. -/
def prompts.ListVersions (lib : Lib) (d : Dests) (c : Client) (promptID : String) : Outcome :=
  c.Get lib ("/api/prompts/" ++ promptID ++ "/versions") (some d.promptVersions)

/-- The method `prompts.Service.GetVersion`. -/
def prompts.GetVersion (lib : Lib) (d : Dests) (c : Client) (promptID versionID : String) :
    Outcome :=
  c.Get lib ("/api/prompts/" ++ promptID ++ "/versions/" ++ versionID) (some d.promptVersion)

/-- The method `prompts.Service.UpdateVersion`. -/
def prompts.UpdateVersion (lib : Lib) (d : Dests) (c : Client) (promptID versionID : String)
    (updates : GoValue) : Outcome :=
  c.Patch lib ("/api/prompts/" ++ promptID ++ "/versions/" ++ versionID) (some updates)
    (some d.promptVersion)

/-- The method `prompts.Service.DeleteVersion`. -/
def prompts.DeleteVersion (lib : Lib) (c : Client) (promptID versionID : String) : Outcome :=
  c.Delete lib ("/api/prompts/" ++ promptID ++ "/versions/" ++ versionID) none

/-- The method `models.Service.List`. -/
def models.List (lib : Lib) (d : Dests) (c : Client) : Outcome :=
  c.Get lib "/api/models" (some d.models)

/-- The method `keys.Service.Create`. -/
def keys.Create (lib : Lib) (d : Dests) (c : Client) (req : GoValue) : Outcome :=
  c.Post lib "/api/temporary-keys" (some req) (some d.temporaryKey)

/-- The method `keys.Service.List`. -/
def keys.List (lib : Lib) (d : Dests) (c : Client) : Outcome :=
  c.Get lib "/api/temporary-keys" (some d.temporaryKeys)

/-- The method `keys.Service.Get`. -/
def keys.Get (lib : Lib) (d : Dests) (c : Client) (keyID : String) : Outcome :=
  c.Get lib ("/api/temporary-keys/" ++ keyID) (some d.temporaryKey)

/-- The method `keys.Service.Update`. -/
def keys.Update (lib : Lib) (d : Dests) (c : Client) (keyID : String) (updates : GoValue) :
    Outcome :=
  c.Patch lib ("/api/temporary-keys/" ++ keyID) (some updates) (some d.temporaryKey)

/-- The method `keys.Service.Delete`. -/
def keys.Delete (lib : Lib) (c : Client) (keyID : String) : Outcome :=
  c.Delete lib ("/api/temporary-keys/" ++ keyID) none

/-- The method `integrations.Service.TextToSpeech`. It builds and sends its request
itself; the audio it returns is the response body. An error of `json.Marshal` is
dropped (the body is then empty); other errors are returned as they are. -/
def integrations.TextToSpeech (lib : Lib) (c : Client) (req : GoValue) : Outcome :=
  let body : List Nat :=
    match lib.jsonMarshal req with
    | .ok text => utf8Bytes text
    | .error _ => []
  match lib.newRequestError "POST" (c.BaseURL ++ "/api/audio/speech") with
  | some err => Outcome.fail err []
  | none =>
    let httpReq : Request :=
      { Method := "POST", URL := c.BaseURL ++ "/api/audio/speech",
        Header := [("Authorization", "Bearer " ++ c.APIKey),
                   ("Content-Type", "application/json")],
        Body := some body }
    match c.HTTPClient.Do httpReq with
    | .error err => Outcome.fail err [httpReq]
    | .ok resp =>
      if resp.StatusCode ≥ 400 then
        Outcome.fail
          ("API error: status=" ++ sprintf_d resp.StatusCode ++ ", body=" ++ resp.Body) [httpReq]
      else { err := none, stored := some (GoValue.string resp.Body), sent := [httpReq] }

/-- The method `integrations.Service.SpeechToText`. -/
def integrations.SpeechToText (lib : Lib) (d : Dests) (c : Client) (audioData : List Nat)
    (req : STTRequest) : Outcome :=
  let fields : List MultipartField :=
    [{ Name := "model", Value := req.Model, IsFile := false, FileName := "", Data := [] },
     { Name := "file", Value := "", IsFile := true, FileName := "audio.wav", Data := audioData }]
  let fields : List MultipartField :=
    match req.ResponseFormat with
    | some x =>
      fields ++ [{ Name := "response_format", Value := x, IsFile := false, FileName := "", Data := [] }]
    | none => fields
  let fields : List MultipartField :=
    match req.Language with
    | some x =>
      fields ++ [{ Name := "language", Value := x, IsFile := false, FileName := "", Data := [] }]
    | none => fields
  let fields : List MultipartField :=
    match req.Temperature with
    | some x =>
      fields ++ [{ Name := "temperature", Value := lib.sprintf_f x, IsFile := false,
                   FileName := "", Data := [] }]
    | none => fields
  let fields : List MultipartField :=
    match req.Prompt with
    | some x =>
      fields ++ [{ Name := "prompt", Value := x, IsFile := false, FileName := "", Data := [] }]
    | none => fields
  c.PostMultipart lib "/api/audio/transcriptions" fields (some d.sttResponse)

/-- The method `integrations.Service.CreateEmbeddings`. -/
def integrations.CreateEmbeddings (lib : Lib) (d : Dests) (c : Client) (req : GoValue) : Outcome :=
  c.Post lib "/api/embeddings" (some req) (some d.embeddingResponse)

/-- The operations of the resource services, with their arguments. -/
inductive Operation where
  | logsCreate (log : GoValue)
  | logsBatchCreate (logs : Option (List GoValue))
  | logsList (filter : GoValue)
  | logsGet (logID : String)
  | logsUpdate (logID : String) (updates : GoValue)
  | logsListThreads (customerIdentifier : String)
  | promptsCreate (name : String) (description : Option String)
  | promptsList
  | promptsGet (promptID : String)
  | promptsUpdate (promptID : String) (updates : GoValue)
  | promptsDelete (promptID : String)
  | promptsCreateVersion (promptID : String) (version : GoValue)
  | promptsListVersions (promptID : String)
  | promptsGetVersion (promptID versionID : String)
  | promptsUpdateVersion (promptID versionID : String) (updates : GoValue)
  | promptsDeleteVersion (promptID versionID : String)
  | modelsList
  | keysCreate (req : GoValue)
  | keysList
  | keysGet (keyID : String)
  | keysUpdate (keyID : String) (updates : GoValue)
  | keysDelete (keyID : String)
  | textToSpeech (req : GoValue)
  | speechToText (audioData : List Nat) (req : STTRequest)
  | createEmbeddings (req : GoValue)

/-- Run an operation of a resource service on a client. -/
def Operation.run (lib : Lib) (d : Dests) (c : Client) : Operation → Outcome
  | .logsCreate log => logs.Create lib c log
  | .logsBatchCreate ls => logs.BatchCreate lib c ls
  | .logsList filter => logs.List lib d c filter
  | .logsGet logID => logs.Get lib d c logID
  | .logsUpdate logID updates => logs.Update lib c logID updates
  | .logsListThreads customerIdentifier => logs.ListThreads lib d c customerIdentifier
  | .promptsCreate name description => prompts.Create lib d c name description
  | .promptsList => prompts.List lib d c
  | .promptsGet promptID => prompts.Get lib d c promptID
  | .promptsUpdate promptID updates => prompts.Update lib d c promptID updates
  | .promptsDelete promptID => prompts.Delete lib c promptID
  | .promptsCreateVersion promptID version => prompts.CreateVersion lib d c promptID version
  | .promptsListVersions promptID => prompts.ListVersions lib d c promptID
  | .promptsGetVersion promptID versionID => prompts.GetVersion lib d c promptID versionID
  | .promptsUpdateVersion promptID versionID updates =>
    prompts.UpdateVersion lib d c promptID versionID updates
  | .promptsDeleteVersion promptID versionID => prompts.DeleteVersion lib c promptID versionID
  | .modelsList => models.List lib d c
  | .keysCreate req => keys.Create lib d c req
  | .keysList => keys.List lib d c
  | .keysGet keyID => keys.Get lib d c keyID
  | .keysUpdate keyID updates => keys.Update lib d c keyID updates
  | .keysDelete keyID => keys.Delete lib c keyID
  | .textToSpeech req => integrations.TextToSpeech lib c req
  | .speechToText audioData req => integrations.SpeechToText lib d c audioData req
  | .createEmbeddings req => integrations.CreateEmbeddings lib d c req

/-! ## client.go: construction -/

/-- The constant `defaultBaseURL`. -/
def defaultBaseURL : String := "https://api.keywordsai.co"

/-- The constant `defaultTimeout`, 30 seconds, in nanoseconds. -/
def defaultTimeout : Int := 30 * 1000000000

/-- The type `Option` of client.go (`Option` names a Lean type): a function on the
client, here one of the three the package builds. The transport handed to
`WithHTTPClient` is a `*http.Client` that is not nil. -/
inductive ClientOption where
  | WithHTTPClient (httpClient : HTTPClient)
  | WithBaseURL (baseURL : String)
  | WithTimeout (timeout : Int)

/-- What calling an option does to the client: `WithHTTPClient` replaces the transport,
`WithBaseURL` the base URL, `WithTimeout` sets the timeout of the transport the client
holds at that moment. -/
def ClientOption.apply (opt : ClientOption) (c : Client) : Client :=
  match opt with
  | .WithHTTPClient httpClient => { c with httpClient := httpClient }
  | .WithBaseURL baseURL => { c with baseURL := baseURL }
  | .WithTimeout timeout => { c with httpClient := { c.httpClient with Timeout := timeout } }

/-- A parameter of `New(params ...interface{})`: a string, an option (an `Option` or a
`func(*Client)`), or a value of any other type, which the type switch ignores. -/
inductive Param where
  | string (s : String)
  | option (opt : ClientOption)
  | other

/-- The process `New` runs in: `os.Getenv` (the empty string for an unset variable) and
what the transport of a fresh `http.Client` answers. -/
structure Process where
  Getenv : String → String
  defaultDo : Request → Except String Response

/-- The first loop of `New`: the type switch over the parameters, carrying `apiKey` and
`opts`. -/
def parseParams : List Param → String × List ClientOption → String × List ClientOption
  | [], st => st
  | Param.string v :: rest, (apiKey, opts) =>
    parseParams rest (if apiKey = "" then (v, opts) else (apiKey, opts))
  | Param.option v :: rest, (apiKey, opts) => parseParams rest (apiKey, opts ++ [v])
  | Param.other :: rest, st => parseParams rest st

/-- The function `New`. -/
def New (os : Process) (params : List Param) : Client :=
  let parsed := parseParams params ("", [])
  let c : Client :=
    { httpClient := { Timeout := defaultTimeout, Do := os.defaultDo }
      baseURL := defaultBaseURL
      apiKey := parsed.1 }
  let c : Client := if c.apiKey = "" then { c with apiKey := os.Getenv "KEYWORDSAI_API_KEY" } else c
  let baseURL := os.Getenv "KEYWORDS_BASE_URL"
  let c : Client :=
    if baseURL ≠ "" ∧ c.baseURL = defaultBaseURL then { c with baseURL := baseURL } else c
  parsed.2.foldl (fun c opt => opt.apply c) c

/-! ### What `New` settles on

The rules below say in words of lists what the loops of `New` compute: which string
becomes the credential and which option sets the base URL last. -/

/-- The string parameters, in order. -/
def stringParams (params : List Param) : List String :=
  params.filterMap (fun p => match p with
    | Param.string s => some s
    | _ => none)

/-- The options among the parameters, in order. -/
def optionParams (params : List Param) : List ClientOption :=
  params.filterMap (fun p => match p with
    | Param.option opt => some opt
    | _ => none)

/-- The argument of the last `WithBaseURL` option among the parameters, if there is
one. -/
def lastBaseURL (params : List Param) : Option String :=
  ((optionParams params).filterMap (fun opt => match opt with
    | ClientOption.WithBaseURL baseURL => some baseURL
    | _ => none)).getLast?

/-! ## time: `Time.Format(time.RFC3339)` and `time.Parse(time.RFC3339, s)`

The calendar of package `time` (the proleptic Gregorian calendar), counted from January
1 of year 1 instead of the package's absolute zero year, which lies a whole number of
400-year cycles before it. -/

/-- The function `isLeap`. -/
def isLeap (year : Int) : Bool :=
  decide (year % 4 = 0) && (decide (year % 100 ≠ 0) || decide (year % 400 = 0))

/-- The table `daysBefore`: `daysBefore m` is the number of days of a non-leap year
before the first day of month `m + 1`. -/
def daysBefore : Nat → Int
  | 0 => 0
  | 1 => 31
  | 2 => 59
  | 3 => 90
  | 4 => 120
  | 5 => 151
  | 6 => 181
  | 7 => 212
  | 8 => 243
  | 9 => 273
  | 10 => 304
  | 11 => 334
  | _ => 365

/-- The function `daysIn`: the number of days of a month (1 to 12) of a year. -/
def daysIn (month : Nat) (year : Int) : Int :=
  if month = 2 ∧ isLeap year = true then 29 else daysBefore month - daysBefore (month - 1)

/-- The function `daysSinceEpoch`: the number of days from January 1 of year 1 to
January 1 of `year`, by cycles of 400, 100, 4 and 1 years. -/
def daysSinceEpoch (year : Int) : Int :=
  let y := year - 1
  let n400 := y / 400
  let y := y - 400 * n400
  let n100 := y / 100
  let y := y - 100 * n100
  let n4 := y / 4
  let y := y - 4 * n4
  146097 * n400 + 36524 * n100 + 1461 * n4 + 365 * y

/-- The first half of `absDate`: the year of day number `d` (day 0 is January 1 of year
1) and the day within that year, from 0. -/
def yearDay (d : Int) : Int × Int :=
  let n400 := d / 146097
  let d := d - 146097 * n400
  let n100 := d / 36524
  let n100 := n100 - n100 / 4
  let d := d - 36524 * n100
  let n4 := d / 1461
  let d := d - 1461 * n4
  let n1 := d / 365
  let n1 := n1 - n1 / 4
  (400 * n400 + 100 * n100 + 4 * n4 + n1 + 1, d - 365 * n1)

/-- The second half of `absDate`: month (1 to 12) and day of the month of the day
`yday` (from 0) of a leap or non-leap year. -/
def monthDay (leap : Bool) (yday : Int) : Nat × Int :=
  if leap = true ∧ yday = 31 + 29 - 1 then (2, 29)
  else
    let day := if leap = true ∧ yday > 31 + 29 - 1 then yday - 1 else yday
    let month := (day / 31).toNat
    let last := daysBefore (month + 1)
    if day ≥ last then (month + 2, day - last + 1)
    else (month + 1, day - daysBefore month + 1)

/-- The seconds from January 1 of year 1, 00:00:00, to the time as its zone shows it
(the method `Time.abs`, up to the shift of the epoch). -/
def Time.abs (t : Time) : Int :=
  t.unixSec + t.offset + 62135596800

/-- The method `Time.Date`: year, month and day as the zone of `t` shows them. -/
def Time.Date (t : Time) : Int × Nat × Int :=
  let yd := yearDay (t.abs / 86400)
  let md := monthDay (isLeap yd.1) yd.2
  (yd.1, md.1, md.2)

/-- The method `Time.Year`. -/
def Time.Year (t : Time) : Int :=
  t.Date.1

/-- The method `Time.Clock`: hour, minute and second of the day. -/
def Time.Clock (t : Time) : Int × Int × Int :=
  let sec := t.abs % 86400
  let hour := sec / 3600
  let sec := sec - hour * 3600
  let min := sec / 60
  (hour, min, sec - min * 60)

/-- The digit `'0' + u`. -/
def utod (u : Nat) : Char :=
  Char.ofNat (48 + u)

/-- The function `appendInt` of package `time`: the decimal form of `x`, after a `-`
when negative, padded with zeros to `width` digits. -/
def appendInt (x : Int) (width : Nat) : List Char :=
  let sign : List Char := if x < 0 then ['-'] else []
  let u := x.natAbs
  if width = 2 ∧ u < 100 then sign ++ [utod (u / 10), utod (u % 10)]
  else if width = 4 ∧ u < 10000 then
    sign ++ [utod (u / 1000), utod (u / 100 % 10), utod (u / 10 % 10), utod (u % 10)]
  else sign ++ List.replicate (width - (Nat.repr u).length) '0' ++ (Nat.repr u).data

/-- The zone of RFC 3339: `Z` for the offset 0, otherwise the sign and the offset in
hours and minutes, the seconds of the offset being cut off. -/
def formatZone (offset : Int) : List Char :=
  if offset = 0 then ['Z']
  else
    let zone : Int := if offset < 0 then -((-offset) / 60) else offset / 60
    let sign : Char := if zone < 0 then '-' else '+'
    let zone : Int := if zone < 0 then -zone else zone
    sign :: (appendInt (zone / 60) 2 ++ [':'] ++ appendInt (zone % 60) 2)

/-- The call `t.Format(time.RFC3339)`, layout `2006-01-02T15:04:05Z07:00`: date and
time of day as the zone of `t` shows them, then the zone. The nanoseconds are not
written. -/
def formatRFC3339 (t : Time) : String :=
  String.mk
    (appendInt t.Date.1 4 ++ ['-'] ++ appendInt t.Date.2.1 2 ++ ['-'] ++
      appendInt t.Date.2.2 2 ++ ['T'] ++ appendInt t.Clock.1 2 ++ [':'] ++
      appendInt t.Clock.2.1 2 ++ [':'] ++ appendInt t.Clock.2.2 2 ++ formatZone t.offset)

/-- The value of a decimal digit. -/
def digitVal (c : Char) : Option Nat :=
  if 48 ≤ c.toNat ∧ c.toNat ≤ 57 then some (c.toNat - 48) else none

/-- The helper `parseUint` of `parseRFC3339`: the number the digits spell, when every
character is a digit and the number lies between `min` and `max`. -/
def parseUint (cs : List Char) (min max : Nat) : Option Nat :=
  (cs.foldlM (fun x c => (digitVal c).map (fun d => x * 10 + d)) 0).bind
    (fun x => if x < min ∨ max < x then none else some x)

/-- The fractional second of `parseRFC3339`: after a `.` followed by a digit, the
digits are read as a fraction of a second, cut to nanoseconds; what is left of the
text follows. -/
def parseFraction (cs : List Char) : Nat × List Char :=
  match cs with
  | '.' :: c :: rest =>
    if isDigit c then
      let ds := ((c :: rest).takeWhile isDigit).take 9
      (ds.foldl (fun x d => x * 10 + (d.toNat - 48)) 0 * 10 ^ (9 - ds.length),
       (c :: rest).dropWhile isDigit)
    else (0, cs)
  | _ => (0, cs)

/-- The zone at the end of the text, for `parseRFC3339`: `Z` is the offset 0, otherwise
a sign, two digits of hours (up to 23), a colon and two digits of minutes give the
offset in seconds. -/
def parseZone (cs : List Char) : Option Int :=
  match cs with
  | ['Z'] => some 0
  | [sign, z1, z2, c3, z4, z5] =>
    (parseUint [z1, z2] 0 23).bind (fun hr =>
    (parseUint [z4, z5] 0 59).bind (fun mm =>
      if ¬ ((sign = '-' ∨ sign = '+') ∧ c3 = ':') then none
      else if sign = '-' then some (-(((hr : Int) * 60 + mm) * 60))
      else some (((hr : Int) * 60 + mm) * 60)))
  | _ => none

/-- The function `parseRFC3339` of package `time`, whose result
`time.Parse(time.RFC3339, s)` returns when it accepts `s`: the instant and the zone
offset the text spells, `none` when it does not accept. The fields being in range,
`Date` has nothing to normalise. Every position it looks at must hold an ASCII
character, so characters stand for the bytes. -/
def parseRFC3339 (s : String) : Option Time :=
  match s.data with
  | y1 :: y2 :: y3 :: y4 :: c4 :: m1 :: m2 :: c7 :: d1 :: d2 :: c10 :: h1 :: h2 :: c13 ::
      n1 :: n2 :: c16 :: s1 :: s2 :: rest =>
    (parseUint [y1, y2, y3, y4] 0 9999).bind (fun year =>
    (parseUint [m1, m2] 1 12).bind (fun month =>
    (parseUint [d1, d2] 1 (daysIn month year).toNat).bind (fun day =>
    (parseUint [h1, h2] 0 23).bind (fun hour =>
    (parseUint [n1, n2] 0 59).bind (fun min =>
    (parseUint [s1, s2] 0 59).bind (fun sec =>
      if ¬ (c4 = '-' ∧ c7 = '-' ∧ c10 = 'T' ∧ c13 = ':' ∧ c16 = ':') then none
      else
        let frac := parseFraction rest
        let days : Int :=
          daysSinceEpoch year + daysBefore (month - 1) +
            (if isLeap year = true ∧ month ≥ 3 then 1 else 0) + ((day : Int) - 1)
        let unix : Int := days * 86400 + hour * 3600 + min * 60 + sec - 62135596800
        (parseZone frac.2).map (fun zoneOffset =>
          { unixSec := unix - zoneOffset, nsec := frac.1, offset := zoneOffset })))))))
  | _ => none

/-! ## What the services return, and the types of `pkg/types` they take -/

/-- The results of `return result, s.client.Get(ctx, path, &result)` where `result` is
a local slice, nil before the call: the value of `result` and the error of the call.
The call runs before the operand `result` is read (the order the Go compiler `gc`
follows; the language leaves it open): the slice returned is the one decoded into
`result` when the call stored one, the nil slice otherwise. -/
def returnSlice (o : Outcome) : GoValue × Option Error :=
  (o.stored.getD (GoValue.slice none), o.err)

/-- The type `types.LogFilter`: a nil pointer or nil slice is `none`. -/
structure LogFilter where
  Model : Option String
  Failed : Option Bool
  Category : Option String
  CustomerIdentifier : Option String
  StartTime : Option Time
  EndTime : Option Time
  Tags : Option (List String)
  Limit : Option Int
  Offset : Option Int

/-- An exported struct field with a `json` tag and no other tag, as the structs of
`pkg/types` declare them. -/
def jsonField (name tag : String) : StructField :=
  { Name := name, PkgPath := "", Tag := [("json", tag)] }

/-- A `types.LogFilter` as a Go value: its fields in declaration order, each with its
`json` tag. -/
def LogFilter.toGoValue (f : LogFilter) : GoValue :=
  GoValue.struct
    [(jsonField "Model" "model,omitempty", GoValue.ptr (f.Model.map GoValue.string)),
     (jsonField "Failed" "failed,omitempty", GoValue.ptr (f.Failed.map GoValue.bool)),
     (jsonField "Category" "category,omitempty", GoValue.ptr (f.Category.map GoValue.string)),
     (jsonField "CustomerIdentifier" "customer_identifier,omitempty",
       GoValue.ptr (f.CustomerIdentifier.map GoValue.string)),
     (jsonField "StartTime" "start_time,omitempty", GoValue.ptr (f.StartTime.map GoValue.time)),
     (jsonField "EndTime" "end_time,omitempty", GoValue.ptr (f.EndTime.map GoValue.time)),
     (jsonField "Tags" "tags,omitempty",
       GoValue.slice (f.Tags.map (fun tags => tags.map GoValue.string))),
     (jsonField "Limit" "limit,omitempty",
       GoValue.ptr (f.Limit.map (fun n => GoValue.int IntWidth.w n))),
     (jsonField "Offset" "offset,omitempty",
       GoValue.ptr (f.Offset.map (fun n => GoValue.int IntWidth.w n)))]

/-! ## encoding/json: the response types of `pkg/types`

A model of `json.Marshal` and of `json.NewDecoder(body).Decode(&result)` on the types of
`pkg/types`: structs of exported fields, each named by its `json` tag, over strings,
`int`, `float64`, `bool`, `time.Time`, `interface{}`, pointers, slices and maps with string
keys. `Marshal` is modelled up to the JSON value it writes (its members, in order), not
up to the characters it picks for them. The decoder is modelled on the bodies it is sure
about and says so where it is not (`Decoded.outside`). -/

/-- The conversions between a `float64` and its text, which the embedding does not
compute: the text `json.Marshal` writes for a float (none for NaN and the infinities,
which it refuses), and `strconv.ParseFloat(s, 64)` on a JSON number (none when the
number is out of range). -/
structure Strconv where
  formatFloat : Float64 → Option String
  parseFloat : String → Option Float64

/-- The types the response types are made of. A value of the type is, in order: a
`GoValue.string`, a `GoValue.int IntWidth.w`, a `GoValue.float FloatWidth.w64`, a
`GoValue.bool`, a `GoValue.time`, the value an interface holds (`GoValue.iface none` for
the nil interface), a `GoValue.ptr`, a `GoValue.slice`, a `GoValue.map` whose keys are
strings, and a `GoValue.struct` with the fields of the type. -/
inductive JType where
  | string
  | int
  | float64
  | bool
  | time
  | iface
  | ptr (elem : JType)
  | slice (elem : JType)
  | mapOf (elem : JType)
  | struct (fields : List (StructField × JType))

/-- The name `encoding/json` knows a field by: the part of its `json` tag before the
first comma, the name of the field when that part is empty. -/
def jsonName (f : StructField) : String :=
  match stringsSplitComma (f.Tag.Get "json") with
  | name :: _ => if name = "" then f.Name else name
  | [] => f.Name

/-- Whether the `json` tag of a field carries the option `omitempty`. -/
def jsonOmitEmpty (f : StructField) : Bool :=
  (stringsSplitComma (f.Tag.Get "json")).tail.contains "omitempty"

/-- A field `encoding/json` leaves out: unexported, or tagged `json:"-"`. The types of
`pkg/types` have none; the model does not cover a struct that has one. -/
def jsonSkipped (f : StructField) : Bool :=
  decide (f.PkgPath ≠ "") || decide (f.Tag.Get "json" = "-")

mutual
/-- The zero value of a type. -/
def JType.zero : JType → GoValue
  | .string => GoValue.string ""
  | .int => GoValue.int IntWidth.w 0
  | .float64 => GoValue.float FloatWidth.w64 { bits := 0 }
  | .bool => GoValue.bool false
  | .time => GoValue.time { unixSec := -62135596800, nsec := 0, offset := 0 }
  | .iface => GoValue.iface none
  | .ptr _ => GoValue.ptr none
  | .slice _ => GoValue.slice none
  | .mapOf _ => GoValue.map none
  | .struct fields => GoValue.struct (JType.zeroFields fields)
/-- The zero values of the fields of a struct. -/
def JType.zeroFields : List (StructField × JType) → List (StructField × GoValue)
  | [] => []
  | ft :: rest => (ft.1, ft.2.zero) :: JType.zeroFields rest
end

mutual
/-- Whether a type holds a `time.Time` somewhere. -/
def JType.hasTime : JType → Bool
  | .time => true
  | .ptr elem => elem.hasTime
  | .slice elem => elem.hasTime
  | .mapOf elem => elem.hasTime
  | .struct fields => JType.fieldsHaveTime fields
  | _ => false
/-- Whether a field of the struct holds a `time.Time` somewhere. -/
def JType.fieldsHaveTime : List (StructField × JType) → Bool
  | [] => false
  | ft :: rest => ft.2.hasTime || JType.fieldsHaveTime rest
end

/-- The function `isEmptyValue` of `encoding/json`, which decides `omitempty`: false, 0,
a nil pointer, a nil interface, and an empty array, slice, map or string. A field of
interface type is empty only when the interface is nil. -/
def jsonEmpty (T : JType) (v : GoValue) : Bool :=
  match T, v with
  | .iface, .iface none => true
  | .iface, _ => false
  | _, .bool b => !b
  | _, .int _ n => decide (n = 0)
  | _, .uint _ n => decide (n = 0)
  | _, .float _ f => f.isZero
  | _, .string s => decide (s = "")
  | _, .ptr none => true
  | _, .iface none => true
  | _, .slice es => decide ((es.getD []).length = 0)
  | _, .map m => decide ((m.getD []).length = 0)
  | _, .array es => decide (es.length = 0)
  | _, _ => false

/-- The function `appendNano` of package `time` for the layout `.999999999`: nothing
for 0, otherwise a dot and the nine digits of the nanoseconds without their trailing
zeros. -/
def formatNano (nsec : Nat) : List Char :=
  if nsec = 0 then []
  else '.' :: ((appendInt nsec 9).reverse.dropWhile (fun c => c = '0')).reverse

/-- The text of `Time.appendFormatRFC3339` with nanoseconds, layout
`2006-01-02T15:04:05.999999999Z07:00`. -/
def formatRFC3339Nano (t : Time) : String :=
  String.mk
    (appendInt t.Date.1 4 ++ ['-'] ++ appendInt t.Date.2.1 2 ++ ['-'] ++
      appendInt t.Date.2.2 2 ++ ['T'] ++ appendInt t.Clock.1 2 ++ [':'] ++
      appendInt t.Clock.2.1 2 ++ [':'] ++ appendInt t.Clock.2.2 2 ++ formatNano t.nsec ++
      formatZone t.offset)

/-- The method `Time.MarshalJSON`, without the quotes: the text of
`appendStrictRFC3339`, refused for a year outside 0..9999 and for a zone of 24 hours or
more. -/
def timeMarshalJSON (t : Time) : Option String :=
  if 0 ≤ t.Year ∧ t.Year ≤ 9999 ∧ -86400 < t.offset ∧ t.offset < 86400 then
    some (formatRFC3339Nano t)
  else none

/-- The members of an object in the order of their keys, as `json.Marshal` writes the
entries of a map. -/
def sortMembers (ms : List (String × JSON)) : List (String × JSON) :=
  ms.insertionSort (fun a b => stringLE a.1 b.1)

mutual
/-- The JSON value `json.Marshal` writes for the value an interface holds, for the
values the decoder can store there and for integers: `null` for the nil interface and for
a nil slice or map, a number for an integer or a `float64`. Nothing for a value of
another type, which this model leaves out. -/
def marshalInterface (sc : Strconv) : GoValue → Option JSON
  | .iface none => some JSON.null
  | .bool b => some (JSON.bool b)
  | .int _ n => some (JSON.number (sprintf_d n))
  | .uint _ n => some (JSON.number (Nat.repr n))
  | .float .w64 f => (sc.formatFloat f).map JSON.number
  | .string s => some (JSON.string s)
  | .slice none => some JSON.null
  | .slice (some es) => (marshalInterfaceElems sc es).map JSON.array
  | .map none => some JSON.null
  | .map (some entries) =>
    (marshalInterfaceEntries sc entries).map (fun ms => JSON.object (sortMembers ms))
  | _ => none
/-- The elements of a `[]interface{}`. -/
def marshalInterfaceElems (sc : Strconv) : List GoValue → Option (List JSON)
  | [] => some []
  | e :: es =>
    match marshalInterface sc e, marshalInterfaceElems sc es with
    | some j, some js => some (j :: js)
    | _, _ => none
/-- The entries of a `map[string]interface{}`, in the order given. -/
def marshalInterfaceEntries (sc : Strconv) :
    List (GoValue × GoValue) → Option (List (String × JSON))
  | [] => some []
  | kv :: rest =>
    match kv.1, marshalInterface sc kv.2, marshalInterfaceEntries sc rest with
    | .string k, some j, some ms => some ((k, j) :: ms)
    | _, _, _ => none
end

/-- All the results of a list, when there are results for all. -/
def allSome {α : Type} : List (Option α) → Option (List α)
  | [] => some []
  | none :: _ => none
  | some a :: rest => (allSome rest).map (fun as => a :: as)

mutual
/-- The JSON value `json.Marshal` writes for a value of a type: a nil pointer, slice or
map as `null`, the members of a struct in the order of its fields, without the empty
fields tagged `omitempty`, the entries of a map in the order of their keys. Nothing when
`Marshal` fails (a float that is no number, a time it refuses) or the value is not of
the type. -/
def marshalValue (sc : Strconv) : JType → GoValue → Option JSON
  | .string, .string s => some (JSON.string s)
  | .int, .int .w n => some (JSON.number (sprintf_d n))
  | .float64, .float .w64 f => (sc.formatFloat f).map JSON.number
  | .bool, .bool b => some (JSON.bool b)
  | .time, .time t => (timeMarshalJSON t).map JSON.string
  | .iface, v => marshalInterface sc v
  | .ptr _, .ptr none => some JSON.null
  | .ptr elem, .ptr (some x) => marshalValue sc elem x
  | .slice _, .slice none => some JSON.null
  | .slice elem, .slice (some es) =>
    (allSome (es.map (fun e => marshalValue sc elem e))).map JSON.array
  | .mapOf _, .map none => some JSON.null
  | .mapOf elem, .map (some entries) =>
    (allSome (entries.map (fun kv =>
      match kv.1 with
      | .string k => (marshalValue sc elem kv.2).map (fun j => (k, j))
      | _ => none))).map (fun ms => JSON.object (sortMembers ms))
  | .struct fields, .struct fvs => (marshalFields sc fields fvs).map JSON.object
  | _, _ => none
/-- The members written for the fields of a struct, given the values of the fields in
the order of the fields. -/
def marshalFields (sc : Strconv) :
    List (StructField × JType) → List (StructField × GoValue) → Option (List (String × JSON))
  | [], [] => some []
  | ft :: rest, fv :: vals =>
    if ft.1 ≠ fv.1 ∨ jsonSkipped ft.1 = true then none
    else if jsonOmitEmpty ft.1 = true ∧ jsonEmpty ft.2 fv.2 = true then
      marshalFields sc rest vals
    else
      match marshalValue sc ft.2 fv.2, marshalFields sc rest vals with
      | some j, some ms => some ((jsonName ft.1, j) :: ms)
      | _, _ => none
  | _, _ => none
end

/-- The assignment `m[key] = value` on the entries of a map. -/
def mapAssign (m : List (String × GoValue)) (key : String) (value : GoValue) :
    List (String × GoValue) :=
  match m with
  | [] => [(key, value)]
  | e :: rest => if e.1 = key then (key, value) :: rest else e :: mapAssign rest key value

/-- The entries of the map an object is decoded into: every member assigned in the
order of the text, a later member with the same key replacing the earlier one. -/
def mapOfMembers (ms : List (String × GoValue)) : List (GoValue × GoValue) :=
  (ms.foldl (fun m kv => mapAssign m kv.1 kv.2) []).map
    (fun kv => (GoValue.string kv.1, kv.2))

mutual
/-- What the decoder stores into an `interface{}`: `nil` for `null`, a `bool`, a
`float64` for every number, a `string`, a `[]interface{}` for an array and a
`map[string]interface{}` for an object; nothing when a number is out of the range of
`float64`, which is an error. -/
def decodeInterface (sc : Strconv) : JSON → Option GoValue
  | .null => some (GoValue.iface none)
  | .bool b => some (GoValue.bool b)
  | .number lit => (sc.parseFloat lit).map (GoValue.float FloatWidth.w64)
  | .string s => some (GoValue.string s)
  | .array es => (decodeInterfaceElems sc es).map (fun vs => GoValue.slice (some vs))
  | .object ms =>
    (decodeInterfaceMembers sc ms).map (fun kvs => GoValue.map (some (mapOfMembers kvs)))
/-- The elements of an array, decoded into interfaces. -/
def decodeInterfaceElems (sc : Strconv) : List JSON → Option (List GoValue)
  | [] => some []
  | e :: es =>
    match decodeInterface sc e, decodeInterfaceElems sc es with
    | some v, some vs => some (v :: vs)
    | _, _ => none
/-- The members of an object, decoded into interfaces, in the order of the text. -/
def decodeInterfaceMembers (sc : Strconv) :
    List (String × JSON) → Option (List (String × GoValue))
  | [] => some []
  | m :: ms =>
    match decodeInterface sc m.2, decodeInterfaceMembers sc ms with
    | some v, some kvs => some ((m.1, v) :: kvs)
    | _, _ => none
end

/-- What a call of `Decode` comes to in this model: the value the destination holds
when the call returns no error, an error, or a body the model does not cover. -/
inductive Decoded (α : Type) where
  | ok (a : α)
  | error
  | outside

/-- The result of a part before the results of the parts that follow: outside the
model when one of them is, otherwise an error when one of them fails. -/
def Decoded.cons {α : Type} (r : Decoded α) (rest : Decoded (List α)) : Decoded (List α) :=
  match r, rest with
  | Decoded.outside, _ => Decoded.outside
  | _, Decoded.outside => Decoded.outside
  | Decoded.error, _ => Decoded.error
  | _, Decoded.error => Decoded.error
  | Decoded.ok a, Decoded.ok as => Decoded.ok (a :: as)

/-- The results of the parts of a value together. -/
def Decoded.all {α : Type} : List (Decoded α) → Decoded (List α)
  | [] => Decoded.ok []
  | r :: rest => Decoded.cons r (Decoded.all rest)

/-- The result with a function applied to the value. -/
def Decoded.map {α β : Type} (f : α → β) : Decoded α → Decoded β
  | Decoded.ok a => Decoded.ok (f a)
  | Decoded.error => Decoded.error
  | Decoded.outside => Decoded.outside

/-- The field an object key is decoded into, by the names of the fields: the field of
that very name, otherwise the first field whose name is the same under case folding. -/
def resolveName (names : List String) (key : String) : Option String :=
  match names.find? (fun n => n = key) with
  | some n => some n
  | none => names.find? (fun n => foldName n = foldName key)

mutual
/-- Decoding a JSON value into a variable of a type that holds its zero value: `null`
leaves the zero value; a value of the wrong kind, an integer out of range or written
with a fraction or an exponent, and a float out of range are errors. A `time.Time` is
read by `Time.UnmarshalJSON`, which goes by `parseRFC3339` first: where that refuses a
text, the model does not follow the decoder further. -/
def decodeValue (sc : Strconv) : JType → JSON → Decoded GoValue
  | .string, j =>
    match j with
    | .null => Decoded.ok (GoValue.string "")
    | .string s => Decoded.ok (GoValue.string s)
    | _ => Decoded.error
  | .int, j =>
    match j with
    | .null => Decoded.ok (GoValue.int IntWidth.w 0)
    | .number lit =>
      match parseInt64 lit with
      | some n => Decoded.ok (GoValue.int IntWidth.w n)
      | none => Decoded.error
    | _ => Decoded.error
  | .float64, j =>
    match j with
    | .null => Decoded.ok (GoValue.float FloatWidth.w64 { bits := 0 })
    | .number lit =>
      match sc.parseFloat lit with
      | some f => Decoded.ok (GoValue.float FloatWidth.w64 f)
      | none => Decoded.error
    | _ => Decoded.error
  | .bool, j =>
    match j with
    | .null => Decoded.ok (GoValue.bool false)
    | .bool b => Decoded.ok (GoValue.bool b)
    | _ => Decoded.error
  | .time, j =>
    match j with
    | .null => Decoded.ok (GoValue.time { unixSec := -62135596800, nsec := 0, offset := 0 })
    | .string s =>
      match parseRFC3339 s with
      | some t => Decoded.ok (GoValue.time t)
      | none => Decoded.outside
    | _ => Decoded.error
  | .iface, j =>
    match decodeInterface sc j with
    | some v => Decoded.ok v
    | none => Decoded.error
  | .ptr elem, j =>
    match j with
    | .null => Decoded.ok (GoValue.ptr none)
    | j => (decodeValue sc elem j).map (fun v => GoValue.ptr (some v))
  | .slice elem, j =>
    match j with
    | .null => Decoded.ok (GoValue.slice none)
    | .array js =>
      (Decoded.all (js.map (fun e => decodeValue sc elem e))).map
        (fun vs => GoValue.slice (some vs))
    | _ => Decoded.error
  | .mapOf elem, j =>
    match j with
    | .null => Decoded.ok (GoValue.map none)
    | .object ms =>
      (Decoded.all
        (ms.map (fun m => (decodeValue sc elem m.2).map (fun v => (m.1, v))))).map
        (fun kvs => GoValue.map (some (mapOfMembers kvs)))
    | _ => Decoded.error
  | .struct fields, j =>
    match j with
    | .null => Decoded.ok (GoValue.struct (JType.zeroFields fields))
    | .object ms =>
      (decodeFields sc (fields.map (fun ft => jsonName ft.1)) ms fields).map GoValue.struct
    | _ => Decoded.error
/-- Decoding the members of an object into the fields of a struct. A field no member
is for keeps its zero value, members for no field are passed over. The model does not
cover an object with two members for one field. -/
def decodeFields (sc : Strconv) (names : List String) (ms : List (String × JSON)) :
    List (StructField × JType) → Decoded (List (StructField × GoValue))
  | [] => Decoded.ok []
  | ft :: rest =>
    let here : Decoded GoValue :=
      if jsonSkipped ft.1 = true then Decoded.outside
      else
        match ms.filter (fun m => resolveName names m.1 = some (jsonName ft.1)) with
        | [] => Decoded.ok ft.2.zero
        | [m] => decodeValue sc ft.2 m.2
        | _ => Decoded.outside
    Decoded.cons (here.map (fun v => (ft.1, v))) (decodeFields sc names ms rest)
end

/-- The call `json.NewDecoder(body).Decode(&result)` for a `result` of the type `T`
holding its zero value: the first JSON value of the body is read (what follows it is
left unread) and decoded. `Time.UnmarshalJSON` reads the text of a string as it stands in
the body, escapes included, so the model does not cover a body with a backslash when
the type holds a `time.Time`. -/
def decodeBody (sc : Strconv) (T : JType) (body : String) : Decoded GoValue :=
  if T.hasTime = true ∧ '\\' ∈ body.data then Decoded.outside
  else
    match parseValue (2 * body.data.length + 2) 0 (skipSpace body.data) with
    | none => Decoded.error
    | some (j, _) => decodeValue sc T j

/-! ### The types of `pkg/types` that a response is decoded into -/

/-- The type `types.Message`. -/
def types.Message : JType :=
  JType.struct
    [(jsonField "Role" "role", JType.string),
     (jsonField "Content" "content", JType.iface),
     (jsonField "Name" "name,omitempty", JType.ptr JType.string)]

/-- The type `types.FunctionCall`. -/
def types.FunctionCall : JType :=
  JType.struct
    [(jsonField "Name" "name", JType.string),
     (jsonField "Arguments" "arguments", JType.string)]

/-- The type `types.ToolCall`. -/
def types.ToolCall : JType :=
  JType.struct
    [(jsonField "ID" "id", JType.string),
     (jsonField "Type" "type", JType.string),
     (jsonField "Function" "function", types.FunctionCall)]

/-- The type `types.Usage`. -/
def types.Usage : JType :=
  JType.struct
    [(jsonField "PromptTokens" "prompt_tokens,omitempty", JType.int),
     (jsonField "CompletionTokens" "completion_tokens,omitempty", JType.int),
     (jsonField "TotalTokens" "total_tokens,omitempty", JType.int)]

/-- The type `types.CustomerParams`. -/
def types.CustomerParams : JType :=
  JType.struct
    [(jsonField "CustomerIdentifier" "customer_identifier", JType.string),
     (jsonField "Metadata" "metadata,omitempty", JType.mapOf JType.iface)]

/-- The type `types.RequestLog`. -/
def types.RequestLog : JType :=
  JType.struct
    [(jsonField "Model" "model", JType.string),
     (jsonField "PromptMessages" "prompt_messages", JType.slice types.Message),
     (jsonField "CompletionMessage" "completion_message,omitempty", JType.ptr types.Message),
     (jsonField "CustomerParams" "customer_params,omitempty", JType.ptr types.CustomerParams),
     (jsonField "PromptTokens" "prompt_tokens,omitempty", JType.ptr JType.int),
     (jsonField "CompletionTokens" "completion_tokens,omitempty", JType.ptr JType.int),
     (jsonField "Cost" "cost,omitempty", JType.ptr JType.float64),
     (jsonField "Latency" "latency,omitempty", JType.ptr JType.int),
     (jsonField "Failed" "failed,omitempty", JType.ptr JType.bool),
     (jsonField "StatusCode" "status_code,omitempty", JType.ptr JType.int),
     (jsonField "Error" "error,omitempty", JType.ptr JType.string),
     (jsonField "Timestamp" "timestamp,omitempty", JType.ptr JType.time),
     (jsonField "Usage" "usage,omitempty", JType.ptr types.Usage),
     (jsonField "ToolCalls" "tool_calls,omitempty", JType.slice types.ToolCall),
     (jsonField "Metadata" "metadata,omitempty", JType.mapOf JType.iface),
     (jsonField "ExtraHeaders" "extra_headers,omitempty", JType.mapOf JType.string),
     (jsonField "RequestParams" "request_params,omitempty", JType.mapOf JType.iface),
     (jsonField "Provider" "provider,omitempty", JType.ptr JType.string),
     (jsonField "Stream" "stream,omitempty", JType.ptr JType.bool),
     (jsonField "Category" "category,omitempty", JType.ptr JType.string),
     (jsonField "Tags" "tags,omitempty", JType.slice JType.string)]

/-- The type `types.LogsResponse`. -/
def types.LogsResponse : JType :=
  JType.struct
    [(jsonField "Logs" "logs", JType.slice types.RequestLog),
     (jsonField "TotalCount" "total_count", JType.int),
     (jsonField "NextOffset" "next_offset,omitempty", JType.ptr JType.int)]

/-- The type `types.Thread`. -/
def types.Thread : JType :=
  JType.struct
    [(jsonField "ID" "id", JType.string),
     (jsonField "CustomerIdentifier" "customer_identifier", JType.string),
     (jsonField "Messages" "messages", JType.slice types.Message),
     (jsonField "Metadata" "metadata,omitempty", JType.mapOf JType.iface),
     (jsonField "CreatedAt" "created_at", JType.time),
     (jsonField "UpdatedAt" "updated_at", JType.time)]

/-- The type `types.Prompt`. -/
def types.Prompt : JType :=
  JType.struct
    [(jsonField "ID" "id", JType.string),
     (jsonField "Name" "name", JType.string),
     (jsonField "Description" "description,omitempty", JType.ptr JType.string),
     (jsonField "CreatedAt" "created_at", JType.time),
     (jsonField "UpdatedAt" "updated_at", JType.time)]

/-- The type `types.PromptVersion`. -/
def types.PromptVersion : JType :=
  JType.struct
    [(jsonField "ID" "id", JType.string),
     (jsonField "PromptID" "prompt_id", JType.string),
     (jsonField "Version" "version", JType.int),
     (jsonField "Name" "name", JType.string),
     (jsonField "Template" "template", JType.string),
     (jsonField "Model" "model,omitempty", JType.ptr JType.string),
     (jsonField "Parameters" "parameters,omitempty", JType.mapOf JType.iface),
     (jsonField "IsActive" "is_active", JType.bool),
     (jsonField "CreatedAt" "created_at", JType.time),
     (jsonField "UpdatedAt" "updated_at", JType.time)]

/-- The type `types.Model`. -/
def types.Model : JType :=
  JType.struct
    [(jsonField "ID" "id", JType.string),
     (jsonField "Name" "name", JType.string),
     (jsonField "Provider" "provider", JType.string),
     (jsonField "InputCost" "input_cost", JType.float64),
     (jsonField "OutputCost" "output_cost", JType.float64),
     (jsonField "MaxTokens" "max_tokens", JType.int),
     (jsonField "ContextWindow" "context_window", JType.int),
     (jsonField "SupportedModes" "supported_modes", JType.slice JType.string),
     (jsonField "IsAvailable" "is_available", JType.bool)]

/-- The type `types.TemporaryKey`. -/
def types.TemporaryKey : JType :=
  JType.struct
    [(jsonField "ID" "id", JType.string),
     (jsonField "Key" "key", JType.string),
     (jsonField "Name" "name,omitempty", JType.ptr JType.string),
     (jsonField "ExpiresAt" "expires_at", JType.time),
     (jsonField "CreatedAt" "created_at", JType.time),
     (jsonField "IsActive" "is_active", JType.bool),
     (jsonField "UsageLimit" "usage_limit,omitempty", JType.ptr JType.int),
     (jsonField "UsageCount" "usage_count", JType.int),
     (jsonField "AllowedModels" "allowed_models,omitempty", JType.slice JType.string),
     (jsonField "AllowedEndpoints" "allowed_endpoints,omitempty", JType.slice JType.string),
     (jsonField "Metadata" "metadata,omitempty", JType.mapOf JType.iface)]

/-- The type `types.STTResponse`. -/
def types.STTResponse : JType :=
  JType.struct
    [(jsonField "Text" "text", JType.string),
     (jsonField "Language" "language,omitempty", JType.string),
     (jsonField "Duration" "duration,omitempty", JType.float64),
     (jsonField "Metadata" "metadata,omitempty", JType.mapOf JType.iface)]

/-- The type `types.EmbeddingData`. -/
def types.EmbeddingData : JType :=
  JType.struct
    [(jsonField "Object" "object", JType.string),
     (jsonField "Embedding" "embedding", JType.slice JType.float64),
     (jsonField "Index" "index", JType.int)]

/-- The type `types.EmbeddingResponse`. -/
def types.EmbeddingResponse : JType :=
  JType.struct
    [(jsonField "Object" "object", JType.string),
     (jsonField "Data" "data", JType.slice types.EmbeddingData),
     (jsonField "Model" "model", JType.string),
     (jsonField "Usage" "usage", types.Usage)]

/-- The response types of the library. -/
def responseTypes : List JType :=
  [types.RequestLog, types.LogsResponse, types.Thread, types.Prompt, types.PromptVersion,
   types.Model, types.TemporaryKey, types.STTResponse, types.EmbeddingResponse]

/-! ### The values that an encoding gives back -/

/-- A float whose text, as `json.Marshal` writes it, `strconv.ParseFloat` reads back as
the float. -/
def floatReadsBack (sc : Strconv) (f : Float64) : Bool :=
  match sc.formatFloat f with
  | some lit => decide (sc.parseFloat lit = some f)
  | none => false

/-- The keys of the entries of a map with string keys. -/
def entryKeys : List (GoValue × GoValue) → List String
  | [] => []
  | kv :: rest =>
    match kv.1 with
    | .string k => k :: entryKeys rest
    | _ => entryKeys rest

/-- Whether an entry of a map has a string for its key. -/
def hasStringKey (kv : GoValue × GoValue) : Bool :=
  match kv.1 with
  | .string _ => true
  | _ => false

/-- Keys in strictly increasing order, byte by byte: the order in which this model
lists the entries of a map, none of which share a key. -/
def keysIncreasing (keys : List String) : Bool :=
  decide (keys.Pairwise (fun a b => stringLE a b ∧ a ≠ b))

mutual
/-- The values an interface can hold after decoding: `nil`, a `bool`, a `float64` that
reads back, a `string`, a `[]interface{}` and a `map[string]interface{}` of such
values, the entries of the map listed in the order of their keys. -/
def canonicalInterface (sc : Strconv) : GoValue → Bool
  | .iface none => true
  | .bool _ => true
  | .float .w64 f => floatReadsBack sc f
  | .string _ => true
  | .slice (some es) => canonicalInterfaceElems sc es
  | .map (some entries) =>
    canonicalInterfaceEntries sc entries && keysIncreasing (entryKeys entries)
  | _ => false
/-- The elements of a `[]interface{}`. -/
def canonicalInterfaceElems (sc : Strconv) : List GoValue → Bool
  | [] => true
  | e :: es => canonicalInterface sc e && canonicalInterfaceElems sc es
/-- The entries of a `map[string]interface{}`. -/
def canonicalInterfaceEntries (sc : Strconv) : List (GoValue × GoValue) → Bool
  | [] => true
  | kv :: rest =>
    hasStringKey kv && canonicalInterface sc kv.2 && canonicalInterfaceEntries sc rest
end

/-- Whether the values of a type have a nil value that is written as `null`. -/
def JType.nullable : JType → Bool
  | .iface => true
  | .ptr _ => true
  | .slice _ => true
  | .mapOf _ => true
  | _ => false

/-- Whether a value that `omitempty` leaves out is the zero value of its type: an
empty slice or map is so only when nil, a zero float only when it is not the negative
zero. -/
def emptyIsZero : GoValue → Bool
  | .float _ f => decide (f.bits = 0)
  | .slice es => es.isNone
  | .map m => m.isNone
  | .array _ => false
  | _ => true

mutual
/-- The values of a type that come back from their encoding: an `int` within 64 bits;
a float that reads back; a time with a zone of whole minutes (and nanoseconds below a
second, as every `time.Time` has); in an interface what the decoder stores there; no
non-nil pointer to a pointer, slice, map or interface (the response types have no such
pointer); the entries of a map listed in the order of their keys; a field that
`omitempty` leaves out holding the zero value of its type. -/
def canonicalValue (sc : Strconv) : JType → GoValue → Bool
  | .string, .string _ => true
  | .int, .int .w n => decide (-(2 ^ 63 : Int) ≤ n ∧ n < (2 ^ 63 : Int))
  | .float64, .float .w64 f => floatReadsBack sc f
  | .bool, .bool _ => true
  | .time, .time t => decide (t.offset % 60 = 0 ∧ t.nsec < 10 ^ 9)
  | .iface, v => canonicalInterface sc v
  | .ptr _, .ptr none => true
  | .ptr elem, .ptr (some x) => !elem.nullable && canonicalValue sc elem x
  | .slice _, .slice none => true
  | .slice elem, .slice (some es) => es.all (fun e => canonicalValue sc elem e)
  | .mapOf _, .map none => true
  | .mapOf elem, .map (some entries) =>
    entries.all (fun kv => hasStringKey kv && canonicalValue sc elem kv.2) &&
      keysIncreasing (entryKeys entries)
  | .struct fields, .struct fvs => canonicalFields sc fields fvs
  | _, _ => false
/-- The values of the fields of a struct that come back from their encoding. -/
def canonicalFields (sc : Strconv) :
    List (StructField × JType) → List (StructField × GoValue) → Bool
  | [], [] => true
  | ft :: rest, fv :: vals =>
    canonicalValue sc ft.2 fv.2 &&
      (!(jsonOmitEmpty ft.1 && jsonEmpty ft.2 fv.2) || emptyIsZero fv.2) &&
      canonicalFields sc rest vals
  | _, _ => false
end

mutual
/-- The struct types this model covers: no field is left out by `encoding/json` and no
two fields share a name. -/
def JType.wellFormed : JType → Bool
  | .ptr elem => elem.wellFormed
  | .slice elem => elem.wellFormed
  | .mapOf elem => elem.wellFormed
  | .struct fields =>
    decide ((fields.map (fun ft => jsonName ft.1)).Nodup) && JType.fieldsWellFormed fields
  | _ => true
/-- The fields of a struct type this model covers. -/
def JType.fieldsWellFormed : List (StructField × JType) → Bool
  | [] => true
  | ft :: rest => !jsonSkipped ft.1 && ft.2.wellFormed && JType.fieldsWellFormed rest
end

/-! ### Bodies and destinations -/

/-- A body that is a JSON encoding of the value `v` of the type `T`: the JSON value the
decoder reads from it is the one `json.Marshal` writes for `v`. This holds of the text
`json.Marshal` returns and of every other spelling of the same JSON value. -/
def isEncodingOf (sc : Strconv) (T : JType) (v : GoValue) (body : String) : Prop :=
  ∃ j rest, marshalValue sc T v = some j ∧
    parseValue (2 * body.data.length + 2) 0 (skipSpace body.data) = some (j, rest)

/-- A destination `&result` for a `result` of the type `T` that holds its zero value:
it stores what `Decode` stores and fails where `Decode` fails, on every body the model
of the decoder covers. -/
def Dest.decodes (decode : Dest) (sc : Strconv) (T : JType) : Prop :=
  (∀ body v, decodeBody sc T body = Decoded.ok v → decode body = .ok v) ∧
    (∀ body, decodeBody sc T body = Decoded.error → ∃ msg, decode body = .error msg)

/-! ## mime/multipart: reading a body back

What a server reads a multipart body with: `multipart.Reader.NextPart` until the closing
boundary, every part read to its end, and the methods `FormName` and `FileName` of a part.
These are models of the standard library (`bufio`, `net/textproto`, `mime`,
`mime/multipart`, `path/filepath` on Unix), over the bytes of the body, for a body that
is in memory as a whole and whose boundary lines end in CR LF. The size limits of
`ReadForm` are left out; white space is the ASCII white space. -/

/-- The method `bufio.Reader.ReadSlice('\n')`: the bytes up to and including the first
line feed and the bytes after it; nothing when no line feed is left. -/
def bufio.ReadSlice : List Nat → Option (List Nat × List Nat)
  | [] => none
  | b :: rest =>
    if b = 10 then some ([10], rest)
    else
      match bufio.ReadSlice rest with
      | none => none
      | some (line, rest1) => some (b :: line, rest1)

/-- The function `skipLWSPChar` of `mime/multipart`: leading spaces and tabs dropped. -/
def multipart.skipLWSPChar : List Nat → List Nat
  | [] => []
  | b :: rest => if b = 32 ∨ b = 9 then multipart.skipLWSPChar rest else b :: rest

/-- The method `Reader.isBoundaryDelimiterLine`, for line ends CR LF. -/
def multipart.isBoundaryDelimiterLine (dashBoundary line : List Nat) : Bool :=
  dashBoundary.isPrefixOf line &&
    multipart.skipLWSPChar (line.drop dashBoundary.length) == [13, 10]

/-- The method `Reader.isFinalBoundary`, for line ends CR LF. -/
def multipart.isFinalBoundary (dashBoundary line : List Nat) : Bool :=
  (dashBoundary ++ [45, 45]).isPrefixOf line &&
    (multipart.skipLWSPChar (line.drop (dashBoundary.length + 2)) == [] ||
      multipart.skipLWSPChar (line.drop (dashBoundary.length + 2)) == [13, 10])

/-- The line end that `bufio.Reader.ReadLine` takes off a line ending in a line feed. -/
def bufio.dropLineEnd (line : List Nat) : List Nat :=
  if line.dropLast.getLast? = some 13 then line.dropLast.dropLast else line.dropLast

/-- The method `textproto.Reader.readLineSlice`: the next line without its line end; the
last line may lack the line end; nothing at the end of the input. -/
def textproto.readLineSlice (bs : List Nat) : Option (List Nat × List Nat) :=
  match bufio.ReadSlice bs with
  | some (line, rest) => some (bufio.dropLineEnd line, rest)
  | none => if bs = [] then none else some (bs, [])

/-- The function `trim` of `net/textproto`: spaces and tabs taken off both ends. -/
def textproto.trim (s : List Nat) : List Nat :=
  (multipart.skipLWSPChar (multipart.skipLWSPChar s).reverse).reverse

/-- The loop of `readContinuedLineSlice` over the continuation lines: while the next line
starts with a space or a tab, a space and the trimmed line are appended. -/
def textproto.readContinuation : Nat → List Nat → List Nat → List Nat × List Nat
  | 0, buf, bs => (buf, bs)
  | fuel + 1, buf, bs =>
    match bs with
    | [] => (buf, bs)
    | b :: _ =>
      if b = 32 ∨ b = 9 then
        match textproto.readLineSlice (multipart.skipLWSPChar bs) with
        | none => (buf ++ [32], [])
        | some (line, rest) =>
          textproto.readContinuation fuel (buf ++ [32] ++ textproto.trim line) rest
      else (buf, bs)

/-- The method `textproto.Reader.readContinuedLineSlice` with the check
`mustHaveFieldNameColon`: a header line with its continuation lines, the empty list for
the blank line; nothing on a line without a colon or at the end of the input. -/
def textproto.readContinuedLineSlice (bs : List Nat) : Option (List Nat × List Nat) :=
  match textproto.readLineSlice bs with
  | none => none
  | some (line, rest) =>
    if line = [] then some ([], rest)
    else if 58 ∈ line then
      some (textproto.readContinuation rest.length (textproto.trim line) rest)
    else none

/-- The characters of a token (`isTokenTable` of `net/textproto`, `httpguts`): letters,
digits and the marks of RFC 7230. -/
def textproto.validHeaderFieldByte (b : Nat) : Bool :=
  (48 ≤ b && b ≤ 57) || (65 ≤ b && b ≤ 90) || (97 ≤ b && b ≤ 122) ||
    [33, 35, 36, 37, 38, 39, 42, 43, 45, 46, 94, 95, 96, 124, 126].contains b

/-- The function `validHeaderValueByte` of `net/textproto`: a tab, or anything from the
space on except DEL. -/
def textproto.validHeaderValueByte (b : Nat) : Bool :=
  b = 9 || (32 ≤ b && b ≠ 127)

/-- The second loop of `canonicalMIMEHeaderKey`: the first letter and every letter
after a hyphen in upper case, the others in lower case. -/
def textproto.canonicalize : Bool → List Nat → List Nat
  | _, [] => []
  | upper, c :: rest =>
    let c1 :=
      if upper && 97 ≤ c && c ≤ 122 then c - 32
      else if !upper && 65 ≤ c && c ≤ 90 then c + 32
      else c
    c1 :: textproto.canonicalize (c1 = 45) rest

/-- The function `canonicalMIMEHeaderKey`: nothing for an empty key or a key with a
byte that is neither a token character nor a space; a key with a space is kept as it is. -/
def textproto.canonicalMIMEHeaderKey (a : List Nat) : Option (List Nat) :=
  if a = [] then none
  else if a.all (fun c => textproto.validHeaderFieldByte c || c = 32) then
    if a.any (fun c => !textproto.validHeaderFieldByte c) then some a
    else some (textproto.canonicalize true a)
  else none

/-- The function `bytes.Cut(kv, ":")`. -/
def textproto.cutColon : List Nat → Option (List Nat × List Nat)
  | [] => none
  | b :: rest =>
    if b = 58 then some ([], rest)
    else
      match textproto.cutColon rest with
      | none => none
      | some (k, v) => some (b :: k, v)

/-- The loop of `readMIMEHeader`: the header lines up to the blank line, as pairs of
canonical key and value in the order read, and the bytes after the blank line. -/
def textproto.readMIMEHeaderLoop :
    Nat → List Nat → List (List Nat × List Nat) → Option (List (List Nat × List Nat) × List Nat)
  | 0, _, _ => none
  | fuel + 1, bs, acc =>
    match textproto.readContinuedLineSlice bs with
    | none => none
    | some (kv, rest) =>
      if kv = [] then some (acc.reverse, rest)
      else
        match textproto.cutColon kv with
        | none => none
        | some (k, v) =>
          match textproto.canonicalMIMEHeaderKey k with
          | none => none
          | some key =>
            if v.all textproto.validHeaderValueByte then
              if key = [] then textproto.readMIMEHeaderLoop fuel rest acc
              else
                textproto.readMIMEHeaderLoop fuel rest ((key, multipart.skipLWSPChar v) :: acc)
            else none

/-- The function `readMIMEHeader`: the first line may not start with a space or a tab. -/
def textproto.readMIMEHeader (bs : List Nat) :
    Option (List (List Nat × List Nat) × List Nat) :=
  match bs with
  | [] => none
  | b :: _ =>
    if b = 32 ∨ b = 9 then none else textproto.readMIMEHeaderLoop (bs.length + 1) bs []

/-- The function `matchAfterPrefix` at the bytes that follow the prefix, the input being
complete: a space, a tab, CR, LF, two hyphens or the end of the input. -/
def multipart.matchAfterPrefix : List Nat → Bool
  | [] => true
  | c :: rest =>
    c = 32 || c = 9 || c = 13 || c = 10 || (c = 45 && rest.head? = some 45)

/-- The search of `scanUntilBoundary` inside a part: the content up to the first
`\r\n--boundary` that `matchAfterPrefix` accepts, and the bytes from there on. An
occurrence that is not accepted is content as a whole (`skip` counts its bytes still to
pass). Nothing when the input ends first. -/
def multipart.scanUntilBoundary (nlDashBoundary : List Nat) :
    Nat → List Nat → Option (List Nat × List Nat)
  | _, [] => none
  | 0, b :: rest =>
    if nlDashBoundary.isPrefixOf (b :: rest) then
      if multipart.matchAfterPrefix ((b :: rest).drop nlDashBoundary.length) then
        some ([], b :: rest)
      else
        match multipart.scanUntilBoundary nlDashBoundary (nlDashBoundary.length - 1) rest with
        | none => none
        | some (content, rest1) => some (b :: content, rest1)
    else
      match multipart.scanUntilBoundary nlDashBoundary 0 rest with
      | none => none
      | some (content, rest1) => some (b :: content, rest1)
  | skip + 1, b :: rest =>
    match multipart.scanUntilBoundary nlDashBoundary skip rest with
    | none => none
    | some (content, rest1) => some (b :: content, rest1)

/-- The content of a part, read to its end (`Part.Read` until `io.EOF`): at the start of
the content `--boundary` itself ends the part. -/
def multipart.readContent (dashBoundary : List Nat) (bs : List Nat) :
    Option (List Nat × List Nat) :=
  if dashBoundary.isPrefixOf bs then
    if multipart.matchAfterPrefix (bs.drop dashBoundary.length) then some ([], bs)
    else
      match multipart.scanUntilBoundary ([13, 10] ++ dashBoundary) 0
          (bs.drop dashBoundary.length) with
      | none => none
      | some (content, rest) => some (dashBoundary ++ content, rest)
  else multipart.scanUntilBoundary ([13, 10] ++ dashBoundary) 0 bs

/-- The type `multipart.Part`: the header and the content read from it. -/
structure multipart.Part where
  Header : List (List Nat × List Nat)
  content : List Nat
deriving DecidableEq, Repr

/-- The calls of `Reader.NextPart` until it reports the end: the parts in the order
read, nothing when a call fails. `partsRead` is the reader's counter, `expectNewPart`
the flag of the call under way. -/
def multipart.nextParts (dashBoundary : List Nat) :
    Nat → Nat → Bool → List Nat → Option (List multipart.Part)
  | 0, _, _, _ => none
  | fuel + 1, partsRead, expectNewPart, bs =>
    match bufio.ReadSlice bs with
    | none => if multipart.isFinalBoundary dashBoundary bs then some [] else none
    | some (line, rest) =>
      if multipart.isBoundaryDelimiterLine dashBoundary line then
        match textproto.readMIMEHeader rest with
        | none => none
        | some (header, rest1) =>
          match multipart.readContent dashBoundary rest1 with
          | none => none
          | some (content, rest2) =>
            match multipart.nextParts dashBoundary fuel (partsRead + 1) false rest2 with
            | none => none
            | some parts => some ({ Header := header, content := content } :: parts)
      else if multipart.isFinalBoundary dashBoundary line then some []
      else if expectNewPart then none
      else if partsRead = 0 then multipart.nextParts dashBoundary fuel 0 false rest
      else if line = [13, 10] then multipart.nextParts dashBoundary fuel partsRead true rest
      else none

/-- A `multipart.Reader` for the boundary run over a body: the parts, or nothing when
the boundary is empty or a part cannot be read. -/
def multipart.readParts (boundary body : List Nat) : Option (List multipart.Part) :=
  if boundary = [] then none
  else multipart.nextParts ([45, 45] ++ boundary) (body.length + 1) 0 false body

/-- The function `isTSpecial` of `mime`: one of `()<>@,;:\"/[]?=`. -/
def mime.isTSpecial (b : Nat) : Bool :=
  [40, 41, 60, 62, 64, 44, 59, 58, 92, 34, 47, 91, 93, 63, 61].contains b

/-- The function `isTokenChar` of `mime`. -/
def mime.isTokenChar (b : Nat) : Bool :=
  32 < b && b < 127 && !mime.isTSpecial b

/-- The function `consumeToken` of `mime`. -/
def mime.consumeToken (v : List Nat) : List Nat × List Nat :=
  (v.takeWhile mime.isTokenChar, v.dropWhile mime.isTokenChar)

/-- The loop of `consumeValue` over a quoted string, after the opening quote: the text up
to the closing quote, a backslash before a tspecial dropped; nothing on CR, LF or a
missing closing quote. -/
def mime.consumeQuoted : List Nat → List Nat → Option (List Nat × List Nat)
  | [], _ => none
  | [r], buffer => if r = 34 then some (buffer.reverse, []) else none
  | r :: e :: rest, buffer =>
    if r = 34 then some (buffer.reverse, e :: rest)
    else if r = 92 ∧ mime.isTSpecial e = true then mime.consumeQuoted rest (e :: buffer)
    else if r = 13 ∨ r = 10 then none
    else mime.consumeQuoted (e :: rest) (r :: buffer)

/-- The function `consumeValue` of `mime`. -/
def mime.consumeValue (v : List Nat) : List Nat × List Nat :=
  match v with
  | [] => ([], [])
  | r :: rest =>
    if r = 34 then
      match mime.consumeQuoted rest [] with
      | some res => res
      | none => ([], v)
    else mime.consumeToken v

/-- White space of ASCII, as `unicode.IsSpace` has it. -/
def mime.isSpaceByte (b : Nat) : Bool :=
  b = 32 || (9 ≤ b && b ≤ 13)

/-- ASCII letters in lower case. -/
def mime.toLower (s : List Nat) : List Nat :=
  s.map (fun b => if 65 ≤ b ∧ b ≤ 90 then b + 32 else b)

/-- The function `consumeMediaParam` of `mime`: the parameter name in lower case, its
value and the rest; nothing where the source returns an empty name. -/
def mime.consumeMediaParam (v : List Nat) : Option (List Nat × List Nat × List Nat) :=
  match v.dropWhile mime.isSpaceByte with
  | [] => none
  | s :: rest1 =>
    if s = 59 then
      let tok := mime.consumeToken (rest1.dropWhile mime.isSpaceByte)
      if tok.1 = [] then none
      else
        match tok.2.dropWhile mime.isSpaceByte with
        | [] => none
        | e :: rest3 =>
          if e = 61 then
            let rest4 := rest3.dropWhile mime.isSpaceByte
            let val := mime.consumeValue rest4
            if val.1 = [] ∧ val.2 = rest4 then none
            else some (mime.toLower tok.1, val.1, val.2)
          else none
    else none

/-- The function `strings.TrimSpace` on ASCII white space. -/
def mime.trimSpace (s : List Nat) : List Nat :=
  ((s.dropWhile mime.isSpaceByte).reverse.dropWhile mime.isSpaceByte).reverse

/-- The loop of `ParseMediaType` over the parameters (continuations with `*` are kept
under their own names): nothing on an invalid or a contradicting duplicate parameter. -/
def mime.parseMediaParams :
    Nat → List Nat → List (List Nat × List Nat) → Option (List (List Nat × List Nat))
  | 0, _, _ => none
  | fuel + 1, v, params =>
    let v1 := v.dropWhile mime.isSpaceByte
    if v1 = [] then some params
    else
      match mime.consumeMediaParam v1 with
      | none => if mime.trimSpace v1 = [59] then some params else none
      | some (key, value, rest) =>
        match params.lookup key with
        | some old =>
          if old = value then mime.parseMediaParams fuel rest params else none
        | none => mime.parseMediaParams fuel rest (params ++ [(key, value)])

/-- The function `checkMediaTypeDisposition` of `mime`. -/
def mime.checkMediaTypeDisposition (s : List Nat) : Bool :=
  let typ := mime.consumeToken s
  if typ.1 = [] then false
  else
    match typ.2 with
    | [] => true
    | c :: rest =>
      if c = 47 then
        let sub := mime.consumeToken rest
        sub.1 ≠ [] && sub.2 = []
      else false

/-- The function `mime.ParseMediaType`: the media type and the parameters; on an error
the parameters are none and the media type is what the source returns with the error. -/
def mime.ParseMediaType (v : List Nat) : List Nat × Option (List (List Nat × List Nat)) :=
  let base := v.takeWhile (fun b => b ≠ 59)
  let mediatype := mime.trimSpace (mime.toLower base)
  if mime.checkMediaTypeDisposition mediatype then
    match mime.parseMediaParams (v.length + 1) (v.drop base.length) [] with
    | some params => (mediatype, some params)
    | none => (mediatype, none)
  else ([], none)

/-- The method `Part.parseContentDisposition`: the disposition and its parameters, no
parameters when the header does not parse. -/
def multipart.Part.parseContentDisposition (p : multipart.Part) :
    List Nat × List (List Nat × List Nat) :=
  let v := (p.Header.lookup (utf8Bytes "Content-Disposition")).getD []
  match mime.ParseMediaType v with
  | (disposition, some params) => (disposition, params)
  | (disposition, none) => (disposition, [])

/-- The method `Part.FormName`. -/
def multipart.Part.FormName (p : multipart.Part) : List Nat :=
  if p.parseContentDisposition.1 = utf8Bytes "form-data" then
    (p.parseContentDisposition.2.lookup (utf8Bytes "name")).getD []
  else []

/-- The function `filepath.Base` on Unix. -/
def filepath.Base (path : List Nat) : List Nat :=
  if path = [] then [46]
  else
    let stripped := (path.reverse.dropWhile (fun b => b = 47)).reverse
    let last := (stripped.reverse.takeWhile (fun b => b ≠ 47)).reverse
    if last = [] then [47] else last

/-- The method `Part.FileName`: the last element of the `filename` parameter. -/
def multipart.Part.FileName (p : multipart.Part) : List Nat :=
  let filename := (p.parseContentDisposition.2.lookup (utf8Bytes "filename")).getD []
  if filename = [] then [] else filepath.Base filename

/-- What a reader sees of a part: `FormName()`, `FileName()` and the content. -/
def multipart.Part.read (p : multipart.Part) : List Nat × List Nat × List Nat :=
  (p.FormName, p.FileName, p.content)

/-- What a field is to come back as: its name, its file name (none for a field that is
not a file) and its bytes (`Data` of a file, the bytes of `Value` otherwise). -/
def MultipartField.written (f : MultipartField) : List Nat × List Nat × List Nat :=
  if f.IsFile then (utf8Bytes f.Name, utf8Bytes f.FileName, f.Data)
  else (utf8Bytes f.Name, [], utf8Bytes f.Value)

/-- A text that a header value can carry as it is: every byte passes
`validHeaderValueByte`, so no CR, no LF and no other control character but the tab. -/
def headerSafe (s : String) : Bool :=
  (utf8Bytes s).all textproto.validHeaderValueByte

/-- A boundary of ASCII letters and digits, at least one; the boundary that
`multipart.NewWriter` draws is 60 hexadecimal digits. -/
def plainBoundary (s : String) : Bool :=
  !(utf8Bytes s).isEmpty &&
    (utf8Bytes s).all
      (fun b => (48 ≤ b && b ≤ 57) || (65 ≤ b && b ≤ 90) || (97 ≤ b && b ≤ 122))

/-- The condition on a field under which the reader gives it back: the name, and the
file name of a file, pass as header values; the file name has no slash; the bytes of the
field do not contain the boundary. -/
def MultipartField.readable (boundary : String) (f : MultipartField) : Prop :=
  headerSafe f.Name = true ∧
    (f.IsFile = true → headerSafe f.FileName = true ∧ 47 ∉ utf8Bytes f.FileName) ∧
    ¬ utf8Bytes boundary <:+: f.written.2.2

instance MultipartField.readable.decidable (boundary : String) (f : MultipartField) :
    Decidable (f.readable boundary) :=
  inferInstanceAs (Decidable (_ ∧ _ ∧ _))

/-! ### What the multipart writer writes, byte by byte -/

/-- The bytes of `escapeQuotes s` from the bytes of `s`: a backslash before every
backslash and every double quote, `%0D` for a carriage return and `%0A` for a line
feed. -/
def escapeBytes (bs : List Nat) : List Nat :=
  bs.flatMap (fun b =>
    if b = 92 ∨ b = 34 then [92, b]
    else if b = 13 then [37, 48, 68]
    else if b = 10 then [37, 48, 65]
    else [b])

/-- The value of the `Content-Disposition` line that `CreateFormFile` (for a file) or
`WriteField` writes for a field. -/
def MultipartField.disposition (f : MultipartField) : List Nat :=
  utf8Bytes "form-data; name=\"" ++ escapeBytes (utf8Bytes f.Name) ++ [34] ++
    (if f.IsFile then utf8Bytes "; filename=\"" ++ escapeBytes (utf8Bytes f.FileName) ++ [34]
     else [])

/-- The header a reader is to find on the part of a field. -/
def MultipartField.header (f : MultipartField) : List (List Nat × List Nat) :=
  (utf8Bytes "Content-Disposition", f.disposition) ::
    (if f.IsFile then [(utf8Bytes "Content-Type", utf8Bytes "application/octet-stream")]
     else [])

/-- The header lines written for a field, each with its line end. -/
def MultipartField.headerBytes (f : MultipartField) : List Nat :=
  utf8Bytes "Content-Disposition: " ++ f.disposition ++ [13, 10] ++
    (if f.IsFile then utf8Bytes "Content-Type: application/octet-stream\x0d\n" else [])

/-- The bytes from the end of a part's content on: for every further field the line
end, the boundary line, the header lines, the blank line and the content, then the line
end and the closing boundary line. -/
def partsTail (boundary : List Nat) : List MultipartField → List Nat
  | [] => [13, 10, 45, 45] ++ boundary ++ [45, 45, 13, 10]
  | f :: fs =>
    [13, 10, 45, 45] ++ boundary ++ [13, 10] ++ f.headerBytes ++ [13, 10] ++ f.written.2.2 ++
      partsTail boundary fs

/-- The body for a list of fields: the first boundary line has no line end before it. -/
def multipartBody (boundary : List Nat) (fields : List MultipartField) : List Nat :=
  match fields with
  | [] => partsTail boundary []
  | _ :: _ => (partsTail boundary fields).drop 2

/-! ## Test doubles

Concrete surroundings to run the model in, in the manner of the repository's tests. -/

/-- What `%v` prints for an element of a type without formatting methods, as far as the
runs below need it: a string as it is, an integer in base 10, a boolean as `true` or
`false`; the elements of the slices below are of no other kind. -/
def plainVerbV : GoValue → String
  | .string s => s
  | .int _ n => sprintf_d n
  | .uint _ n => Nat.repr n
  | .bool b => sprintf_t b
  | _ => ""

/-- A stand-in for the standard library, for runs whose result does not depend on it:
every float renders as `0.000000`, `%v` prints elements of the predeclared types,
`json.Marshal` returns `{}`, every time formats as
the zero time, every request is accepted and the boundary is fixed. -/
def stubLib : Lib :=
  { sprintf_f := fun _ => "0.000000"
    sprintf_v := plainVerbV
    jsonMarshal := fun _ => .ok "{}"
    formatRFC3339 := fun _ => "0001-01-01T00:00:00Z"
    newRequestError := fun _ _ => none
    boundary := "boundary" }

/-- An exported struct field with the given name and `url` tag, as the structs of
`TestBuildQueryString` declare them. -/
def urlField (name tag : String) : StructField :=
  { Name := name, PkgPath := "", Tag := [("url", tag)] }

/-- The zero value `time.Time{}`: January 1, year 1, 00:00:00 UTC. -/
def zeroTime : Time :=
  { unixSec := -62135596800, nsec := 0, offset := 0 }

/-- A client pointed at a test server (as `httptest.NewServer` in the tests) that
answers every request with the same response. -/
def testClient (resp : Response) : Client :=
  { httpClient := { Timeout := 30000000000, Do := fun _ => .ok resp }
    baseURL := "http://127.0.0.1:8080"
    apiKey := "test-key" }

/-- A process with the given values of the environment variables `KEYWORDSAI_API_KEY`
and `KEYWORDS_BASE_URL` (as `t.Setenv` in `TestNew`; `""` for an unset variable) and no
network. -/
def testProcess (apiKey baseURL : String) : Process :=
  { Getenv := fun name =>
      if name = "KEYWORDSAI_API_KEY" then apiKey
      else if name = "KEYWORDS_BASE_URL" then baseURL
      else ""
    defaultDo := fun _ => .error "no network" }

/-- A standard library whose `json.Marshal` answers every call with the JSON text of
the `Filter` value of `TestBuildQueryString`, `{"Name":"test"}`. -/
def filterLib : Lib :=
  { sprintf_f := fun _ => "0.000000"
    sprintf_v := plainVerbV
    jsonMarshal := fun _ => .ok "\x7b\"Name\":\"test\"\x7d"
    formatRFC3339 := fun _ => "0001-01-01T00:00:00Z"
    newRequestError := fun _ _ => none
    boundary := "boundary" }

/-- A standard library whose `json.Marshal` fails on every value, as it does on a map
or struct that holds a channel or a function. -/
def failingLib : Lib :=
  { sprintf_f := fun _ => "0.000000"
    sprintf_v := plainVerbV
    jsonMarshal := fun _ => .error "json: unsupported type: chan int"
    formatRFC3339 := fun _ => "0001-01-01T00:00:00Z"
    newRequestError := fun _ _ => none
    boundary := "boundary" }

/-- A standard library that formats times as Go does. -/
def timeLib : Lib :=
  { sprintf_f := fun _ => "0.000000"
    sprintf_v := plainVerbV
    jsonMarshal := fun _ => .ok "\x7b\x7d"
    formatRFC3339 := formatRFC3339
    newRequestError := fun _ _ => none
    boundary := "boundary" }

/-- Destinations that accept no body. -/
def noDests : Dests :=
  { logsResponse := fun _ => .error "unexpected end of JSON input"
    requestLog := fun _ => .error "unexpected end of JSON input"
    threads := fun _ => .error "unexpected end of JSON input"
    prompt := fun _ => .error "unexpected end of JSON input"
    prompts := fun _ => .error "unexpected end of JSON input"
    promptVersion := fun _ => .error "unexpected end of JSON input"
    promptVersions := fun _ => .error "unexpected end of JSON input"
    models := fun _ => .error "unexpected end of JSON input"
    temporaryKey := fun _ => .error "unexpected end of JSON input"
    temporaryKeys := fun _ => .error "unexpected end of JSON input"
    sttResponse := fun _ => .error "unexpected end of JSON input"
    embeddingResponse := fun _ => .error "unexpected end of JSON input" }

/-- A standard library whose `json.Marshal` answers every call with the JSON text of
the map `{"customer_identifier": "customer-1"}`. -/
def threadsLib : Lib :=
  { sprintf_f := fun _ => "0.000000"
    sprintf_v := plainVerbV
    jsonMarshal := fun _ => .ok "\x7b\"customer_identifier\":\"customer-1\"\x7d"
    formatRFC3339 := fun _ => "0001-01-01T00:00:00Z"
    newRequestError := fun _ _ => none
    boundary := "boundary" }

/-- Destinations whose decoder of `[]types.Model` reads the body `[{"id":"gpt-4"}]` as
a slice of one model (shown as a struct with its `ID` alone) and accepts no other
body. -/
def modelDests : Dests :=
  { noDests with
    models := fun body =>
      if body = "[\x7b\"id\":\"gpt-4\"\x7d]" then
        .ok (GoValue.slice (some [GoValue.struct [(jsonField "ID" "id", GoValue.string "gpt-4")]]))
      else .error "unexpected end of JSON input" }

/-- Conversions that know one float, the zero: it is written `0`, and every number is
read as it. -/
def zeroStrconv : Strconv :=
  { formatFloat := fun f => if f.bits = 0 then some "0" else none
    parseFloat := fun _ => some { bits := 0 } }

/-- A destination of the type `T` that follows the model of the decoder, and answers
with an error on the bodies the model does not cover. -/
def strictDest (sc : Strconv) (T : JType) : Dest :=
  fun body =>
    match decodeBody sc T body with
    | Decoded.ok v => .ok v
    | Decoded.error => .error "json: cannot unmarshal the body"
    | Decoded.outside => .error "json: body outside the model"

/-- A `types.STTResponse` with the given `Text`, `Language` and `Metadata`, and a
`Duration` of 0. -/
def sttValue (text language : String) (metadata : GoValue) : GoValue :=
  GoValue.struct
    [(jsonField "Text" "text", GoValue.string text),
     (jsonField "Language" "language,omitempty", GoValue.string language),
     (jsonField "Duration" "duration,omitempty", GoValue.float FloatWidth.w64 { bits := 0 }),
     (jsonField "Metadata" "metadata,omitempty", metadata)]

/-- A `types.Prompt` with the ID `p`, the name `n`, no description, the given
`CreatedAt` and the zero time for `UpdatedAt`. -/
def promptValue (createdAt : Time) : GoValue :=
  GoValue.struct
    [(jsonField "ID" "id", GoValue.string "p"),
     (jsonField "Name" "name", GoValue.string "n"),
     (jsonField "Description" "description,omitempty", GoValue.ptr none),
     (jsonField "CreatedAt" "created_at", GoValue.time createdAt),
     (jsonField "UpdatedAt" "updated_at", GoValue.time zeroTime)]

/-- The fields of `TestPostMultipart`: the text field `model=whisper-1` and the file
field `audio` holding `test audio data`, the file under the given name. -/
def audioFields (filename : String) : List MultipartField :=
  [{ Name := "model", Value := "whisper-1", IsFile := false, FileName := "", Data := [] },
   { Name := "audio", Value := "", IsFile := true, FileName := filename,
     Data := utf8Bytes "test audio data" }]

/-- What a reader finds in the bodies of the requests sent: per request the parts as
`multipart.Part.read` shows them, nothing for a body that cannot be read. -/
def readSent (boundary : String) (out : Outcome) :
    List (Option (List (List Nat × List Nat × List Nat))) :=
  out.sent.map (fun req =>
    (req.Body.bind (multipart.readParts (utf8Bytes boundary))).map
      (List.map multipart.Part.read))

/-! ## The error decoder -/

theorem decodeField_statusCode (e : APIError) (f : APIErrorField) (v : JSON)
    (hf : f ≠ APIErrorField.StatusCode) : (decodeField e f v).1.StatusCode = e.StatusCode := by
  cases f <;> cases v <;> simp_all [decodeField]

theorem decodeMember_statusCode (st : APIError × Bool) (m : String × JSON)
    (hm : lookupField m.1 ≠ some APIErrorField.StatusCode) :
    (decodeMember st m).1.StatusCode = st.1.StatusCode := by
  unfold decodeMember
  cases h : lookupField m.1 with
  | none => rfl
  | some f =>
    have hf : f ≠ APIErrorField.StatusCode := by
      intro hEq; apply hm; rw [h, hEq]
    simpa using decodeField_statusCode st.1 f m.2 hf

theorem foldl_decodeMember_statusCode (ms : List (String × JSON)) (st : APIError × Bool)
    (hms : ∀ m ∈ ms, lookupField m.1 ≠ some APIErrorField.StatusCode) :
    (ms.foldl decodeMember st).1.StatusCode = st.1.StatusCode := by
  induction ms generalizing st with
  | nil => rfl
  | cons m rest ih =>
    rw [List.foldl_cons, ih _ (fun x hx => hms x (List.mem_cons_of_mem _ hx)),
      decodeMember_statusCode st m (hms m (List.mem_cons_self _ _))]

theorem jsonUnmarshal_statusCode (data : String) (dst : APIError)
    (h : ∀ ms, parseJSON data = some (JSON.object ms) →
      ∀ m ∈ ms, lookupField m.1 ≠ some APIErrorField.StatusCode) :
    (jsonUnmarshal data dst).1.StatusCode = dst.StatusCode := by
  unfold jsonUnmarshal
  cases hp : parseJSON data with
  | none => rfl
  | some v =>
    cases v with
    | object ms => exact foldl_decodeMember_statusCode ms (dst, false) (h ms hp)
    | _ => rfl

/-- C1 (as stated, refuted): for the status 400 and the body `{"status_code":999}`,
`parseAPIError` returns an `*APIError` whose `StatusCode` is 999, not the HTTP status. -/
theorem parseAPIError_statusCode_overridden :
    parseAPIError 400 "\x7b\"status_code\":999\x7d" =
        some (Error.api { StatusCode := 999, ErrorText := "", Message := "", Details := "" }) ∧
      ¬ ∃ e : APIError, parseAPIError 400 "\x7b\"status_code\":999\x7d" = some (Error.api e) ∧
          e.StatusCode = 400 := by
  have h : parseAPIError 400 "\x7b\"status_code\":999\x7d" =
      some (Error.api { StatusCode := 999, ErrorText := "", Message := "", Details := "" }) := by
    decide
  refine ⟨h, ?_⟩
  rintro ⟨e, he, hs⟩
  rw [h] at he
  injection he with he
  injection he with he
  subst he
  exact absurd hs (by decide)

theorem parseAPIError_cases (s : Int) (b : String) :
    ∃ e : APIError, parseAPIError s b = some (Error.api e) ∧
      ((∀ ms, parseJSON b = some (JSON.object ms) →
          ∀ m ∈ ms, lookupField m.1 ≠ some APIErrorField.StatusCode) →
        e.StatusCode = s) := by
  unfold parseAPIError
  by_cases hr : (jsonUnmarshal b
      { StatusCode := s, ErrorText := "", Message := "", Details := "" }).2 = true
  · exact ⟨{ StatusCode := s, ErrorText := b, Message := "", Details := "" }, by simp [hr],
      fun _ => rfl⟩
  · refine ⟨(jsonUnmarshal b
      { StatusCode := s, ErrorText := "", Message := "", Details := "" }).1, by simp [hr], ?_⟩
    intro h
    exact jsonUnmarshal_statusCode b _ h

/-- C1 (amended): for every status `s` and body `b`, `parseAPIError s b` is a non-nil
`*APIError`; its `StatusCode` is `s` whenever `b` is not a JSON object carrying a member
whose key names the `status_code` field (that is: `b` is no valid JSON, is a JSON value
that is no object, or is an object without such a member). -/
theorem parseAPIError_statusCode (s : Int) (b : String) :
    ∃ e : APIError, parseAPIError s b = some (Error.api e) ∧
      ((∀ ms, parseJSON b = some (JSON.object ms) →
          ∀ m ∈ ms, lookupField m.1 ≠ some APIErrorField.StatusCode) →
        e.StatusCode = s) :=
  parseAPIError_cases s b

/-- Witness of C1 (amended) at the status 500 and the body `Internal server error`. -/
theorem parseAPIError_statusCode_witness :
    ∃ e : APIError, parseAPIError 500 "Internal server error" = some (Error.api e) ∧
      e.StatusCode = 500 := by
  obtain ⟨e, he, hs⟩ := parseAPIError_statusCode 500 "Internal server error"
  refine ⟨e, he, hs ?_⟩
  intro ms hms
  have hnone : parseJSON "Internal server error" = none := rfl
  rw [hnone] at hms
  exact absurd hms (by simp)

/-- C2: the rendering `Error()` of an `APIError` is `KeywordsAI API error (status N): M`
with `M` the message when it is non-empty, otherwise with `M` the error text when that
is non-empty, otherwise `KeywordsAI API error (status N)`; `N` is the status code in
base 10 (`-` and the decimal digits of the absolute value), and `Details` plays no part. -/
theorem APIError_Error_rendering (e : APIError) :
    (e.Message ≠ "" →
      e.Error = "KeywordsAI API error (status " ++ sprintf_d e.StatusCode ++ "): " ++ e.Message) ∧
    (e.Message = "" → e.ErrorText ≠ "" →
      e.Error =
        "KeywordsAI API error (status " ++ sprintf_d e.StatusCode ++ "): " ++ e.ErrorText) ∧
    (e.Message = "" → e.ErrorText = "" →
      e.Error = "KeywordsAI API error (status " ++ sprintf_d e.StatusCode ++ ")") ∧
    (∀ d : String, ({ e with Details := d } : APIError).Error = e.Error) ∧
    sprintf_d e.StatusCode =
      (if e.StatusCode < 0 then "-" else "") ++
        String.mk (Nat.toDigits 10 e.StatusCode.natAbs) := by
  refine ⟨?_, ?_, ?_, ?_, ?_⟩
  · intro h; simp [APIError.Error, h]
  · intro h1 h2; simp [APIError.Error, h1, h2]
  · intro h1 h2; simp [APIError.Error, h1, h2]
  · intro d; rfl
  · cases h : e.StatusCode with
    | ofNat m =>
      have : ¬ (Int.ofNat m < 0) := by simp
      simp only [sprintf_d, this, if_false]
      show Nat.repr m = "" ++ String.mk (Nat.toDigits 10 m)
      simp [Nat.repr, List.asString]
    | negSucc m =>
      have : Int.negSucc m < 0 := Int.negSucc_lt_zero m
      simp only [sprintf_d, this, if_true]
      show "-" ++ Nat.repr (m + 1) = "-" ++ String.mk (Nat.toDigits 10 (m + 1))
      simp [Nat.repr, List.asString]

/-- Witness of C2: a 400 error with both texts renders with the message. -/
theorem APIError_Error_rendering_witness :
    ("Invalid input" : String) ≠ "" ∧
      APIError.Error
          { StatusCode := 400, ErrorText := "Bad request", Message := "Invalid input",
            Details := "" } =
        "KeywordsAI API error (status " ++ sprintf_d 400 ++ "): " ++ "Invalid input" :=
  ⟨by decide,
   (APIError_Error_rendering
      { StatusCode := 400, ErrorText := "Bad request", Message := "Invalid input",
        Details := "" }).1 (by decide)⟩

/-- C3: when `json.Unmarshal` returns an error for the body `b` (a syntax error, or a
type error found after other fields were already filled), `parseAPIError s b` is the
`APIError` with `StatusCode = s`, `ErrorText = b` and empty `Message` and `Details`;
it renders as `KeywordsAI API error (status s): b` when `b` is not empty. -/
theorem parseAPIError_fallback (s : Int) (b : String)
    (hfail : (jsonUnmarshal b { StatusCode := s, ErrorText := "", Message := "", Details := "" }).2 = true) :
    parseAPIError s b =
        some (Error.api { StatusCode := s, ErrorText := b, Message := "", Details := "" }) ∧
      (b ≠ "" →
        APIError.Error { StatusCode := s, ErrorText := b, Message := "", Details := "" } =
          "KeywordsAI API error (status " ++ sprintf_d s ++ "): " ++ b) := by
  constructor
  · simp [parseAPIError, hfail]
  · intro hb
    simp [APIError.Error, hb]

/-- Witness of C3: the body `{"message":"hi","error":5}` fills `Message` and then fails
on `error`; the decoded error keeps nothing of the partial result. -/
theorem parseAPIError_fallback_witness :
    (jsonUnmarshal "\x7b\"message\":\"hi\",\"error\":5\x7d"
        { StatusCode := 502, ErrorText := "", Message := "", Details := "" }).1.Message = "hi" ∧
      parseAPIError 502 "\x7b\"message\":\"hi\",\"error\":5\x7d" =
        some (Error.api { StatusCode := 502, ErrorText := "\x7b\"message\":\"hi\",\"error\":5\x7d",
                          Message := "", Details := "" }) :=
  ⟨by decide, (parseAPIError_fallback 502 "\x7b\"message\":\"hi\",\"error\":5\x7d" (by decide)).1⟩

/-! ## The request pipeline -/

theorem parseAPIError_isApi (s : Int) (b : String) :
    ∃ e : APIError, parseAPIError s b = some (Error.api e) := by
  obtain ⟨e, he, _⟩ := parseAPIError_cases s b
  exact ⟨e, he⟩

theorem send_sent (c : Client) (r : Request) (result : Option Dest) :
    (c.send r result).sent = [r] := by
  unfold Client.send
  cases c.httpClient.Do r with
  | error err => rfl
  | ok resp =>
    by_cases hs : resp.StatusCode ≥ 400
    · simp [hs]
    · cases result with
      | none => simp [hs]
      | some decode => cases hd : decode resp.Body <;> simp [hs, hd, Outcome.fail]

theorem send_spec (c : Client) (req : Request) (result : Option Dest) (resp : Response)
    (hresp : c.httpClient.Do req = .ok resp) :
    ((c.send req result).err = parseAPIError resp.StatusCode resp.Body ↔
        resp.StatusCode ≥ 400) ∧
      (resp.StatusCode < 400 → ∀ e : APIError, (c.send req result).err ≠ some (Error.api e)) := by
  obtain ⟨e0, he0⟩ := parseAPIError_isApi resp.StatusCode resp.Body
  unfold Client.send
  rw [hresp]
  by_cases hs : resp.StatusCode ≥ 400
  · refine ⟨by simp [hs], fun hlt => absurd hs (by omega)⟩
  · cases result with
    | none => simp [hs, he0]
    | some decode =>
      cases hd : decode resp.Body <;> simp [hs, hd, he0, Outcome.fail]

theorem do_sent (lib : Lib) (c : Client) (method path : String) (body : Option GoValue)
    (result : Option Dest) (req : Request)
    (hsent : (c.do lib method path body result).sent = [req]) :
    c.do lib method path body result = c.send req result := by
  unfold Client.do at hsent ⊢
  cases body with
  | none =>
    cases hn : lib.newRequestError method (c.baseURL ++ path) with
    | some err => simp [hn, Outcome.fail] at hsent
    | none =>
      simp only [hn] at hsent ⊢
      rw [send_sent] at hsent
      simp only [List.cons.injEq, and_true] at hsent
      rw [hsent]
  | some b =>
    cases hm : lib.jsonMarshal b with
    | error err => simp [hm, Outcome.fail] at hsent
    | ok jsonBody =>
      cases hn : lib.newRequestError method (c.baseURL ++ path) with
      | some err => simp [hm, hn, Outcome.fail] at hsent
      | none =>
        simp only [hm, hn] at hsent ⊢
        rw [send_sent] at hsent
        simp only [List.cons.injEq, and_true] at hsent
        rw [hsent]

theorem PostMultipart_sent (lib : Lib) (c : Client) (path : String)
    (fields : List MultipartField) (result : Option Dest) (req : Request)
    (hsent : (c.PostMultipart lib path fields result).sent = [req]) :
    c.PostMultipart lib path fields result = c.send req result := by
  unfold Client.PostMultipart at hsent ⊢
  cases hw : writeFields (MultipartWriter.new lib) fields with
  | error err => simp [hw, Outcome.fail] at hsent
  | ok w =>
    simp only [hw] at hsent ⊢
    cases hc : w.Close with
    | error err => simp [hc, Outcome.fail] at hsent
    | ok writer =>
      simp only [hc] at hsent ⊢
      cases hn : lib.newRequestError "POST" (c.baseURL ++ path) with
      | some err => simp [hn, Outcome.fail] at hsent
      | none =>
        simp only [hn] at hsent ⊢
        rw [send_sent] at hsent
        simp only [List.cons.injEq, and_true] at hsent
        rw [hsent]

/-- C4: when `Client.do` or `Client.PostMultipart` hands a request to the transport and
the transport answers it with a response, the call returns the error
`parseAPIError(status, body)` if and only if the status is 400 or more, and for a status
below 400 the returned error is no `*APIError`. -/
theorem apiError_iff_status_ge_400 (lib : Lib) (c : Client) (req : Request) (resp : Response)
    (result : Option Dest) (hresp : c.httpClient.Do req = .ok resp) :
    (∀ (method path : String) (body : Option GoValue),
      (c.do lib method path body result).sent = [req] →
        (((c.do lib method path body result).err =
            parseAPIError resp.StatusCode resp.Body ↔ resp.StatusCode ≥ 400) ∧
          (resp.StatusCode < 400 →
            ∀ e : APIError, (c.do lib method path body result).err ≠ some (Error.api e)))) ∧
    (∀ (path : String) (fields : List MultipartField),
      (c.PostMultipart lib path fields result).sent = [req] →
        (((c.PostMultipart lib path fields result).err =
            parseAPIError resp.StatusCode resp.Body ↔ resp.StatusCode ≥ 400) ∧
          (resp.StatusCode < 400 →
            ∀ e : APIError,
              (c.PostMultipart lib path fields result).err ≠ some (Error.api e)))) := by
  constructor
  · intro method path body hsent
    rw [do_sent lib c method path body result req hsent]
    exact send_spec c req result resp hresp
  · intro path fields hsent
    rw [PostMultipart_sent lib c path fields result req hsent]
    exact send_spec c req result resp hresp

/-- Witness of C4: against a server answering 400 with the body `{"error":"Invalid file"}`
(as in `TestPostMultipartError`), a GET through `Client.do` fails with the decoded error. -/
theorem apiError_iff_status_ge_400_witness :
    ((testClient { StatusCode := 400, Body := "\x7b\"error\":\"Invalid file\"\x7d" }).do stubLib
        "GET" "/test" none none).err =
      parseAPIError 400 "\x7b\"error\":\"Invalid file\"\x7d" :=
  (((apiError_iff_status_ge_400 stubLib
      (testClient { StatusCode := 400, Body := "\x7b\"error\":\"Invalid file\"\x7d" })
      { Method := "GET", URL := "http://127.0.0.1:8080/test",
        Header := [("Authorization", "Bearer test-key"), ("Content-Type", "application/json"),
                   ("Accept", "application/json")],
        Body := none }
      { StatusCode := 400, Body := "\x7b\"error\":\"Invalid file\"\x7d" } none rfl).1
      "GET" "/test" none (by decide)).1).mpr (by decide)

theorem do_err (lib : Lib) (c : Client) (method path : String) (body : Option GoValue)
    (result : Option Dest) (req : Request) (resp : Response)
    (hsent : (c.do lib method path body result).sent = [req])
    (hresp : c.httpClient.Do req = .ok resp) (hs : resp.StatusCode ≥ 400) :
    (c.do lib method path body result).err = parseAPIError resp.StatusCode resp.Body := by
  rw [do_sent lib c method path body result req hsent]
  exact (send_spec c req result resp hresp).1.mpr hs

theorem PostMultipart_err (lib : Lib) (c : Client) (path : String)
    (fields : List MultipartField) (result : Option Dest) (req : Request) (resp : Response)
    (hsent : (c.PostMultipart lib path fields result).sent = [req])
    (hresp : c.httpClient.Do req = .ok resp) (hs : resp.StatusCode ≥ 400) :
    (c.PostMultipart lib path fields result).err = parseAPIError resp.StatusCode resp.Body := by
  rw [PostMultipart_sent lib c path fields result req hsent]
  exact (send_spec c req result resp hresp).1.mpr hs

theorem GetWithQuery_err (lib : Lib) (c : Client) (path : String) (query : Option GoValue)
    (result : Option Dest) (req : Request) (resp : Response)
    (hsent : (c.GetWithQuery lib path query result).sent = [req])
    (hresp : c.httpClient.Do req = .ok resp) (hs : resp.StatusCode ≥ 400) :
    (c.GetWithQuery lib path query result).err = parseAPIError resp.StatusCode resp.Body := by
  unfold Client.GetWithQuery at hsent ⊢
  cases query with
  | none => exact do_err _ _ _ _ _ _ _ _ hsent hresp hs
  | some q =>
    cases hq : BuildQueryString lib (some q) with
    | error p => simp [hq, Outcome.fail] at hsent
    | ok qs =>
      simp only [hq] at hsent ⊢
      by_cases he : qs ≠ ""
      · rw [if_pos he] at hsent ⊢
        exact do_err _ _ _ _ _ _ _ _ hsent hresp hs
      · rw [if_neg he] at hsent ⊢
        exact do_err _ _ _ _ _ _ _ _ hsent hresp hs

theorem TextToSpeech_err (lib : Lib) (c : Client) (r : GoValue) (req : Request) (resp : Response)
    (hsent : (integrations.TextToSpeech lib c r).sent = [req])
    (hresp : c.httpClient.Do req = .ok resp) (hs : resp.StatusCode ≥ 400) :
    (integrations.TextToSpeech lib c r).err =
      some (Error.plain
        ("API error: status=" ++ sprintf_d resp.StatusCode ++ ", body=" ++ resp.Body)) := by
  unfold integrations.TextToSpeech at hsent ⊢
  cases hn : lib.newRequestError "POST" (c.BaseURL ++ "/api/audio/speech") with
  | some err => simp [hn, Outcome.fail] at hsent
  | none =>
    simp only [hn, Client.HTTPClient] at hsent ⊢
    generalize ({ Method := "POST", URL := _, Header := _, Body := _ } : Request) = httpReq
      at hsent ⊢
    have hreq : httpReq = req := by
      cases hd : c.httpClient.Do httpReq with
      | error err => simpa [hd, Outcome.fail] using hsent
      | ok resp1 =>
        by_cases hs1 : resp1.StatusCode ≥ 400
        · simpa [hd, hs1, Outcome.fail] using hsent
        · simpa [hd, hs1] using hsent
    subst hreq
    simp [hresp, hs, Outcome.fail]

/-- C5 (the code diverges): against a server answering 500 with the body
`Internal server error`, `TextToSpeech` sends its request and fails with the plain error
`API error: status=500, body=Internal server error`; whatever the standard library does,
the error it returns is no `*APIError`, which is what every other operation returns on
such a response. -/
theorem TextToSpeech_error_is_not_APIError :
    (integrations.TextToSpeech stubLib
        (testClient { StatusCode := 500, Body := "Internal server error" })
        (GoValue.ptr none)).err =
      some (Error.plain "API error: status=500, body=Internal server error") ∧
    (integrations.TextToSpeech stubLib
        (testClient { StatusCode := 500, Body := "Internal server error" })
        (GoValue.ptr none)).sent.length = 1 ∧
    ¬ ∃ (lib : Lib) (e : APIError),
        (integrations.TextToSpeech lib
          (testClient { StatusCode := 500, Body := "Internal server error" })
          (GoValue.ptr none)).err = some (Error.api e) := by
  refine ⟨by decide, by decide, ?_⟩
  rintro ⟨lib, e, he⟩
  unfold integrations.TextToSpeech at he
  cases hn : lib.newRequestError "POST"
      ((testClient { StatusCode := 500, Body := "Internal server error" }).BaseURL ++
        "/api/audio/speech") with
  | some err => simp [hn, Outcome.fail] at he
  | none =>
    simp only [hn] at he
    simp [Outcome.fail, testClient, Client.HTTPClient] at he

/-- C5, what the code computes:
when an operation of a resource service has handed its request to the
transport and the response has a status of 400 or more, every operation other than
`TextToSpeech` fails with the `*APIError` that `parseAPIError` decodes from the status
and the body (its `StatusCode` is the response status unless the body is a JSON object
with a `status_code` member); `TextToSpeech`, which handles its response itself, fails
with the plain error `API error: status=N, body=B`. -/
theorem service_error_on_status_ge_400 (lib : Lib) (d : Dests) (c : Client) (op : Operation)
    (req : Request) (resp : Response)
    (hsent : (op.run lib d c).sent = [req]) (hresp : c.httpClient.Do req = .ok resp)
    (hs : resp.StatusCode ≥ 400) :
    ((∀ r : GoValue, op ≠ Operation.textToSpeech r) →
      (op.run lib d c).err = parseAPIError resp.StatusCode resp.Body ∧
      ∃ e : APIError, (op.run lib d c).err = some (Error.api e) ∧
        ((∀ ms, parseJSON resp.Body = some (JSON.object ms) →
            ∀ m ∈ ms, lookupField m.1 ≠ some APIErrorField.StatusCode) →
          e.StatusCode = resp.StatusCode)) ∧
    (∀ r : GoValue, op = Operation.textToSpeech r →
      (op.run lib d c).err =
        some (Error.plain
          ("API error: status=" ++ sprintf_d resp.StatusCode ++ ", body=" ++ resp.Body))) := by
  have key : (∀ r : GoValue, op ≠ Operation.textToSpeech r) →
      (op.run lib d c).err = parseAPIError resp.StatusCode resp.Body := by
    intro hop
    cases op with
    | textToSpeech r => exact absurd rfl (hop r)
    | logsBatchCreate ls =>
      simp only [Operation.run, logs.BatchCreate] at hsent ⊢
      by_cases hlen : (ls.getD []).length > 5000
      · rw [if_pos hlen] at hsent
        simp [Outcome.fail] at hsent
      · rw [if_neg hlen] at hsent ⊢
        exact do_err _ _ _ _ _ _ _ _ hsent hresp hs
    | logsListThreads cid =>
      simp only [Operation.run, logs.ListThreads] at hsent ⊢
      by_cases hc : cid ≠ ""
      · rw [if_pos hc] at hsent ⊢
        exact do_err _ _ _ _ _ _ _ _ hsent hresp hs
      · rw [if_neg hc] at hsent ⊢
        exact do_err _ _ _ _ _ _ _ _ hsent hresp hs
    | logsList filter => exact GetWithQuery_err _ _ _ _ _ _ _ hsent hresp hs
    | speechToText audio r => exact PostMultipart_err _ _ _ _ _ _ _ hsent hresp hs
    | _ => exact do_err _ _ _ _ _ _ _ _ hsent hresp hs
  constructor
  · intro hop
    refine ⟨key hop, ?_⟩
    obtain ⟨e, he, hsc⟩ := parseAPIError_cases resp.StatusCode resp.Body
    exact ⟨e, by rw [key hop, he], hsc⟩
  · intro r hr
    subst hr
    exact TextToSpeech_err lib c r req resp hsent hresp hs

/-- C5, an instance of what the code computes:
`models.List` against a server answering 401 with the body
`{"error":"Unauthorized"}` fails with the decoded `*APIError`. -/
theorem service_error_on_status_ge_400_witness :
    (Operation.run stubLib
        { logsResponse := fun _ => .ok (GoValue.ptr none), requestLog := fun _ => .ok (GoValue.ptr none),
          threads := fun _ => .ok (GoValue.ptr none), prompt := fun _ => .ok (GoValue.ptr none),
          prompts := fun _ => .ok (GoValue.ptr none), promptVersion := fun _ => .ok (GoValue.ptr none),
          promptVersions := fun _ => .ok (GoValue.ptr none), models := fun _ => .ok (GoValue.ptr none),
          temporaryKey := fun _ => .ok (GoValue.ptr none), temporaryKeys := fun _ => .ok (GoValue.ptr none),
          sttResponse := fun _ => .ok (GoValue.ptr none), embeddingResponse := fun _ => .ok (GoValue.ptr none) }
        (testClient { StatusCode := 401, Body := "\x7b\"error\":\"Unauthorized\"\x7d" })
        Operation.modelsList).err =
      parseAPIError 401 "\x7b\"error\":\"Unauthorized\"\x7d" :=
  ((service_error_on_status_ge_400 stubLib _
      (testClient { StatusCode := 401, Body := "\x7b\"error\":\"Unauthorized\"\x7d" })
      Operation.modelsList
      { Method := "GET", URL := "http://127.0.0.1:8080/api/models",
        Header := [("Authorization", "Bearer test-key"), ("Content-Type", "application/json"),
                   ("Accept", "application/json")],
        Body := none }
      { StatusCode := 401, Body := "\x7b\"error\":\"Unauthorized\"\x7d" }
      (by decide) rfl (by decide)).1 (by intro r h; cases h)).1

/-! ## The query encoder: the loop body never panics -/

theorem isEmptyValue_of (g : GoValue) : isEmptyValue (Value.of g) = .ok g.isEmpty := by
  cases g with
  | int width n => cases width <;> rfl
  | uint width n => cases width <;> rfl
  | float width f => cases width <;> rfl
  | complex wide => cases wide <;> rfl
  | map m => cases m <;> rfl
  | slice es => cases es <;> rfl
  | _ => rfl

theorem unwrapPtr_of (g : GoValue) : unwrapPtr (Value.of g) = .ok (Value.of g.unwrapped) := by
  cases g with
  | int width n => cases width <;> rfl
  | uint width n => cases width <;> rfl
  | float width f => cases width <;> rfl
  | complex wide => cases wide <;> rfl
  | ptr t => cases t <;> rfl
  | _ => rfl

theorem renderField_of (lib : Lib) (values : Values) (name : String) (g : GoValue) :
    renderField lib values name (Value.of g) = .ok (rendered lib values name g) := by
  cases g with
  | int width n => cases width <;> rfl
  | uint width n => cases width <;> rfl
  | float width f => cases width <;> rfl
  | complex wide => cases wide <;> rfl
  | slice es => cases es <;> rfl
  | struct fs =>
    cases h : lib.jsonMarshal (GoValue.struct fs) <;>
      simp [renderField, Value.Kind, GoValue.Kind, Value.isTime, rendered, Value.Interface,
        Except.bind, Except.map, h]
  | map m =>
    cases h : lib.jsonMarshal (GoValue.map m) <;>
      simp [renderField, Value.Kind, GoValue.Kind, Value.isTime, rendered, Value.Interface,
        Except.bind, Except.map, h]
  | _ => rfl

theorem splitOnChar_ne_nil (sep : Char) (cs cur : List Char) : splitOnChar sep cs cur ≠ [] := by
  induction cs generalizing cur with
  | nil => simp [splitOnChar]
  | cons c rest ih =>
    unfold splitOnChar
    split
    · simp
    · exact ih _

theorem fieldStep_eq (lib : Lib) (values : Values) (fv : StructField × GoValue) :
    fieldStep lib values fv = .ok (fieldStepResult lib values fv) := by
  unfold fieldStep fieldStepResult paramName
  by_cases hp : fv.1.PkgPath ≠ ""
  · simp [hp]
  · by_cases ht : fv.1.Tag.Get "url" = "" ∨ fv.1.Tag.Get "url" = "-"
    · simp [hp, ht]
    · simp only [hp, ht, if_false]
      cases hsplit : stringsSplitComma (fv.1.Tag.Get "url") with
      | nil => exact absurd hsplit (splitOnChar_ne_nil _ _ _)
      | cons name rest =>
        have h0 : indexString (name :: rest) 0 = .ok name := by simp [indexString]
        have hom : omitted (name :: rest) (Value.of fv.2) =
            .ok (hasOmitEmpty fv.1 && fv.2.isEmpty) := by
          unfold omitted hasOmitEmpty
          rw [hsplit]
          cases rest with
          | nil => simp
          | cons part rest2 =>
            by_cases hpart : part = "omitempty"
            · simp [indexString, hpart, isEmptyValue_of, Except.bind]
            · simp [indexString, hpart, Except.bind]
        simp only [h0, hom, Except.bind, List.getElem?_cons_zero]
        by_cases hskip : (hasOmitEmpty fv.1 && fv.2.isEmpty) = true
        · simp [hskip]
        · simp only [hskip]
          rw [unwrapPtr_of]
          simp [renderField_of]

theorem fieldLoop_eq (lib : Lib) (fields : List (StructField × GoValue)) (values : Values) :
    fieldLoop lib values fields = .ok (fields.foldl (fieldStepResult lib) values) := by
  induction fields generalizing values with
  | nil => rfl
  | cons fv rest ih =>
    simp only [fieldLoop, fieldStep_eq, Except.bind, List.foldl_cons]
    exact ih _

/-! ## The query encoder: `url.Values` -/

theorem Values.lookup_nil (k : String) : Values.lookup [] k = [] := rfl

theorem Values.lookup_cons (e : String × List String) (rest : Values) (k : String) :
    Values.lookup (e :: rest) k = if e.1 = k then e.2 else Values.lookup rest k := by
  unfold Values.lookup
  by_cases h : e.1 = k <;> simp [List.find?, h]

theorem Values.lookup_of_not_mem (v : Values) (k : String) (h : k ∉ v.map Prod.fst) :
    v.lookup k = [] := by
  induction v with
  | nil => rfl
  | cons e rest ih =>
    rw [Values.lookup_cons]
    simp only [List.map_cons, List.mem_cons, not_or] at h
    rw [if_neg (fun heq => h.1 heq.symm)]
    exact ih h.2

theorem Values.lookup_Set (v : Values) (k x k' : String) :
    (v.Set k x).lookup k' = if k = k' then [x] else v.lookup k' := by
  induction v with
  | nil =>
    simp only [Values.Set, Values.lookup_cons, Values.lookup_nil]
  | cons e rest ih =>
    unfold Values.Set
    by_cases he : e.1 = k
    · simp only [he, if_true, Values.lookup_cons]
      by_cases hk : k = k' <;> simp [hk]
    · simp only [he, if_false, Values.lookup_cons, ih]
      by_cases hk : k = k'
      · subst hk; simp [he]
      · simp [hk]

theorem Values.lookup_Add (v : Values) (k x k' : String) :
    (v.Add k x).lookup k' = if k = k' then v.lookup k' ++ [x] else v.lookup k' := by
  induction v with
  | nil =>
    simp only [Values.Add, Values.lookup_cons, Values.lookup_nil, List.nil_append]
  | cons e rest ih =>
    unfold Values.Add
    by_cases he : e.1 = k
    · simp only [he, if_true, Values.lookup_cons]
      by_cases hk : k = k' <;> simp [hk]
    · simp only [he, if_false, Values.lookup_cons, ih]
      by_cases hk : k = k'
      · subst hk; simp [he]
      · simp [hk]

theorem Values.keys_Set (v : Values) (k x : String) :
    (v.Set k x).map Prod.fst = if k ∈ v.map Prod.fst then v.map Prod.fst
      else v.map Prod.fst ++ [k] := by
  induction v with
  | nil => simp [Values.Set]
  | cons e rest ih =>
    unfold Values.Set
    by_cases he : e.1 = k
    · simp [he]
    · have hne : ¬ k = e.1 := fun h => he h.symm
      simp only [he, if_false, List.map_cons, ih, List.mem_cons, hne, false_or]
      by_cases hm : k ∈ rest.map Prod.fst <;> simp [hm]

theorem Values.keys_Add (v : Values) (k x : String) :
    (v.Add k x).map Prod.fst = if k ∈ v.map Prod.fst then v.map Prod.fst
      else v.map Prod.fst ++ [k] := by
  induction v with
  | nil => simp [Values.Add]
  | cons e rest ih =>
    unfold Values.Add
    by_cases he : e.1 = k
    · simp [he]
    · have hne : ¬ k = e.1 := fun h => he h.symm
      simp only [he, if_false, List.map_cons, ih, List.mem_cons, hne, false_or]
      by_cases hm : k ∈ rest.map Prod.fst <;> simp [hm]

theorem Values.nodup_Set (v : Values) (k x : String) (h : (v.map Prod.fst).Nodup) :
    ((v.Set k x).map Prod.fst).Nodup := by
  rw [Values.keys_Set]
  by_cases hm : k ∈ v.map Prod.fst
  · simpa [hm] using h
  · simp only [hm, if_false]
    exact List.Nodup.append h (List.nodup_singleton k) (by simpa using hm)

theorem Values.nodup_Add (v : Values) (k x : String) (h : (v.map Prod.fst).Nodup) :
    ((v.Add k x).map Prod.fst).Nodup := by
  rw [Values.keys_Add]
  by_cases hm : k ∈ v.map Prod.fst
  · simpa [hm] using h
  · simp only [hm, if_false]
    exact List.Nodup.append h (List.nodup_singleton k) (by simpa using hm)

theorem flatMap_single (l : List String) (k : String) (g : String → List (String × String))
    (hl : l.Nodup) :
    l.flatMap (fun k' => if k' = k then g k' else []) = if k ∈ l then g k else [] := by
  induction l with
  | nil => simp
  | cons a rest ih =>
    rw [List.nodup_cons] at hl
    simp only [List.flatMap_cons, ih hl.2, List.mem_cons]
    by_cases ha : a = k
    · subst ha
      simp [hl.1]
    · have : ¬ k = a := fun h => ha h.symm
      simp [ha, this]

theorem Values.paramsNamed_eq (v : Values) (k : String) (h : (v.map Prod.fst).Nodup) :
    v.paramsNamed k = v.lookup k := by
  unfold Values.paramsNamed Values.params sortStrings
  have hperm := List.perm_insertionSort stringLE (v.map Prod.fst)
  have hnd : ((v.map Prod.fst).insertionSort stringLE).Nodup := hperm.nodup_iff.mpr h
  rw [List.filter_flatMap]
  have hinner : ∀ k' : String,
      ((v.lookup k').map (fun x => (k', x))).filter (fun p => decide (p.1 = k)) =
        if k' = k then (v.lookup k).map (fun x => (k, x)) else [] := by
    intro k'
    by_cases hk : k' = k
    · subst hk
      simp [List.filter_map, Function.comp_def]
    · simp [List.filter_map, Function.comp_def, hk]
  simp only [hinner]
  rw [flatMap_single _ k (fun _ => (v.lookup k).map (fun x => (k, x))) hnd]
  by_cases hm : k ∈ (v.map Prod.fst).insertionSort stringLE
  · simp [hm, Function.comp_def]
  · have hm' : k ∉ v.map Prod.fst := fun hx => hm (hperm.mem_iff.mpr hx)
    simp [hm, Values.lookup_of_not_mem v k hm']

/-! ## The query encoder: what a field contributes -/

theorem foldl_Add_lookup (name k : String) (xs : List String) (v : Values) :
    (xs.foldl (fun vs x => vs.Add name x) v).lookup k =
      if name = k then v.lookup k ++ xs else v.lookup k := by
  induction xs generalizing v with
  | nil => by_cases h : name = k <;> simp [h]
  | cons x rest ih =>
    rw [List.foldl_cons, ih, Values.lookup_Add]
    by_cases h : name = k <;> simp [h]

theorem foldl_Add_nodup (name : String) (xs : List String) (v : Values)
    (h : (v.map Prod.fst).Nodup) :
    ((xs.foldl (fun vs x => vs.Add name x) v).map Prod.fst).Nodup := by
  induction xs generalizing v with
  | nil => exact h
  | cons x rest ih =>
    rw [List.foldl_cons]
    exact ih _ (Values.nodup_Add v name x h)

theorem foldl_Add_map (lib : Lib) (name : String) (es : List GoValue) (v : Values) :
    es.foldl (fun vs e => vs.Add name (sprintf_v lib e)) v =
      (es.map (sprintf_v lib)).foldl (fun vs x => vs.Add name x) v := by
  rw [List.foldl_map]

theorem rendered_lookup_self (lib : Lib) (v : Values) (name : String) (g : GoValue) :
    (rendered lib v name g).lookup name = renderedValues lib (v.lookup name) g := by
  cases g with
  | slice es =>
    simp only [rendered, renderedValues, foldl_Add_map, foldl_Add_lookup, if_true]
  | struct fs =>
    simp only [rendered, renderedValues]
    cases lib.jsonMarshal (GoValue.struct fs) <;> simp [Values.lookup_Set]
  | map m =>
    simp only [rendered, renderedValues]
    cases lib.jsonMarshal (GoValue.map m) <;> simp [Values.lookup_Set]
  | _ => simp [rendered, renderedValues, Values.lookup_Set]

theorem rendered_lookup_other (lib : Lib) (v : Values) (name k : String) (g : GoValue)
    (hk : name ≠ k) : (rendered lib v name g).lookup k = v.lookup k := by
  cases g with
  | slice es =>
    simp only [rendered, foldl_Add_map, foldl_Add_lookup, hk, if_false]
  | struct fs =>
    simp only [rendered]
    cases lib.jsonMarshal (GoValue.struct fs) <;> simp [Values.lookup_Set, hk]
  | map m =>
    simp only [rendered]
    cases lib.jsonMarshal (GoValue.map m) <;> simp [Values.lookup_Set, hk]
  | _ => simp [rendered, Values.lookup_Set, hk]

theorem rendered_nodup (lib : Lib) (v : Values) (name : String) (g : GoValue)
    (h : (v.map Prod.fst).Nodup) : ((rendered lib v name g).map Prod.fst).Nodup := by
  cases g with
  | slice es =>
    simp only [rendered, foldl_Add_map]
    exact foldl_Add_nodup _ _ _ h
  | struct fs =>
    simp only [rendered]
    cases lib.jsonMarshal (GoValue.struct fs)
    · exact h
    · exact Values.nodup_Set _ _ _ h
  | map m =>
    simp only [rendered]
    cases lib.jsonMarshal (GoValue.map m)
    · exact h
    · exact Values.nodup_Set _ _ _ h
  | string s => exact Values.nodup_Set _ _ _ h
  | int width n => exact Values.nodup_Set _ _ _ h
  | bool b => exact Values.nodup_Set _ _ _ h
  | float width f => exact Values.nodup_Set _ _ _ h
  | time t => exact Values.nodup_Set _ _ _ h
  | _ => exact h

theorem fieldStepResult_nodup (lib : Lib) (v : Values) (fv : StructField × GoValue)
    (h : (v.map Prod.fst).Nodup) : ((fieldStepResult lib v fv).map Prod.fst).Nodup := by
  unfold fieldStepResult
  cases paramName fv.1 with
  | none => exact h
  | some name =>
    simp only
    split
    · exact h
    · exact rendered_nodup _ _ _ _ h

theorem fieldStepResult_lookup_other (lib : Lib) (v : Values) (fv : StructField × GoValue)
    (k : String) (hk : paramName fv.1 ≠ some k) :
    (fieldStepResult lib v fv).lookup k = v.lookup k := by
  unfold fieldStepResult
  cases hp : paramName fv.1 with
  | none => rfl
  | some name =>
    have hne : name ≠ k := by
      intro heq
      apply hk
      rw [hp, heq]
    simp only
    split
    · rfl
    · exact rendered_lookup_other _ _ _ _ _ hne

theorem fieldStepResult_lookup_self (lib : Lib) (v : Values) (fv : StructField × GoValue)
    (k : String) (hk : paramName fv.1 = some k) :
    (fieldStepResult lib v fv).lookup k =
      if (hasOmitEmpty fv.1 && fv.2.isEmpty) = true then v.lookup k
      else renderedValues lib (v.lookup k) fv.2.unwrapped := by
  unfold fieldStepResult
  simp only [hk]
  split
  · rfl
  · exact rendered_lookup_self _ _ _ _

theorem loop_nodup (lib : Lib) (fields : List (StructField × GoValue)) (v : Values)
    (h : (v.map Prod.fst).Nodup) :
    ((fields.foldl (fieldStepResult lib) v).map Prod.fst).Nodup := by
  induction fields generalizing v with
  | nil => exact h
  | cons fv rest ih =>
    rw [List.foldl_cons]
    exact ih _ (fieldStepResult_nodup lib v fv h)

theorem loop_lookup_other (lib : Lib) (fields : List (StructField × GoValue)) (v : Values)
    (k : String) (hk : ∀ fv ∈ fields, paramName fv.1 ≠ some k) :
    (fields.foldl (fieldStepResult lib) v).lookup k = v.lookup k := by
  induction fields generalizing v with
  | nil => rfl
  | cons fv rest ih =>
    rw [List.foldl_cons, ih _ (fun x hx => hk x (List.mem_cons_of_mem _ hx)),
      fieldStepResult_lookup_other lib v fv k (hk fv (List.mem_cons_self _ _))]

/-- The parameters a field contributes: in a struct where no other field is encoded
under the same name, the parameters of that name in the output are those the field
renders, or none when `omitempty` applies to an empty value. -/
theorem loop_paramsNamed (lib : Lib) (pre post : List (StructField × GoValue))
    (f : StructField) (g : GoValue) (name : String)
    (hname : paramName f = some name)
    (hother : ∀ fv ∈ pre ++ post, paramName fv.1 ≠ some name) :
    ((pre ++ (f, g) :: post).foldl (fieldStepResult lib) []).paramsNamed name =
      if (hasOmitEmpty f && g.isEmpty) = true then []
      else renderedValues lib [] g.unwrapped := by
  rw [Values.paramsNamed_eq _ _ (loop_nodup lib _ [] List.nodup_nil)]
  rw [List.foldl_append, List.foldl_cons]
  rw [loop_lookup_other lib post _ name
    (fun x hx => hother x (List.mem_append_right _ hx))]
  rw [fieldStepResult_lookup_self lib _ (f, g) name hname]
  rw [loop_lookup_other lib pre [] name
    (fun x hx => hother x (List.mem_append_left _ hx))]
  rfl

/-! ## The query encoder: the order of the output -/

theorem bytesLE_total (a b : List Nat) : bytesLE a b = true ∨ bytesLE b a = true := by
  induction a generalizing b with
  | nil => left; cases b <;> rfl
  | cons x xs ih =>
    cases b with
    | nil => right; rfl
    | cons y ys =>
      unfold bytesLE
      by_cases h1 : x < y
      · simp [h1]
      · by_cases h2 : y < x
        · simp [h2]
        · simpa [h1, h2] using ih ys

theorem bytesLE_trans (a b c : List Nat) (hab : bytesLE a b = true) (hbc : bytesLE b c = true) :
    bytesLE a c = true := by
  induction a generalizing b c with
  | nil => cases c <;> rfl
  | cons x xs ih =>
    cases b with
    | nil => simp [bytesLE] at hab
    | cons y ys =>
      cases c with
      | nil => simp [bytesLE] at hbc
      | cons z zs =>
        unfold bytesLE at hab hbc ⊢
        by_cases hxy : x < y
        · by_cases hyz : y < z
          · have : x < z := by omega
            simp [this]
          · by_cases hzy : z < y
            · simp [hyz, hzy] at hbc
            · have : x < z := by omega
              simp [this]
        · by_cases hyx : y < x
          · simp [hxy, hyx] at hab
          · have hxy' : x = y := by omega
            subst hxy'
            simp only [hxy, if_false] at hab
            by_cases hxz : x < z
            · simp [hxz]
            · by_cases hzx : z < x
              · simp [hxz, hzx] at hbc
              · simp only [hxz, hzx, if_false] at hbc ⊢
                exact ih ys zs hab hbc

theorem stringLE_total : IsTotal String stringLE :=
  ⟨fun a b => bytesLE_total (utf8Bytes a) (utf8Bytes b)⟩

theorem stringLE_trans : IsTrans String stringLE :=
  ⟨fun a b c hab hbc => bytesLE_trans (utf8Bytes a) (utf8Bytes b) (utf8Bytes c) hab hbc⟩

theorem stringLE_refl (a : String) : stringLE a a := by
  rcases bytesLE_total (utf8Bytes a) (utf8Bytes a) with h | h <;> exact h

theorem sorted_flatMap_names (l : List String) (vals : String → List String)
    (hl : List.Sorted stringLE l) :
    List.Sorted stringLE ((l.flatMap (fun k => (vals k).map (fun x => (k, x)))).map Prod.fst) := by
  induction l with
  | nil => simp
  | cons k rest ih =>
    have hl' := List.sorted_cons.mp hl
    simp only [List.flatMap_cons, List.map_append, List.map_map]
    unfold List.Sorted
    rw [List.pairwise_append]
    refine ⟨?_, ih hl'.2, ?_⟩
    · rw [List.pairwise_map]
      exact List.pairwise_of_forall (fun _ _ => stringLE_refl k)
    · intro a ha b hb
      simp only [List.mem_map, Function.comp_apply] at ha
      obtain ⟨_, _, rfl⟩ := ha
      simp only [List.mem_map, List.mem_flatMap] at hb
      obtain ⟨p, ⟨k', hk', hp⟩, rfl⟩ := hb
      obtain ⟨_, _, rfl⟩ := hp
      exact hl'.1 k' hk'

/-- The parameters `Values.Encode` writes are in ascending byte-wise order of name. -/
theorem Values.params_sorted (v : Values) :
    List.Sorted stringLE (v.params.map Prod.fst) := by
  unfold Values.params sortStrings
  haveI := stringLE_total
  haveI := stringLE_trans
  exact sorted_flatMap_names _ _ (List.sorted_insertionSort stringLE _)

theorem writeParam_nonempty (buf : String) (p : String × String) :
    (writeParam buf p).length > 0 := by
  unfold writeParam
  simp only [String.length_append]
  have : ("=" : String).length = 1 := rfl
  omega

theorem writeParam_of_nonempty (buf : String) (p : String × String) (h : buf.length > 0) :
    writeParam buf p = buf ++ "&" ++ (QueryEscape p.1 ++ "=" ++ QueryEscape p.2) := by
  unfold writeParam
  simp [h, String.append_assoc]

theorem foldl_writeParam (ps : List (String × String)) (buf : String) (h : buf.length > 0) :
    ps.foldl writeParam buf =
      String.intercalate.go buf "&"
        (ps.map (fun p => QueryEscape p.1 ++ "=" ++ QueryEscape p.2)) := by
  induction ps generalizing buf with
  | nil => rfl
  | cons p rest ih =>
    rw [List.foldl_cons, ih _ (writeParam_nonempty buf p), writeParam_of_nonempty buf p h]
    rfl

/-- The output of `Values.Encode` is the parameters, each written `name=value` with
both parts escaped, joined by `&`. -/
theorem Values.Encode_eq (v : Values) :
    v.Encode =
      String.intercalate "&" (v.params.map (fun p => QueryEscape p.1 ++ "=" ++ QueryEscape p.2)) := by
  unfold Values.Encode
  cases hps : v.params with
  | nil => rfl
  | cons p rest =>
    rw [List.foldl_cons, foldl_writeParam rest _ (writeParam_nonempty "" p)]
    have : writeParam "" p = QueryEscape p.1 ++ "=" ++ QueryEscape p.2 := by
      unfold writeParam
      simp
    rw [this]
    rfl

/-! ## The query encoder: `BuildQueryString` -/

theorem BuildQueryString_struct (lib : Lib) (fields : List (StructField × GoValue)) :
    BuildQueryString lib (some (GoValue.struct fields)) =
      .ok (Values.Encode (fields.foldl (fieldStepResult lib) [])) := by
  simp [BuildQueryString, Value.Kind, GoValue.Kind, Value.Fields, fieldLoop_eq, Except.bind,
    Except.map]

theorem BuildQueryString_ptr_struct (lib : Lib) (fields : List (StructField × GoValue)) :
    BuildQueryString lib (some (GoValue.ptr (some (GoValue.struct fields)))) =
      .ok (Values.Encode (fields.foldl (fieldStepResult lib) [])) := by
  simp [BuildQueryString, Value.Kind, GoValue.Kind, Value.Elem, Value.ofOption, Value.Fields,
    fieldLoop_eq, Except.bind, Except.map]

theorem BuildQueryString_of_kind (lib : Lib) (g : GoValue) (hs : g.Kind ≠ Kind.Struct)
    (hp : g.Kind ≠ Kind.Ptr) : BuildQueryString lib (some g) = .ok "" := by
  simp [BuildQueryString, Value.Kind, hs, hp, Except.bind]

theorem kind_ptr (t : Option GoValue) : (GoValue.ptr t).Kind = Kind.Ptr := rfl

theorem BuildQueryString_ptr (lib : Lib) (g : GoValue) :
    BuildQueryString lib (some (GoValue.ptr (some g))) =
      if g.Kind ≠ Kind.Struct then .ok ""
      else (Value.of g).Fields.bind (fun fields =>
        (fieldLoop lib [] fields).map (fun values => Values.Encode values)) := by
  simp [BuildQueryString, Value.Kind, kind_ptr, Value.Elem, Value.ofOption, Except.bind]

theorem BuildQueryString_ptr_of_kind (lib : Lib) (g : GoValue) (hs : g.Kind ≠ Kind.Struct) :
    BuildQueryString lib (some (GoValue.ptr (some g))) = .ok "" := by
  rw [BuildQueryString_ptr, if_pos hs]

theorem BuildQueryString_nil_ptr (lib : Lib) :
    BuildQueryString lib (some (GoValue.ptr none)) = .ok "" := by
  simp [BuildQueryString, Value.Kind, GoValue.Kind, Value.Elem, Value.ofOption, Except.bind]

theorem BuildQueryString_struct_kind (lib : Lib) (g : GoValue) (hs : g.Kind = Kind.Struct) :
    ∃ s, BuildQueryString lib (some g) = .ok s := by
  cases g with
  | struct fs => exact ⟨_, BuildQueryString_struct lib fs⟩
  | time t =>
    refine ⟨Values.Encode [], ?_⟩
    simp [BuildQueryString, Value.Kind, GoValue.Kind, Value.Fields, fieldLoop, fieldStep,
      Except.bind, Except.map]
  | int width n => cases width <;> simp [GoValue.Kind] at hs
  | uint width n => cases width <;> simp [GoValue.Kind] at hs
  | float width f => cases width <;> simp [GoValue.Kind] at hs
  | complex wide => cases wide <;> simp [GoValue.Kind] at hs
  | _ => simp [GoValue.Kind] at hs

theorem BuildQueryString_ok (lib : Lib) (params : Option GoValue) :
    ∃ s, BuildQueryString lib params = .ok s := by
  cases params with
  | none => exact ⟨"", rfl⟩
  | some g =>
    by_cases hs : g.Kind = Kind.Struct
    · exact BuildQueryString_struct_kind lib g hs
    · by_cases hp : g.Kind = Kind.Ptr
      · cases g with
        | ptr t =>
          cases t with
          | none => exact ⟨"", BuildQueryString_nil_ptr lib⟩
          | some g' =>
            by_cases hs' : g'.Kind = Kind.Struct
            · obtain ⟨s, h⟩ := BuildQueryString_struct_kind lib g' hs'
              refine ⟨s, ?_⟩
              rw [← h, BuildQueryString_ptr]
              have hp' : g'.Kind ≠ Kind.Ptr := by rw [hs']; decide
              simp [BuildQueryString, Value.Kind, hs', hp', Except.bind]
            · exact ⟨"", BuildQueryString_ptr_of_kind lib g' hs'⟩
        | int width n => cases width <;> simp [GoValue.Kind] at hp
        | uint width n => cases width <;> simp [GoValue.Kind] at hp
        | float width f => cases width <;> simp [GoValue.Kind] at hp
        | complex wide => cases wide <;> simp [GoValue.Kind] at hp
        | _ => simp [GoValue.Kind] at hp
      · exact ⟨"", BuildQueryString_of_kind lib g hs hp⟩

/-! ## The query encoder: tags -/

theorem splitOnChar_cons_ne (sep c : Char) (cs cur : List Char) (hc : ¬ c = sep) :
    splitOnChar sep (c :: cs) cur = splitOnChar sep cs (c :: cur) := by
  rw [splitOnChar, if_neg hc]

theorem splitOnChar_append (sep : Char) (cs rest cur : List Char) (h : sep ∉ cs) :
    splitOnChar sep (cs ++ sep :: rest) cur =
      String.mk (cur.reverse ++ cs) :: splitOnChar sep rest [] := by
  induction cs generalizing cur with
  | nil => simp [splitOnChar]
  | cons c cs ih =>
    simp only [List.mem_cons, not_or] at h
    have hc : ¬ c = sep := fun heq => h.1 heq.symm
    rw [List.cons_append, splitOnChar_cons_ne _ _ _ _ hc, ih _ h.2]
    simp

theorem paramName_omitempty (f : StructField) (name : String) (hexp : f.PkgPath = "")
    (htag : f.Tag.Get "url" = name ++ ",omitempty") (hcomma : ',' ∉ name.data) :
    paramName f = some name ∧ hasOmitEmpty f = true := by
  have hsplit : stringsSplitComma (name ++ ",omitempty") = [name, "omitempty"] := by
    unfold stringsSplitComma
    have hd : (name ++ ",omitempty").data = name.data ++ ',' :: "omitempty".data := rfl
    rw [hd, splitOnChar_append ',' name.data _ [] hcomma]
    rfl
  have hne1 : name ++ ",omitempty" ≠ "" := by
    intro h
    have := congrArg String.length h
    simp only [String.length_append] at this
    have h10 : (",omitempty" : String).length = 10 := by decide
    have h0 : ("" : String).length = 0 := by decide
    omega
  have hne2 : name ++ ",omitempty" ≠ "-" := by
    intro h
    have := congrArg String.length h
    simp only [String.length_append] at this
    have h10 : (",omitempty" : String).length = 10 := by decide
    have h1 : ("-" : String).length = 1 := by decide
    omega
  constructor
  · simp [paramName, hexp, htag, hne1, hne2, hsplit]
  · simp [hasOmitEmpty, htag, hsplit]

/-! ## The query encoder: the claims -/

/-- C6: for every struct value (passed directly or behind a pointer) the output of
`BuildQueryString` is the parameters the loop collected, written `name=value` and joined
by `&`, in ascending byte-wise order of parameter name, whatever the declaration order of
the fields: the fields `model="gpt-4"`, `limit=10` encode to `limit=10&model=gpt-4` in
both declaration orders. -/
theorem BuildQueryString_sorted (lib : Lib) (fields : List (StructField × GoValue)) :
    (∃ values : Values, fieldLoop lib [] fields = .ok values ∧
      BuildQueryString lib (some (GoValue.struct fields)) =
        .ok (String.intercalate "&"
          (values.params.map (fun p => QueryEscape p.1 ++ "=" ++ QueryEscape p.2))) ∧
      BuildQueryString lib (some (GoValue.ptr (some (GoValue.struct fields)))) =
        BuildQueryString lib (some (GoValue.struct fields)) ∧
      List.Sorted stringLE (values.params.map Prod.fst)) ∧
    BuildQueryString lib
        (some (GoValue.struct
          [(urlField "Model" "model", GoValue.string "gpt-4"),
           (urlField "Limit" "limit", GoValue.int IntWidth.w 10)])) =
      .ok "limit=10&model=gpt-4" ∧
    BuildQueryString lib
        (some (GoValue.struct
          [(urlField "Limit" "limit", GoValue.int IntWidth.w 10),
           (urlField "Model" "model", GoValue.string "gpt-4")])) =
      .ok "limit=10&model=gpt-4" := by
  refine ⟨⟨fields.foldl (fieldStepResult lib) [], fieldLoop_eq lib fields [], ?_, ?_,
    Values.params_sorted _⟩, rfl, rfl⟩
  · rw [BuildQueryString_struct, Values.Encode_eq]
  · rw [BuildQueryString_struct, BuildQueryString_ptr_struct]

/-- C7 (the code diverges): a field tagged `url:"created_at,omitempty"` that holds the
zero value of its type `time.Time` is not omitted: whatever the standard library does,
the output is not empty (with the zero time formatted as RFC 3339 it is
`created_at=0001-01-01T00%3A00%3A00Z`). -/
theorem omitempty_zero_time_is_encoded :
    BuildQueryString stubLib
        (some (GoValue.struct
          [(urlField "CreatedAt" "created_at,omitempty", GoValue.time zeroTime)])) =
      .ok "created_at=0001-01-01T00%3A00%3A00Z" ∧
    ¬ ∃ lib : Lib,
        BuildQueryString lib
          (some (GoValue.struct
            [(urlField "CreatedAt" "created_at,omitempty", GoValue.time zeroTime)])) =
        .ok "" := by
  refine ⟨rfl, ?_⟩
  rintro ⟨lib, h⟩
  have h2 : BuildQueryString lib
      (some (GoValue.struct
        [(urlField "CreatedAt" "created_at,omitempty", GoValue.time zeroTime)])) =
      .ok (writeParam "" ("created_at", lib.formatRFC3339 zeroTime)) := rfl
  rw [h2] at h
  injection h with h
  have hlen := writeParam_nonempty "" ("created_at", lib.formatRFC3339 zeroTime)
  rw [h] at hlen
  exact absurd hlen (by decide)

/-- C7, what the code computes:
in a struct where no other field is encoded under the same name, a
field tagged `url:"name,omitempty"` yields no parameter called `name` when its value is
empty by the emptiness rule of `isEmptyValue` (a zero-length string, slice, map or
array, `false`, a zero integer or float, a nil pointer or interface); every other value
is not empty, a struct holding its zero value included: a `time.Time` is always encoded,
and a non-empty string, a non-zero signed integer, `true`, a non-zero float or a
non-empty slice yields the parameter `name` carrying the rendered value. -/
theorem omitempty_field (lib : Lib) (pre post : List (StructField × GoValue))
    (f : StructField) (g : GoValue) (name : String)
    (hexp : f.PkgPath = "") (htag : f.Tag.Get "url" = name ++ ",omitempty")
    (hcomma : ',' ∉ name.data)
    (hother : ∀ fv ∈ pre ++ post, paramName fv.1 ≠ some name) :
    ∃ values : Values, fieldLoop lib [] (pre ++ (f, g) :: post) = .ok values ∧
      BuildQueryString lib (some (GoValue.struct (pre ++ (f, g) :: post))) =
        .ok values.Encode ∧
      (isEmptyValue (Value.of g) = .ok true → values.paramsNamed name = []) ∧
      (∀ t : Time, g = GoValue.time t → values.paramsNamed name = [lib.formatRFC3339 t]) ∧
      (∀ s : String, g = GoValue.string s → s ≠ "" → values.paramsNamed name = [s]) ∧
      (∀ (width : IntWidth) (n : Int), g = GoValue.int width n → n ≠ 0 →
        values.paramsNamed name = [sprintf_d n]) ∧
      (g = GoValue.bool true → values.paramsNamed name = ["true"]) ∧
      (∀ (width : FloatWidth) (x : Float64), g = GoValue.float width x → x.isZero = false →
        values.paramsNamed name = [lib.sprintf_f x]) ∧
      (∀ es : List GoValue, g = GoValue.slice (some es) → es ≠ [] →
        values.paramsNamed name = es.map (sprintf_v lib)) := by
  obtain ⟨hname, hom⟩ := paramName_omitempty f name hexp htag hcomma
  have key := loop_paramsNamed lib pre post f g name hname hother
  rw [hom, Bool.true_and] at key
  refine ⟨_, fieldLoop_eq lib _ [], BuildQueryString_struct lib _, ?_, ?_, ?_, ?_, ?_, ?_, ?_⟩
  · intro he
    rw [isEmptyValue_of] at he
    injection he with he
    rw [key, if_pos he]
  · intro t ht
    subst ht
    rw [key]
    rfl
  · intro s hs hne
    subst hs
    have hdata : s.data ≠ [] := by
      intro hd
      apply hne
      cases s
      simp_all
    have : (GoValue.string s).isEmpty = false := by
      cases hd : s.data with
      | nil => exact absurd hd hdata
      | cons c cs =>
        have hb : String.utf8EncodeChar c ≠ [] := by
          unfold String.utf8EncodeChar
          simp only
          split_ifs <;> simp
        simp only [GoValue.isEmpty, utf8Bytes, hd, List.flatMap_cons, List.length_append,
          List.length_map, decide_eq_false_iff_not]
        have : (String.utf8EncodeChar c).length ≠ 0 := by
          intro h0
          exact hb (List.length_eq_zero.mp h0)
        omega
    rw [key, this]
    rfl
  · intro width n hg hn
    subst hg
    have : (GoValue.int width n).isEmpty = false := by simp [GoValue.isEmpty, hn]
    rw [key, this]
    rfl
  · intro hg
    subst hg
    rw [key]
    rfl
  · intro width x hg hx
    subst hg
    have : (GoValue.float width x).isEmpty = false := by simp [GoValue.isEmpty, hx]
    rw [key, this]
    rfl
  · intro es hg hne
    subst hg
    have : (GoValue.slice (some es)).isEmpty = false := by
      simp [GoValue.isEmpty, hne]
    rw [key, this]
    simp [GoValue.unwrapped, renderedValues]

/-- C7, an instance of what the code computes:
the struct of `TestBuildQueryString` with `Name` tagged
`url:"name,omitempty"` holding `""` and `Value` tagged `url:"value"` holding `test`
encodes without a parameter called `name`. -/
theorem omitempty_field_witness :
    ∃ values : Values,
      fieldLoop stubLib []
          [(urlField "Name" "name,omitempty", GoValue.string ""),
           (urlField "Value" "value", GoValue.string "test")] = .ok values ∧
        values.Encode = "value=test" ∧ values.paramsNamed "name" = [] := by
  obtain ⟨values, h1, h2, h3, _⟩ :=
    omitempty_field stubLib [] [(urlField "Value" "value", GoValue.string "test")]
      (urlField "Name" "name,omitempty") (GoValue.string "") "name" rfl (by decide)
      (by decide) (by
        intro fv hfv
        simp only [List.nil_append, List.mem_singleton] at hfv
        subst hfv
        decide)
  refine ⟨values, h1, ?_, h3 rfl⟩
  have h4 : BuildQueryString stubLib
      (some (GoValue.struct ([] ++ (urlField "Name" "name,omitempty", GoValue.string "") ::
        [(urlField "Value" "value", GoValue.string "test")]))) = .ok "value=test" := rfl
  rw [h4] at h2
  injection h2 with h2
  exact h2.symm

/-- C8 (as stated, refuted): in the struct with `Tags []string` tagged `url:"tags"`
holding `[tag1, tag2]` and `Tag string` tagged `url:"tags"` holding `x`, the later
field replaces the parameters of the slice: the output is `tags=x`, not one parameter
per element of the slice. -/
theorem slice_field_overwritten :
    BuildQueryString stubLib
        (some (GoValue.struct
          [(urlField "Tags" "tags",
              GoValue.slice (some [GoValue.string "tag1", GoValue.string "tag2"])),
           (urlField "Tag" "tags", GoValue.string "x")])) = .ok "tags=x" ∧
    ¬ ∃ lib : Lib,
        BuildQueryString lib
          (some (GoValue.struct
            [(urlField "Tags" "tags",
                GoValue.slice (some [GoValue.string "tag1", GoValue.string "tag2"])),
             (urlField "Tag" "tags", GoValue.string "x")])) = .ok "tags=tag1&tags=tag2" := by
  refine ⟨rfl, ?_⟩
  rintro ⟨lib, h⟩
  have h2 : BuildQueryString lib
      (some (GoValue.struct
        [(urlField "Tags" "tags",
            GoValue.slice (some [GoValue.string "tag1", GoValue.string "tag2"])),
         (urlField "Tag" "tags", GoValue.string "x")])) = .ok "tags=x" := rfl
  rw [h2] at h
  injection h with h
  exact absurd h (by decide)

/-- C8 (amended): in a struct where no other field is encoded under the same name, a
tagged slice field with the elements `e1..en` yields exactly `n` parameters of that
name, the texts `fmt.Sprintf("%v", e)` of the elements in their order: the elements
themselves where they are strings that `%v` prints as they are, as it does for the type
`string`. A nil or empty slice yields none. -/
theorem slice_field (lib : Lib) (pre post : List (StructField × GoValue))
    (f : StructField) (es : Option (List GoValue)) (name : String)
    (hname : paramName f = some name)
    (hother : ∀ fv ∈ pre ++ post, paramName fv.1 ≠ some name) :
    ∃ values : Values,
      fieldLoop lib [] (pre ++ (f, GoValue.slice es) :: post) = .ok values ∧
      BuildQueryString lib (some (GoValue.struct (pre ++ (f, GoValue.slice es) :: post))) =
        .ok values.Encode ∧
      values.paramsNamed name = (es.getD []).map (sprintf_v lib) ∧
      (values.paramsNamed name).length = (es.getD []).length ∧
      (∀ ss : List String, es = some (ss.map GoValue.string) →
        (∀ s ∈ ss, lib.sprintf_v (GoValue.string s) = s) →
        values.paramsNamed name = ss) ∧
      (es = none ∨ es = some [] → values.paramsNamed name = []) := by
  have key := loop_paramsNamed lib pre post f (GoValue.slice es) name hname hother
  have hval : ((pre ++ (f, GoValue.slice es) :: post).foldl (fieldStepResult lib)
      []).paramsNamed name = (es.getD []).map (sprintf_v lib) := by
    rw [key]
    by_cases hskip : (hasOmitEmpty f && (GoValue.slice es).isEmpty) = true
    · rw [if_pos hskip]
      simp only [Bool.and_eq_true, GoValue.isEmpty, decide_eq_true_eq] at hskip
      rw [List.length_eq_zero.mp hskip.2]
      rfl
    · rw [if_neg hskip]
      simp [GoValue.unwrapped, renderedValues]
  refine ⟨_, fieldLoop_eq lib _ [], BuildQueryString_struct lib _, hval, ?_, ?_, ?_⟩
  · rw [hval, List.length_map]
  · intro ss hss hv
    subst hss
    rw [hval]
    simp only [Option.getD_some, List.map_map]
    conv_rhs => rw [← List.map_id ss]
    exact List.map_congr_left (fun s hs => hv s hs)
  · intro h
    rw [hval]
    rcases h with h | h <;> subst h <;> rfl

/-- Witness of C8 (amended): the struct of `TestBuildQueryString` with `Tags` tagged
`url:"tags"` holding `[tag1, tag2, tag3]` encodes to `tags=tag1&tags=tag2&tags=tag3`. -/
theorem slice_field_witness :
    ∃ values : Values,
      BuildQueryString stubLib
          (some (GoValue.struct
            [(urlField "Tags" "tags",
              GoValue.slice (some ([GoValue.string "tag1", GoValue.string "tag2",
                GoValue.string "tag3"])))])) = .ok values.Encode ∧
        values.Encode = "tags=tag1&tags=tag2&tags=tag3" ∧
        values.paramsNamed "tags" = ["tag1", "tag2", "tag3"] := by
  obtain ⟨values, _, h2, _, _, h5, _⟩ :=
    slice_field stubLib [] [] (urlField "Tags" "tags")
      (some ([GoValue.string "tag1", GoValue.string "tag2", GoValue.string "tag3"])) "tags"
      (by decide) (by intro fv hfv; simp at hfv)
  refine ⟨values, h2, ?_, h5 ["tag1", "tag2", "tag3"] rfl (fun _ _ => rfl)⟩
  have h4 : BuildQueryString stubLib
      (some (GoValue.struct ([] ++ (urlField "Tags" "tags",
        GoValue.slice (some ([GoValue.string "tag1", GoValue.string "tag2",
          GoValue.string "tag3"]))) :: []))) = .ok "tags=tag1&tags=tag2&tags=tag3" := rfl
  rw [h4] at h2
  injection h2 with h2
  exact h2.symm

/-- C9: `BuildQueryString` never panics and always returns a string; it returns the
empty string for the nil interface, for a nil pointer, for every value that is neither a
struct nor a pointer (a string, an int, ...) and for a pointer to a value that is no
struct. -/
theorem BuildQueryString_total (lib : Lib) :
    (∀ params : Option GoValue, ∃ s : String, BuildQueryString lib params = .ok s) ∧
    BuildQueryString lib none = .ok "" ∧
    BuildQueryString lib (some (GoValue.ptr none)) = .ok "" ∧
    (∀ g : GoValue, g.Kind ≠ Kind.Struct → g.Kind ≠ Kind.Ptr →
      BuildQueryString lib (some g) = .ok "") ∧
    (∀ g : GoValue, g.Kind ≠ Kind.Struct →
      BuildQueryString lib (some (GoValue.ptr (some g))) = .ok "") ∧
    BuildQueryString lib (some (GoValue.string "not a struct")) = .ok "" ∧
    BuildQueryString lib (some (GoValue.int IntWidth.w 42)) = .ok "" :=
  ⟨BuildQueryString_ok lib, rfl, BuildQueryString_nil_ptr lib,
   BuildQueryString_of_kind lib, BuildQueryString_ptr_of_kind lib, rfl, rfl⟩

/-- Witness of C9: a pointer to a string, which is no struct, encodes to the empty
string. -/
theorem BuildQueryString_total_witness :
    BuildQueryString stubLib (some (GoValue.ptr (some (GoValue.string "not a struct")))) =
      .ok "" :=
  (BuildQueryString_total stubLib).2.2.2.2.1 (GoValue.string "not a struct") (by decide)

theorem fieldStepResult_nil_ptr (lib : Lib) (v : Values) (f : StructField) :
    fieldStepResult lib v (f, GoValue.ptr none) = v := by
  unfold fieldStepResult
  cases paramName f with
  | none => rfl
  | some name =>
    simp only
    split <;> rfl

theorem fieldStepResult_ptr (lib : Lib) (v : Values) (f f' : StructField) (t : GoValue)
    (hname : paramName f' = paramName f) (hom : hasOmitEmpty f' = false)
    (ht : t.unwrapped = t) :
    fieldStepResult lib v (f, GoValue.ptr (some t)) = fieldStepResult lib v (f', t) := by
  unfold fieldStepResult
  simp only [hname, hom, Bool.false_and]
  cases paramName f with
  | none => rfl
  | some name =>
    have h1 : (GoValue.ptr (some t)).unwrapped = t := rfl
    simp [GoValue.isEmpty, h1, ht]

/-- C10 (the code diverges): under the tag `url:"name,omitempty"`, a non-nil pointer
to the empty string is encoded as `name=`, whereas a non-pointer field holding the
pointed-to value `""` under the same tag is omitted; this holds whatever the standard
library does. -/
theorem pointer_to_empty_not_omitted :
    (BuildQueryString stubLib
        (some (GoValue.struct
          [(urlField "Name" "name,omitempty", GoValue.ptr (some (GoValue.string "")))])) =
      .ok "name=" ∧
     BuildQueryString stubLib
        (some (GoValue.struct [(urlField "Name" "name,omitempty", GoValue.string "")])) =
      .ok "") ∧
    ¬ ∃ lib : Lib,
        BuildQueryString lib
          (some (GoValue.struct
            [(urlField "Name" "name,omitempty", GoValue.ptr (some (GoValue.string "")))])) =
        BuildQueryString lib
          (some (GoValue.struct [(urlField "Name" "name,omitempty", GoValue.string "")])) := by
  refine ⟨⟨rfl, rfl⟩, ?_⟩
  rintro ⟨lib, h⟩
  have h1 : BuildQueryString lib
      (some (GoValue.struct
        [(urlField "Name" "name,omitempty", GoValue.ptr (some (GoValue.string "")))])) =
      .ok "name=" := rfl
  have h2 : BuildQueryString lib
      (some (GoValue.struct [(urlField "Name" "name,omitempty", GoValue.string "")])) =
      .ok "" := rfl
  rw [h1, h2] at h
  injection h with h
  exact absurd h (by decide)

/-- C10, what the code computes:
a nil pointer field produces no parameter, with or without
`omitempty`: the output is that of the struct without the field. A non-nil pointer field
is never omitted by `omitempty`: it produces exactly what a non-pointer field of the same
parameter name without `omitempty`, holding the pointed-to value, produces (the
pointed-to value not being a non-nil pointer itself); `Name=nil, Count=&5` encodes to
`count=5`. -/
theorem pointer_field (lib : Lib) :
    (∀ (pre post : List (StructField × GoValue)) (f : StructField),
      BuildQueryString lib (some (GoValue.struct (pre ++ (f, GoValue.ptr none) :: post))) =
        BuildQueryString lib (some (GoValue.struct (pre ++ post)))) ∧
    (∀ (pre post : List (StructField × GoValue)) (f f' : StructField) (t : GoValue),
      paramName f' = paramName f → hasOmitEmpty f' = false →
      (∀ p : GoValue, t ≠ GoValue.ptr (some p)) →
      BuildQueryString lib
          (some (GoValue.struct (pre ++ (f, GoValue.ptr (some t)) :: post))) =
        BuildQueryString lib (some (GoValue.struct (pre ++ (f', t) :: post)))) ∧
    BuildQueryString lib
        (some (GoValue.struct
          [(urlField "Name" "name", GoValue.ptr none),
           (urlField "Count" "count", GoValue.ptr (some (GoValue.int IntWidth.w 5)))])) =
      .ok "count=5" ∧
    BuildQueryString lib
        (some (GoValue.struct
          [(urlField "Name" "name,omitempty", GoValue.ptr none),
           (urlField "Count" "count", GoValue.int IntWidth.w 5)])) =
      .ok "count=5" := by
  refine ⟨?_, ?_, rfl, rfl⟩
  · intro pre post f
    simp only [BuildQueryString_struct, List.foldl_append, List.foldl_cons,
      fieldStepResult_nil_ptr]
  · intro pre post f f' t hname hom ht
    have hu : t.unwrapped = t := by
      cases t with
      | ptr target =>
        cases target with
        | none => rfl
        | some p => exact absurd rfl (ht p)
      | _ => rfl
    simp only [BuildQueryString_struct, List.foldl_append, List.foldl_cons,
      fieldStepResult_ptr lib _ f f' t hname hom hu]

/-- C10, an instance of what the code computes:
`Count` tagged `url:"count,omitempty"` holding a pointer
to 0 encodes as the field `Count` tagged `url:"count"` holding 0 does, to `count=0`. -/
theorem pointer_field_witness :
    BuildQueryString stubLib
        (some (GoValue.struct
          [(urlField "Count" "count,omitempty",
            GoValue.ptr (some (GoValue.int IntWidth.w 0)))])) =
      BuildQueryString stubLib
        (some (GoValue.struct [(urlField "Count" "count", GoValue.int IntWidth.w 0)])) ∧
    BuildQueryString stubLib
        (some (GoValue.struct [(urlField "Count" "count", GoValue.int IntWidth.w 0)])) =
      .ok "count=0" :=
  ⟨(pointer_field stubLib).2.1 [] [] (urlField "Count" "count,omitempty")
      (urlField "Count" "count") (GoValue.int IntWidth.w 0) (by decide) (by decide)
      (by intro p h; cases h),
   rfl⟩

/-! ## The emptiness rule -/

theorem utf8EncodeChar_ne_nil (c : Char) : String.utf8EncodeChar c ≠ [] := by
  unfold String.utf8EncodeChar
  simp only
  split_ifs <;> simp

theorem utf8Bytes_length_eq_zero (s : String) : (utf8Bytes s).length = 0 ↔ s = "" := by
  constructor
  · intro h
    cases hd : s.data with
    | nil =>
      cases s
      simp_all
    | cons c cs =>
      have hb := utf8EncodeChar_ne_nil c
      simp only [utf8Bytes, hd, List.flatMap_cons, List.length_append, List.length_map] at h
      have : (String.utf8EncodeChar c).length ≠ 0 := fun h0 => hb (List.length_eq_zero.mp h0)
      omega
  · intro h
    subst h
    rfl

/-- C11 (as stated, refuted): `isEmptyValue` is true for the zero-length array
`[0]int{}`, which is no string, slice, map, boolean, integer, float, pointer or
interface, and for the zero `reflect.Value` (the row `nil` of `TestIsEmptyValue`). -/
theorem isEmptyValue_zero_length_array :
    isEmptyValue (Value.of (GoValue.array [])) = .ok true ∧
      isEmptyValue Value.zero = .ok true :=
  ⟨rfl, rfl⟩

/-- C11 (amended): `isEmptyValue` is true for a string, array, slice or map iff its
length is zero, for a boolean iff it is false, for a signed or unsigned integer iff it
is zero, for a float iff it is zero, for a pointer or interface iff it is nil, and for
the zero `reflect.Value`; it is false for every other shape: every struct value
(`time.Time` included), channel, function, complex number and unsafe pointer; a non-nil
pointer is not empty whatever it points to. It never panics. -/
theorem isEmptyValue_rule :
    (∀ s : String, isEmptyValue (Value.of (GoValue.string s)) = .ok (decide (s = ""))) ∧
    (∀ es : List GoValue,
      isEmptyValue (Value.of (GoValue.array es)) = .ok (decide (es.length = 0))) ∧
    (∀ es : Option (List GoValue),
      isEmptyValue (Value.of (GoValue.slice es)) = .ok (decide ((es.getD []).length = 0))) ∧
    (∀ m : Option (List (GoValue × GoValue)),
      isEmptyValue (Value.of (GoValue.map m)) = .ok (decide ((m.getD []).length = 0))) ∧
    (∀ b : Bool, isEmptyValue (Value.of (GoValue.bool b)) = .ok (!b)) ∧
    (∀ (width : IntWidth) (n : Int),
      isEmptyValue (Value.of (GoValue.int width n)) = .ok (decide (n = 0))) ∧
    (∀ (width : UintWidth) (n : Nat),
      isEmptyValue (Value.of (GoValue.uint width n)) = .ok (decide (n = 0))) ∧
    (∀ (width : FloatWidth) (f : Float64),
      isEmptyValue (Value.of (GoValue.float width f)) = .ok f.isZero) ∧
    (∀ t : Option GoValue, isEmptyValue (Value.of (GoValue.ptr t)) = .ok t.isNone) ∧
    (∀ v : Option GoValue, isEmptyValue (Value.of (GoValue.iface v)) = .ok v.isNone) ∧
    isEmptyValue Value.zero = .ok true ∧
    (∀ fs : List (StructField × GoValue),
      isEmptyValue (Value.of (GoValue.struct fs)) = .ok false) ∧
    (∀ t : Time, isEmptyValue (Value.of (GoValue.time t)) = .ok false) ∧
    (∀ (isNil : Bool) (len : Nat),
      isEmptyValue (Value.of (GoValue.chan isNil len)) = .ok false) ∧
    (∀ isNil : Bool, isEmptyValue (Value.of (GoValue.func isNil)) = .ok false) ∧
    (∀ wide : Bool, isEmptyValue (Value.of (GoValue.complex wide)) = .ok false) ∧
    (∀ isNil : Bool, isEmptyValue (Value.of (GoValue.unsafePointer isNil)) = .ok false) := by
  refine ⟨?_, fun _ => rfl, ?_, ?_, fun _ => rfl, ?_, ?_, ?_, fun _ => rfl, fun _ => rfl, rfl,
    fun _ => rfl, fun _ => rfl, fun _ _ => rfl, fun _ => rfl, ?_, fun _ => rfl⟩
  · intro s
    rw [isEmptyValue_of]
    simp only [GoValue.isEmpty]
    congr 1
    exact decide_eq_decide.mpr (utf8Bytes_length_eq_zero s)
  · intro es
    rw [isEmptyValue_of]
    rfl
  · intro m
    rw [isEmptyValue_of]
    rfl
  · intro width n
    rw [isEmptyValue_of]
    rfl
  · intro width n
    rw [isEmptyValue_of]
    rfl
  · intro width f
    rw [isEmptyValue_of]
    rfl
  · intro wide
    rw [isEmptyValue_of]
    rfl

/-! ## The rendering of strings, integers and booleans -/

theorem escape_unreserved_char (c : Char) (h : isUnreserved c.toNat = true) :
    ((String.utf8EncodeChar c).map UInt8.toNat).flatMap escapeByte = [c] := by
  have hlt : c.toNat ≤ 126 := by
    unfold isUnreserved at h
    simp only [Bool.or_eq_true, Bool.and_eq_true, decide_eq_true_eq] at h
    omega
  have h32 : c.toNat ≠ 32 := by
    intro h32
    rw [h32] at h
    exact absurd h (by decide)
  have hval : c.val ≤ 127 := by
    have : c.val.toNat ≤ 126 := hlt
    exact UInt32.le_def.mpr (by simpa using Nat.le_trans this (by decide))
  have hbyte : (c.val.toUInt8).toNat = c.toNat := by
    show c.val.toNat % 256 = c.val.toNat
    have : c.val.toNat ≤ 126 := hlt
    omega
  unfold String.utf8EncodeChar
  simp only [hval, if_true, List.map_cons, List.map_nil, List.flatMap_cons, List.flatMap_nil,
    List.append_nil, hbyte]
  unfold escapeByte
  rw [if_neg h32, if_pos h]
  simp [Char.ofNat_toNat]

theorem QueryEscape_unreserved (s : String) (h : ∀ c ∈ s.data, isUnreserved c.toNat = true) :
    QueryEscape s = s := by
  have key : ∀ cs : List Char, (∀ c ∈ cs, isUnreserved c.toNat = true) →
      (cs.flatMap (fun c => (String.utf8EncodeChar c).map UInt8.toNat)).flatMap escapeByte =
        cs := by
    intro cs
    induction cs with
    | nil => intro _; rfl
    | cons c rest ih =>
      intro hcs
      rw [List.flatMap_cons, List.flatMap_append,
        escape_unreserved_char c (hcs c (List.mem_cons_self _ _)),
        ih (fun x hx => hcs x (List.mem_cons_of_mem _ hx))]
      rfl
  unfold QueryEscape utf8Bytes
  rw [key s.data h]

theorem digitChar_unreserved : ∀ m : Nat, m < 10 →
    isUnreserved (Nat.digitChar m).toNat = true := by
  decide

theorem toDigitsCore_unreserved (fuel n : Nat) (acc : List Char)
    (hacc : ∀ c ∈ acc, isUnreserved c.toNat = true) :
    ∀ c ∈ Nat.toDigitsCore 10 fuel n acc, isUnreserved c.toNat = true := by
  induction fuel generalizing n acc with
  | zero => simpa [Nat.toDigitsCore] using hacc
  | succ fuel ih =>
    have hd : isUnreserved (Nat.digitChar (n % 10)).toNat = true :=
      digitChar_unreserved (n % 10) (Nat.mod_lt n (by decide))
    have hacc' : ∀ c ∈ Nat.digitChar (n % 10) :: acc, isUnreserved c.toNat = true := by
      intro c hc
      rcases List.mem_cons.mp hc with h | h
      · rw [h]; exact hd
      · exact hacc c h
    unfold Nat.toDigitsCore
    simp only
    split
    · exact hacc'
    · exact ih _ _ hacc'

theorem sprintf_d_unreserved (n : Int) : ∀ c ∈ (sprintf_d n).data, isUnreserved c.toNat = true := by
  cases n with
  | ofNat m =>
    exact toDigitsCore_unreserved _ _ [] (by simp)
  | negSucc m =>
    intro c hc
    have hdata : (sprintf_d (Int.negSucc m)).data = '-' :: (Nat.repr (m + 1)).data := rfl
    rw [hdata] at hc
    rcases List.mem_cons.mp hc with h | h
    · rw [h]; decide
    · exact toDigitsCore_unreserved _ _ [] (by simp) c h

theorem QueryEscape_sprintf_d (n : Int) : QueryEscape (sprintf_d n) = sprintf_d n :=
  QueryEscape_unreserved _ (sprintf_d_unreserved n)

theorem Values.Encode_single (k x : String) :
    Values.Encode [(k, [x])] = QueryEscape k ++ "=" ++ QueryEscape x := by
  have hp : Values.params [(k, [x])] = [(k, x)] := by
    simp [Values.params, sortStrings, Values.lookup]
  unfold Values.Encode
  rw [hp]
  simp [writeParam]

theorem BuildQueryString_single (lib : Lib) (f : StructField) (g : GoValue) :
    BuildQueryString lib (some (GoValue.struct [(f, g)])) =
      .ok (Values.Encode (fieldStepResult lib [] (f, g))) := by
  rw [BuildQueryString_struct]
  rfl

theorem fieldStepResult_encoded (lib : Lib) (f : StructField) (g : GoValue) (k : String)
    (hname : paramName f = some k) (hkeep : hasOmitEmpty f = false ∨ g.isEmpty = false) :
    fieldStepResult lib [] (f, g) = rendered lib [] k g.unwrapped := by
  unfold fieldStepResult
  simp only [hname]
  have : (hasOmitEmpty f && g.isEmpty) = false := by
    rcases hkeep with h | h <;> simp [h]
  simp [this]
theorem foldl_fieldStepResult_skipped (lib : Lib) (fields : List (StructField × GoValue))
    (v : Values) (h : ∀ fv ∈ fields, paramName fv.1 = none) :
    fields.foldl (fieldStepResult lib) v = v := by
  induction fields generalizing v with
  | nil => rfl
  | cons fv rest ih =>
    have h1 : fieldStepResult lib v fv = v := by
      unfold fieldStepResult
      rw [h fv (List.mem_cons_self _ _)]
    rw [List.foldl_cons, h1]
    exact ih v (fun x hx => h x (List.mem_cons_of_mem _ hx))

theorem BuildQueryString_only_field (lib : Lib) (pre post : List (StructField × GoValue))
    (f : StructField) (g : GoValue) (k : String) (hname : paramName f = some k)
    (hkeep : hasOmitEmpty f = false ∨ g.isEmpty = false)
    (hother : ∀ fv ∈ pre ++ post, paramName fv.1 = none) :
    BuildQueryString lib (some (GoValue.struct (pre ++ (f, g) :: post))) =
      .ok (Values.Encode (rendered lib [] k g.unwrapped)) := by
  rw [BuildQueryString_struct, List.foldl_append, List.foldl_cons,
    foldl_fieldStepResult_skipped lib pre [] (fun x hx => hother x (List.mem_append_left _ hx)),
    fieldStepResult_encoded lib f g k hname hkeep,
    foldl_fieldStepResult_skipped lib post _
      (fun x hx => hother x (List.mem_append_right _ hx))]

theorem sprintf_d_eq (n : Int) :
    sprintf_d n = if n < 0 then "-" ++ Nat.repr n.natAbs else Nat.repr n.natAbs := by
  cases n with
  | ofNat m =>
    have : ¬ (Int.ofNat m < 0) := by simp
    rw [if_neg this]
    rfl
  | negSucc m =>
    rw [if_pos (Int.negSucc_lt_zero m)]
    rfl

/-- C12 (as stated, refuted): a single field tagged `url:"name,omitempty"` that holds the
string `""` or the integer `0` encodes to the empty string, not to `name=` or `name=0`,
whatever the standard library does; and the name itself is escaped: a string field tagged
`url:"a b"` holding `x` encodes to `a+b=x`. -/
theorem omitempty_string_or_integer_not_encoded :
    (BuildQueryString stubLib
        (some (GoValue.struct [(urlField "Name" "name,omitempty", GoValue.string "")])) =
      .ok "" ∧
     BuildQueryString stubLib
        (some (GoValue.struct [(urlField "Limit" "limit,omitempty", GoValue.int IntWidth.w 0)])) =
      .ok "" ∧
     BuildQueryString stubLib
        (some (GoValue.struct [(urlField "Name" "a b", GoValue.string "x")])) =
      .ok "a+b=x") ∧
    ¬ ∃ lib : Lib,
        BuildQueryString lib
          (some (GoValue.struct [(urlField "Name" "name,omitempty", GoValue.string "")])) =
        .ok ("name=" ++ QueryEscape "") := by
  refine ⟨⟨rfl, rfl, rfl⟩, ?_⟩
  rintro ⟨lib, h⟩
  have h2 : BuildQueryString lib
      (some (GoValue.struct [(urlField "Name" "name,omitempty", GoValue.string "")])) =
      .ok "" := rfl
  rw [h2] at h
  injection h with h
  exact absurd h (by decide)

/-- C12 (amended): in a struct whose only encoded field has the parameter name `k` and
is not omitted (its tag has no `omitempty`, or its value is not empty), the output is
`QueryEscape(k)=v`, where `v` is `QueryEscape(s)` for a string `s` (a space is written
`+`), `n` in base 10 with a leading `-` when negative for a signed integer `n` of any
width, and `true` or `false` for a boolean; `QueryEscape(k)` is `k` itself when `k` is
made of letters, digits, `-`, `_`, `.` and `~`. -/
theorem single_field_rendering (lib : Lib) (pre post : List (StructField × GoValue))
    (f : StructField) (g : GoValue) (k : String) (hname : paramName f = some k)
    (hkeep : hasOmitEmpty f = false ∨ g.isEmpty = false)
    (hother : ∀ fv ∈ pre ++ post, paramName fv.1 = none) :
    (∀ s : String, g = GoValue.string s →
      BuildQueryString lib (some (GoValue.struct (pre ++ (f, g) :: post))) =
        .ok (QueryEscape k ++ "=" ++ QueryEscape s)) ∧
    (∀ (width : IntWidth) (n : Int), g = GoValue.int width n →
      BuildQueryString lib (some (GoValue.struct (pre ++ (f, g) :: post))) =
        .ok (QueryEscape k ++ "=" ++
          (if n < 0 then "-" ++ Nat.repr n.natAbs else Nat.repr n.natAbs))) ∧
    (∀ b : Bool, g = GoValue.bool b →
      BuildQueryString lib (some (GoValue.struct (pre ++ (f, g) :: post))) =
        .ok (QueryEscape k ++ "=" ++ (if b then "true" else "false"))) ∧
    ((∀ c ∈ k.data, isUnreserved c.toNat = true) → QueryEscape k = k) ∧
    QueryEscape "hello world" = "hello+world" := by
  have key := BuildQueryString_only_field lib pre post f g k hname hkeep hother
  refine ⟨?_, ?_, ?_, QueryEscape_unreserved k, by decide⟩
  · intro s hs
    subst hs
    rw [key]
    exact congrArg Except.ok (Values.Encode_single k s)
  · intro width n hn
    subst hn
    rw [key, ← sprintf_d_eq, ← QueryEscape_sprintf_d n]
    exact congrArg Except.ok (Values.Encode_single k (sprintf_d n))
  · intro b hb
    subst hb
    rw [key]
    have hq : QueryEscape (sprintf_t b) = (if b then "true" else "false") := by
      cases b <;> decide
    rw [← hq]
    exact congrArg Except.ok (Values.Encode_single k (sprintf_t b))

/-- Witness of C12 (amended): the struct of `TestBuildQueryString` with `Name` tagged
`url:"name"` holding `hello world` encodes to `name=hello+world`. -/
theorem single_field_rendering_witness :
    BuildQueryString stubLib
        (some (GoValue.struct [(urlField "Name" "name", GoValue.string "hello world")])) =
      .ok (QueryEscape "name" ++ "=" ++ QueryEscape "hello world") ∧
    QueryEscape "name" ++ "=" ++ QueryEscape "hello world" = "name=hello+world" :=
  ⟨(single_field_rendering stubLib [] [] (urlField "Name" "name")
      (GoValue.string "hello world") "name" (by decide) (Or.inl (by decide))
      (by intro fv hfv; simp at hfv)).1 "hello world" rfl,
   by decide⟩

/-! ## The query encoder: kinds the switch does not name, nested values, skipped fields -/

theorem fieldStepResult_uint (lib : Lib) (v : Values) (f : StructField) (width : UintWidth)
    (n : Nat) : fieldStepResult lib v (f, GoValue.uint width n) = v := by
  unfold fieldStepResult
  cases paramName f with
  | none => rfl
  | some name =>
    simp only
    split <;> rfl

/-- C13 (the code diverges): the `switch` of `BuildQueryString` has no case for the
unsigned kinds, so a field of kind `uint`, `uint8`, ..., `uint64` or `uintptr` never
yields a parameter, whatever its tag and value: the output is that of the struct without
the field, and `Count uint` tagged `url:"count"` holding 5 encodes to the empty string,
not to `count=5`. -/
theorem unsigned_field_not_encoded (lib : Lib) :
    (∀ (pre post : List (StructField × GoValue)) (f : StructField) (width : UintWidth)
        (n : Nat),
      BuildQueryString lib (some (GoValue.struct (pre ++ (f, GoValue.uint width n) :: post))) =
        BuildQueryString lib (some (GoValue.struct (pre ++ post)))) ∧
    BuildQueryString lib
        (some (GoValue.struct [(urlField "Count" "count", GoValue.uint UintWidth.w 5)])) =
      .ok "" ∧
    BuildQueryString lib
        (some (GoValue.struct [(urlField "Count" "count", GoValue.int IntWidth.w 5)])) =
      .ok "count=5" := by
  refine ⟨?_, rfl, rfl⟩
  intro pre post f width n
  simp only [BuildQueryString_struct, List.foldl_append, List.foldl_cons, fieldStepResult_uint]

/-- C14 (as stated, refuted): a nil map tagged `url:"metadata,omitempty"` yields no
parameter, whatever `json.Marshal` would return for it; and a map that `json.Marshal`
rejects yields none either, the error being dropped. -/
theorem nested_field_not_always_encoded :
    (¬ ∃ lib : Lib, ∃ x : String,
        BuildQueryString lib
          (some (GoValue.struct [(urlField "Metadata" "metadata,omitempty", GoValue.map none)])) =
        .ok ("metadata=" ++ x)) ∧
    BuildQueryString stubLib
        (some (GoValue.struct [(urlField "Metadata" "metadata,omitempty", GoValue.map none)])) =
      .ok "" ∧
    BuildQueryString failingLib
        (some (GoValue.struct
          [(urlField "Metadata" "metadata",
            GoValue.map (some [(GoValue.string "c", GoValue.chan false 0)]))])) =
      .ok "" := by
  refine ⟨?_, rfl, rfl⟩
  rintro ⟨lib, x, h⟩
  have h2 : BuildQueryString lib
      (some (GoValue.struct [(urlField "Metadata" "metadata,omitempty", GoValue.map none)])) =
      .ok "" := rfl
  rw [h2] at h
  injection h with h
  have hlen := congrArg String.length h
  rw [String.length_append] at hlen
  have h0 : ("" : String).length = 0 := by decide
  have h9 : ("metadata=" : String).length = 9 := by decide
  omega

/-- C14 (amended): in a struct where no other field is encoded under the same name, a
tagged field holding a nested struct (other than `time.Time`) or a map, and not omitted
by `omitempty` (an empty or nil map under `omitempty` is), yields exactly one parameter
of its name when `json.Marshal` succeeds on the value, carrying the JSON text unescaped
(the value is handed to `json.Marshal` as it is, the inner `url` tags are not read), and
no parameter when `json.Marshal` fails. A struct is never omitted. -/
theorem nested_field (lib : Lib) (pre post : List (StructField × GoValue))
    (f : StructField) (g : GoValue) (name : String)
    (hname : paramName f = some name)
    (hother : ∀ fv ∈ pre ++ post, paramName fv.1 ≠ some name)
    (hshape : (∃ fs, g = GoValue.struct fs) ∨ (∃ m, g = GoValue.map m)) :
    ∃ values : Values, fieldLoop lib [] (pre ++ (f, g) :: post) = .ok values ∧
      BuildQueryString lib (some (GoValue.struct (pre ++ (f, g) :: post))) =
        .ok values.Encode ∧
      (hasOmitEmpty f = true → g.isEmpty = true → values.paramsNamed name = []) ∧
      (hasOmitEmpty f = false ∨ g.isEmpty = false →
        (∀ json : String, lib.jsonMarshal g = .ok json → values.paramsNamed name = [json]) ∧
        (∀ err : String, lib.jsonMarshal g = .error err → values.paramsNamed name = [])) ∧
      ((∃ fs, g = GoValue.struct fs) → g.isEmpty = false) := by
  have key := loop_paramsNamed lib pre post f g name hname hother
  refine ⟨_, fieldLoop_eq lib _ [], BuildQueryString_struct lib _, ?_, ?_, ?_⟩
  · intro ho he
    rw [key, ho, he]
    rfl
  · intro hkeep
    have hk : (hasOmitEmpty f && g.isEmpty) = false := by
      rcases hkeep with h | h <;> simp [h]
    rw [key, hk]
    constructor
    · intro json hjson
      rcases hshape with ⟨fs, hg⟩ | ⟨m, hg⟩ <;> subst hg <;>
        simp [GoValue.unwrapped, renderedValues, hjson]
    · intro err herr
      rcases hshape with ⟨fs, hg⟩ | ⟨m, hg⟩ <;> subst hg <;>
        simp [GoValue.unwrapped, renderedValues, herr]
  · rintro ⟨fs, hg⟩
    subst hg
    rfl

/-- Witness of C14 (amended): the struct of `TestBuildQueryString` with `Filter` tagged
`url:"filter"` holding `{Name: "test"}` (its field `Name` tagged `url:"name"`) encodes,
`json.Marshal` returning `{"Name":"test"}`, to `filter=%7B%22Name%22%3A%22test%22%7D`. -/
theorem nested_field_witness :
    ∃ values : Values,
      BuildQueryString filterLib
          (some (GoValue.struct
            [(urlField "Filter" "filter",
              GoValue.struct [(urlField "Name" "name", GoValue.string "test")])])) =
        .ok values.Encode ∧
      values.paramsNamed "filter" = ["\x7b\"Name\":\"test\"\x7d"] ∧
      values.Encode = "filter=%7B%22Name%22%3A%22test%22%7D" := by
  obtain ⟨values, _, h2, _, h4, _⟩ :=
    nested_field filterLib [] [] (urlField "Filter" "filter")
      (GoValue.struct [(urlField "Name" "name", GoValue.string "test")]) "filter"
      (by decide) (by intro fv hfv; simp at hfv) (Or.inl ⟨_, rfl⟩)
  refine ⟨values, h2, (h4 (Or.inl (by decide))).1 _ rfl, ?_⟩
  have h5 : BuildQueryString filterLib
      (some (GoValue.struct ([] ++ (urlField "Filter" "filter",
        GoValue.struct [(urlField "Name" "name", GoValue.string "test")]) :: []))) =
      .ok "filter=%7B%22Name%22%3A%22test%22%7D" := rfl
  rw [h5] at h2
  injection h2 with h2
  exact h2.symm

theorem StructTag.Get_of_absent (tag : StructTag) (key : String)
    (h : ∀ kv ∈ tag, kv.1 ≠ key) : StructTag.Get tag key = "" := by
  unfold StructTag.Get
  have : tag.find? (fun kv => decide (kv.1 = key)) = none := by
    rw [List.find?_eq_none]
    intro kv hkv
    simpa using h kv hkv
  rw [this]

theorem paramName_skipped (f : StructField)
    (h : f.PkgPath ≠ "" ∨ (∀ kv ∈ f.Tag, kv.1 ≠ "url") ∨ f.Tag.Get "url" = "" ∨
      f.Tag.Get "url" = "-") : paramName f = none := by
  unfold paramName
  rcases h with h | h | h | h
  · rw [if_pos h]
  · have := StructTag.Get_of_absent f.Tag "url" h
    split
    · rfl
    · rw [if_pos (Or.inl this)]
  · split
    · rfl
    · rw [if_pos (Or.inl h)]
  · split
    · rfl
    · rw [if_pos (Or.inr h)]

theorem fieldStepResult_skipped (lib : Lib) (v : Values) (fv : StructField × GoValue)
    (h : paramName fv.1 = none) : fieldStepResult lib v fv = v := by
  unfold fieldStepResult
  rw [h]

/-- C16: a field that is unexported, or has no `url` tag, an empty `url` tag or the
`url` tag `-`, leaves the parameters as they are, whatever value it holds: the output
is that of the struct without the field. A struct none of whose fields carries a `url`
tag encodes to the empty string whatever its field values. -/
theorem skipped_field (lib : Lib) :
    (∀ (values : Values) (f : StructField) (g : GoValue),
      f.PkgPath ≠ "" ∨ (∀ kv ∈ f.Tag, kv.1 ≠ "url") ∨ f.Tag.Get "url" = "" ∨
          f.Tag.Get "url" = "-" →
        fieldStep lib values (f, g) = .ok values) ∧
    (∀ (pre post : List (StructField × GoValue)) (f : StructField) (g : GoValue),
      f.PkgPath ≠ "" ∨ (∀ kv ∈ f.Tag, kv.1 ≠ "url") ∨ f.Tag.Get "url" = "" ∨
          f.Tag.Get "url" = "-" →
        BuildQueryString lib (some (GoValue.struct (pre ++ (f, g) :: post))) =
          BuildQueryString lib (some (GoValue.struct (pre ++ post)))) ∧
    (∀ fields : List (StructField × GoValue),
      (∀ fv ∈ fields, ∀ kv ∈ fv.1.Tag, kv.1 ≠ "url") →
        BuildQueryString lib (some (GoValue.struct fields)) = .ok "") := by
  refine ⟨?_, ?_, ?_⟩
  · intro values f g h
    rw [fieldStep_eq, fieldStepResult_skipped lib values (f, g) (paramName_skipped f h)]
  · intro pre post f g h
    simp only [BuildQueryString_struct, List.foldl_append, List.foldl_cons,
      fieldStepResult_skipped lib _ (f, g) (paramName_skipped f h)]
  · intro fields h
    rw [BuildQueryString_struct, foldl_fieldStepResult_skipped lib fields []
      (fun fv hfv => paramName_skipped fv.1 (Or.inr (Or.inl (h fv hfv))))]
    rfl

/-- Witness of C16: the struct of `TestBuildQueryString` without `url` tags, holding
`Name = test` and `Value = value`, encodes to the empty string; a field tagged
`url:"-"` and an unexported field tagged `url:"secret"` next to `Value` tagged
`url:"value"` leave `value=test`. -/
theorem skipped_field_witness :
    BuildQueryString stubLib
        (some (GoValue.struct
          [(({ Name := "Name", PkgPath := "", Tag := [] } : StructField), GoValue.string "test"),
           (({ Name := "Value", PkgPath := "", Tag := [("json", "value")] } : StructField),
             GoValue.string "value")])) = .ok "" ∧
    BuildQueryString stubLib
        (some (GoValue.struct
          ([(urlField "Hidden" "-", GoValue.string "x")] ++
            (({ Name := "secret", PkgPath := "main", Tag := [("url", "secret")] } : StructField),
              GoValue.string "y") ::
            [(urlField "Value" "value", GoValue.string "test")]))) =
      .ok "value=test" :=
  ⟨(skipped_field stubLib).2.2 _ (by
      intro fv hfv kv hkv
      simp only [List.mem_cons, List.mem_singleton, List.not_mem_nil, or_false] at hfv
      rcases hfv with h | h <;> subst h <;> simp at hkv
      subst hkv
      decide),
   ((skipped_field stubLib).2.1 [(urlField "Hidden" "-", GoValue.string "x")]
      [(urlField "Value" "value", GoValue.string "test")]
      { Name := "secret", PkgPath := "main", Tag := [("url", "secret")] } (GoValue.string "y")
      (Or.inl (by decide))).trans rfl⟩

/-! ## The request pipeline: URL and headers of the request -/

theorem do_request (lib : Lib) (c : Client) (method path : String) (body : Option GoValue)
    (result : Option Dest) (req : Request)
    (h : req ∈ (c.do lib method path body result).sent) :
    req.Method = method ∧ req.URL = c.baseURL ++ path ∧
      req.Header = [("Authorization", "Bearer " ++ c.apiKey),
                    ("Content-Type", "application/json"),
                    ("Accept", "application/json")] := by
  unfold Client.do at h
  cases body with
  | none =>
    cases hn : lib.newRequestError method (c.baseURL ++ path) with
    | some err => simp [hn, Outcome.fail] at h
    | none =>
      simp only [hn] at h
      rw [send_sent, List.mem_singleton] at h
      subst h
      exact ⟨rfl, rfl, rfl⟩
  | some b =>
    cases hm : lib.jsonMarshal b with
    | error err => simp [hm, Outcome.fail] at h
    | ok jsonBody =>
      cases hn : lib.newRequestError method (c.baseURL ++ path) with
      | some err => simp [hm, hn, Outcome.fail] at h
      | none =>
        simp only [hm, hn] at h
        rw [send_sent, List.mem_singleton] at h
        subst h
        exact ⟨rfl, rfl, rfl⟩

theorem do_sends (lib : Lib) (c : Client) (method path : String) (result : Option Dest)
    (hn : lib.newRequestError method (c.baseURL ++ path) = none) :
    (c.do lib method path none result).sent =
      [{ Method := method, URL := c.baseURL ++ path,
         Header := [("Authorization", "Bearer " ++ c.apiKey),
                    ("Content-Type", "application/json"),
                    ("Accept", "application/json")],
         Body := none }] := by
  unfold Client.do
  simp only [hn]
  rw [send_sent]

theorem writeFields_boundary (fields : List MultipartField) (w w1 : MultipartWriter)
    (h : writeFields w fields = .ok w1) : w1.boundary = w.boundary := by
  induction fields generalizing w with
  | nil =>
    simp only [writeFields, Except.ok.injEq] at h
    rw [h]
  | cons field rest ih =>
    unfold writeFields at h
    cases hf : field.IsFile with
    | true =>
      simp only [hf, if_true, MultipartWriter.CreateFormFile, MultipartWriter.CreatePart,
        MultipartWriter.Write] at h
      exact (ih _ h).trans rfl
    | false =>
      simp only [hf, Bool.false_eq_true, if_false, MultipartWriter.WriteField,
        MultipartWriter.CreatePart, MultipartWriter.Write, Except.bind] at h
      exact (ih _ h).trans rfl

theorem PostMultipart_request (lib : Lib) (c : Client) (path : String)
    (fields : List MultipartField) (result : Option Dest) (req : Request)
    (h : req ∈ (c.PostMultipart lib path fields result).sent) :
    req.Method = "POST" ∧ req.URL = c.baseURL ++ path ∧
      req.Header = [("Authorization", "Bearer " ++ c.apiKey),
                    ("Content-Type", "multipart/form-data; boundary=" ++ lib.boundary)] := by
  unfold Client.PostMultipart at h
  cases hw : writeFields (MultipartWriter.new lib) fields with
  | error err => simp [hw, Outcome.fail] at h
  | ok w =>
    have hb : w.boundary = lib.boundary := writeFields_boundary fields _ w hw
    simp only [hw, MultipartWriter.Close] at h
    cases hn : lib.newRequestError "POST" (c.baseURL ++ path) with
    | some err => simp [hn, Outcome.fail] at h
    | none =>
      simp only [hn] at h
      rw [send_sent, List.mem_singleton] at h
      subst h
      refine ⟨rfl, rfl, ?_⟩
      simp only [MultipartWriter.FormDataContentType, hb]

/-- C17: the URL of every request that `Client.do` or `Client.PostMultipart` hands to
the transport is `baseURL ++ path`, the two strings joined as they are;
`GetWithQuery(path, q, r)` does what `Get(path ++ "?" ++ BuildQueryString(q), r)` does
when `BuildQueryString(q)` is not empty, and what `Get(path, r)` does when `q` is nil or
`BuildQueryString(q)` is empty; `BuildQueryString` always returns, so one of the two
holds. -/
theorem request_url (lib : Lib) (c : Client) :
    (∀ (method path : String) (body : Option GoValue) (result : Option Dest) (req : Request),
      req ∈ (c.do lib method path body result).sent → req.URL = c.baseURL ++ path) ∧
    (∀ (path : String) (fields : List MultipartField) (result : Option Dest) (req : Request),
      req ∈ (c.PostMultipart lib path fields result).sent → req.URL = c.baseURL ++ path) ∧
    (∀ (path : String) (q : Option GoValue) (result : Option Dest) (qs : String),
      BuildQueryString lib q = .ok qs → qs ≠ "" →
        c.GetWithQuery lib path q result = c.Get lib (path ++ "?" ++ qs) result) ∧
    (∀ (path : String) (q : Option GoValue) (result : Option Dest),
      q = none ∨ BuildQueryString lib q = .ok "" →
        c.GetWithQuery lib path q result = c.Get lib path result) ∧
    (∀ q : Option GoValue, ∃ qs : String, BuildQueryString lib q = .ok qs) ∧
    (∀ (path : String) (result : Option Dest),
      lib.newRequestError "GET" (c.baseURL ++ path) = none →
        ((c.Get lib path result).sent.map (fun req => req.URL)) = [c.baseURL ++ path]) := by
  refine ⟨?_, ?_, ?_, ?_, BuildQueryString_ok lib, ?_⟩
  · intro method path body result req h
    exact (do_request lib c method path body result req h).2.1
  · intro path fields result req h
    exact (PostMultipart_request lib c path fields result req h).2.1
  · intro path q result qs hqs hne
    cases q with
    | none =>
      have h0 : BuildQueryString lib none = .ok "" := rfl
      rw [h0] at hqs
      injection hqs with hqs
      exact absurd hqs.symm hne
    | some g =>
      unfold Client.GetWithQuery Client.Get
      simp only [hqs]
      rw [if_pos hne]
  · intro path q result h
    cases q with
    | none => rfl
    | some g =>
      rcases h with h | h
      · cases h
      · unfold Client.GetWithQuery Client.Get
        simp only [h]
        rw [if_neg (by simp)]
  · intro path result hn
    unfold Client.Get
    rw [do_sends lib c "GET" path result hn]
    rfl

/-- Witness of C17: as in `TestGetWithQuery`, the query `{Name: "test", Limit: 10}`
makes `GetWithQuery("/test", q, nil)` the call `Get("/test?limit=10&name=test", nil)`,
whose request goes to `http://127.0.0.1:8080/test?limit=10&name=test`; a base URL with
a trailing slash is not normalised. -/
theorem request_url_witness :
    (testClient { StatusCode := 200, Body := "" }).GetWithQuery stubLib "/test"
        (some (GoValue.struct
          [(urlField "Name" "name", GoValue.string "test"),
           (urlField "Limit" "limit", GoValue.int IntWidth.w 10)])) none =
      (testClient { StatusCode := 200, Body := "" }).Get stubLib
        ("/test" ++ "?" ++ "limit=10&name=test") none ∧
    ((testClient { StatusCode := 200, Body := "" }).Get stubLib
        ("/test" ++ "?" ++ "limit=10&name=test") none).sent.map (fun req => req.URL) =
      ["http://127.0.0.1:8080/test?limit=10&name=test"] ∧
    (({ httpClient := { Timeout := 0, Do := fun _ => .error "no network" },
        baseURL := "http://host/", apiKey := "k" } : Client).Get stubLib "/test"
          none).sent.map (fun req => req.URL) = ["http://host//test"] :=
  ⟨(request_url stubLib (testClient { StatusCode := 200, Body := "" })).2.2.1 "/test"
      (some (GoValue.struct
        [(urlField "Name" "name", GoValue.string "test"),
         (urlField "Limit" "limit", GoValue.int IntWidth.w 10)])) none "limit=10&name=test"
      rfl (by decide),
   by decide, by decide⟩

/-- C18: every request that `Client.do` hands to the transport, for any verb, with or
without a body, carries exactly the headers `Authorization: Bearer <credential>`,
`Content-Type: application/json` and `Accept: application/json`; every request that
`Client.PostMultipart` hands to the transport carries exactly `Authorization: Bearer
<credential>` and `Content-Type: multipart/form-data; boundary=<the writer's boundary>`,
so no `Accept` header and no JSON content type. With a method and URL that
`http.NewRequestWithContext` accepts, a call without a body hands over one request. -/
theorem request_headers (lib : Lib) (c : Client) :
    (∀ (method path : String) (body : Option GoValue) (result : Option Dest) (req : Request),
      req ∈ (c.do lib method path body result).sent →
        req.Header = [("Authorization", "Bearer " ++ c.apiKey),
                      ("Content-Type", "application/json"),
                      ("Accept", "application/json")]) ∧
    (∀ (path : String) (fields : List MultipartField) (result : Option Dest) (req : Request),
      req ∈ (c.PostMultipart lib path fields result).sent →
        req.Header = [("Authorization", "Bearer " ++ c.apiKey),
                      ("Content-Type", "multipart/form-data; boundary=" ++ lib.boundary)] ∧
        req.Header.lookup "Accept" = none ∧
        req.Header.lookup "Content-Type" ≠ some "application/json") ∧
    (∀ (method path : String) (result : Option Dest),
      lib.newRequestError method (c.baseURL ++ path) = none →
        ((c.do lib method path none result).sent.map (fun req => req.Header)) =
          [[("Authorization", "Bearer " ++ c.apiKey),
            ("Content-Type", "application/json"),
            ("Accept", "application/json")]]) := by
  refine ⟨?_, ?_, ?_⟩
  · intro method path body result req h
    exact (do_request lib c method path body result req h).2.2
  · intro path fields result req h
    have hh := (PostMultipart_request lib c path fields result req h).2.2
    refine ⟨hh, ?_, ?_⟩
    · rw [hh]
      rfl
    · rw [hh]
      have : List.lookup "Content-Type"
          [("Authorization", "Bearer " ++ c.apiKey),
           ("Content-Type", "multipart/form-data; boundary=" ++ lib.boundary)] =
          some ("multipart/form-data; boundary=" ++ lib.boundary) := rfl
      rw [this]
      intro heq
      injection heq with heq
      have hd := congrArg String.data heq
      rw [String.data_append] at hd
      have h1 : ("multipart/form-data; boundary=" : String).data =
          'm' :: ("ultipart/form-data; boundary=" : String).data := by decide
      have h2 : ("application/json" : String).data =
          'a' :: ("pplication/json" : String).data := by decide
      rw [h1, h2, List.cons_append] at hd
      injection hd with hc _
      exact absurd hc (by decide)
  · intro method path result hn
    rw [do_sends lib c method path result hn]
    rfl

/-- Witness of C18: a multipart POST with one form field, against the test server,
hands over one request, with the headers `Authorization: Bearer test-key` and
`Content-Type: multipart/form-data; boundary=boundary`. -/
theorem request_headers_witness :
    ((testClient { StatusCode := 200, Body := "" }).PostMultipart stubLib "/upload"
        [{ Name := "model", Value := "whisper-1", IsFile := false, FileName := "",
           Data := [] }] none).sent.map (fun req => req.Header) =
      [[("Authorization", "Bearer test-key"),
        ("Content-Type", "multipart/form-data; boundary=boundary")]] ∧
    ∀ req ∈ ((testClient { StatusCode := 200, Body := "" }).PostMultipart stubLib "/upload"
        [{ Name := "model", Value := "whisper-1", IsFile := false, FileName := "",
           Data := [] }] none).sent,
      req.Header.lookup "Accept" = none :=
  ⟨by decide,
   fun req h =>
    ((request_headers stubLib (testClient { StatusCode := 200, Body := "" })).2.1 "/upload"
      [{ Name := "model", Value := "whisper-1", IsFile := false, FileName := "",
         Data := [] }] none req h).2.1⟩

/-! ## Construction of the client -/

theorem parseParams_eq (params : List Param) (apiKey : String) (opts : List ClientOption) :
    parseParams params (apiKey, opts) =
      (if apiKey = "" then ((stringParams params).find? (fun s => decide (s ≠ ""))).getD ""
        else apiKey,
       opts ++ optionParams params) := by
  induction params generalizing apiKey opts with
  | nil =>
    simp only [parseParams, stringParams, optionParams, List.filterMap_nil, List.find?_nil,
      Option.getD_none, List.append_nil]
    split
    · next h => rw [h]
    · rfl
  | cons p rest ih =>
    cases p with
    | string v =>
      have hs : stringParams (Param.string v :: rest) = v :: stringParams rest := rfl
      have ho : optionParams (Param.string v :: rest) = optionParams rest := rfl
      rw [parseParams, hs, ho]
      by_cases hk : apiKey = ""
      · rw [if_pos hk, ih, if_pos hk]
        by_cases hv : v = ""
        · simp [hv]
        · simp [hv]
      · rw [if_neg hk, ih, if_neg hk, if_neg hk]
    | option opt =>
      have hs : stringParams (Param.option opt :: rest) = stringParams rest := rfl
      have ho : optionParams (Param.option opt :: rest) = opt :: optionParams rest := rfl
      rw [parseParams, hs, ho, ih]
      simp
    | other =>
      have hs : stringParams (Param.other :: rest) = stringParams rest := rfl
      have ho : optionParams (Param.other :: rest) = optionParams rest := rfl
      rw [parseParams, hs, ho, ih]

theorem foldl_apply_apiKey (opts : List ClientOption) (c : Client) :
    (opts.foldl (fun c opt => opt.apply c) c).apiKey = c.apiKey := by
  induction opts generalizing c with
  | nil => rfl
  | cons opt rest ih =>
    rw [List.foldl_cons, ih]
    cases opt <;> rfl

theorem getLast?_cons_getD (u d : String) (l : List String) :
    ((u :: l).getLast?).getD d = (l.getLast?).getD u := by
  cases l with
  | nil => rfl
  | cons x xs =>
    rw [List.getLast?_cons_cons]
    cases h : (x :: xs).getLast? with
    | none => simp at h
    | some y => rfl

theorem foldl_apply_baseURL (opts : List ClientOption) (c : Client) :
    (opts.foldl (fun c opt => opt.apply c) c).baseURL =
      ((opts.filterMap (fun opt => match opt with
        | ClientOption.WithBaseURL baseURL => some baseURL
        | _ => none)).getLast?).getD c.baseURL := by
  induction opts generalizing c with
  | nil => rfl
  | cons opt rest ih =>
    rw [List.foldl_cons, ih]
    cases opt with
    | WithHTTPClient httpClient => rfl
    | WithBaseURL baseURL =>
      simp only [List.filterMap_cons]
      rw [getLast?_cons_getD]
      rfl
    | WithTimeout timeout => rfl

theorem New_apiKey (os : Process) (params : List Param) :
    (New os params).apiKey =
      match (stringParams params).find? (fun s => decide (s ≠ "")) with
      | some key => key
      | none => os.Getenv "KEYWORDSAI_API_KEY" := by
  unfold New
  simp only [foldl_apply_apiKey, parseParams_eq, if_true]
  cases h : (stringParams params).find? (fun s => decide (s ≠ "")) with
  | none =>
    simp only [Option.getD_none, if_true]
    split <;> rfl
  | some key =>
    have hne : key ≠ "" := by
      have := List.find?_some h
      simpa using this
    simp only [Option.getD_some, if_neg hne]
    split <;> rfl

theorem baseURL_of_New (os : Process) (params : List Param) :
    (New os params).baseURL =
      match lastBaseURL params with
      | some baseURL => baseURL
      | none =>
        if os.Getenv "KEYWORDS_BASE_URL" ≠ "" then os.Getenv "KEYWORDS_BASE_URL"
        else defaultBaseURL := by
  unfold New
  simp only [foldl_apply_baseURL, parseParams_eq, List.nil_append]
  unfold lastBaseURL
  cases ((optionParams params).filterMap (fun opt => match opt with
      | ClientOption.WithBaseURL baseURL => some baseURL
      | _ => none)).getLast? with
  | some u => rfl
  | none =>
    simp only [Option.getD_none]
    by_cases he : os.Getenv "KEYWORDS_BASE_URL" = ""
    · simp only [he, ne_eq, not_true_eq_false, false_and, if_false]
      split_ifs <;> rfl
    · simp only [he, ne_eq, not_false_eq_true, true_and, if_true]
      split_ifs <;> first | rfl | simp_all

/-- C19 (the code diverges): `New` takes as the credential the first string parameter
that is not empty, not the first string parameter: with `KEYWORDSAI_API_KEY=env-key`,
`New("", "second-key")` has the credential `second-key`, not `env-key`. In general the
credential is the first non-empty string parameter, or the value of `KEYWORDSAI_API_KEY`
when there is none; options and parameters of other types do not change it. -/
theorem New_credential (os : Process) (params : List Param) :
    (New (testProcess "env-key" "") [Param.string "", Param.string "second-key"]).APIKey =
        "second-key" ∧
    (New os params).APIKey =
      (match (stringParams params).find? (fun s => decide (s ≠ "")) with
       | some key => key
       | none => os.Getenv "KEYWORDSAI_API_KEY") :=
  ⟨by decide, New_apiKey os params⟩

/-- C20: the base URL of `New(params...)`, which `BaseURL()` returns, is the argument of
the last `WithBaseURL` option when there is one, even the empty string and whatever the
environment holds; otherwise the value of `KEYWORDS_BASE_URL` when it is not empty;
otherwise `https://api.keywordsai.co`. -/
theorem New_baseURL (os : Process) (params : List Param) :
    (New os params).BaseURL =
      (match lastBaseURL params with
       | some baseURL => baseURL
       | none =>
         if os.Getenv "KEYWORDS_BASE_URL" ≠ "" then os.Getenv "KEYWORDS_BASE_URL"
         else "https://api.keywordsai.co") ∧
    (New (testProcess "" "https://env.example.com")
        [Param.string "test-key",
         Param.option (ClientOption.WithBaseURL "https://first.example.com"),
         Param.option (ClientOption.WithTimeout 60000000000),
         Param.option (ClientOption.WithBaseURL "")]).BaseURL = "" ∧
    (New (testProcess "" "https://env.example.com") [Param.string "test-key"]).BaseURL =
      "https://env.example.com" ∧
    (New (testProcess "" "") [Param.string "test-key"]).BaseURL =
      "https://api.keywordsai.co" :=
  ⟨baseURL_of_New os params, by decide, by decide, by decide⟩

/-! ## Times: the calendar -/

set_option maxRecDepth 100000 in
theorem monthDay_common : ∀ n : Nat, n < 365 →
    1 ≤ (monthDay false n).1 ∧ (monthDay false n).1 ≤ 12 ∧ 1 ≤ (monthDay false n).2 ∧
      (monthDay false n).2 ≤
        daysBefore (monthDay false n).1 - daysBefore ((monthDay false n).1 - 1) ∧
      daysBefore ((monthDay false n).1 - 1) + ((monthDay false n).2 - 1) = n := by
  decide

set_option maxRecDepth 100000 in
theorem monthDay_leap : ∀ n : Nat, n < 366 →
    1 ≤ (monthDay true n).1 ∧ (monthDay true n).1 ≤ 12 ∧ 1 ≤ (monthDay true n).2 ∧
      (monthDay true n).2 ≤
        (if (monthDay true n).1 = 2 then 29
          else daysBefore (monthDay true n).1 - daysBefore ((monthDay true n).1 - 1)) ∧
      daysBefore ((monthDay true n).1 - 1) + (if (monthDay true n).1 ≥ 3 then 1 else 0) +
        ((monthDay true n).2 - 1) = n := by
  decide

theorem daysSinceEpoch_cycles (q c n4 n1 : Int) (hc0 : 0 ≤ c) (hc : c ≤ 3) (h40 : 0 ≤ n4)
    (h4 : n4 ≤ 24) (h10 : 0 ≤ n1) (h1 : n1 ≤ 3) :
    daysSinceEpoch (400 * q + 100 * c + 4 * n4 + n1 + 1) =
      146097 * q + 36524 * c + 1461 * n4 + 365 * n1 := by
  unfold daysSinceEpoch
  have e0 : 400 * q + 100 * c + 4 * n4 + n1 + 1 - 1 = 400 * q + (100 * c + 4 * n4 + n1) := by
    omega
  have e1 : (400 * q + (100 * c + 4 * n4 + n1)) / 400 = q := by omega
  simp only [e0, e1]
  have e2 : (400 * q + (100 * c + 4 * n4 + n1) - 400 * q) = 100 * c + (4 * n4 + n1) := by omega
  have e3 : (100 * c + (4 * n4 + n1)) / 100 = c := by omega
  simp only [e2, e3]
  have e4 : 100 * c + (4 * n4 + n1) - 100 * c = 4 * n4 + n1 := by omega
  have e5 : (4 * n4 + n1) / 4 = n4 := by omega
  simp only [e4, e5]
  omega

theorem isLeap_cycles (q c n4 n1 : Int) (hc0 : 0 ≤ c) (hc : c ≤ 3) (h40 : 0 ≤ n4)
    (h4 : n4 ≤ 24) (h10 : 0 ≤ n1) (h1 : n1 ≤ 3) :
    isLeap (400 * q + 100 * c + 4 * n4 + n1 + 1) = true ↔ (n1 = 3 ∧ (n4 ≠ 24 ∨ c = 3)) := by
  simp only [isLeap, Bool.and_eq_true, Bool.or_eq_true, decide_eq_true_eq, ne_eq]
  omega

theorem yearDay_cycles (d : Int) :
    ∃ q c n4 n1 yday : Int, 0 ≤ c ∧ c ≤ 3 ∧ 0 ≤ n4 ∧ n4 ≤ 24 ∧ 0 ≤ n1 ∧ n1 ≤ 3 ∧
      0 ≤ yday ∧ yday ≤ 365 ∧ (yday = 365 → n1 = 3 ∧ (n4 ≠ 24 ∨ c = 3)) ∧
      d = 146097 * q + 36524 * c + 1461 * n4 + 365 * n1 + yday ∧
      yearDay d = (400 * q + 100 * c + 4 * n4 + n1 + 1, yday) := by
  simp only [yearDay]
  generalize hq : d / 146097 = q
  generalize hr : d - 146097 * q = r
  have hr0 : 0 ≤ r ∧ r ≤ 146096 := by omega
  generalize hc' : r / 36524 = c'
  generalize hc : c' - c' / 4 = c
  have hcb : 0 ≤ c ∧ c ≤ 3 ∧ (c' = 4 → c = 3) ∧ (c' ≤ 3 → c = c') := by omega
  generalize hr2 : r - 36524 * c = r2
  have hr2b : 0 ≤ r2 ∧ r2 ≤ 36524 ∧ (r2 = 36524 → c = 3) := by omega
  generalize hn4 : r2 / 1461 = n4
  have hn4b : 0 ≤ n4 ∧ n4 ≤ 24 := by omega
  generalize hr3 : r2 - 1461 * n4 = r3
  have hr3b : 0 ≤ r3 ∧ r3 ≤ 1460 ∧ (r3 = 1460 → n4 ≠ 24 ∨ c = 3) := by omega
  generalize hn1' : r3 / 365 = n1'
  generalize hn1 : n1' - n1' / 4 = n1
  have hn1b : 0 ≤ n1 ∧ n1 ≤ 3 ∧ (n1' = 4 → n1 = 3) ∧ (n1' ≤ 3 → n1 = n1') := by omega
  refine ⟨q, c, n4, n1, r3 - 365 * n1, hcb.1, hcb.2.1, hn4b.1, hn4b.2, hn1b.1, hn1b.2.1,
    ?_, ?_, ?_, ?_, rfl⟩
  · omega
  · omega
  · omega
  · omega

/-- The date of a day number is a date of the calendar, and `Date` leads back from it
to the day number. -/
theorem date_spec (d : Int) :
    1 ≤ (monthDay (isLeap (yearDay d).1) (yearDay d).2).1 ∧
      (monthDay (isLeap (yearDay d).1) (yearDay d).2).1 ≤ 12 ∧
      1 ≤ (monthDay (isLeap (yearDay d).1) (yearDay d).2).2 ∧
      (monthDay (isLeap (yearDay d).1) (yearDay d).2).2 ≤
        daysIn (monthDay (isLeap (yearDay d).1) (yearDay d).2).1 (yearDay d).1 ∧
      daysSinceEpoch (yearDay d).1 +
          daysBefore ((monthDay (isLeap (yearDay d).1) (yearDay d).2).1 - 1) +
          (if isLeap (yearDay d).1 = true ∧
              (monthDay (isLeap (yearDay d).1) (yearDay d).2).1 ≥ 3 then 1 else 0) +
          ((monthDay (isLeap (yearDay d).1) (yearDay d).2).2 - 1) = d := by
  obtain ⟨q, c, n4, n1, yday, hc0, hc, h40, h4, h10, h1, hy0, hy, hy365, hd, hyd⟩ :=
    yearDay_cycles d
  have hse := daysSinceEpoch_cycles q c n4 n1 hc0 hc h40 h4 h10 h1
  have hleap := isLeap_cycles q c n4 n1 hc0 hc h40 h4 h10 h1
  rw [hyd]
  simp only
  rw [hse]
  have hn : yday = ((yday.toNat : Nat) : Int) := by omega
  cases hl : isLeap (400 * q + 100 * c + 4 * n4 + n1 + 1) with
  | false =>
    have hlt : yday.toNat < 365 := by
      have : ¬ yday = 365 := by
        intro h365
        have := hleap.mpr (hy365 h365)
        rw [hl] at this
        exact absurd this (by decide)
      omega
    have key := monthDay_common yday.toNat hlt
    rw [← hn] at key
    obtain ⟨k1, k2, k3, k4, k5⟩ := key
    refine ⟨k1, k2, k3, ?_, ?_⟩
    · unfold daysIn
      rw [hl]
      simpa using k4
    · simp only [Bool.false_eq_true, false_and, if_false]
      omega
  | true =>
    have hlt : yday.toNat < 366 := by omega
    have key := monthDay_leap yday.toNat hlt
    rw [← hn] at key
    obtain ⟨k1, k2, k3, k4, k5⟩ := key
    refine ⟨k1, k2, k3, ?_, ?_⟩
    · unfold daysIn
      rw [hl]
      simpa using k4
    · simp only [true_and]
      omega

/-! ## Times: digits -/

theorem digitVal_utod : ∀ u : Nat, u < 10 → digitVal (utod u) = some u := by
  decide

theorem utod_ne : ∀ u : Nat, u < 10 → utod u ≠ '.' := by
  decide

theorem parseUint_two (a b lo hi : Nat) (ha : a < 10) (hb : b < 10) :
    parseUint [utod a, utod b] lo hi =
      if a * 10 + b < lo ∨ hi < a * 10 + b then none else some (a * 10 + b) := by
  simp [parseUint, List.foldlM, digitVal_utod a ha, digitVal_utod b hb]

theorem parseUint_four (a b c d lo hi : Nat) (ha : a < 10) (hb : b < 10) (hc : c < 10)
    (hd : d < 10) :
    parseUint [utod a, utod b, utod c, utod d] lo hi =
      if ((a * 10 + b) * 10 + c) * 10 + d < lo ∨ hi < ((a * 10 + b) * 10 + c) * 10 + d
      then none else some (((a * 10 + b) * 10 + c) * 10 + d) := by
  simp [parseUint, List.foldlM, digitVal_utod a ha, digitVal_utod b hb, digitVal_utod c hc,
    digitVal_utod d hd]

theorem parseUint_two_digits (u lo hi : Nat) (hu : u < 100) (hlo : lo ≤ u) (hhi : u ≤ hi) :
    parseUint [utod (u / 10), utod (u % 10)] lo hi = some u := by
  rw [parseUint_two _ _ _ _ (by omega) (by omega)]
  have e : u / 10 * 10 + u % 10 = u := by omega
  rw [e, if_neg (by omega)]

theorem parseUint_four_digits (u lo hi : Nat) (hu : u < 10000) (hlo : lo ≤ u) (hhi : u ≤ hi) :
    parseUint [utod (u / 1000), utod (u / 100 % 10), utod (u / 10 % 10), utod (u % 10)] lo hi =
      some u := by
  rw [parseUint_four _ _ _ _ _ _ (by omega) (by omega) (by omega) (by omega)]
  have e : ((u / 1000 * 10 + u / 100 % 10) * 10 + u / 10 % 10) * 10 + u % 10 = u := by omega
  rw [e, if_neg (by omega)]

theorem appendInt_two (x : Int) (h0 : 0 ≤ x) (h1 : x < 100) :
    appendInt x 2 = [utod (x.toNat / 10), utod (x.toNat % 10)] := by
  unfold appendInt
  have hn : x.natAbs = x.toNat := by omega
  have hlt : x.toNat < 100 := by omega
  simp [hn, hlt, not_lt.mpr h0]

theorem appendInt_four (x : Int) (h0 : 0 ≤ x) (h1 : x < 10000) :
    appendInt x 4 =
      [utod (x.toNat / 1000), utod (x.toNat / 100 % 10), utod (x.toNat / 10 % 10),
        utod (x.toNat % 10)] := by
  unfold appendInt
  have hn : x.natAbs = x.toNat := by omega
  have hlt : x.toNat < 10000 := by omega
  simp [hn, hlt, not_lt.mpr h0]

/-! ## Times: the zone -/

theorem formatZone_eq (offset : Int) (hne : offset ≠ 0) (h60 : offset % 60 = 0)
    (hlo : -86400 < offset) (hhi : offset < 86400) :
    formatZone offset =
      (if offset < 0 then '-' else '+') ::
        [utod (offset.natAbs / 3600 / 10), utod (offset.natAbs / 3600 % 10), ':',
         utod (offset.natAbs / 60 % 60 / 10), utod (offset.natAbs / 60 % 60 % 10)] := by
  unfold formatZone
  rw [if_neg hne]
  by_cases hneg : offset < 0
  · have hz : (-((-offset) / 60)) < 0 := by omega
    simp only [hneg, if_true, hz, neg_neg]
    have e1 : (-offset / 60 / 60).toNat = offset.natAbs / 3600 := by omega
    have e2 : (-offset / 60 % 60).toNat = offset.natAbs / 60 % 60 := by omega
    rw [appendInt_two _ (by omega) (by omega), appendInt_two _ (by omega) (by omega), e1, e2]
    rfl
  · have hz : ¬ (offset / 60 < 0) := by omega
    simp only [hneg, if_false, hz]
    have e1 : (offset / 60 / 60).toNat = offset.natAbs / 3600 := by omega
    have e2 : (offset / 60 % 60).toNat = offset.natAbs / 60 % 60 := by omega
    rw [appendInt_two _ (by omega) (by omega), appendInt_two _ (by omega) (by omega), e1, e2]
    rfl

theorem parseZone_formatZone (offset : Int) (h60 : offset % 60 = 0)
    (hlo : -86400 < offset) (hhi : offset < 86400) :
    parseZone (formatZone offset) = some offset := by
  by_cases hne : offset = 0
  · subst hne
    rfl
  · rw [formatZone_eq offset hne h60 hlo hhi]
    unfold parseZone
    simp only
    rw [parseUint_two_digits _ 0 23 (by omega) (by omega) (by omega),
      parseUint_two_digits _ 0 59 (by omega) (by omega) (by omega)]
    by_cases hneg : offset < 0
    · simp only [hneg, if_true, Option.bind_some, true_or, and_self, not_true_eq_false,
        if_false]
      show some (-((((offset.natAbs / 3600 : Nat) : Int) * 60 +
        ((offset.natAbs / 60 % 60 : Nat) : Int)) * 60)) = some offset
      congr 1
      omega
    · have hpm : ¬ ('+' = '-') := by decide
      simp only [hneg, if_false, Option.bind_some, or_true, and_self, not_true_eq_false,
        hpm]
      show some ((((offset.natAbs / 3600 : Nat) : Int) * 60 +
        ((offset.natAbs / 60 % 60 : Nat) : Int)) * 60) = some offset
      congr 1
      omega

theorem parseFraction_sign (neg : Prop) [Decidable neg] (rest : List Char) :
    parseFraction ((if neg then '-' else '+') :: rest) =
      (0, (if neg then '-' else '+') :: rest) := by
  by_cases h : neg
  · simp only [h, if_true]
    rfl
  · simp only [h, if_false]
    rfl

theorem parseFraction_formatZone (offset : Int) :
    parseFraction (formatZone offset) = (0, formatZone offset) := by
  unfold formatZone
  split
  · rfl
  · exact parseFraction_sign _ _

/-! ## Times: formatting and parsing back -/

theorem daysIn_le (month : Nat) (year : Int) (h1 : 1 ≤ month) (h12 : month ≤ 12) :
    daysIn month year ≤ 31 := by
  unfold daysIn
  interval_cases month <;> split <;> simp [daysBefore]

theorem parseRFC3339_fields (Y M D h m s : Nat) (zone : List Char) (offset : Int)
    (hY : Y ≤ 9999) (hM1 : 1 ≤ M) (hM : M ≤ 12) (hD1 : 1 ≤ D)
    (hD : (D : Int) ≤ daysIn M Y) (hh : h ≤ 23) (hm : m ≤ 59) (hs : s ≤ 59)
    (hfrac : parseFraction zone = (0, zone)) (hzone : parseZone zone = some offset) :
    parseRFC3339
        (String.mk
          ([utod (Y / 1000), utod (Y / 100 % 10), utod (Y / 10 % 10), utod (Y % 10), '-',
            utod (M / 10), utod (M % 10), '-', utod (D / 10), utod (D % 10), 'T',
            utod (h / 10), utod (h % 10), ':', utod (m / 10), utod (m % 10), ':',
            utod (s / 10), utod (s % 10)] ++ zone)) =
      some
        { unixSec :=
            (daysSinceEpoch Y + daysBefore (M - 1) +
                (if isLeap Y = true ∧ M ≥ 3 then 1 else 0) + ((D : Int) - 1)) * 86400 +
              h * 3600 + m * 60 + s - 62135596800 - offset
          nsec := 0
          offset := offset } := by
  have hD31 : (D : Int) ≤ 31 := le_trans hD (daysIn_le M Y hM1 hM)
  have hDn : D ≤ (daysIn M Y).toNat := by omega
  unfold parseRFC3339
  simp only [List.cons_append, List.nil_append]
  rw [parseUint_four_digits Y 0 9999 (by omega) (by omega) hY,
    parseUint_two_digits M 1 12 (by omega) hM1 hM]
  simp only [Option.bind]
  rw [parseUint_two_digits D 1 _ (by omega) hD1 hDn,
    parseUint_two_digits h 0 23 (by omega) (by omega) hh,
    parseUint_two_digits m 0 59 (by omega) (by omega) hm,
    parseUint_two_digits s 0 59 (by omega) (by omega) hs]
  simp only [hfrac, hzone, and_self, not_true_eq_false, if_false, Option.map]

theorem clock_spec (a : Int) :
    0 ≤ a % 86400 / 3600 ∧ a % 86400 / 3600 ≤ 23 ∧
    0 ≤ (a % 86400 - a % 86400 / 3600 * 3600) / 60 ∧
    (a % 86400 - a % 86400 / 3600 * 3600) / 60 ≤ 59 ∧
    0 ≤ a % 86400 - a % 86400 / 3600 * 3600 -
        (a % 86400 - a % 86400 / 3600 * 3600) / 60 * 60 ∧
    a % 86400 - a % 86400 / 3600 * 3600 -
        (a % 86400 - a % 86400 / 3600 * 3600) / 60 * 60 ≤ 59 ∧
    a % 86400 / 3600 * 3600 + (a % 86400 - a % 86400 / 3600 * 3600) / 60 * 60 +
        (a % 86400 - a % 86400 / 3600 * 3600 -
          (a % 86400 - a % 86400 / 3600 * 3600) / 60 * 60) = a % 86400 := by
  omega

/-- Formatting a time as RFC 3339 and parsing the text gives back the instant of the
time cut to the second, and its zone offset, when the year has four digits and the
offset is a whole number of minutes, less than a day. -/
theorem parseRFC3339_formatRFC3339 (t : Time) (hy0 : 0 ≤ t.Year) (hy1 : t.Year ≤ 9999)
    (h60 : t.offset % 60 = 0) (hlo : -86400 < t.offset) (hhi : t.offset < 86400) :
    parseRFC3339 (formatRFC3339 t) =
      some { unixSec := t.unixSec, nsec := 0, offset := t.offset } := by
  obtain ⟨k1, k2, k3, k4, k5⟩ := date_spec (t.abs / 86400)
  obtain ⟨c1, c2, c3, c4, c5, c6, c7⟩ := clock_spec t.abs
  have hyear : t.Year = (yearDay (t.abs / 86400)).1 := rfl
  rw [hyear] at hy0 hy1
  have hdate : t.Date = ((yearDay (t.abs / 86400)).1,
      (monthDay (isLeap (yearDay (t.abs / 86400)).1) (yearDay (t.abs / 86400)).2).1,
      (monthDay (isLeap (yearDay (t.abs / 86400)).1) (yearDay (t.abs / 86400)).2).2) := rfl
  have hclock : t.Clock = (t.abs % 86400 / 3600,
      (t.abs % 86400 - t.abs % 86400 / 3600 * 3600) / 60,
      t.abs % 86400 - t.abs % 86400 / 3600 * 3600 -
        (t.abs % 86400 - t.abs % 86400 / 3600 * 3600) / 60 * 60) := rfl
  generalize (yearDay (t.abs / 86400)).1 = Y at *
  generalize (monthDay (isLeap Y) (yearDay (t.abs / 86400)).2).1 = M at *
  generalize (monthDay (isLeap Y) (yearDay (t.abs / 86400)).2).2 = D at *
  generalize t.abs % 86400 / 3600 = h at *
  generalize (t.abs % 86400 - h * 3600) / 60 = m at *
  generalize t.abs % 86400 - h * 3600 - m * 60 = s at *
  have hD31 : D ≤ 31 := le_trans k4 (daysIn_le M Y k1 k2)
  unfold formatRFC3339
  rw [hdate, hclock]
  simp only
  rw [appendInt_four Y hy0 (by omega), appendInt_two M (by omega) (by omega),
    appendInt_two D (by omega) (by omega), appendInt_two h c1 (by omega),
    appendInt_two m c3 (by omega), appendInt_two s c5 (by omega)]
  simp only [Int.toNat_ofNat, List.cons_append, List.nil_append]
  have hYn : ((Y.toNat : Nat) : Int) = Y := Int.toNat_of_nonneg hy0
  have key := parseRFC3339_fields Y.toNat M D.toNat h.toNat m.toNat s.toNat
    (formatZone t.offset) t.offset (by omega) k1 k2 (by omega)
    (by rw [hYn]; omega) (by omega) (by omega) (by omega)
    (parseFraction_formatZone t.offset) (parseZone_formatZone t.offset h60 hlo hhi)
  simp only [List.cons_append, List.nil_append] at key
  rw [key, hYn]
  congr 2
  have hDn : ((D.toNat : Nat) : Int) = D := Int.toNat_of_nonneg (by omega)
  have hhn : ((h.toNat : Nat) : Int) = h := Int.toNat_of_nonneg c1
  have hmn : ((m.toNat : Nat) : Int) = m := Int.toNat_of_nonneg c3
  have hsn : ((s.toNat : Nat) : Int) = s := Int.toNat_of_nonneg c5
  rw [hDn, hhn, hmn, hsn, k5]
  unfold Time.abs at c7 ⊢
  omega

/-! ## The query encoder: times -/

theorem formatRFC3339_nsec (t : Time) (nsec : Nat) :
    formatRFC3339 { t with nsec := nsec } = formatRFC3339 t := rfl

theorem fieldStepResult_time_ptr (lib : Lib) (v : Values) (f : StructField) (t : Time) :
    fieldStepResult lib v (f, GoValue.ptr (some (GoValue.time t))) =
      fieldStepResult lib v (f, GoValue.time t) := by
  unfold fieldStepResult
  cases paramName f with
  | none => rfl
  | some name => simp [GoValue.isEmpty, GoValue.unwrapped]

/-- C15 (as stated, refuted): RFC 3339 as `time.RFC3339` writes it has whole seconds.
A `time.Time` field holding 2024-01-15 10:30:00.5 UTC is emitted as
`2024-01-15T10:30:00Z`, which parses to 10:30:00, half a second before the instant of
the field; no parser gives back every time from its rendering. The seconds of a zone
offset are cut as well (offset 30 s: `1970-01-01T00:00:30+00:00` parses to 30 s after
the instant), and the rendering of a year beyond 9999 is not accepted. -/
theorem time_field_not_round_trippable :
    (BuildQueryString timeLib
        (some (GoValue.struct
          [(urlField "CreatedAt" "created_at",
            GoValue.time { unixSec := 1705314600, nsec := 500000000, offset := 0 })])) =
      .ok "created_at=2024-01-15T10%3A30%3A00Z" ∧
     formatRFC3339 { unixSec := 1705314600, nsec := 500000000, offset := 0 } =
       "2024-01-15T10:30:00Z" ∧
     parseRFC3339 "2024-01-15T10:30:00Z" =
       some { unixSec := 1705314600, nsec := 0, offset := 0 }) ∧
    (¬ ∃ parse : String → Option Time, ∀ t : Time, parse (formatRFC3339 t) = some t) ∧
    (formatRFC3339 { unixSec := 0, nsec := 0, offset := 30 } = "1970-01-01T00:00:30+00:00" ∧
     parseRFC3339 "1970-01-01T00:00:30+00:00" =
       some { unixSec := 30, nsec := 0, offset := 0 }) ∧
    (formatRFC3339 { unixSec := 253402300800, nsec := 0, offset := 0 } =
       "10000-01-01T00:00:00Z" ∧
     parseRFC3339 "10000-01-01T00:00:00Z" = none) := by
  refine ⟨⟨rfl, by decide, by decide⟩, ?_, ⟨by decide, by decide⟩,
    ⟨by decide, by decide⟩⟩
  rintro ⟨parse, h⟩
  have h1 := h { unixSec := 1705314600, nsec := 500000000, offset := 0 }
  have h2 := h { unixSec := 1705314600, nsec := 0, offset := 0 }
  have he : formatRFC3339 { unixSec := 1705314600, nsec := 500000000, offset := 0 } =
      formatRFC3339 { unixSec := 1705314600, nsec := 0, offset := 0 } := rfl
  rw [he, h2] at h1
  exact absurd h1 (by decide)

/-- C15 (amended): in a struct where no other field is encoded under the same name, a
tagged `time.Time` field, or a non-nil `*time.Time` field, holding `t` yields exactly
one parameter of its name, whose value is `t` formatted as RFC 3339 (`time.RFC3339`).
That format has whole seconds: the nanoseconds of `t` do not show in it, and when the
year of `t` lies in 0..9999 and its zone offset is a whole number of minutes, less than
a day, parsing the emitted value as RFC 3339 yields the instant of `t` cut to the
second (the instant of `t` when `t` has no fraction of a second), in the zone offset of
`t`. -/
theorem time_field (lib : Lib) (pre post : List (StructField × GoValue))
    (f : StructField) (t : Time) (name : String)
    (hname : paramName f = some name)
    (hother : ∀ fv ∈ pre ++ post, paramName fv.1 ≠ some name) :
    ∃ values : Values,
      fieldLoop lib [] (pre ++ (f, GoValue.time t) :: post) = .ok values ∧
      BuildQueryString lib (some (GoValue.struct (pre ++ (f, GoValue.time t) :: post))) =
        .ok values.Encode ∧
      BuildQueryString lib
          (some (GoValue.struct (pre ++ (f, GoValue.ptr (some (GoValue.time t))) :: post))) =
        .ok values.Encode ∧
      values.paramsNamed name = [lib.formatRFC3339 t] ∧
      (∀ nsec : Nat, formatRFC3339 { t with nsec := nsec } = formatRFC3339 t) ∧
      (lib.formatRFC3339 t = formatRFC3339 t → 0 ≤ t.Year → t.Year ≤ 9999 →
        t.offset % 60 = 0 → -86400 < t.offset → t.offset < 86400 →
        ∀ v ∈ values.paramsNamed name,
          parseRFC3339 v = some { unixSec := t.unixSec, nsec := 0, offset := t.offset }) := by
  have key := loop_paramsNamed lib pre post f (GoValue.time t) name hname hother
  have hval : ((pre ++ (f, GoValue.time t) :: post).foldl (fieldStepResult lib)
      []).paramsNamed name = [lib.formatRFC3339 t] := by
    rw [key]
    simp [GoValue.isEmpty, GoValue.unwrapped, renderedValues]
  refine ⟨_, fieldLoop_eq lib _ [], BuildQueryString_struct lib _, ?_, hval,
    formatRFC3339_nsec t, ?_⟩
  · simp only [BuildQueryString_struct, List.foldl_append, List.foldl_cons,
      fieldStepResult_time_ptr]
  · intro hlib hy0 hy1 h60 hlo hhi v hv
    rw [hval, List.mem_singleton] at hv
    rw [hv, hlib]
    exact parseRFC3339_formatRFC3339 t hy0 hy1 h60 hlo hhi

/-- Witness of C15 (amended): `CreatedAt` tagged `url:"created_at"` holding
2024-02-29 07:04:56 in the zone -05:30 encodes to
`created_at=2024-02-29T07%3A04%3A56-05%3A30`, and the emitted value parses to the same
instant and offset. -/
theorem time_field_witness :
    ∃ values : Values,
      BuildQueryString timeLib
          (some (GoValue.struct
            [(urlField "CreatedAt" "created_at",
              GoValue.time { unixSec := 1709210096, nsec := 0, offset := -19800 })])) =
        .ok values.Encode ∧
      values.Encode = "created_at=2024-02-29T07%3A04%3A56-05%3A30" ∧
      ∀ v ∈ values.paramsNamed "created_at",
        parseRFC3339 v = some { unixSec := 1709210096, nsec := 0, offset := -19800 } := by
  obtain ⟨values, _, h2, _, _, _, h6⟩ :=
    time_field timeLib [] [] (urlField "CreatedAt" "created_at")
      { unixSec := 1709210096, nsec := 0, offset := -19800 } "created_at"
      (by decide) (by intro fv hfv; simp at hfv)
  refine ⟨values, h2, ?_, h6 rfl (by decide) (by decide) (by decide) (by decide) (by decide)⟩
  have h5 : BuildQueryString timeLib
      (some (GoValue.struct ([] ++ (urlField "CreatedAt" "created_at",
        GoValue.time { unixSec := 1709210096, nsec := 0, offset := -19800 }) :: []))) =
      .ok "created_at=2024-02-29T07%3A04%3A56-05%3A30" := rfl
  rw [h5] at h2
  injection h2 with h2
  exact h2.symm

/-! ## The resource services: paths, verbs and bodies -/

theorem do_sent_length (lib : Lib) (c : Client) (method path : String) (body : Option GoValue)
    (result : Option Dest) : (c.do lib method path body result).sent.length ≤ 1 := by
  unfold Client.do
  cases body with
  | none =>
    cases hn : lib.newRequestError method (c.baseURL ++ path) with
    | some err => simp [Outcome.fail]
    | none => simp [send_sent]
  | some b =>
    cases hm : lib.jsonMarshal b with
    | error err => simp [hm, Outcome.fail]
    | ok jsonBody =>
      cases hn : lib.newRequestError method (c.baseURL ++ path) with
      | some err => simp [hm, hn, Outcome.fail]
      | none => simp [hm, hn, send_sent]

theorem do_sends_body (lib : Lib) (c : Client) (method path : String) (b : GoValue)
    (text : String) (result : Option Dest) (hm : lib.jsonMarshal b = .ok text)
    (hn : lib.newRequestError method (c.baseURL ++ path) = none) :
    (c.do lib method path (some b) result).sent =
      [{ Method := method, URL := c.baseURL ++ path,
         Header := [("Authorization", "Bearer " ++ c.apiKey),
                    ("Content-Type", "application/json"),
                    ("Accept", "application/json")],
         Body := some (utf8Bytes text) }] := by
  unfold Client.do
  simp only [hm, hn]
  rw [send_sent]

/-- C29: the operations that take an identifier pass to the pipeline the fixed prefix
followed by the identifier as it is, whatever characters it holds: `prompts.Get` is
`Get("/api/prompts/" ++ id)`, `keys.Get` is `Get("/api/temporary-keys/" ++ id)`,
`logs.Get` is `Get("/api/request-logs/" ++ id)` and `prompts.GetVersion` is
`Get("/api/prompts/" ++ promptID ++ "/versions/" ++ versionID)`; every request they
hand to the transport is a GET of the base URL followed by that path. -/
theorem identifier_paths (lib : Lib) (d : Dests) (c : Client) :
    (∀ id : String,
      prompts.Get lib d c id = c.Get lib ("/api/prompts/" ++ id) (some d.prompt) ∧
      keys.Get lib d c id = c.Get lib ("/api/temporary-keys/" ++ id) (some d.temporaryKey) ∧
      logs.Get lib d c id = c.Get lib ("/api/request-logs/" ++ id) (some d.requestLog)) ∧
    (∀ promptID versionID : String,
      prompts.GetVersion lib d c promptID versionID =
        c.Get lib ("/api/prompts/" ++ promptID ++ "/versions/" ++ versionID)
          (some d.promptVersion)) ∧
    (∀ (id : String) (req : Request),
      (req ∈ (prompts.Get lib d c id).sent →
        req.Method = "GET" ∧ req.URL = c.baseURL ++ ("/api/prompts/" ++ id)) ∧
      (req ∈ (keys.Get lib d c id).sent →
        req.Method = "GET" ∧ req.URL = c.baseURL ++ ("/api/temporary-keys/" ++ id)) ∧
      (req ∈ (logs.Get lib d c id).sent →
        req.Method = "GET" ∧ req.URL = c.baseURL ++ ("/api/request-logs/" ++ id))) ∧
    (∀ (promptID versionID : String) (req : Request),
      req ∈ (prompts.GetVersion lib d c promptID versionID).sent →
        req.Method = "GET" ∧
        req.URL = c.baseURL ++ ("/api/prompts/" ++ promptID ++ "/versions/" ++ versionID)) ∧
    (∀ id : String, lib.newRequestError "GET" (c.baseURL ++ ("/api/prompts/" ++ id)) = none →
      (prompts.Get lib d c id).sent.map (fun req => req.URL) =
        [c.baseURL ++ ("/api/prompts/" ++ id)]) := by
  refine ⟨fun id => ⟨rfl, rfl, rfl⟩, fun _ _ => rfl, ?_, ?_, ?_⟩
  · intro id req
    refine ⟨?_, ?_, ?_⟩ <;> intro h <;>
      exact ⟨(do_request lib c "GET" _ none _ req h).1,
        (do_request lib c "GET" _ none _ req h).2.1⟩
  · intro promptID versionID req h
    exact ⟨(do_request lib c "GET" _ none _ req h).1,
      (do_request lib c "GET" _ none _ req h).2.1⟩
  · intro id hn
    unfold prompts.Get Client.Get
    rw [do_sends lib c "GET" _ _ hn]
    rfl

/-- Witness of C29: the identifier `a/b?c#d%25e`, which `http.NewRequestWithContext`
accepts in a URL, reaches the URL unchanged: the slash, the question mark, the hash and
the percent sign are neither escaped nor refused. -/
theorem identifier_paths_witness :
    (prompts.Get stubLib noDests
        (testClient { StatusCode := 200, Body := "" }) "a/b?c#d%25e").sent.map
        (fun req => req.URL) =
      ["http://127.0.0.1:8080" ++ ("/api/prompts/" ++ "a/b?c#d%25e")] :=
  (identifier_paths stubLib _ (testClient { StatusCode := 200, Body := "" })).2.2.2.2
    "a/b?c#d%25e" rfl

/-- C30: `logs.ListThreads` with the empty customer identifier is `Get("/api/threads")`
and with a non-empty one is `Post("/api/threads", {"customer_identifier": c})`; it
hands at most one request to the transport, and exactly one once the request is built:
a GET without a body, or a POST whose body is the JSON of the map
`{"customer_identifier": c}`; the URL is the base URL followed by `/api/threads`, with
no query string, in both cases. -/
theorem ListThreads_request (lib : Lib) (d : Dests) (c : Client) :
    logs.ListThreads lib d c "" = c.Get lib "/api/threads" (some d.threads) ∧
    (∀ cid : String, cid ≠ "" →
      logs.ListThreads lib d c cid =
        c.Post lib "/api/threads"
          (some (GoValue.map
            (some [(GoValue.string "customer_identifier", GoValue.string cid)])))
          (some d.threads)) ∧
    (∀ cid : String, (logs.ListThreads lib d c cid).sent.length ≤ 1) ∧
    (∀ (cid : String) (req : Request), req ∈ (logs.ListThreads lib d c cid).sent →
      req.URL = c.baseURL ++ "/api/threads" ∧
      (cid = "" → req.Method = "GET") ∧ (cid ≠ "" → req.Method = "POST")) ∧
    (lib.newRequestError "GET" (c.baseURL ++ "/api/threads") = none →
      (logs.ListThreads lib d c "").sent =
        [{ Method := "GET", URL := c.baseURL ++ "/api/threads",
           Header := [("Authorization", "Bearer " ++ c.apiKey),
                      ("Content-Type", "application/json"),
                      ("Accept", "application/json")],
           Body := none }]) ∧
    (∀ cid text : String, cid ≠ "" →
      lib.jsonMarshal
          (GoValue.map (some [(GoValue.string "customer_identifier", GoValue.string cid)])) =
        .ok text →
      lib.newRequestError "POST" (c.baseURL ++ "/api/threads") = none →
      (logs.ListThreads lib d c cid).sent =
        [{ Method := "POST", URL := c.baseURL ++ "/api/threads",
           Header := [("Authorization", "Bearer " ++ c.apiKey),
                      ("Content-Type", "application/json"),
                      ("Accept", "application/json")],
           Body := some (utf8Bytes text) }]) := by
  refine ⟨rfl, ?_, ?_, ?_, ?_, ?_⟩
  · intro cid hne
    unfold logs.ListThreads
    rw [if_pos hne]
  · intro cid
    unfold logs.ListThreads
    split <;> exact do_sent_length _ _ _ _ _ _
  · intro cid req h
    unfold logs.ListThreads at h
    by_cases hne : cid = ""
    · rw [if_neg (not_not.mpr hne)] at h
      have := do_request lib c "GET" _ none _ req h
      exact ⟨this.2.1, fun _ => this.1, fun h2 => absurd hne h2⟩
    · rw [if_pos hne] at h
      have := do_request lib c "POST" _ _ _ req h
      exact ⟨this.2.1, fun h2 => absurd h2 hne, fun _ => this.1⟩
  · intro hn
    exact do_sends lib c "GET" "/api/threads" _ hn
  · intro cid text hne hm hn
    unfold logs.ListThreads
    rw [if_pos hne]
    exact do_sends_body lib c "POST" "/api/threads" _ text _ hm hn

/-- Witness of C30: against the test server, `ListThreads("customer-1")` hands over one
POST to `http://127.0.0.1:8080/api/threads` with the JSON of the map as its body. -/
theorem ListThreads_request_witness :
    (logs.ListThreads threadsLib noDests
        (testClient { StatusCode := 200, Body := "[]" }) "customer-1").sent =
      [{ Method := "POST", URL := "http://127.0.0.1:8080" ++ "/api/threads",
         Header := [("Authorization", "Bearer " ++ "test-key"),
                    ("Content-Type", "application/json"),
                    ("Accept", "application/json")],
         Body := some (utf8Bytes "\x7b\"customer_identifier\":\"customer-1\"\x7d") }] :=
  (ListThreads_request threadsLib _ (testClient { StatusCode := 200, Body := "[]" })).2.2.2.2.2
    "customer-1" "\x7b\"customer_identifier\":\"customer-1\"\x7d" (by decide) rfl rfl

/-! ## The resource services: batches and lists -/

theorem plain_ne_of_head (a b rest : String) (x y : Char) (xs ys : List Char)
    (ha : a.data = x :: xs) (hb : b.data = y :: ys) (hxy : x ≠ y) : a ++ rest ≠ b := by
  intro h
  have hd := congrArg String.data h
  rw [String.data_append, ha, hb, List.cons_append] at hd
  injection hd with h1 _
  exact hxy h1

theorem send_err_ne_plain (c : Client) (req : Request) (result : Option Dest) (msg : String)
    (y : Char) (ys : List Char) (hmsg : msg.data = y :: ys) (hr : y ≠ 'r') (hf : y ≠ 'f') :
    (c.send req result).err ≠ some (Error.plain msg) := by
  obtain ⟨e0, he0⟩ := parseAPIError_isApi
    (match c.httpClient.Do req with | .ok resp => resp.StatusCode | .error _ => 0)
    (match c.httpClient.Do req with | .ok resp => resp.Body | .error _ => "")
  unfold Client.send
  cases hdo : c.httpClient.Do req with
  | error err =>
    simp only [Outcome.fail, ne_eq, Option.some.injEq, Error.plain.injEq]
    exact plain_ne_of_head "request failed: " msg err 'r' y _ _ rfl hmsg (Ne.symm hr)
  | ok resp =>
    rw [hdo] at he0
    simp only at he0
    by_cases hs : resp.StatusCode ≥ 400
    · simp [hs, he0]
    · cases result with
      | none => simp [hs]
      | some decode =>
        cases hd : decode resp.Body with
        | error err =>
          simp only [hs, hd, if_false, Outcome.fail, ne_eq, Option.some.injEq,
            Error.plain.injEq]
          exact plain_ne_of_head "failed to decode response: " msg err 'f' y _ _ rfl hmsg
            (Ne.symm hf)
        | ok v => simp [hs, hd]

theorem do_err_ne_plain (lib : Lib) (c : Client) (method path : String)
    (body : Option GoValue) (result : Option Dest) (msg : String)
    (y : Char) (ys : List Char) (hmsg : msg.data = y :: ys) (hr : y ≠ 'r') (hf : y ≠ 'f') :
    (c.do lib method path body result).err ≠ some (Error.plain msg) := by
  have hmar : ∀ err : String, "failed to marshal request body: " ++ err ≠ msg :=
    fun err => plain_ne_of_head _ msg err 'f' y _ _ rfl hmsg (Ne.symm hf)
  have hcre : ∀ err : String, "failed to create request: " ++ err ≠ msg :=
    fun err => plain_ne_of_head _ msg err 'f' y _ _ rfl hmsg (Ne.symm hf)
  unfold Client.do
  cases body with
  | none =>
    cases hn : lib.newRequestError method (c.baseURL ++ path) with
    | some err => simpa [Outcome.fail] using hcre err
    | none => exact send_err_ne_plain c _ result msg y ys hmsg hr hf
  | some b =>
    cases hm : lib.jsonMarshal b with
    | error err => simpa [hm, Outcome.fail] using hmar err
    | ok jsonBody =>
      cases hn : lib.newRequestError method (c.baseURL ++ path) with
      | some err => simpa [hm, hn, Outcome.fail] using hcre err
      | none =>
        simp only [hm, hn]
        exact send_err_ne_plain c _ result msg y ys hmsg hr hf

/-- C22: `logs.BatchCreate` returns the error `batch size exceeds maximum of 5000 logs`
if and only if the batch holds more than 5000 entries, and then no request is built or
sent. For every batch of at most 5000 entries it is the one call
`Post("/api/request-logs/batch/create", {Logs: logs})`, the payload holding the entries
as given under the `logs` key: at most one request reaches the transport, a POST to
that path, and exactly one, with the JSON of the payload as its body, once
`json.Marshal` and `http.NewRequestWithContext` succeed. -/
theorem BatchCreate_limit (lib : Lib) (c : Client) (batch : Option (List GoValue)) :
    ((logs.BatchCreate lib c batch).err =
        some (Error.plain "batch size exceeds maximum of 5000 logs") ↔
      (batch.getD []).length > 5000) ∧
    ((batch.getD []).length > 5000 → (logs.BatchCreate lib c batch).sent = []) ∧
    ((batch.getD []).length ≤ 5000 →
      logs.BatchCreate lib c batch =
        c.Post lib "/api/request-logs/batch/create"
          (some (GoValue.struct [(jsonField "Logs" "logs", GoValue.slice batch)])) none ∧
      (logs.BatchCreate lib c batch).sent.length ≤ 1 ∧
      (∀ req ∈ (logs.BatchCreate lib c batch).sent,
        req.Method = "POST" ∧ req.URL = c.baseURL ++ "/api/request-logs/batch/create") ∧
      (∀ text : String,
        lib.jsonMarshal (GoValue.struct [(jsonField "Logs" "logs", GoValue.slice batch)]) =
          .ok text →
        lib.newRequestError "POST" (c.baseURL ++ "/api/request-logs/batch/create") = none →
        (logs.BatchCreate lib c batch).sent =
          [{ Method := "POST", URL := c.baseURL ++ "/api/request-logs/batch/create",
             Header := [("Authorization", "Bearer " ++ c.apiKey),
                        ("Content-Type", "application/json"),
                        ("Accept", "application/json")],
             Body := some (utf8Bytes text) }])) := by
  have hle : (batch.getD []).length ≤ 5000 →
      logs.BatchCreate lib c batch =
        c.Post lib "/api/request-logs/batch/create"
          (some (GoValue.struct [(jsonField "Logs" "logs", GoValue.slice batch)])) none := by
    intro h
    unfold logs.BatchCreate
    rw [if_neg (by omega)]
    rfl
  have hgt : (batch.getD []).length > 5000 →
      logs.BatchCreate lib c batch =
        Outcome.fail "batch size exceeds maximum of 5000 logs" [] := by
    intro h
    unfold logs.BatchCreate
    rw [if_pos h]
  refine ⟨⟨?_, ?_⟩, ?_, ?_⟩
  · intro herr
    by_contra hn
    rw [hle (by omega)] at herr
    exact do_err_ne_plain lib c "POST" _ _ none "batch size exceeds maximum of 5000 logs"
      'b' _ rfl (by decide) (by decide) herr
  · intro h
    rw [hgt h]
    rfl
  · intro h
    rw [hgt h]
    rfl
  · intro h
    rw [hle h]
    refine ⟨rfl, do_sent_length _ _ _ _ _ _, ?_, ?_⟩
    · intro req hreq
      have := do_request lib c "POST" _ _ _ req hreq
      exact ⟨this.1, this.2.1⟩
    · intro text hm hn
      exact do_sends_body lib c "POST" _ _ text none hm hn

/-- Witness of C22: a batch of two entries is posted in one request to
`/api/request-logs/batch/create`. -/
theorem BatchCreate_limit_witness :
    (logs.BatchCreate stubLib (testClient { StatusCode := 200, Body := "" })
        (some [GoValue.struct [], GoValue.struct []])).sent =
      [{ Method := "POST", URL := "http://127.0.0.1:8080" ++ "/api/request-logs/batch/create",
         Header := [("Authorization", "Bearer " ++ "test-key"),
                    ("Content-Type", "application/json"),
                    ("Accept", "application/json")],
         Body := some (utf8Bytes "\x7b\x7d") }] :=
  ((BatchCreate_limit stubLib (testClient { StatusCode := 200, Body := "" })
      (some [GoValue.struct [], GoValue.struct []])).2.2 (by decide)).2.2.2 "\x7b\x7d" rfl rfl

theorem send_ok (c : Client) (req : Request) (decode : Dest) (resp : Response) (v : GoValue)
    (hresp : c.httpClient.Do req = .ok resp) (hs : resp.StatusCode < 400)
    (hd : decode resp.Body = .ok v) :
    c.send req (some decode) = { err := none, stored := some v, sent := [req] } := by
  unfold Client.send
  rw [hresp]
  simp only [hd]
  rw [if_neg (by omega)]

theorem do_ok (lib : Lib) (c : Client) (method path : String) (body : Option GoValue)
    (decode : Dest) (req : Request) (resp : Response) (v : GoValue)
    (hsent : (c.do lib method path body (some decode)).sent = [req])
    (hresp : c.httpClient.Do req = .ok resp) (hs : resp.StatusCode < 400)
    (hd : decode resp.Body = .ok v) :
    c.do lib method path body (some decode) = { err := none, stored := some v, sent := [req] } := by
  rw [do_sent lib c method path body (some decode) req hsent]
  exact send_ok c req decode resp v hresp hs hd

/-- C26: when the transport answers the request of a slice-returning list operation
(`models.List`, `keys.List`, `prompts.List`, `prompts.ListVersions`,
`logs.ListThreads`) with a status below 400 and the body decodes into the slice `v` of
the operation's element type, the operation returns `v`, the value decoded into its
local `result`, together with a nil error, not the nil slice `result` held before the
call. -/
theorem list_operations_return_decoded (lib : Lib) (d : Dests) (c : Client) (req : Request)
    (resp : Response) (v : GoValue) (hresp : c.httpClient.Do req = .ok resp)
    (hs : resp.StatusCode < 400) :
    ((models.List lib d c).sent = [req] → d.models resp.Body = .ok v →
      returnSlice (models.List lib d c) = (v, none)) ∧
    ((keys.List lib d c).sent = [req] → d.temporaryKeys resp.Body = .ok v →
      returnSlice (keys.List lib d c) = (v, none)) ∧
    ((prompts.List lib d c).sent = [req] → d.prompts resp.Body = .ok v →
      returnSlice (prompts.List lib d c) = (v, none)) ∧
    (∀ promptID : String,
      (prompts.ListVersions lib d c promptID).sent = [req] → d.promptVersions resp.Body = .ok v →
      returnSlice (prompts.ListVersions lib d c promptID) = (v, none)) ∧
    (∀ cid : String,
      (logs.ListThreads lib d c cid).sent = [req] → d.threads resp.Body = .ok v →
      returnSlice (logs.ListThreads lib d c cid) = (v, none)) := by
  refine ⟨?_, ?_, ?_, ?_, ?_⟩
  · intro hsent hd
    unfold models.List Client.Get at hsent ⊢
    rw [do_ok lib c _ _ _ _ req resp v hsent hresp hs hd]
    rfl
  · intro hsent hd
    unfold keys.List Client.Get at hsent ⊢
    rw [do_ok lib c _ _ _ _ req resp v hsent hresp hs hd]
    rfl
  · intro hsent hd
    unfold prompts.List Client.Get at hsent ⊢
    rw [do_ok lib c _ _ _ _ req resp v hsent hresp hs hd]
    rfl
  · intro promptID hsent hd
    unfold prompts.ListVersions Client.Get at hsent ⊢
    rw [do_ok lib c _ _ _ _ req resp v hsent hresp hs hd]
    rfl
  · intro cid hsent hd
    unfold logs.ListThreads at hsent ⊢
    split at hsent
    · rename_i hne
      rw [if_pos hne]
      unfold Client.Post at hsent ⊢
      rw [do_ok lib c _ _ _ _ req resp v hsent hresp hs hd]
      rfl
    · rename_i hne
      rw [if_neg hne]
      unfold Client.Get at hsent ⊢
      rw [do_ok lib c _ _ _ _ req resp v hsent hresp hs hd]
      rfl

/-- Witness of C26: against a server answering 200 with `[{"id":"gpt-4"}]`,
`models.List` returns the slice of one model and a nil error. -/
theorem list_operations_return_decoded_witness :
    returnSlice
        (models.List stubLib modelDests
          (testClient { StatusCode := 200, Body := "[\x7b\"id\":\"gpt-4\"\x7d]" })) =
      (GoValue.slice (some [GoValue.struct [(jsonField "ID" "id", GoValue.string "gpt-4")]]),
       none) :=
  (list_operations_return_decoded stubLib modelDests
    (testClient { StatusCode := 200, Body := "[\x7b\"id\":\"gpt-4\"\x7d]" })
    { Method := "GET", URL := "http://127.0.0.1:8080/api/models",
      Header := [("Authorization", "Bearer test-key"), ("Content-Type", "application/json"),
                 ("Accept", "application/json")],
      Body := none }
    { StatusCode := 200, Body := "[\x7b\"id\":\"gpt-4\"\x7d]" }
    (GoValue.slice (some [GoValue.struct [(jsonField "ID" "id", GoValue.string "gpt-4")]]))
    rfl (by decide)).1 rfl rfl

/-! ## Construction of the client: transport and timeout -/

theorem optionParams_append (xs ys : List Param) :
    optionParams (xs ++ ys) = optionParams xs ++ optionParams ys := by
  unfold optionParams
  rw [List.filterMap_append]

theorem New_eq_foldl (os : Process) (params : List Param) :
    ∃ c0 : Client, c0.httpClient = { Timeout := defaultTimeout, Do := os.defaultDo } ∧
      New os params = (optionParams params).foldl (fun c opt => opt.apply c) c0 := by
  unfold New
  simp only [parseParams_eq, List.nil_append]
  exact ⟨_, by split_ifs <;> rfl, rfl⟩

theorem foldl_apply_httpClient (opts : List ClientOption) (c : Client)
    (h : ∀ opt ∈ opts, (∀ x, opt ≠ ClientOption.WithHTTPClient x) ∧
      (∀ t, opt ≠ ClientOption.WithTimeout t)) :
    (opts.foldl (fun c opt => opt.apply c) c).httpClient = c.httpClient := by
  induction opts generalizing c with
  | nil => rfl
  | cons opt rest ih =>
    rw [List.foldl_cons, ih _ (fun o ho => h o (List.mem_cons_of_mem _ ho))]
    have ho := h opt (List.mem_cons_self _ _)
    cases opt with
    | WithHTTPClient x => exact absurd rfl (ho.1 x)
    | WithBaseURL u => rfl
    | WithTimeout t => exact absurd rfl (ho.2 t)

theorem foldl_apply_Do (opts : List ClientOption) (c : Client)
    (h : ∀ opt ∈ opts, ∀ x, opt ≠ ClientOption.WithHTTPClient x) :
    (opts.foldl (fun c opt => opt.apply c) c).httpClient.Do = c.httpClient.Do := by
  induction opts generalizing c with
  | nil => rfl
  | cons opt rest ih =>
    rw [List.foldl_cons, ih _ (fun o ho => h o (List.mem_cons_of_mem _ ho))]
    have ho := h opt (List.mem_cons_self _ _)
    cases opt with
    | WithHTTPClient x => exact absurd rfl (ho x)
    | WithBaseURL u => rfl
    | WithTimeout t => rfl

theorem mem_optionParams (params : List Param) (opt : ClientOption)
    (h : opt ∈ optionParams params) : Param.option opt ∈ params := by
  unfold optionParams at h
  rw [List.mem_filterMap] at h
  obtain ⟨p, hp, hpo⟩ := h
  cases p with
  | string s => simp at hpo
  | option o =>
    simp only [Option.some.injEq] at hpo
    rw [← hpo]
    exact hp
  | other => simp at hpo

/-- C21 (as stated, refuted): the options run in the order given, so with `WithTimeout`
before `WithHTTPClient` the timeout set first lands on the default transport, which the
second option replaces: `New("test-key", WithTimeout(45s), WithHTTPClient(h))` with `h`
carrying 60 s has the timeout 60 s, not 45 s. In the other order it has 45 s. -/
theorem timeout_before_transport_is_lost :
    (New (testProcess "" "")
        [Param.string "test-key",
         Param.option (ClientOption.WithTimeout 45000000000),
         Param.option (ClientOption.WithHTTPClient
           { Timeout := 60000000000, Do := fun _ => .error "custom" })]).HTTPClient.Timeout =
      60000000000 ∧
    (New (testProcess "" "")
        [Param.string "test-key",
         Param.option (ClientOption.WithHTTPClient
           { Timeout := 60000000000, Do := fun _ => .error "custom" }),
         Param.option (ClientOption.WithTimeout 45000000000)]).HTTPClient.Timeout =
      45000000000 := by
  constructor <;> rfl

/-- C21 (amended): the options of `New` run in the order given. When `WithTimeout(d)`
comes after `WithHTTPClient(h)` and no transport or timeout option follows it (nor
another transport option stands between the two), the client's transport is `h` with
the timeout `d`, overriding the timeout `h` carried. When `WithHTTPClient(h)` comes
after `WithTimeout(d)` and no transport or timeout option follows it, the client's
transport is `h` with the timeout `h` carries: the earlier `WithTimeout` is lost. -/
theorem transport_and_timeout (os : Process) (p1 p2 p3 : List Param) (h : HTTPClient)
    (d : Int)
    (h3 : ∀ p ∈ p3, (∀ x, p ≠ Param.option (ClientOption.WithHTTPClient x)) ∧
      (∀ t, p ≠ Param.option (ClientOption.WithTimeout t))) :
    ((∀ p ∈ p2, ∀ x, p ≠ Param.option (ClientOption.WithHTTPClient x)) →
      (New os (p1 ++ Param.option (ClientOption.WithHTTPClient h) :: p2 ++
          Param.option (ClientOption.WithTimeout d) :: p3)).HTTPClient.Do = h.Do ∧
      (New os (p1 ++ Param.option (ClientOption.WithHTTPClient h) :: p2 ++
          Param.option (ClientOption.WithTimeout d) :: p3)).HTTPClient.Timeout = d) ∧
    (New os (p1 ++ Param.option (ClientOption.WithTimeout d) :: p2 ++
        Param.option (ClientOption.WithHTTPClient h) :: p3)).HTTPClient = h := by
  have ho3 : ∀ opt ∈ optionParams p3, (∀ x, opt ≠ ClientOption.WithHTTPClient x) ∧
      (∀ t, opt ≠ ClientOption.WithTimeout t) := by
    intro opt hopt
    have hm := h3 _ (mem_optionParams p3 opt hopt)
    exact ⟨fun x hx => hm.1 x (by rw [hx]), fun t ht => hm.2 t (by rw [ht])⟩
  constructor
  · intro h2
    have ho2 : ∀ opt ∈ optionParams p2, ∀ x, opt ≠ ClientOption.WithHTTPClient x := by
      intro opt hopt x hx
      exact h2 _ (mem_optionParams p2 opt hopt) x (by rw [hx])
    obtain ⟨c0, _, hnew⟩ := New_eq_foldl os
      (p1 ++ Param.option (ClientOption.WithHTTPClient h) :: p2 ++
        Param.option (ClientOption.WithTimeout d) :: p3)
    have hopts : optionParams (p1 ++ Param.option (ClientOption.WithHTTPClient h) :: p2 ++
        Param.option (ClientOption.WithTimeout d) :: p3) =
        optionParams p1 ++ ClientOption.WithHTTPClient h :: optionParams p2 ++
          ClientOption.WithTimeout d :: optionParams p3 := by
      rw [optionParams_append, optionParams_append]
      rfl
    rw [hnew, hopts]
    simp only [Client.HTTPClient, List.foldl_append, List.foldl_cons]
    rw [foldl_apply_httpClient _ _ ho3]
    constructor
    · have hdo : ∀ z : Client,
          ((ClientOption.WithTimeout d).apply z).httpClient.Do = z.httpClient.Do :=
        fun _ => rfl
      rw [hdo, foldl_apply_Do _ _ ho2]
      rfl
    · rfl
  · obtain ⟨c0, _, hnew⟩ := New_eq_foldl os
      (p1 ++ Param.option (ClientOption.WithTimeout d) :: p2 ++
        Param.option (ClientOption.WithHTTPClient h) :: p3)
    have hopts : optionParams (p1 ++ Param.option (ClientOption.WithTimeout d) :: p2 ++
        Param.option (ClientOption.WithHTTPClient h) :: p3) =
        optionParams p1 ++ ClientOption.WithTimeout d :: optionParams p2 ++
          ClientOption.WithHTTPClient h :: optionParams p3 := by
      rw [optionParams_append, optionParams_append]
      rfl
    rw [hnew, hopts]
    simp only [Client.HTTPClient, List.foldl_append, List.foldl_cons]
    rw [foldl_apply_httpClient _ _ ho3]
    rfl

/-- Witness of C21 (amended): the call of `TestClientOptions`,
`New("test-key", WithHTTPClient(h), WithBaseURL("https://custom.api.com"),
WithTimeout(45s))` with `h` carrying 60 s, has the timeout 45 s. -/
theorem transport_and_timeout_witness :
    (New (testProcess "" "")
        ([Param.string "test-key"] ++
          Param.option (ClientOption.WithHTTPClient
            { Timeout := 60000000000, Do := fun _ => .error "custom" }) ::
          [Param.option (ClientOption.WithBaseURL "https://custom.api.com")] ++
          Param.option (ClientOption.WithTimeout 45000000000) :: [])).HTTPClient.Timeout =
      45000000000 :=
  ((transport_and_timeout (testProcess "" "") [Param.string "test-key"]
      [Param.option (ClientOption.WithBaseURL "https://custom.api.com")] []
      { Timeout := 60000000000, Do := fun _ => .error "custom" } 45000000000
      (by intro p hp; simp at hp)).1
    (by
      intro p hp x hx
      simp only [List.mem_singleton] at hp
      rw [hp] at hx
      cases hx)).2

/-! ## The log filter -/

theorem LogFilter_no_url_tag (f : LogFilter) (fields : List (StructField × GoValue))
    (hf : f.toGoValue = GoValue.struct fields) :
    ∀ fv ∈ fields, ∀ kv ∈ fv.1.Tag, kv.1 ≠ "url" := by
  unfold LogFilter.toGoValue at hf
  injection hf with hf
  subst hf
  intro fv hfv kv hkv
  simp only [List.mem_cons, List.mem_singleton, List.not_mem_nil, or_false] at hfv
  rcases hfv with h | h | h | h | h | h | h | h | h <;> subst h <;>
    (simp only [jsonField, List.mem_singleton] at hkv; subst hkv; decide)

theorem BuildQueryString_LogFilter (lib : Lib) (f : LogFilter) :
    BuildQueryString lib (some (GoValue.ptr (some f.toGoValue))) = .ok "" := by
  have hno := LogFilter_no_url_tag f _ rfl
  unfold LogFilter.toGoValue at hno ⊢
  rw [BuildQueryString_ptr_struct, foldl_fieldStepResult_skipped lib _ []
    (fun fv hfv => paramName_skipped fv.1 (Or.inr (Or.inl (hno fv hfv))))]
  rfl

/-- C24 (the code diverges): the fields of `types.LogFilter` carry `json` tags and no
`url` tag, which is the only tag `BuildQueryString` reads, so every filter encodes to
the empty string: `logs.List` is `Get("/api/request-logs")` whatever the filter holds,
and the request it hands to the transport has the URL `baseURL ++ "/api/request-logs"`
with no query string. With the filter of `queryLogs` (`Category`, `StartTime`,
`EndTime` and `Limit` set) no parameter is sent. -/
theorem LogFilter_is_not_encoded (lib : Lib) (d : Dests) (c : Client) (f : LogFilter) :
    BuildQueryString lib (some (GoValue.ptr (some f.toGoValue))) = .ok "" ∧
    logs.List lib d c (GoValue.ptr (some f.toGoValue)) =
      c.Get lib "/api/request-logs" (some d.logsResponse) ∧
    (∀ req ∈ (logs.List lib d c (GoValue.ptr (some f.toGoValue))).sent,
      req.URL = c.baseURL ++ "/api/request-logs") ∧
    (logs.List stubLib noDests (testClient { StatusCode := 200, Body := "" })
        (GoValue.ptr (some (LogFilter.toGoValue
          { Model := none, Failed := none, Category := some "technical",
            CustomerIdentifier := none,
            StartTime := some { unixSec := 1705228200, nsec := 0, offset := 0 },
            EndTime := some { unixSec := 1705314600, nsec := 0, offset := 0 },
            Tags := none, Limit := some 10, Offset := none })))).sent.map
        (fun req => req.URL) =
      ["http://127.0.0.1:8080/api/request-logs"] := by
  have hq := BuildQueryString_LogFilter lib f
  have hlist : logs.List lib d c (GoValue.ptr (some f.toGoValue)) =
      c.Get lib "/api/request-logs" (some d.logsResponse) := by
    unfold logs.List Client.GetWithQuery Client.Get
    simp only [hq]
    rw [if_neg (by simp)]
  refine ⟨hq, hlist, ?_, by decide⟩
  intro req hreq
  rw [hlist] at hreq
  exact (do_request lib c "GET" _ none _ req hreq).2.1

/-! ## The emptiness rule and the table of `TestIsEmptyValue` -/

/-- C27 (the code diverges): `isEmptyValue` is false for a non-nil pointer to the empty
string and for the zero `time.Time`; `TestIsEmptyValue` expects true for both rows but
sets the result itself for them, without calling `isEmptyValue`. Fields holding them
under `omitempty` are not omitted. -/
theorem isEmptyValue_differs_from_table :
    isEmptyValue (Value.of (GoValue.ptr (some (GoValue.string "")))) = .ok false ∧
    isEmptyValue (Value.of (GoValue.time zeroTime)) = .ok false ∧
    BuildQueryString stubLib
        (some (GoValue.struct
          [(urlField "Name" "name,omitempty", GoValue.ptr (some (GoValue.string ""))),
           (urlField "At" "at,omitempty", GoValue.time zeroTime)])) =
      .ok "at=0001-01-01T00%3A00%3A00Z&name=" :=
  ⟨rfl, rfl, rfl⟩

/-- C27, what the code computes:
on the rows of the table of `TestIsEmptyValue`, `isEmptyValue`
returns the expected value for 19 of the 21 rows: true for `nil` (the zero
`reflect.Value`), `""`, 0, 0.0, `false`, a nil or empty slice, a nil or empty map and a
nil pointer; false for `"test"`, 42, 3.14, `true`, a non-empty slice or map, a pointer
to `"test"`, `struct{}{}` and every non-zero time. For the two remaining rows, the
non-nil pointer to the empty string and the zero `time.Time`, it returns false where
the table says true. -/
theorem isEmptyValue_table :
    isEmptyValue Value.zero = .ok true ∧
    isEmptyValue (Value.of (GoValue.string "")) = .ok true ∧
    isEmptyValue (Value.of (GoValue.string "test")) = .ok false ∧
    isEmptyValue (Value.of (GoValue.int IntWidth.w 0)) = .ok true ∧
    isEmptyValue (Value.of (GoValue.int IntWidth.w 42)) = .ok false ∧
    isEmptyValue (Value.of (GoValue.float FloatWidth.w64 { bits := 0 })) = .ok true ∧
    isEmptyValue (Value.of (GoValue.float FloatWidth.w64 { bits := 0x40091EB851EB851F })) =
      .ok false ∧
    isEmptyValue (Value.of (GoValue.bool false)) = .ok true ∧
    isEmptyValue (Value.of (GoValue.bool true)) = .ok false ∧
    isEmptyValue (Value.of (GoValue.slice none)) = .ok true ∧
    isEmptyValue (Value.of (GoValue.slice (some []))) = .ok true ∧
    isEmptyValue (Value.of (GoValue.slice (some [GoValue.string "a"]))) = .ok false ∧
    isEmptyValue (Value.of (GoValue.map none)) = .ok true ∧
    isEmptyValue (Value.of (GoValue.map (some []))) = .ok true ∧
    isEmptyValue (Value.of (GoValue.map (some [(GoValue.string "a", GoValue.string "b")]))) =
      .ok false ∧
    isEmptyValue (Value.of (GoValue.ptr none)) = .ok true ∧
    isEmptyValue (Value.of (GoValue.ptr (some (GoValue.string "")))) = .ok false ∧
    isEmptyValue (Value.of (GoValue.ptr (some (GoValue.string "test")))) = .ok false ∧
    isEmptyValue (Value.of (GoValue.struct [])) = .ok false ∧
    isEmptyValue (Value.of (GoValue.time zeroTime)) = .ok false ∧
    (∀ t : Time, isEmptyValue (Value.of (GoValue.time t)) = .ok false) :=
  ⟨rfl, rfl, rfl, rfl, rfl, rfl, rfl, rfl, rfl, rfl, rfl, rfl, rfl, rfl, rfl, rfl, rfl, rfl,
   rfl, rfl, fun _ => rfl⟩

/-! ## The error decoder: bodies without a message -/

theorem decodeField_texts (e : APIError) (f : APIErrorField) (v : JSON)
    (hf : f = APIErrorField.Details) :
    (decodeField e f v).1.StatusCode = e.StatusCode ∧
      (decodeField e f v).1.Message = e.Message ∧
      (decodeField e f v).1.ErrorText = e.ErrorText := by
  subst hf
  cases v <;> simp [decodeField]

theorem decodeMember_texts (st : APIError × Bool) (m : String × JSON)
    (hm : lookupField m.1 = none ∨ lookupField m.1 = some APIErrorField.Details) :
    (decodeMember st m).1.StatusCode = st.1.StatusCode ∧
      (decodeMember st m).1.Message = st.1.Message ∧
      (decodeMember st m).1.ErrorText = st.1.ErrorText := by
  unfold decodeMember
  rcases hm with h | h
  · rw [h]
    exact ⟨rfl, rfl, rfl⟩
  · rw [h]
    exact decodeField_texts st.1 _ m.2 rfl

theorem foldl_decodeMember_texts (ms : List (String × JSON)) (st : APIError × Bool)
    (hms : ∀ m ∈ ms, lookupField m.1 = none ∨ lookupField m.1 = some APIErrorField.Details) :
    (ms.foldl decodeMember st).1.StatusCode = st.1.StatusCode ∧
      (ms.foldl decodeMember st).1.Message = st.1.Message ∧
      (ms.foldl decodeMember st).1.ErrorText = st.1.ErrorText := by
  induction ms generalizing st with
  | nil => exact ⟨rfl, rfl, rfl⟩
  | cons m rest ih =>
    rw [List.foldl_cons]
    obtain ⟨h1, h2, h3⟩ := ih (decodeMember st m) (fun x hx => hms x (List.mem_cons_of_mem _ hx))
    obtain ⟨g1, g2, g3⟩ := decodeMember_texts st m (hms m (List.mem_cons_self _ _))
    exact ⟨h1.trans g1, h2.trans g2, h3.trans g3⟩

theorem jsonUnmarshal_texts (data : String) (dst : APIError)
    (h : ∀ ms, parseJSON data = some (JSON.object ms) →
      ∀ m ∈ ms, lookupField m.1 = none ∨ lookupField m.1 = some APIErrorField.Details) :
    (jsonUnmarshal data dst).1.StatusCode = dst.StatusCode ∧
      (jsonUnmarshal data dst).1.Message = dst.Message ∧
      (jsonUnmarshal data dst).1.ErrorText = dst.ErrorText := by
  unfold jsonUnmarshal
  cases hp : parseJSON data with
  | none => exact ⟨rfl, rfl, rfl⟩
  | some v =>
    cases v with
    | object ms => exact foldl_decodeMember_texts ms (dst, false) (h ms hp)
    | _ => exact ⟨rfl, rfl, rfl⟩

/-- C28 (as stated, refuted): a body without the keys `message` and `error` can still
change the rendering. The body `{"status_code":999}` with status 500 renders as
`KeywordsAI API error (status 999)`, and keys match without regard to case: the body
`{"MESSAGE":"boom"}` renders as `KeywordsAI API error (status 500): boom`. -/
theorem parseAPIError_rendering_changed_by_body :
    (parseAPIError 500 "\x7b\"status_code\":999\x7d").map
        (fun err => match err with
          | Error.api e => e.Error
          | Error.plain msg => msg) =
      some "KeywordsAI API error (status 999)" ∧
    (parseAPIError 500 "\x7b\"MESSAGE\":\"boom\"\x7d").map
        (fun err => match err with
          | Error.api e => e.Error
          | Error.plain msg => msg) =
      some "KeywordsAI API error (status 500): boom" := by
  constructor <;> decide

/-- C28 (amended): for every status `s` and every body that `json.Unmarshal` accepts
for `APIError` and in which no key names the fields `message`, `error` or `status_code`
(keys are matched exactly or, failing that, without regard to case), `parseAPIError`
returns an `APIError` with the status `s` and empty `Message` and `ErrorText`, whose
rendering is exactly `KeywordsAI API error (status s)`: nothing of the body appears in
it. -/
theorem parseAPIError_without_message (s : Int) (b : String)
    (hok : (jsonUnmarshal b
      { StatusCode := s, ErrorText := "", Message := "", Details := "" }).2 = false)
    (hkeys : ∀ ms, parseJSON b = some (JSON.object ms) →
      ∀ m ∈ ms, lookupField m.1 = none ∨ lookupField m.1 = some APIErrorField.Details) :
    ∃ e : APIError, parseAPIError s b = some (Error.api e) ∧ e.StatusCode = s ∧
      e.Message = "" ∧ e.ErrorText = "" ∧
      e.Error = "KeywordsAI API error (status " ++ sprintf_d s ++ ")" := by
  obtain ⟨h1, h2, h3⟩ := jsonUnmarshal_texts b
    { StatusCode := s, ErrorText := "", Message := "", Details := "" } hkeys
  refine ⟨(jsonUnmarshal b
    { StatusCode := s, ErrorText := "", Message := "", Details := "" }).1, ?_, h1, h2, h3, ?_⟩
  · unfold parseAPIError
    simp [hok]
  · unfold APIError.Error
    simp only [h1, h2, h3, ne_eq, not_true_eq_false, if_false]

/-- Witness of C28 (amended): the body `{"detail":"x"}` with status 500 renders as
`KeywordsAI API error (status 500)`; so do the bodies `{}` and `null`. -/
theorem parseAPIError_without_message_witness :
    (∃ e : APIError, parseAPIError 500 "\x7b\"detail\":\"x\"\x7d" = some (Error.api e) ∧
      e.StatusCode = 500 ∧ e.Message = "" ∧ e.ErrorText = "" ∧
      e.Error = "KeywordsAI API error (status " ++ sprintf_d 500 ++ ")") ∧
    "KeywordsAI API error (status " ++ sprintf_d 500 ++ ")" =
      "KeywordsAI API error (status 500)" ∧
    parseAPIError 500 "\x7b\x7d" =
      some (Error.api { StatusCode := 500, ErrorText := "", Message := "", Details := "" }) ∧
    parseAPIError 500 "null" =
      some (Error.api { StatusCode := 500, ErrorText := "", Message := "", Details := "" }) :=
  ⟨parseAPIError_without_message 500 "\x7b\"detail\":\"x\"\x7d" (by decide) (by
      intro ms hms m hm
      have hp : parseJSON "\x7b\"detail\":\"x\"\x7d" =
          some (JSON.object [("detail", JSON.string "x")]) := rfl
      rw [hp] at hms
      injection hms with hms
      injection hms with hms
      subst hms
      simp only [List.mem_singleton] at hm
      subst hm
      exact Or.inl (by decide)),
   by decide, by decide, by decide⟩

/-! ## The response types: encoding and decoding -/

theorem PostMultipart_ok (lib : Lib) (c : Client) (path : String)
    (fields : List MultipartField) (decode : Dest) (req : Request) (resp : Response)
    (v : GoValue) (hsent : (c.PostMultipart lib path fields (some decode)).sent = [req])
    (hresp : c.httpClient.Do req = .ok resp) (hs : resp.StatusCode < 400)
    (hd : decode resp.Body = .ok v) :
    c.PostMultipart lib path fields (some decode) =
      { err := none, stored := some v, sent := [req] } := by
  rw [PostMultipart_sent lib c path fields (some decode) req hsent]
  exact send_ok c req decode resp v hresp hs hd

/-! ## The response types: numbers and times read back -/

/-- The number the digits spell. -/
theorem digits_value_append (ds es : List Char) (x : Nat) :
    (ds ++ es).foldl (fun acc c => acc * 10 + (c.toNat - 48)) x =
      es.foldl (fun acc c => acc * 10 + (c.toNat - 48))
        (ds.foldl (fun acc c => acc * 10 + (c.toNat - 48)) x) :=
  List.foldl_append _ _ _ _

theorem digitChar_spec : ∀ k : Nat, k < 10 →
    isDigit (Nat.digitChar k) = true ∧ (Nat.digitChar k).toNat - 48 = k ∧
      Nat.digitChar k ≠ '-' := by
  decide

/-- The digits `Nat.toDigitsCore` puts before the ones it was given: decimal digits
that spell the number, as many as the number needs. -/
theorem toDigitsCore_spec (fuel n : Nat) (acc : List Char) (h : n < fuel) :
    ∃ ds, Nat.toDigitsCore 10 fuel n acc = ds ++ acc ∧ ds ≠ [] ∧
      (∀ c ∈ ds, isDigit c = true ∧ c ≠ '-') ∧
      ds.foldl (fun a c => a * 10 + (c.toNat - 48)) 0 = n ∧
      (10 ^ (ds.length - 1) ≤ n ∨ ds.length = 1) := by
  induction fuel generalizing n acc with
  | zero => omega
  | succ fuel ih =>
    obtain ⟨hd1, hd2, hd3⟩ := digitChar_spec (n % 10) (Nat.mod_lt n (by decide))
    unfold Nat.toDigitsCore
    simp only
    by_cases h0 : n / 10 = 0
    · rw [if_pos h0]
      refine ⟨[Nat.digitChar (n % 10)], rfl, by simp, ?_, ?_, Or.inr rfl⟩
      · intro c hc
        rw [List.mem_singleton] at hc
        subst hc
        exact ⟨hd1, hd3⟩
      · simp only [List.foldl_cons, List.foldl_nil, hd2]
        omega
    · rw [if_neg h0]
      obtain ⟨ds, e1, e2, e3, e4, e5⟩ := ih (n / 10) (Nat.digitChar (n % 10) :: acc) (by omega)
      refine ⟨ds ++ [Nat.digitChar (n % 10)], by rw [e1]; simp, by simp, ?_, ?_, Or.inl ?_⟩
      · intro c hc
        rcases List.mem_append.mp hc with hc | hc
        · exact e3 c hc
        · rw [List.mem_singleton] at hc
          subst hc
          exact ⟨hd1, hd3⟩
      · rw [digits_value_append, e4]
        simp only [List.foldl_cons, List.foldl_nil, hd2]
        omega
      · simp only [List.length_append, List.length_singleton, Nat.add_sub_cancel]
        rcases e5 with e5 | e5
        · have : 10 ^ ds.length = 10 * 10 ^ (ds.length - 1) := by
            cases hl : ds.length with
            | zero => exact absurd (List.length_eq_zero.mp hl) e2
            | succ k => simp [pow_succ, Nat.mul_comm]
          omega
        · rw [e5]
          omega

theorem repr_spec (n : Nat) :
    (Nat.repr n).data ≠ [] ∧ (∀ c ∈ (Nat.repr n).data, isDigit c = true ∧ c ≠ '-') ∧
      (Nat.repr n).data.foldl (fun a c => a * 10 + (c.toNat - 48)) 0 = n ∧
      (10 ^ ((Nat.repr n).data.length - 1) ≤ n ∨ (Nat.repr n).data.length = 1) := by
  obtain ⟨ds, e1, e2, e3, e4, e5⟩ := toDigitsCore_spec (n + 1) n [] (by omega)
  have h : (Nat.repr n).data = ds := by
    show (Nat.toDigitsCore 10 (n + 1) n []) = ds
    rw [e1, List.append_nil]
  rw [h]
  exact ⟨e2, e3, e4, e5⟩

/-- An integer of 64 bits is read back from its decimal text. -/
theorem parseInt64_sprintf_d (n : Int) (hlo : -(2 ^ 63 : Int) ≤ n) (hhi : n < (2 ^ 63 : Int)) :
    parseInt64 (sprintf_d n) = some n := by
  obtain ⟨r1, r2, r3, _⟩ := repr_spec n.natAbs
  have hall : (Nat.repr n.natAbs).data.all isDigit = true := by
    rw [List.all_eq_true]
    exact fun c hc => (r2 c hc).1
  obtain ⟨c0, cs, hcs⟩ : ∃ c0 cs, (Nat.repr n.natAbs).data = c0 :: cs := by
    cases h : (Nat.repr n.natAbs).data with
    | nil => exact absurd h r1
    | cons c0 cs => exact ⟨c0, cs, rfl⟩
  have hc0 : c0 ≠ '-' := (r2 c0 (by rw [hcs]; exact List.mem_cons_self _ _)).2
  rw [sprintf_d_eq]
  by_cases hneg : n < 0
  · rw [if_pos hneg]
    unfold parseInt64
    have hd : ("-" ++ Nat.repr n.natAbs).data = '-' :: (Nat.repr n.natAbs).data := rfl
    simp only [hd, if_true, r1, hall, not_true_eq_false, or_self, if_false, r3]
    rw [if_pos (by omega)]
    congr 1
    omega
  · rw [if_neg hneg]
    unfold parseInt64
    simp only [hcs, hc0, if_false]
    rw [← hcs]
    simp only [r1, hall, not_true_eq_false, or_self, if_false, r3, Bool.false_eq_true]
    rw [if_pos (by omega)]
    congr 1
    omega

theorem digits_value_zeros (k x : Nat) :
    (List.replicate k '0').foldl (fun a c => a * 10 + (c.toNat - 48)) x = x * 10 ^ k := by
  induction k generalizing x with
  | zero => simp
  | succ k ih =>
    rw [List.replicate_succ, List.foldl_cons, ih]
    have e : '0'.toNat - 48 = 0 := rfl
    rw [e, pow_succ]
    ring

/-- The nine digits `appendInt` writes for the nanoseconds. -/
theorem appendInt_nine (ns : Nat) (h : ns < 10 ^ 9) :
    (appendInt (ns : Int) 9).length = 9 ∧
      (∀ c ∈ appendInt (ns : Int) 9, isDigit c = true) ∧
      (appendInt (ns : Int) 9).foldl (fun a c => a * 10 + (c.toNat - 48)) 0 = ns := by
  obtain ⟨r1, r2, r3, r4⟩ := repr_spec ns
  have hlen : (Nat.repr ns).data.length ≤ 9 := by
    rcases r4 with r4 | r4
    · by_contra hc
      have : 10 ^ 9 ≤ 10 ^ ((Nat.repr ns).data.length - 1) :=
        Nat.pow_le_pow_right (by decide) (by omega)
      omega
    · omega
  have e : appendInt (ns : Int) 9 =
      List.replicate (9 - (Nat.repr ns).data.length) '0' ++ (Nat.repr ns).data := by
    unfold appendInt
    have hneg : ¬ ((ns : Int) < 0) := by omega
    simp only [Int.natAbs_ofNat]
    rw [if_neg (fun h => absurd h.1 (by decide)), if_neg (fun h => absurd h.1 (by decide)),
      if_neg hneg]
    rfl
  rw [e]
  refine ⟨by rw [List.length_append, List.length_replicate]; omega, ?_, ?_⟩
  · intro c hc
    rcases List.mem_append.mp hc with hc | hc
    · rw [(List.mem_replicate.mp hc).2]
      rfl
    · exact (r2 c hc).1
  · rw [List.foldl_append, digits_value_zeros, Nat.zero_mul, r3]

/-- A list is what is left of it without its zeros at the end, and those zeros. -/
theorem trailing_zeros (L : List Char) :
    ∃ k, L = (L.reverse.dropWhile (fun c => c = '0')).reverse ++ List.replicate k '0' := by
  refine ⟨(L.reverse.takeWhile (fun c => c = '0')).length, ?_⟩
  have h1 : L.reverse =
      L.reverse.takeWhile (fun c => c = '0') ++ L.reverse.dropWhile (fun c => c = '0') :=
    (List.takeWhile_append_dropWhile _ _).symm
  have h2 : (L.reverse.takeWhile (fun c => c = '0')).reverse =
      List.replicate (L.reverse.takeWhile (fun c => c = '0')).length '0' := by
    rw [List.eq_replicate_iff]
    refine ⟨by simp, ?_⟩
    intro b hb
    have := List.mem_takeWhile_imp (List.mem_reverse.mp hb)
    simpa using this
  have h3 := congrArg List.reverse h1
  rw [List.reverse_reverse, List.reverse_append, h2] at h3
  exact h3

theorem sign_head (neg : Prop) [Decidable neg] (rest : List Char) :
    ((if neg then '-' else '+') :: rest).takeWhile isDigit = [] ∧
      ((if neg then '-' else '+') :: rest).dropWhile isDigit =
        (if neg then '-' else '+') :: rest := by
  by_cases h : neg
  · simp only [h, if_true]
    exact ⟨rfl, rfl⟩
  · simp only [h, if_false]
    exact ⟨rfl, rfl⟩

theorem formatZone_head (offset : Int) :
    (formatZone offset).takeWhile isDigit = [] ∧
      (formatZone offset).dropWhile isDigit = formatZone offset := by
  unfold formatZone
  split
  · exact ⟨rfl, rfl⟩
  · exact sign_head _ _

/-- The fraction `formatNano` writes is read as the nanoseconds, and the zone is what
follows. -/
theorem parseFraction_formatNano (ns : Nat) (h : ns < 10 ^ 9) (offset : Int) :
    parseFraction (formatNano ns ++ formatZone offset) = (ns, formatZone offset) := by
  unfold formatNano
  by_cases h0 : ns = 0
  · rw [if_pos h0, h0]
    exact parseFraction_formatZone offset
  · rw [if_neg h0]
    obtain ⟨a1, a2, a3⟩ := appendInt_nine ns h
    obtain ⟨k, hk⟩ := trailing_zeros (appendInt (ns : Int) 9)
    generalize hD : ((appendInt (ns : Int) 9).reverse.dropWhile (fun c => c = '0')).reverse = D
      at hk
    have hDd : ∀ c ∈ D, isDigit c = true := fun c hc =>
      a2 c (by rw [hk]; exact List.mem_append_left _ hc)
    have hlen : D.length + k = 9 := by
      have := congrArg List.length hk
      rw [a1] at this
      simp at this
      omega
    have hval : D.foldl (fun a c => a * 10 + (c.toNat - 48)) 0 * 10 ^ k = ns := by
      rw [hk, List.foldl_append, digits_value_zeros] at a3
      exact a3
    obtain ⟨z1, z2⟩ := formatZone_head offset
    have htake : (D ++ formatZone offset).takeWhile isDigit = D := by
      rw [List.takeWhile_append_of_pos hDd, z1, List.append_nil]
    have hdrop : (D ++ formatZone offset).dropWhile isDigit = formatZone offset := by
      rw [List.dropWhile_append_of_pos hDd, z2]
    cases D with
    | nil =>
      exfalso
      simp at hval
      exact h0 hval.symm
    | cons c rest =>
      have hc : isDigit c = true := hDd c (List.mem_cons_self _ _)
      show parseFraction ('.' :: c :: (rest ++ formatZone offset)) = _
      unfold parseFraction
      simp only [hc, if_true]
      have e1 : c :: (rest ++ formatZone offset) = (c :: rest) ++ formatZone offset := rfl
      rw [e1, htake, hdrop]
      have e2 : (c :: rest).take 9 = c :: rest := List.take_of_length_le (by omega)
      rw [e2]
      have e3 : 9 - (c :: rest).length = k := by omega
      rw [e3, hval]

theorem parseRFC3339_fields_frac (Y M D h m s ns : Nat) (tail zone : List Char)
    (offset : Int)
    (hY : Y ≤ 9999) (hM1 : 1 ≤ M) (hM : M ≤ 12) (hD1 : 1 ≤ D)
    (hD : (D : Int) ≤ daysIn M Y) (hh : h ≤ 23) (hm : m ≤ 59) (hs : s ≤ 59)
    (hfrac : parseFraction tail = (ns, zone)) (hzone : parseZone zone = some offset) :
    parseRFC3339
        (String.mk
          ([utod (Y / 1000), utod (Y / 100 % 10), utod (Y / 10 % 10), utod (Y % 10), '-',
            utod (M / 10), utod (M % 10), '-', utod (D / 10), utod (D % 10), 'T',
            utod (h / 10), utod (h % 10), ':', utod (m / 10), utod (m % 10), ':',
            utod (s / 10), utod (s % 10)] ++ tail)) =
      some
        { unixSec :=
            (daysSinceEpoch Y + daysBefore (M - 1) +
                (if isLeap Y = true ∧ M ≥ 3 then 1 else 0) + ((D : Int) - 1)) * 86400 +
              h * 3600 + m * 60 + s - 62135596800 - offset
          nsec := ns
          offset := offset } := by
  have hD31 : (D : Int) ≤ 31 := le_trans hD (daysIn_le M Y hM1 hM)
  have hDn : D ≤ (daysIn M Y).toNat := by omega
  unfold parseRFC3339
  simp only [List.cons_append, List.nil_append]
  rw [parseUint_four_digits Y 0 9999 (by omega) (by omega) hY,
    parseUint_two_digits M 1 12 (by omega) hM1 hM]
  simp only [Option.bind]
  rw [parseUint_two_digits D 1 _ (by omega) hD1 hDn,
    parseUint_two_digits h 0 23 (by omega) (by omega) hh,
    parseUint_two_digits m 0 59 (by omega) (by omega) hm,
    parseUint_two_digits s 0 59 (by omega) (by omega) hs]
  simp only [hfrac, hzone, and_self, not_true_eq_false, if_false, Option.map]

/-- The text `Time.MarshalJSON` writes for a time is read back by `parseRFC3339` as the
time, nanoseconds included, when the year has four digits and the offset is a whole
number of minutes, less than a day. -/
theorem parseRFC3339_formatRFC3339Nano (t : Time) (hy0 : 0 ≤ t.Year) (hy1 : t.Year ≤ 9999)
    (h60 : t.offset % 60 = 0) (hlo : -86400 < t.offset) (hhi : t.offset < 86400)
    (hns : t.nsec < 10 ^ 9) :
    parseRFC3339 (formatRFC3339Nano t) = some t := by
  obtain ⟨k1, k2, k3, k4, k5⟩ := date_spec (t.abs / 86400)
  obtain ⟨c1, c2, c3, c4, c5, c6, c7⟩ := clock_spec t.abs
  have hyear : t.Year = (yearDay (t.abs / 86400)).1 := rfl
  rw [hyear] at hy0 hy1
  have hdate : t.Date = ((yearDay (t.abs / 86400)).1,
      (monthDay (isLeap (yearDay (t.abs / 86400)).1) (yearDay (t.abs / 86400)).2).1,
      (monthDay (isLeap (yearDay (t.abs / 86400)).1) (yearDay (t.abs / 86400)).2).2) := rfl
  have hclock : t.Clock = (t.abs % 86400 / 3600,
      (t.abs % 86400 - t.abs % 86400 / 3600 * 3600) / 60,
      t.abs % 86400 - t.abs % 86400 / 3600 * 3600 -
        (t.abs % 86400 - t.abs % 86400 / 3600 * 3600) / 60 * 60) := rfl
  generalize (yearDay (t.abs / 86400)).1 = Y at *
  generalize (monthDay (isLeap Y) (yearDay (t.abs / 86400)).2).1 = M at *
  generalize (monthDay (isLeap Y) (yearDay (t.abs / 86400)).2).2 = D at *
  generalize t.abs % 86400 / 3600 = h at *
  generalize (t.abs % 86400 - h * 3600) / 60 = m at *
  generalize t.abs % 86400 - h * 3600 - m * 60 = s at *
  have hD31 : D ≤ 31 := le_trans k4 (daysIn_le M Y k1 k2)
  unfold formatRFC3339Nano
  rw [hdate, hclock]
  simp only
  rw [appendInt_four Y hy0 (by omega), appendInt_two M (by omega) (by omega),
    appendInt_two D (by omega) (by omega), appendInt_two h c1 (by omega),
    appendInt_two m c3 (by omega), appendInt_two s c5 (by omega)]
  simp only [Int.toNat_ofNat, List.cons_append, List.nil_append, List.append_assoc]
  have hYn : ((Y.toNat : Nat) : Int) = Y := Int.toNat_of_nonneg hy0
  have key := parseRFC3339_fields_frac Y.toNat M D.toNat h.toNat m.toNat s.toNat t.nsec
    (formatNano t.nsec ++ formatZone t.offset) (formatZone t.offset) t.offset (by omega) k1 k2
    (by omega) (by rw [hYn]; omega) (by omega) (by omega) (by omega)
    (parseFraction_formatNano t.nsec hns t.offset) (parseZone_formatZone t.offset h60 hlo hhi)
  simp only [List.cons_append, List.nil_append] at key
  rw [key, hYn]
  have hDn : ((D.toNat : Nat) : Int) = D := Int.toNat_of_nonneg (by omega)
  have hhn : ((h.toNat : Nat) : Int) = h := Int.toNat_of_nonneg c1
  have hmn : ((m.toNat : Nat) : Int) = m := Int.toNat_of_nonneg c3
  have hsn : ((s.toNat : Nat) : Int) = s := Int.toNat_of_nonneg c5
  rw [hDn, hhn, hmn, hsn, k5]
  have hu : t.abs / 86400 * 86400 + h * 3600 + m * 60 + s - 62135596800 - t.offset =
      t.unixSec := by
    unfold Time.abs at c7 ⊢
    omega
  rw [hu]

/-! ## The response types: maps and their members -/

theorem mapAssign_fresh (m : List (String × GoValue)) (k : String) (v : GoValue)
    (h : k ∉ m.map Prod.fst) : mapAssign m k v = m ++ [(k, v)] := by
  induction m with
  | nil => rfl
  | cons e rest ih =>
    rw [List.map_cons, List.mem_cons, not_or] at h
    unfold mapAssign
    rw [if_neg (fun he => h.1 he.symm), ih h.2]
    rfl

theorem foldl_mapAssign (kvs acc : List (String × GoValue))
    (h : ((acc ++ kvs).map Prod.fst).Nodup) :
    kvs.foldl (fun m kv => mapAssign m kv.1 kv.2) acc = acc ++ kvs := by
  induction kvs generalizing acc with
  | nil => simp
  | cons kv rest ih =>
    have hfresh : kv.1 ∉ acc.map Prod.fst := by
      rw [List.map_append, List.map_cons] at h
      have := (List.nodup_append.mp h).2.2
      exact fun hk => this hk (List.mem_cons_self _ _)
    rw [List.foldl_cons, mapAssign_fresh acc kv.1 kv.2 hfresh, ih]
    · simp
    · simpa using h

/-- An object whose keys differ decodes into the map of its members, in their order. -/
theorem mapOfMembers_nodup (kvs : List (String × GoValue)) (h : (kvs.map Prod.fst).Nodup) :
    mapOfMembers kvs = kvs.map (fun kv => (GoValue.string kv.1, kv.2)) := by
  unfold mapOfMembers
  rw [foldl_mapAssign kvs [] (by simpa using h), List.nil_append]

theorem keysIncreasing_nodup (keys : List String) (h : keysIncreasing keys = true) :
    keys.Nodup := by
  unfold keysIncreasing at h
  exact (of_decide_eq_true h).imp (fun hab => hab.2)

/-- Members whose keys increase are written in the order they have. -/
theorem sortMembers_increasing (ms : List (String × JSON))
    (h : keysIncreasing (ms.map Prod.fst) = true) : sortMembers ms = ms := by
  unfold keysIncreasing at h
  have hp : ms.Pairwise (fun a b => stringLE a.1 b.1) :=
    List.pairwise_map.mp ((of_decide_eq_true h).imp (fun hab => hab.1))
  exact List.Sorted.insertionSort_eq hp

theorem allSome_map {α β : Type} (f : α → Option β) (l : List α) (js : List β)
    (h : allSome (l.map f) = some js) : List.Forall₂ (fun a j => f a = some j) l js := by
  induction l generalizing js with
  | nil =>
    simp only [List.map_nil, allSome, Option.some.injEq] at h
    subst h
    exact List.Forall₂.nil
  | cons a rest ih =>
    rw [List.map_cons] at h
    cases hfa : f a with
    | none =>
      rw [hfa] at h
      simp [allSome] at h
    | some b =>
      rw [hfa] at h
      cases hr : allSome (rest.map f) with
      | none =>
        simp [allSome, hr] at h
      | some bs =>
        simp only [allSome, hr, Option.map_some', Option.some.injEq] at h
        subst h
        exact List.Forall₂.cons hfa (ih bs hr)

theorem Decoded.all_map {α β : Type} (g : α → Decoded β) (js : List α) (vs : List β)
    (h : List.Forall₂ (fun j v => g j = Decoded.ok v) js vs) :
    Decoded.all (js.map g) = Decoded.ok vs := by
  induction h with
  | nil => rfl
  | cons hj _ ih =>
    rw [List.map_cons, Decoded.all, hj, ih]
    rfl

/-! ## The response types: what an interface holds comes back -/

mutual
/-- What the decoder stores into an interface is read back from its encoding. -/
theorem decodeInterface_marshalInterface (sc : Strconv) :
    ∀ (v : GoValue) (j : JSON), canonicalInterface sc v = true →
      marshalInterface sc v = some j → decodeInterface sc j = some v
  | .iface none, j, _, hm => by
    simp only [marshalInterface, Option.some.injEq] at hm
    subst hm
    rfl
  | .bool b, j, _, hm => by
    simp only [marshalInterface, Option.some.injEq] at hm
    subst hm
    rfl
  | .string s, j, _, hm => by
    simp only [marshalInterface, Option.some.injEq] at hm
    subst hm
    rfl
  | .float .w64 f, j, hc, hm => by
    simp only [canonicalInterface, floatReadsBack] at hc
    simp only [marshalInterface] at hm
    cases hf : sc.formatFloat f with
    | none => rw [hf] at hm; simp at hm
    | some lit =>
      rw [hf] at hm hc
      simp only [Option.map_some', Option.some.injEq] at hm
      subst hm
      simp only [decide_eq_true_eq] at hc
      simp only [decodeInterface, hc, Option.map_some']
  | .slice (some es), j, hc, hm => by
    simp only [canonicalInterface] at hc
    simp only [marshalInterface] at hm
    cases he : marshalInterfaceElems sc es with
    | none => rw [he] at hm; simp at hm
    | some js =>
      rw [he] at hm
      simp only [Option.map_some', Option.some.injEq] at hm
      subst hm
      simp only [decodeInterface, decodeInterfaceElems_marshalInterfaceElems sc es js hc he,
        Option.map_some']
  | .map (some entries), j, hc, hm => by
    simp only [canonicalInterface, Bool.and_eq_true] at hc
    simp only [marshalInterface] at hm
    cases he : marshalInterfaceEntries sc entries with
    | none => rw [he] at hm; simp at hm
    | some ms =>
      rw [he] at hm
      simp only [Option.map_some', Option.some.injEq] at hm
      subst hm
      obtain ⟨kvs, h1, h2, h3, h4⟩ :=
        decodeInterfaceMembers_marshalInterfaceEntries sc entries ms hc.1 he
      rw [sortMembers_increasing ms (by rw [h4]; exact hc.2)]
      simp only [decodeInterface, h1, Option.map_some']
      rw [mapOfMembers_nodup kvs (by rw [h3]; exact keysIncreasing_nodup _ hc.2), h2]
  | .slice none, _, hc, _ => by simp [canonicalInterface] at hc
  | .map none, _, hc, _ => by simp [canonicalInterface] at hc
  | .iface (some _), _, hc, _ => by simp [canonicalInterface] at hc
  | .int _ _, _, hc, _ => by simp [canonicalInterface] at hc
  | .uint _ _, _, hc, _ => by simp [canonicalInterface] at hc
  | .float .w32 _, _, hc, _ => by simp [canonicalInterface] at hc
  | .complex _, _, hc, _ => by simp [canonicalInterface] at hc
  | .array _, _, hc, _ => by simp [canonicalInterface] at hc
  | .chan _ _, _, hc, _ => by simp [canonicalInterface] at hc
  | .func _, _, hc, _ => by simp [canonicalInterface] at hc
  | .ptr _, _, hc, _ => by simp [canonicalInterface] at hc
  | .struct _, _, hc, _ => by simp [canonicalInterface] at hc
  | .time _, _, hc, _ => by simp [canonicalInterface] at hc
  | .unsafePointer _, _, hc, _ => by simp [canonicalInterface] at hc
/-- The elements of a `[]interface{}` are read back. -/
theorem decodeInterfaceElems_marshalInterfaceElems (sc : Strconv) :
    ∀ (es : List GoValue) (js : List JSON), canonicalInterfaceElems sc es = true →
      marshalInterfaceElems sc es = some js → decodeInterfaceElems sc js = some es
  | [], js, _, hm => by
    simp only [marshalInterfaceElems, Option.some.injEq] at hm
    subst hm
    rfl
  | e :: es, js, hc, hm => by
    simp only [canonicalInterfaceElems, Bool.and_eq_true] at hc
    simp only [marshalInterfaceElems] at hm
    cases h1 : marshalInterface sc e with
    | none => rw [h1] at hm; simp at hm
    | some j =>
      cases h2 : marshalInterfaceElems sc es with
      | none => rw [h1, h2] at hm; simp at hm
      | some js0 =>
        rw [h1, h2] at hm
        simp only [Option.some.injEq] at hm
        subst hm
        simp only [decodeInterfaceElems, decodeInterface_marshalInterface sc e j hc.1 h1,
          decodeInterfaceElems_marshalInterfaceElems sc es js0 hc.2 h2]
/-- The entries of a `map[string]interface{}` are read back, member by member. -/
theorem decodeInterfaceMembers_marshalInterfaceEntries (sc : Strconv) :
    ∀ (entries : List (GoValue × GoValue)) (ms : List (String × JSON)),
      canonicalInterfaceEntries sc entries = true →
      marshalInterfaceEntries sc entries = some ms →
      ∃ kvs : List (String × GoValue), decodeInterfaceMembers sc ms = some kvs ∧
        kvs.map (fun kv => (GoValue.string kv.1, kv.2)) = entries ∧
        kvs.map Prod.fst = entryKeys entries ∧ ms.map Prod.fst = entryKeys entries
  | [], ms, _, hm => by
    simp only [marshalInterfaceEntries, Option.some.injEq] at hm
    subst hm
    exact ⟨[], rfl, rfl, rfl, rfl⟩
  | (k, v) :: rest, ms, hc, hm => by
    simp only [canonicalInterfaceEntries, Bool.and_eq_true] at hc
    cases k with
    | string key =>
      simp only [marshalInterfaceEntries] at hm
      cases h1 : marshalInterface sc v with
      | none => rw [h1] at hm; simp at hm
      | some j =>
        cases h2 : marshalInterfaceEntries sc rest with
        | none => rw [h1, h2] at hm; simp at hm
        | some ms0 =>
          rw [h1, h2] at hm
          simp only [Option.some.injEq] at hm
          subst hm
          obtain ⟨kvs, e1, e2, e3, e4⟩ :=
            decodeInterfaceMembers_marshalInterfaceEntries sc rest ms0 hc.2 h2
          refine ⟨(key, v) :: kvs, ?_, ?_, ?_, ?_⟩
          · simp only [decodeInterfaceMembers,
              decodeInterface_marshalInterface sc v j hc.1.2 h1, e1]
          · rw [List.map_cons, e2]
          · rw [List.map_cons, e3]
            rfl
          · rw [List.map_cons, e4]
            rfl
    | _ => simp [hasStringKey] at hc
end

/-! ## The response types: a value comes back from its encoding -/

theorem marshalFields_keys (sc : Strconv) :
    ∀ (rest : List (StructField × JType)) (vals : List (StructField × GoValue))
      (ms : List (String × JSON)), marshalFields sc rest vals = some ms →
      ∀ m ∈ ms, m.1 ∈ rest.map (fun ft => jsonName ft.1)
  | [], [], ms, h => by
    simp only [marshalFields, Option.some.injEq] at h
    subst h
    intro m hm
    cases hm
  | [], _ :: _, ms, h => by simp [marshalFields] at h
  | _ :: _, [], ms, h => by simp [marshalFields] at h
  | ft :: rest, fv :: vals, ms, h => by
    simp only [marshalFields] at h
    split at h
    · cases h
    · split at h
      · intro m hm
        exact List.mem_cons_of_mem _ (marshalFields_keys sc rest vals ms h m hm)
      · cases h1 : marshalValue sc ft.2 fv.2 with
        | none => rw [h1] at h; simp at h
        | some j =>
          cases h2 : marshalFields sc rest vals with
          | none => rw [h1, h2] at h; simp at h
          | some ms0 =>
            rw [h1, h2] at h
            simp only [Option.some.injEq] at h
            subst h
            intro m hm
            rcases List.mem_cons.mp hm with hm | hm
            · rw [hm]
              exact List.mem_cons_self _ _
            · exact List.mem_cons_of_mem _ (marshalFields_keys sc rest vals ms0 h2 m hm)

/-- A value of a type without a nil value is not written as `null`. -/
theorem marshalValue_ne_null (sc : Strconv) (T : JType) (v : GoValue)
    (hn : T.nullable = false) : marshalValue sc T v ≠ some JSON.null := by
  intro h
  cases T <;> simp only [JType.nullable, Bool.true_eq_false] at hn <;> cases v <;>
    try simp only [marshalValue] at h
  all_goals first
    | cases h
    | (rename_i wd n
       cases wd <;> simp only [marshalValue] at h <;> cases h)
    | (rename_i wd f
       cases wd <;> simp only [marshalValue] at h
       all_goals first
         | cases h
         | (cases hf : sc.formatFloat f <;> rw [hf] at h <;> cases h))
    | (rename_i t
       cases ht : timeMarshalJSON t <;> rw [ht] at h <;> cases h)
    | (rename_i fields fvs
       cases hf : marshalFields sc fields fvs <;> rw [hf] at h <;> cases h)

/-- A value that `omitempty` leaves out and that is the zero value when empty is the
zero value of its type. -/
theorem empty_is_zero (sc : Strconv) (T : JType) (v : GoValue)
    (hc : canonicalValue sc T v = true) (he : jsonEmpty T v = true)
    (hz : emptyIsZero v = true) : v = T.zero := by
  cases T <;> cases v <;>
    first
    | (simp [canonicalValue] at hc; done)
    | (simp [jsonEmpty] at he; done)
    | skip
  · rename_i s
    simp only [jsonEmpty, decide_eq_true_eq] at he
    subst he
    rfl
  · rename_i wd n
    cases wd <;> simp only [canonicalValue, Bool.false_eq_true] at hc
    simp only [jsonEmpty, decide_eq_true_eq] at he
    subst he
    rfl
  · rename_i wd f
    cases wd <;> simp only [canonicalValue, Bool.false_eq_true] at hc
    simp only [emptyIsZero, decide_eq_true_eq] at hz
    cases f with
    | mk bits =>
      simp only at hz
      subst hz
      rfl
  · rename_i b
    simp only [jsonEmpty, Bool.not_eq_true'] at he
    subst he
    rfl
  · rename_i o
    cases o with
    | none => rfl
    | some x => simp [jsonEmpty] at he
  · rename_i elem o
    cases o with
    | none => rfl
    | some x => simp [jsonEmpty] at he
  · rename_i elem o
    cases o with
    | none => rfl
    | some x => simp [emptyIsZero] at hz
  · rename_i elem o
    cases o with
    | none => rfl
    | some x => simp [emptyIsZero] at hz

theorem find_exact (names : List String) (key : String) (h : key ∈ names) :
    names.find? (fun n => n = key) = some key := by
  induction names with
  | nil => cases h
  | cons a rest ih =>
    by_cases ha : a = key
    · simp [List.find?, ha]
    · rcases List.mem_cons.mp h with h | h
      · exact absurd h.symm ha
      · simp only [List.find?, ha, decide_False]
        exact ih h

/-- An object key that is the name of a field is decoded into that field. -/
theorem resolveName_mem (names : List String) (key : String) (h : key ∈ names) :
    resolveName names key = some key := by
  unfold resolveName
  rw [find_exact names key h]

theorem forall2_decode {α β : Type} (f : α → Option β) (g : β → Decoded α) (P : α → Prop)
    (ih : ∀ a b, P a → f a = some b → g b = Decoded.ok a) (l : List α) (js : List β)
    (hP : ∀ a ∈ l, P a) (h : List.Forall₂ (fun a j => f a = some j) l js) :
    List.Forall₂ (fun j v => g j = Decoded.ok v) js l := by
  induction h with
  | nil => exact List.Forall₂.nil
  | cons hj _ ih2 =>
    exact List.Forall₂.cons (ih _ _ (hP _ (List.mem_cons_self _ _)) hj)
      (ih2 (fun a ha => hP a (List.mem_cons_of_mem _ ha)))

/-- The entries of a map are read back, member by member, when the values are. -/
theorem entries_decode (sc : Strconv) (elem : JType)
    (ih : ∀ x j, canonicalValue sc elem x = true → marshalValue sc elem x = some j →
      decodeValue sc elem j = Decoded.ok x)
    (entries : List (GoValue × GoValue)) (ms : List (String × JSON))
    (hc : ∀ kv ∈ entries, hasStringKey kv = true ∧ canonicalValue sc elem kv.2 = true)
    (h : List.Forall₂
      (fun (kv : GoValue × GoValue) (m : String × JSON) =>
        (match kv.1 with
          | .string k => (marshalValue sc elem kv.2).map (fun j => (k, j))
          | _ => none) = some m) entries ms) :
    ∃ kvs : List (String × GoValue),
      Decoded.all (ms.map (fun m => (decodeValue sc elem m.2).map (fun v => (m.1, v)))) =
        Decoded.ok kvs ∧
      kvs.map (fun kv => (GoValue.string kv.1, kv.2)) = entries ∧
      kvs.map Prod.fst = entryKeys entries ∧ ms.map Prod.fst = entryKeys entries := by
  induction h with
  | nil => exact ⟨[], rfl, rfl, rfl, rfl⟩
  | @cons kv m entries ms hkv _ ih2 =>
    obtain ⟨kvs, e1, e2, e3, e4⟩ := ih2 (fun a ha => hc a (List.mem_cons_of_mem _ ha))
    obtain ⟨hk, hcv⟩ := hc kv (List.mem_cons_self _ _)
    obtain ⟨k, x⟩ := kv
    cases k with
    | string key =>
      simp only at hkv hcv
      cases hm : marshalValue sc elem x with
      | none => rw [hm] at hkv; simp at hkv
      | some j =>
        rw [hm] at hkv
        simp only [Option.map_some', Option.some.injEq] at hkv
        subst hkv
        refine ⟨(key, x) :: kvs, ?_, ?_, ?_, ?_⟩
        · rw [List.map_cons, Decoded.all, e1]
          simp only [ih x j hcv hm]
          rfl
        · rw [List.map_cons, e2]
        · rw [List.map_cons, e3]
          rfl
        · rw [List.map_cons, e4]
          rfl
    | _ => simp [hasStringKey] at hk

theorem filter_absent (ms : List (String × JSON)) (name : String)
    (h : ∀ m ∈ ms, m.1 ≠ name) : ms.filter (fun m => m.1 = name) = [] := by
  rw [List.filter_eq_nil_iff]
  intro m hm
  simpa using h m hm

mutual
/-- A value of a type is read back from the JSON value `json.Marshal` writes for it. -/
theorem decodeValue_marshalValue (sc : Strconv) :
    ∀ (T : JType) (v : GoValue) (j : JSON), T.wellFormed = true →
      canonicalValue sc T v = true → marshalValue sc T v = some j →
      decodeValue sc T j = Decoded.ok v
  | .string, v, j, _, hc, hm => by
    cases v <;> simp only [canonicalValue, Bool.false_eq_true] at hc
    simp only [marshalValue, Option.some.injEq] at hm
    subst hm
    rfl
  | .bool, v, j, _, hc, hm => by
    cases v <;> simp only [canonicalValue, Bool.false_eq_true] at hc
    simp only [marshalValue, Option.some.injEq] at hm
    subst hm
    rfl
  | .int, v, j, _, hc, hm => by
    cases v <;> try simp only [canonicalValue, Bool.false_eq_true] at hc
    rename_i wd n
    cases wd <;> simp only [canonicalValue, Bool.false_eq_true] at hc
    simp only [decide_eq_true_eq] at hc
    simp only [marshalValue, Option.some.injEq] at hm
    subst hm
    simp only [decodeValue, parseInt64_sprintf_d n hc.1 hc.2]
  | .float64, v, j, _, hc, hm => by
    cases v <;> try simp only [canonicalValue, Bool.false_eq_true] at hc
    rename_i wd f
    cases wd <;> simp only [canonicalValue, Bool.false_eq_true] at hc
    simp only [floatReadsBack] at hc
    simp only [marshalValue] at hm
    cases hf : sc.formatFloat f with
    | none => rw [hf] at hm; simp at hm
    | some lit =>
      rw [hf] at hm hc
      simp only [Option.map_some', Option.some.injEq] at hm
      subst hm
      simp only [decide_eq_true_eq] at hc
      simp only [decodeValue, hc]
  | .time, v, j, _, hc, hm => by
    cases v <;> simp only [canonicalValue, Bool.false_eq_true] at hc
    rename_i t
    simp only [decide_eq_true_eq] at hc
    simp only [marshalValue, timeMarshalJSON] at hm
    split at hm
    · rename_i hr
      simp only [Option.map_some', Option.some.injEq] at hm
      subst hm
      simp only [decodeValue,
        parseRFC3339_formatRFC3339Nano t hr.1 hr.2.1 hc.1 hr.2.2.1 hr.2.2.2 hc.2]
    · simp at hm
  | .iface, v, j, _, hc, hm => by
    simp only [canonicalValue] at hc
    simp only [marshalValue] at hm
    simp only [decodeValue, decodeInterface_marshalInterface sc v j hc hm]
  | .ptr elem, v, j, hwf, hc, hm => by
    cases v <;> try simp only [canonicalValue, Bool.false_eq_true] at hc
    rename_i o
    cases o with
    | none =>
      simp only [marshalValue, Option.some.injEq] at hm
      subst hm
      rfl
    | some x =>
      simp only [canonicalValue, Bool.and_eq_true, Bool.not_eq_true'] at hc
      simp only [marshalValue] at hm
      simp only [JType.wellFormed] at hwf
      have ih := decodeValue_marshalValue sc elem x j hwf hc.2 hm
      have hne := marshalValue_ne_null sc elem x hc.1
      cases j with
      | null => exact absurd hm hne
      | _ => simp only [decodeValue, ih, Decoded.map]
  | .slice elem, v, j, hwf, hc, hm => by
    cases v <;> try simp only [canonicalValue, Bool.false_eq_true] at hc
    rename_i o
    cases o with
    | none =>
      simp only [marshalValue, Option.some.injEq] at hm
      subst hm
      rfl
    | some es =>
      simp only [canonicalValue, List.all_eq_true] at hc
      simp only [marshalValue] at hm
      simp only [JType.wellFormed] at hwf
      cases hs : allSome (es.map (fun e => marshalValue sc elem e)) with
      | none => rw [hs] at hm; simp at hm
      | some js =>
        rw [hs] at hm
        simp only [Option.map_some', Option.some.injEq] at hm
        subst hm
        have h2 := forall2_decode (fun e => marshalValue sc elem e)
          (fun e => decodeValue sc elem e) (fun e => canonicalValue sc elem e = true)
          (fun a b hp hf => decodeValue_marshalValue sc elem a b hwf hp hf) es js hc
          (allSome_map _ es js hs)
        simp only [decodeValue]
        rw [Decoded.all_map _ js es h2]
        rfl
  | .mapOf elem, v, j, hwf, hc, hm => by
    cases v <;> try simp only [canonicalValue, Bool.false_eq_true] at hc
    rename_i o
    cases o with
    | none =>
      simp only [marshalValue, Option.some.injEq] at hm
      subst hm
      rfl
    | some entries =>
      simp only [canonicalValue, Bool.and_eq_true, List.all_eq_true] at hc
      simp only [marshalValue] at hm
      simp only [JType.wellFormed] at hwf
      cases hs : allSome (entries.map (fun kv =>
          match kv.1 with
          | .string k => (marshalValue sc elem kv.2).map (fun j => (k, j))
          | _ => none)) with
      | none => rw [hs] at hm; simp at hm
      | some ms =>
        rw [hs] at hm
        simp only [Option.map_some', Option.some.injEq] at hm
        subst hm
        obtain ⟨kvs, e1, e2, e3, e4⟩ := entries_decode sc elem
          (fun a b hp hf => decodeValue_marshalValue sc elem a b hwf hp hf) entries ms hc.1
          (allSome_map _ entries ms hs)
        rw [sortMembers_increasing ms (by rw [e4]; exact hc.2)]
        simp only [decodeValue]
        rw [e1]
        simp only [Decoded.map]
        rw [mapOfMembers_nodup kvs (by rw [e3]; exact keysIncreasing_nodup _ hc.2), e2]
  | .struct fields, v, j, hwf, hc, hm => by
    cases v <;> simp only [canonicalValue, Bool.false_eq_true] at hc
    rename_i fvs
    simp only [marshalValue] at hm
    simp only [JType.wellFormed, Bool.and_eq_true, decide_eq_true_eq] at hwf
    cases hs : marshalFields sc fields fvs with
    | none => rw [hs] at hm; simp at hm
    | some ms =>
      rw [hs] at hm
      simp only [Option.map_some', Option.some.injEq] at hm
      subst hm
      have hkeys := marshalFields_keys sc fields fvs ms hs
      have hfilter : ∀ ft ∈ fields,
          ms.filter (fun m => resolveName (fields.map (fun ft => jsonName ft.1)) m.1 =
            some (jsonName ft.1)) = ms.filter (fun m => m.1 = jsonName ft.1) := by
        intro ft _
        apply List.filter_congr
        intro m hm
        rw [resolveName_mem _ _ (hkeys m hm)]
        simp
      simp only [decodeValue,
        decodeFields_marshalFields sc fields fvs ms (fields.map (fun ft => jsonName ft.1)) ms
          hwf.2 hwf.1 hc hs hfilter, Decoded.map]
/-- The fields of a struct are read back from the members written for them. -/
theorem decodeFields_marshalFields (sc : Strconv) :
    ∀ (rest : List (StructField × JType)) (vals : List (StructField × GoValue))
      (msR : List (String × JSON)) (names : List String) (ms : List (String × JSON)),
      JType.fieldsWellFormed rest = true → (rest.map (fun ft => jsonName ft.1)).Nodup →
      canonicalFields sc rest vals = true → marshalFields sc rest vals = some msR →
      (∀ ft ∈ rest, ms.filter (fun m => resolveName names m.1 = some (jsonName ft.1)) =
        msR.filter (fun m => m.1 = jsonName ft.1)) →
      decodeFields sc names ms rest = Decoded.ok vals
  | [], [], _, _, _, _, _, _, _, _ => rfl
  | [], _ :: _, _, _, _, _, _, hc, _, _ => by simp [canonicalFields] at hc
  | _ :: _, [], _, _, _, _, _, hc, _, _ => by simp [canonicalFields] at hc
  | (f, T) :: rest, (g, x) :: vals, msR, names, ms, hwf, hnd, hc, hm, hfilter => by
    simp only [JType.fieldsWellFormed, Bool.and_eq_true, Bool.not_eq_true'] at hwf
    simp only [canonicalFields, Bool.and_eq_true, Bool.or_eq_true, Bool.not_eq_true'] at hc
    rw [List.map_cons, List.nodup_cons] at hnd
    simp only [marshalFields] at hm
    have hhere := hfilter (f, T) (List.mem_cons_self _ _)
    simp only at hhere
    split at hm
    · cases hm
    · rename_i hfg
      simp only [not_or, ne_eq, not_not] at hfg
      have hgf : g = f := hfg.1.symm
      subst hgf
      split at hm
      · rename_i homit
        have hkeys := marshalFields_keys sc rest vals msR hm
        rw [filter_absent msR (jsonName g)
          (fun m hmem he => hnd.1 (he ▸ hkeys m hmem))] at hhere
        have hz : emptyIsZero x = true := by
          rcases hc.1.2 with h | h
          · rw [homit.1, homit.2] at h
            cases h
          · exact h
        have hx := empty_is_zero sc T x hc.1.1 homit.2 hz
        have ih := decodeFields_marshalFields sc rest vals msR names ms hwf.2 hnd.2 hc.2 hm
          (fun ft hft => hfilter ft (List.mem_cons_of_mem _ hft))
        simp only [decodeFields, hwf.1.1, Bool.false_eq_true, if_false, hhere, ih, hx]
        rfl
      · cases h1 : marshalValue sc T x with
        | none => rw [h1] at hm; simp at hm
        | some j =>
          cases h2 : marshalFields sc rest vals with
          | none => rw [h1, h2] at hm; simp at hm
          | some ms0 =>
            rw [h1, h2] at hm
            simp only [Option.some.injEq] at hm
            subst hm
            have hkeys := marshalFields_keys sc rest vals ms0 h2
            rw [List.filter_cons_of_pos (by simp), filter_absent ms0 (jsonName g)
              (fun m hmem he => hnd.1 (he ▸ hkeys m hmem))] at hhere
            have ihv := decodeValue_marshalValue sc T x j hwf.1.2 hc.1.1 h1
            have ih := decodeFields_marshalFields sc rest vals ms0 names ms hwf.2 hnd.2 hc.2 h2
              (fun ft hft => by
                rw [hfilter ft (List.mem_cons_of_mem _ hft)]
                have hne : jsonName g ≠ jsonName ft.1 := fun he =>
                  hnd.1 (he ▸ List.mem_map_of_mem (fun ft => jsonName ft.1) hft)
                rw [List.filter_cons_of_neg (by simpa using hne)])
            simp only [decodeFields, hwf.1.1, Bool.false_eq_true, if_false, hhere, ihv, ih]
            rfl
end

/-! ## The response types: the pipeline -/

set_option maxRecDepth 100000 in
theorem responseTypes_wellFormed : ∀ T ∈ responseTypes, T.wellFormed = true := by
  decide

/-- A body that is an encoding of a value is decoded to the value. -/
theorem decodeBody_encoding (sc : Strconv) (T : JType) (v : GoValue) (body : String)
    (hwf : T.wellFormed = true) (hc : canonicalValue sc T v = true)
    (henc : isEncodingOf sc T v body) (hesc : T.hasTime = true → '\\' ∉ body.data) :
    decodeBody sc T body = Decoded.ok v := by
  obtain ⟨j, rest, hm, hp⟩ := henc
  unfold decodeBody
  rw [if_neg (fun h => hesc h.1 h.2), hp]
  exact decodeValue_marshalValue sc T v j hwf hc hm

theorem strictDest_decodes (sc : Strconv) (T : JType) :
    Dest.decodes (strictDest sc T) sc T :=
  ⟨fun body v h => by simp only [strictDest, h],
   fun body h => ⟨"json: cannot unmarshal the body", by simp only [strictDest, h]⟩⟩

theorem send_stored (c : Client) (req : Request) (decode : Dest) (resp : Response)
    (hresp : c.httpClient.Do req = .ok resp) (hs : resp.StatusCode < 400) :
    (c.send req (some decode)).stored =
      match decode resp.Body with
      | .ok v => some v
      | .error _ => none := by
  unfold Client.send
  rw [hresp]
  simp only
  rw [if_neg (by omega)]
  cases decode resp.Body <;> rfl

/-- The conversions of a float stay what they are when the reading of one text is
named apart. -/
theorem Strconv.parse_at (sc : Strconv) (lit : String) :
    sc = { formatFloat := sc.formatFloat
           parseFloat := fun s => if s = lit then sc.parseFloat lit else sc.parseFloat s } := by
  cases sc with
  | mk ff pf =>
    simp only [Strconv.mk.injEq, true_and]
    funext s
    by_cases h : s = lit
    · rw [if_pos h, h]
    · rw [if_neg h]

set_option maxRecDepth 100000 in
theorem decodeBody_integer_in_interface (ff : Float64 → Option String)
    (pf : String → Option Float64) (o : Option Float64) :
    decodeBody { formatFloat := ff, parseFloat := fun s => if s = "1" then o else pf s }
        types.STTResponse "\x7b\"text\":\"hi\",\"metadata\":\x7b\"n\":1\x7d\x7d" =
      match o with
      | some f =>
        Decoded.ok (sttValue "hi" ""
          (GoValue.map (some [(GoValue.string "n", GoValue.float FloatWidth.w64 f)])))
      | none => Decoded.error := by
  cases o <;> rfl

set_option maxRecDepth 100000 in
theorem encoding_integer_in_interface (sc : Strconv) :
    isEncodingOf sc types.STTResponse
      (sttValue "hi" "" (GoValue.map (some [(GoValue.string "n", GoValue.int IntWidth.w 1)])))
      "\x7b\"text\":\"hi\",\"metadata\":\x7b\"n\":1\x7d\x7d" :=
  ⟨_, _, rfl, rfl⟩

set_option maxRecDepth 100000 in
theorem encoding_empty_map (sc : Strconv) :
    isEncodingOf sc types.STTResponse (sttValue "hi" "" (GoValue.map (some [])))
      "\x7b\"text\":\"hi\"\x7d" :=
  ⟨_, _, rfl, rfl⟩

set_option maxRecDepth 100000 in
theorem decodeBody_empty_map (sc : Strconv) :
    decodeBody sc types.STTResponse "\x7b\"text\":\"hi\"\x7d" =
      Decoded.ok (sttValue "hi" "" (GoValue.map none)) :=
  rfl

set_option maxRecDepth 100000 in
theorem encoding_zone_seconds (sc : Strconv) :
    isEncodingOf sc types.Prompt
      (promptValue { unixSec := 1705310999, nsec := 0, offset := 3601 })
      ("\x7b\"id\":\"p\",\"name\":\"n\",\"created_at\":\"2024-01-15T10:30:00+01:00\"," ++
        "\"updated_at\":\"0001-01-01T00:00:00Z\"\x7d") :=
  ⟨_, _, rfl, rfl⟩

set_option maxRecDepth 100000 in
theorem decodeBody_zone_seconds (sc : Strconv) :
    decodeBody sc types.Prompt
        ("\x7b\"id\":\"p\",\"name\":\"n\",\"created_at\":\"2024-01-15T10:30:00+01:00\"," ++
          "\"updated_at\":\"0001-01-01T00:00:00Z\"\x7d") =
      Decoded.ok (promptValue { unixSec := 1705311000, nsec := 0, offset := 3600 }) :=
  rfl

/-- C25 (as stated, refuted): three values of a response type that do not come back
from their JSON encoding, whatever the conversion between floats and their text does
and whatever destination decodes as `Decode` does. The `types.STTResponse` with
`Text = "hi"` and `Metadata = {"n": 1}`, the 1 being an `int`, is encoded as
`{"text":"hi","metadata":{"n":1}}`, and the pipeline does not store it: a number is
read into an `interface{}` as a `float64`. The `types.STTResponse` with `Text = "hi"`
and an empty, non-nil `Metadata` is encoded as `{"text":"hi"}`, and the pipeline stores
a value whose `Metadata` is nil. The `types.Prompt` created at 10:30:00 in a zone 3601
seconds east of UTC is encoded with `"created_at":"2024-01-15T10:30:00+01:00"`, and the
pipeline stores a time one second later, in the zone 3600 seconds east. -/
theorem encoded_values_not_read_back :
    (∀ (sc : Strconv) (decode : Dest), Dest.decodes decode sc types.STTResponse →
      isEncodingOf sc types.STTResponse
          (sttValue "hi" ""
            (GoValue.map (some [(GoValue.string "n", GoValue.int IntWidth.w 1)])))
          "\x7b\"text\":\"hi\",\"metadata\":\x7b\"n\":1\x7d\x7d" ∧
        ((testClient
            { StatusCode := 200,
              Body := "\x7b\"text\":\"hi\",\"metadata\":\x7b\"n\":1\x7d\x7d" }).PostMultipart
            stubLib "/api/audio/transcriptions" [] (some decode)).stored ≠
          some (sttValue "hi" ""
            (GoValue.map (some [(GoValue.string "n", GoValue.int IntWidth.w 1)])))) ∧
    (∀ (sc : Strconv) (decode : Dest), Dest.decodes decode sc types.STTResponse →
      isEncodingOf sc types.STTResponse (sttValue "hi" "" (GoValue.map (some [])))
          "\x7b\"text\":\"hi\"\x7d" ∧
        ((testClient { StatusCode := 200, Body := "\x7b\"text\":\"hi\"\x7d" }).PostMultipart
            stubLib "/api/audio/transcriptions" [] (some decode)).stored =
          some (sttValue "hi" "" (GoValue.map none))) ∧
    (∀ (sc : Strconv) (decode : Dest), Dest.decodes decode sc types.Prompt →
      isEncodingOf sc types.Prompt
          (promptValue { unixSec := 1705310999, nsec := 0, offset := 3601 })
          ("\x7b\"id\":\"p\",\"name\":\"n\",\"created_at\":\"2024-01-15T10:30:00+01:00\"," ++
            "\"updated_at\":\"0001-01-01T00:00:00Z\"\x7d") ∧
        ((testClient
            { StatusCode := 200,
              Body :=
                "\x7b\"id\":\"p\",\"name\":\"n\",\"created_at\":\"2024-01-15T10:30:00+01:00\"," ++
                  "\"updated_at\":\"0001-01-01T00:00:00Z\"\x7d" }).do
            stubLib "GET" "/api/prompts/p" none (some decode)).stored =
          some (promptValue { unixSec := 1705311000, nsec := 0, offset := 3600 })) := by
  refine ⟨fun sc decode hdec => ⟨encoding_integer_in_interface sc, ?_⟩,
    fun sc decode hdec => ⟨encoding_empty_map sc, ?_⟩,
    fun sc decode hdec => ⟨encoding_zone_seconds sc, ?_⟩⟩
  · obtain ⟨req, hreq⟩ : ∃ req, (testClient
        { StatusCode := 200,
          Body := "\x7b\"text\":\"hi\",\"metadata\":\x7b\"n\":1\x7d\x7d" }).PostMultipart
        stubLib "/api/audio/transcriptions" [] (some decode) =
        (testClient
          { StatusCode := 200,
            Body := "\x7b\"text\":\"hi\",\"metadata\":\x7b\"n\":1\x7d\x7d" }).send
          req (some decode) := ⟨_, rfl⟩
    rw [hreq, send_stored _ req decode _ rfl (by decide)]
    have hbody := decodeBody_integer_in_interface sc.formatFloat sc.parseFloat
      (sc.parseFloat "1")
    rw [← Strconv.parse_at sc "1"] at hbody
    cases ho : sc.parseFloat "1" with
    | none =>
      rw [ho] at hbody
      obtain ⟨msg, hmsg⟩ := hdec.2 _ hbody
      simp only [hmsg]
      exact fun h => Option.noConfusion h
    | some f =>
      rw [ho] at hbody
      simp only [hdec.1 _ _ hbody]
      intro h
      simp [sttValue] at h
  · obtain ⟨req, hreq⟩ : ∃ req,
        (testClient { StatusCode := 200, Body := "\x7b\"text\":\"hi\"\x7d" }).PostMultipart
          stubLib "/api/audio/transcriptions" [] (some decode) =
        (testClient { StatusCode := 200, Body := "\x7b\"text\":\"hi\"\x7d" }).send
          req (some decode) := ⟨_, rfl⟩
    rw [hreq, send_stored _ req decode _ rfl (by decide)]
    simp only [hdec.1 _ _ (decodeBody_empty_map sc)]
  · obtain ⟨req, hreq⟩ : ∃ req, (testClient
        { StatusCode := 200,
          Body :=
            "\x7b\"id\":\"p\",\"name\":\"n\",\"created_at\":\"2024-01-15T10:30:00+01:00\"," ++
              "\"updated_at\":\"0001-01-01T00:00:00Z\"\x7d" }).do
        stubLib "GET" "/api/prompts/p" none (some decode) =
        (testClient
          { StatusCode := 200,
            Body :=
              "\x7b\"id\":\"p\",\"name\":\"n\",\"created_at\":\"2024-01-15T10:30:00+01:00\"," ++
                "\"updated_at\":\"0001-01-01T00:00:00Z\"\x7d" }).send
          req (some decode) := ⟨_, rfl⟩
    rw [hreq, send_stored _ req decode _ rfl (by decide)]
    simp only [hdec.1 _ _ (decodeBody_zone_seconds sc)]

/-- C25 (amended): let `v` be a value of a response type (`RequestLog`, `LogsResponse`,
`Thread`, `Prompt`, `PromptVersion`, `Model`, `TemporaryKey`, `STTResponse`,
`EmbeddingResponse`) that comes back from its encoding: every `interface{}` in it holds
what the decoder stores there (nil, a `bool`, a `float64`, a `string`, a
`[]interface{}` or a `map[string]interface{}` of such values), every field that
`omitempty` leaves out holds the zero value of its type, and every time has a zone of
whole minutes. When the transport answers a request of the pipeline with a status below
400 and a body that is a JSON encoding of `v`, free of backslashes if the type holds a
time, and the destination decodes as `Decode` does, the pipeline stores `v` and returns
a nil error. In this model the entries of a map are listed in the order of their keys,
each `int` lies within 64 bits, each float is one its text reads back as, the
nanoseconds of a time are below a second, and two times are equal when they are the same
instant in the same zone offset. -/
theorem encoded_value_read_back (sc : Strconv) (lib : Lib) (c : Client) (req : Request)
    (resp : Response) (decode : Dest) (T : JType) (v : GoValue)
    (hT : T ∈ responseTypes) (hdec : Dest.decodes decode sc T)
    (hresp : c.httpClient.Do req = .ok resp) (hs : resp.StatusCode < 400)
    (hc : canonicalValue sc T v = true) (henc : isEncodingOf sc T v resp.Body)
    (hesc : T.hasTime = true → '\\' ∉ resp.Body.data) :
    (∀ (method path : String) (body : Option GoValue),
      (c.do lib method path body (some decode)).sent = [req] →
        c.do lib method path body (some decode) =
          { err := none, stored := some v, sent := [req] }) ∧
    (∀ (path : String) (fields : List MultipartField),
      (c.PostMultipart lib path fields (some decode)).sent = [req] →
        c.PostMultipart lib path fields (some decode) =
          { err := none, stored := some v, sent := [req] }) :=
  have hd : decode resp.Body = .ok v :=
    hdec.1 _ _ (decodeBody_encoding sc T v resp.Body (responseTypes_wellFormed T hT) hc henc hesc)
  ⟨fun method path body hsent => do_ok lib c method path body decode req resp v hsent hresp hs hd,
   fun path fields hsent => PostMultipart_ok lib c path fields decode req resp v hsent hresp hs hd⟩

/-- Witness of C25 (amended): the `types.STTResponse` with `Text = "Hello world"`,
`Language = "en"` and `Metadata = {"k": "v"}` is encoded as
`{"text":"Hello world","language":"en","metadata":{"k":"v"}}`; answered with that body
and the status 200, the pipeline stores the same value and returns no error. -/
theorem encoded_value_read_back_witness :
    isEncodingOf zeroStrconv types.STTResponse
        (sttValue "Hello world" "en"
          (GoValue.map (some [(GoValue.string "k", GoValue.string "v")])))
        ("\x7b\"text\":\"Hello world\",\"language\":\"en\"," ++
          "\"metadata\":\x7b\"k\":\"v\"\x7d\x7d") ∧
    (testClient
        { StatusCode := 200,
          Body := "\x7b\"text\":\"Hello world\",\"language\":\"en\"," ++
            "\"metadata\":\x7b\"k\":\"v\"\x7d\x7d" }).PostMultipart
        stubLib "/api/audio/transcriptions" []
        (some (strictDest zeroStrconv types.STTResponse)) =
      { err := none
        stored := some (sttValue "Hello world" "en"
          (GoValue.map (some [(GoValue.string "k", GoValue.string "v")])))
        sent :=
          [{ Method := "POST", URL := "http://127.0.0.1:8080/api/audio/transcriptions",
             Header := [("Authorization", "Bearer test-key"),
                        ("Content-Type", "multipart/form-data; boundary=boundary")],
             Body := some (utf8Bytes "\x0d\n--boundary--\x0d\n") }] } :=
  ⟨⟨_, _, rfl, rfl⟩,
   (encoded_value_read_back zeroStrconv stubLib
      (testClient
        { StatusCode := 200,
          Body := "\x7b\"text\":\"Hello world\",\"language\":\"en\"," ++
            "\"metadata\":\x7b\"k\":\"v\"\x7d\x7d" })
      { Method := "POST", URL := "http://127.0.0.1:8080/api/audio/transcriptions",
        Header := [("Authorization", "Bearer test-key"),
                   ("Content-Type", "multipart/form-data; boundary=boundary")],
        Body := some (utf8Bytes "\x0d\n--boundary--\x0d\n") }
      { StatusCode := 200,
        Body := "\x7b\"text\":\"Hello world\",\"language\":\"en\"," ++
          "\"metadata\":\x7b\"k\":\"v\"\x7d\x7d" }
      (strictDest zeroStrconv types.STTResponse) types.STTResponse
      (sttValue "Hello world" "en"
        (GoValue.map (some [(GoValue.string "k", GoValue.string "v")])))
      (by simp [responseTypes]) (strictDest_decodes zeroStrconv types.STTResponse) rfl
      (by decide) rfl ⟨_, _, rfl, rfl⟩ (fun h => absurd h (by decide))).2
      "/api/audio/transcriptions" [] rfl⟩

/-! ## The multipart body, written and read back -/

theorem or_hi_ge (k : UInt8) (hk : k.toNat.testBit 7 = true) (x : UInt8) :
    128 ≤ (x ||| k).toNat := by
  have h1 : (x ||| k).toNat = x.toNat ||| k.toNat := rfl
  rw [h1]
  have h2 : (x.toNat ||| k.toNat).testBit 7 = true := by
    rw [Nat.testBit_or, hk, Bool.or_true]
  exact Nat.testBit_implies_ge h2

theorem ascii_byte (v : UInt32) (h : v ≤ 0x7f) : v.toUInt8.toNat = v.toNat := by
  have h1 : v.toNat ≤ 127 := h
  show v.toNat % 256 = v.toNat
  omega

theorem encode_ascii (c : Char) (h : c.val ≤ 0x7f) :
    (String.utf8EncodeChar c).map UInt8.toNat = [c.toNat] := by
  unfold String.utf8EncodeChar
  simp only [h, if_true, List.map_cons, List.map_nil]
  rw [ascii_byte _ h]
  rfl

theorem encode_high (c : Char) (h : ¬ c.val ≤ 0x7f) :
    ∀ b ∈ (String.utf8EncodeChar c).map UInt8.toNat, 128 ≤ b := by
  have k80 : ∀ x : UInt8, 128 ≤ (x ||| 0x80).toNat := or_hi_ge _ (by decide)
  have kc0 : ∀ x : UInt8, 128 ≤ (x ||| 0xc0).toNat := or_hi_ge _ (by decide)
  have ke0 : ∀ x : UInt8, 128 ≤ (x ||| 0xe0).toNat := or_hi_ge _ (by decide)
  have kf0 : ∀ x : UInt8, 128 ≤ (x ||| 0xf0).toNat := or_hi_ge _ (by decide)
  unfold String.utf8EncodeChar
  simp only [h, if_false]
  split_ifs
  · simp only [List.map_cons, List.map_nil, List.forall_mem_cons]
    exact ⟨kc0 _, k80 _, fun _ hb => absurd hb (List.not_mem_nil _)⟩
  · simp only [List.map_cons, List.map_nil, List.forall_mem_cons]
    exact ⟨ke0 _, k80 _, k80 _, fun _ hb => absurd hb (List.not_mem_nil _)⟩
  · simp only [List.map_cons, List.map_nil, List.forall_mem_cons]
    exact ⟨kf0 _, k80 _, k80 _, k80 _, fun _ hb => absurd hb (List.not_mem_nil _)⟩

theorem utf8Bytes_append (a b : String) : utf8Bytes (a ++ b) = utf8Bytes a ++ utf8Bytes b := by
  simp only [utf8Bytes, String.data_append, List.flatMap_append]

theorem utf8Bytes_mk_cons (c : Char) (cs : List Char) :
    utf8Bytes (String.mk (c :: cs)) =
      (String.utf8EncodeChar c).map UInt8.toNat ++ utf8Bytes (String.mk cs) := by
  simp only [utf8Bytes, List.flatMap_cons]

/-- A byte below 128 occurs in the bytes of a text only as the character of that code. -/
theorem ascii_mem_utf8Bytes (s : String) (b : Nat) (hb : b < 128)
    (h : b ∈ utf8Bytes s) : ∃ c ∈ s.data, c.toNat = b := by
  simp only [utf8Bytes, List.mem_flatMap] at h
  obtain ⟨c, hc, hbc⟩ := h
  refine ⟨c, hc, ?_⟩
  by_cases hv : c.val ≤ 0x7f
  · rw [encode_ascii c hv, List.mem_singleton] at hbc
    exact hbc.symm
  · have := encode_high c hv b hbc
    omega

theorem escapeBytes_cons (b : Nat) (bs : List Nat) :
    escapeBytes (b :: bs) =
      (if b = 92 ∨ b = 34 then [92, b]
       else if b = 13 then [37, 48, 68]
       else if b = 10 then [37, 48, 65]
       else [b]) ++ escapeBytes bs := by
  simp [escapeBytes]

theorem escapeBytes_plain (l : List Nat)
    (h : ∀ b ∈ l, b ≠ 92 ∧ b ≠ 34 ∧ b ≠ 13 ∧ b ≠ 10) : escapeBytes l = l := by
  induction l with
  | nil => rfl
  | cons b l ih =>
    obtain ⟨h1, h2, h3, h4⟩ := h b (List.mem_cons_self _ _)
    rw [escapeBytes_cons, if_neg (by tauto), if_neg h3, if_neg h4,
      ih (fun x hx => h x (List.mem_cons_of_mem _ hx))]
    rfl

theorem escapeBytes_append (a b : List Nat) :
    escapeBytes (a ++ b) = escapeBytes a ++ escapeBytes b := by
  simp [escapeBytes]

theorem char_of_toNat (c d : Char) (h : c.toNat = d.toNat) : c = d := by
  apply Char.ext
  apply UInt32.toNat.inj
  exact h

theorem utf8Bytes_escapeQuotes (s : String) :
    utf8Bytes (escapeQuotes s) = escapeBytes (utf8Bytes s) := by
  obtain ⟨cs⟩ := s
  induction cs with
  | nil => rfl
  | cons c cs ih =>
    have h1 : escapeQuotes (String.mk (c :: cs)) =
        String.mk (if c = '\\' ∨ c = '"' then ['\\', c]
          else if c = '\r' then ['%', '0', 'D']
          else if c = '\n' then ['%', '0', 'A']
          else [c]) ++
          escapeQuotes (String.mk cs) := by
      simp only [escapeQuotes, List.flatMap_cons]
      rfl
    rw [h1, utf8Bytes_append, ih, utf8Bytes_mk_cons, escapeBytes_append]
    congr 1
    by_cases hc : c = '\\' ∨ c = '"'
    · rcases hc with hc | hc <;> subst hc <;> rfl
    · rw [if_neg hc]
      by_cases hr : c = '\r'
      · subst hr
        rfl
      · rw [if_neg hr]
        by_cases hn : c = '\n'
        · subst hn
          rfl
        · rw [if_neg hn]
          have h2 : utf8Bytes (String.mk [c]) =
              (String.utf8EncodeChar c).map UInt8.toNat := by
            simp [utf8Bytes]
          rw [h2]
          symm
          apply escapeBytes_plain
          intro b hb
          by_cases hv : c.val ≤ 0x7f
          · rw [encode_ascii c hv, List.mem_singleton] at hb
            subst hb
            refine ⟨?_, ?_, ?_, ?_⟩
            · exact fun hh => hc (Or.inl (char_of_toNat c '\\' hh))
            · exact fun hh => hc (Or.inr (char_of_toNat c '"' hh))
            · exact fun hh => hr (char_of_toNat c '\r' hh)
            · exact fun hh => hn (char_of_toNat c '\n' hh)
          · have := encode_high c hv b hb
            omega

theorem writeFields_buf (fields : List MultipartField) (w : MultipartWriter) :
    ∃ w1, writeFields w fields = .ok w1 ∧ w1.boundary = w.boundary ∧
      w1.buf ++ partsTail (utf8Bytes w.boundary) [] =
        w.buf ++ (if w.started then partsTail (utf8Bytes w.boundary) fields
                  else multipartBody (utf8Bytes w.boundary) fields) := by
  induction fields generalizing w with
  | nil =>
    refine ⟨w, rfl, rfl, ?_⟩
    cases w.started <;> rfl
  | cons f fs ih =>
    have hlit1 : utf8Bytes "\x0d\n--" = [13, 10, 45, 45] := by decide
    have hlit2 : utf8Bytes "--" = [45, 45] := by decide
    have hlit3 : utf8Bytes "\x0d\n" = [13, 10] := by decide
    have hlit4 : utf8Bytes ": " = [58, 32] := by decide
    have hlit5 : utf8Bytes "\"" = [34] := by decide
    have hlit6 : utf8Bytes "" = [] := by decide
    have hlit7 : utf8Bytes "\"; filename=\"" = 34 :: utf8Bytes "; filename=\"" := by decide
    have hlit8 : utf8Bytes "Content-Type: application/octet-stream\x0d\n" =
        utf8Bytes "Content-Type" ++ 58 :: 32 :: (utf8Bytes "application/octet-stream" ++
          [13, 10]) := by decide
    have hlit9 : utf8Bytes "Content-Disposition: " =
        utf8Bytes "Content-Disposition" ++ [58, 32] := by decide
    cases hf : f.IsFile with
    | true =>
      obtain ⟨w1, h1, h2, h3⟩ := ih
        { w with
          buf := w.buf ++ utf8Bytes ((if w.started then "\x0d\n--" ++ w.boundary ++ "\x0d\n"
              else "--" ++ w.boundary ++ "\x0d\n") ++
            ("" ++ "Content-Disposition" ++ ": " ++
              ("form-data; name=\"" ++ escapeQuotes f.Name ++ "\"; filename=\"" ++
                escapeQuotes f.FileName ++ "\"") ++ "\x0d\n" ++
              "Content-Type" ++ ": " ++ "application/octet-stream" ++ "\x0d\n") ++ "\x0d\n") ++
            f.Data,
          started := true }
      refine ⟨w1, ?_, h2, ?_⟩
      · rw [← h1]
        simp only [writeFields, hf, if_true, MultipartWriter.CreateFormFile,
          MultipartWriter.CreatePart, MultipartWriter.Write, List.foldl_cons, List.foldl_nil]
      · rw [h3]
        simp only [if_true, partsTail, multipartBody, MultipartField.headerBytes,
          MultipartField.disposition, MultipartField.written, hf]
        cases w.started <;>
          simp [utf8Bytes_append, utf8Bytes_escapeQuotes, hlit1, hlit2, hlit3, hlit4, hlit5,
            hlit6, hlit7, hlit8, hlit9, List.append_assoc]
    | false =>
      obtain ⟨w1, h1, h2, h3⟩ := ih
        { w with
          buf := w.buf ++ utf8Bytes ((if w.started then "\x0d\n--" ++ w.boundary ++ "\x0d\n"
              else "--" ++ w.boundary ++ "\x0d\n") ++
            ("" ++ "Content-Disposition" ++ ": " ++
              ("form-data; name=\"" ++ escapeQuotes f.Name ++ "\"") ++ "\x0d\n") ++
              "\x0d\n") ++
            utf8Bytes f.Value,
          started := true }
      refine ⟨w1, ?_, h2, ?_⟩
      · rw [← h1]
        simp only [writeFields, hf, Bool.false_eq_true, if_false, MultipartWriter.WriteField,
          MultipartWriter.CreatePart, MultipartWriter.Write, List.foldl_cons, List.foldl_nil,
          Except.bind]
      · rw [h3]
        simp only [if_true, partsTail, multipartBody, MultipartField.headerBytes,
          MultipartField.disposition, MultipartField.written, hf]
        cases w.started <;>
          simp [utf8Bytes_append, utf8Bytes_escapeQuotes, hlit1, hlit2, hlit3, hlit4, hlit5,
            hlit6, hlit7, hlit8, hlit9, List.append_assoc]

theorem ReadSlice_line (l rest : List Nat) (h : 10 ∉ l) :
    bufio.ReadSlice (l ++ 10 :: rest) = some (l ++ [10], rest) := by
  induction l with
  | nil => simp [bufio.ReadSlice]
  | cons b l ih =>
    have hb : b ≠ 10 := fun e => h (e ▸ List.mem_cons_self _ _)
    have hl : 10 ∉ l := fun e => h (List.mem_cons_of_mem _ e)
    simp [bufio.ReadSlice, hb, ih hl]

theorem readLineSlice_crlf (l rest : List Nat) (h : 10 ∉ l) :
    textproto.readLineSlice (l ++ 13 :: 10 :: rest) = some (l, rest) := by
  have h1 : l ++ 13 :: 10 :: rest = (l ++ [13]) ++ 10 :: rest := by simp
  have h2 : 10 ∉ l ++ [13] := by simp [h]
  rw [textproto.readLineSlice, h1, ReadSlice_line _ _ h2]
  simp [bufio.dropLineEnd]

theorem skipLWSPChar_cons (b : Nat) (r : List Nat) (h1 : b ≠ 32) (h2 : b ≠ 9) :
    multipart.skipLWSPChar (b :: r) = b :: r := by
  simp [multipart.skipLWSPChar, h1, h2]

theorem trim_eq (a z : Nat) (m : List Nat) (ha1 : a ≠ 32) (ha2 : a ≠ 9) (hz1 : z ≠ 32)
    (hz2 : z ≠ 9) : textproto.trim (a :: (m ++ [z])) = a :: (m ++ [z]) := by
  unfold textproto.trim
  rw [skipLWSPChar_cons _ _ ha1 ha2]
  have h : (a :: (m ++ [z])).reverse = z :: (m.reverse ++ [a]) := by simp
  rw [h, skipLWSPChar_cons _ _ hz1 hz2]
  simp

theorem readContinuation_stop (fuel : Nat) (buf rest : List Nat)
    (h : ∀ b, rest.head? = some b → b ≠ 32 ∧ b ≠ 9) :
    textproto.readContinuation fuel buf rest = (buf, rest) := by
  cases fuel with
  | zero => rfl
  | succ n =>
    cases rest with
    | nil => rfl
    | cons b r =>
      have hb := h b rfl
      simp [textproto.readContinuation, hb.1, hb.2]

theorem readContinuedLineSlice_line (l rest : List Nat) (hne : l ≠ []) (h10 : 10 ∉ l)
    (hc : 58 ∈ l) (h : ∀ b, rest.head? = some b → b ≠ 32 ∧ b ≠ 9) :
    textproto.readContinuedLineSlice (l ++ 13 :: 10 :: rest) =
      some (textproto.trim l, rest) := by
  unfold textproto.readContinuedLineSlice
  rw [readLineSlice_crlf _ _ h10]
  simp only [hne, if_false, hc, if_true]
  rw [readContinuation_stop _ _ _ h]

theorem readContinuedLineSlice_blank (rest : List Nat) :
    textproto.readContinuedLineSlice (13 :: 10 :: rest) = some ([], rest) := by
  have := readLineSlice_crlf [] rest (by simp)
  simp only [List.nil_append] at this
  simp [textproto.readContinuedLineSlice, this]

theorem cutColon_append (k v : List Nat) (h : 58 ∉ k) :
    textproto.cutColon (k ++ 58 :: v) = some (k, v) := by
  induction k with
  | nil => simp [textproto.cutColon]
  | cons b k ih =>
    have hb : b ≠ 58 := fun e => h (e ▸ List.mem_cons_self _ _)
    have hk : 58 ∉ k := fun e => h (List.mem_cons_of_mem _ e)
    simp [textproto.cutColon, hb, ih hk]

theorem valid_ne_lf (v : List Nat) (hv : v.all textproto.validHeaderValueByte = true) :
    10 ∉ v ∧ 13 ∉ v := by
  rw [List.all_eq_true] at hv
  constructor <;> intro h <;> have := hv _ h <;> revert this <;> decide

/-- One header line `key: value` read by the loop of `readMIMEHeader`. -/
theorem readMIMEHeaderLoop_line (fuel : Nat) (a x z : Nat) (k m rest : List Nat)
    (acc : List (List Nat × List Nat))
    (hkey : textproto.canonicalMIMEHeaderKey (a :: k) = some (a :: k))
    (hk58 : 58 ∉ a :: k) (hk10 : 10 ∉ a :: k) (ha1 : a ≠ 32) (ha2 : a ≠ 9)
    (hx1 : x ≠ 32) (hx2 : x ≠ 9) (hz1 : z ≠ 32) (hz2 : z ≠ 9)
    (hv : (x :: (m ++ [z])).all textproto.validHeaderValueByte = true)
    (h : ∀ b, rest.head? = some b → b ≠ 32 ∧ b ≠ 9) :
    textproto.readMIMEHeaderLoop (fuel + 1)
        ((a :: k) ++ 58 :: 32 :: (x :: (m ++ [z])) ++ 13 :: 10 :: rest) acc =
      textproto.readMIMEHeaderLoop fuel rest ((a :: k, x :: (m ++ [z])) :: acc) := by
  have hv10 := (valid_ne_lf _ hv).1
  have hl : (a :: k) ++ 58 :: 32 :: (x :: (m ++ [z])) ++ 13 :: 10 :: rest =
      (a :: ((k ++ 58 :: 32 :: x :: m) ++ [z])) ++ 13 :: 10 :: rest := by simp
  have hl10 : 10 ∉ a :: ((k ++ 58 :: 32 :: x :: m) ++ [z]) := by
    simp [List.mem_append] at hk10 hv10 ⊢
    tauto
  have hl58 : 58 ∈ a :: ((k ++ 58 :: 32 :: x :: m) ++ [z]) := by simp
  have hcut : textproto.cutColon (a :: ((k ++ 58 :: 32 :: x :: m) ++ [z])) =
      some (a :: k, 32 :: (x :: (m ++ [z]))) := by
    have := cutColon_append (a :: k) (32 :: (x :: (m ++ [z]))) hk58
    simpa using this
  have hv2 : (32 :: (x :: (m ++ [z]))).all textproto.validHeaderValueByte = true := by
    rw [List.all_cons, hv]
    rfl
  rw [textproto.readMIMEHeaderLoop, hl, readContinuedLineSlice_line _ _ (List.cons_ne_nil _ _) hl10 hl58 h,
    trim_eq _ _ _ ha1 ha2 hz1 hz2]
  simp only [List.cons_ne_nil, if_false, hcut, hkey, hv2, if_true]
  rw [show multipart.skipLWSPChar (32 :: (x :: (m ++ [z]))) = x :: (m ++ [z]) from by
    simp [multipart.skipLWSPChar, hx1, hx2]]

theorem disposition_shape (f : MultipartField) :
    ∃ m, f.disposition = 102 :: (m ++ [34]) := by
  have h : utf8Bytes "form-data; name=\"" = 102 :: utf8Bytes "orm-data; name=\"" := by decide
  unfold MultipartField.disposition
  rw [h]
  cases f.IsFile with
  | false =>
    exact ⟨utf8Bytes "orm-data; name=\"" ++ escapeBytes (utf8Bytes f.Name), by simp⟩
  | true =>
    exact ⟨utf8Bytes "orm-data; name=\"" ++ escapeBytes (utf8Bytes f.Name) ++ [34] ++
      utf8Bytes "; filename=\"" ++ escapeBytes (utf8Bytes f.FileName), by simp⟩

theorem escapeBytes_valid (bs : List Nat)
    (h : bs.all textproto.validHeaderValueByte = true) :
    (escapeBytes bs).all textproto.validHeaderValueByte = true := by
  induction bs with
  | nil => rfl
  | cons b bs ih =>
    rw [List.all_cons, Bool.and_eq_true] at h
    rw [escapeBytes_cons, List.all_append, ih h.2, Bool.and_true]
    split_ifs
    · rw [List.all_cons, List.all_cons, List.all_nil, h.1]
      rfl
    · rfl
    · rfl
    · rw [List.all_cons, List.all_nil, h.1]
      rfl

theorem disposition_valid (f : MultipartField) (hn : headerSafe f.Name = true)
    (hf : f.IsFile = true → headerSafe f.FileName = true) :
    f.disposition.all textproto.validHeaderValueByte = true := by
  have h1 : (utf8Bytes "form-data; name=\"").all textproto.validHeaderValueByte = true := by
    decide
  have h2 : (utf8Bytes "; filename=\"").all textproto.validHeaderValueByte = true := by
    decide
  have h3 : ([34] : List Nat).all textproto.validHeaderValueByte = true := by decide
  unfold MultipartField.disposition
  cases hfile : f.IsFile with
  | false =>
    simp only [Bool.false_eq_true, if_false, List.all_append, h1, h3,
      escapeBytes_valid _ hn, List.all_nil, Bool.and_self]
  | true =>
    simp only [if_true, List.all_append, h1, h2, h3, escapeBytes_valid _ hn,
      escapeBytes_valid _ (hf hfile), Bool.and_self]

/-- The header lines written for a field are read back as the header of the field. -/
theorem readMIMEHeader_field (f : MultipartField) (rest : List Nat)
    (hn : headerSafe f.Name = true) (hf : f.IsFile = true → headerSafe f.FileName = true) :
    textproto.readMIMEHeader (f.headerBytes ++ 13 :: 10 :: rest) = some (f.header, rest) := by
  obtain ⟨m, hm⟩ := disposition_shape f
  have hv := disposition_valid f hn hf
  rw [hm] at hv
  have hcd : utf8Bytes "Content-Disposition" = 67 :: utf8Bytes "ontent-Disposition" := by
    decide
  have hct : utf8Bytes "Content-Type" = 67 :: utf8Bytes "ontent-Type" := by decide
  have haos : utf8Bytes "application/octet-stream" =
      97 :: (utf8Bytes "pplication/octet-strea" ++ [109]) := by decide
  have hlit8 : utf8Bytes "Content-Type: application/octet-stream\x0d\n" =
      utf8Bytes "Content-Type" ++ 58 :: 32 :: (utf8Bytes "application/octet-stream" ++
        [13, 10]) := by decide
  have hlit9 : utf8Bytes "Content-Disposition: " =
      utf8Bytes "Content-Disposition" ++ [58, 32] := by decide
  have step1 : ∀ (fuel : Nat) (r : List Nat),
      (∀ b, r.head? = some b → b ≠ 32 ∧ b ≠ 9) →
      textproto.readMIMEHeaderLoop (fuel + 1)
          (utf8Bytes "Content-Disposition: " ++ f.disposition ++ 13 :: 10 :: r) [] =
        textproto.readMIMEHeaderLoop fuel r [(utf8Bytes "Content-Disposition", f.disposition)]
      := by
    intro fuel r hr
    have := readMIMEHeaderLoop_line fuel 67 102 34 (utf8Bytes "ontent-Disposition") m r []
      (by decide) (by decide) (by decide) (by decide) (by decide) (by decide) (by decide)
      (by decide) (by decide) hv hr
    rw [hlit9, hcd, hm]
    simpa using this
  have step2 : ∀ (fuel : Nat) (r : List Nat) (acc : List (List Nat × List Nat)),
      (∀ b, r.head? = some b → b ≠ 32 ∧ b ≠ 9) →
      textproto.readMIMEHeaderLoop (fuel + 1)
          (utf8Bytes "Content-Type: application/octet-stream\x0d\n" ++ r) acc =
        textproto.readMIMEHeaderLoop fuel r
          ((utf8Bytes "Content-Type", utf8Bytes "application/octet-stream") :: acc) := by
    intro fuel r acc hr
    have := readMIMEHeaderLoop_line fuel 67 97 109 (utf8Bytes "ontent-Type")
      (utf8Bytes "pplication/octet-strea") r acc
      (by decide) (by decide) (by decide) (by decide) (by decide) (by decide) (by decide)
      (by decide) (by decide) (by decide) hr
    rw [hlit8, hct, haos]
    simpa using this
  have step3 : ∀ (fuel : Nat) (acc : List (List Nat × List Nat)),
      textproto.readMIMEHeaderLoop (fuel + 1) (13 :: 10 :: rest) acc =
        some (acc.reverse, rest) := by
    intro fuel acc
    rw [textproto.readMIMEHeaderLoop, readContinuedLineSlice_blank]
    simp
  have hcr : ∀ (r : List Nat) (b : Nat), (13 :: r).head? = some b → b ≠ 32 ∧ b ≠ 9 := by
    intro r b hb
    simp only [List.head?_cons, Option.some.injEq] at hb
    omega
  have hhead : ∃ t, f.headerBytes ++ 13 :: 10 :: rest = 67 :: t ∧ 3 ≤ t.length := by
    unfold MultipartField.headerBytes
    rw [hlit9, hcd]
    refine ⟨_, by simp only [List.cons_append]; rfl, ?_⟩
    simp only [List.length_append, List.length_cons]
    omega
  obtain ⟨t, ht, hlen⟩ := hhead
  unfold textproto.readMIMEHeader
  rw [ht]
  simp only [show ¬ ((67 : Nat) = 32 ∨ (67 : Nat) = 9) from by decide, if_false]
  obtain ⟨n, hn3⟩ : ∃ n, (67 :: t).length + 1 = n + 3 := ⟨t.length - 1, by
    simp only [List.length_cons]; omega⟩
  rw [hn3, ← ht]
  unfold MultipartField.headerBytes MultipartField.header
  cases hfile : f.IsFile with
  | false =>
    simp only [Bool.false_eq_true, if_false, List.append_nil, List.append_assoc,
      List.cons_append, List.nil_append]
    have := step1 (n + 2) (13 :: 10 :: rest) (hcr _)
    simp only [List.append_assoc] at this
    rw [this, step3]
    rfl
  | true =>
    simp only [if_true, List.append_assoc, List.cons_append, List.nil_append]
    have h1 := step1 (n + 2)
      (utf8Bytes "Content-Type: application/octet-stream\x0d\n" ++ 13 :: 10 :: rest) (by
        rw [hlit8, hct]
        intro b hb
        simp only [List.cons_append, List.head?_cons, Option.some.injEq] at hb
        omega)
    simp only [List.append_assoc] at h1
    rw [h1, step2 (n + 1) (13 :: 10 :: rest) _ (hcr _), step3]
    rfl

/-- A text that ends in the boundary cannot start inside content that is free of the
boundary and is followed by a carriage return: the boundary holds no carriage return. -/
theorem not_prefix_of_content (p B C T S : List Nat) (h13 : 13 ∉ B)
    (hp : ∀ x r, p = x :: r → 13 ∉ r)
    (hC : ¬ B <:+: C) (hCp : C ≠ [] ∨ 13 ∉ p) (h : (p ++ B) ++ S = C ++ 13 :: T) : False := by
  rcases List.append_eq_append_iff.mp h with ⟨a, ha, _⟩ | ⟨c, hc, hT⟩
  · exact hC ⟨p, a, by rw [ha]⟩
  · cases c with
    | nil =>
      rw [List.append_nil] at hc
      exact hC ⟨p, [], by rw [List.append_nil, hc]⟩
    | cons x r =>
      simp only [List.cons_append, List.cons.injEq] at hT
      obtain ⟨hx, _⟩ := hT
      subst hx
      have hmem : 13 ∈ p ++ B := by
        rw [hc]
        simp
      rcases List.mem_append.mp hmem with h1 | h1
      · cases C with
        | nil =>
          rcases hCp with h2 | h2
          · exact h2 rfl
          · exact h2 h1
        | cons c0 C1 =>
          cases p with
          | nil => cases h1
          | cons x0 r0 =>
            have h3 := hp x0 r0 rfl
            simp only [List.cons_append, List.cons.injEq] at hc
            obtain ⟨_, hc2⟩ := hc
            rcases List.append_eq_append_iff.mp hc2 with ⟨a, ha, hb⟩ | ⟨c, hc3, hb⟩
            · exact h13 (by rw [hb]; simp)
            · cases c with
              | nil => exact h13 (by rw [← List.nil_append B, ← hb]; simp)
              | cons y c1 =>
                simp only [List.cons_append, List.cons.injEq] at hb
                exact h3 (by rw [hc3, ← hb.1]; simp)
      · exact h13 h1

theorem scanUntilBoundary_content (B C t : List Nat) (h13 : 13 ∉ B) (hC : ¬ B <:+: C)
    (ht : multipart.matchAfterPrefix t = true) :
    multipart.scanUntilBoundary ([13, 10] ++ ([45, 45] ++ B)) 0
        (C ++ ([13, 10, 45, 45] ++ B ++ t)) =
      some (C, [13, 10, 45, 45] ++ B ++ t) := by
  induction C with
  | nil =>
    have h1 : (([13, 10] ++ ([45, 45] ++ B)).isPrefixOf
        (13 :: (10 :: 45 :: 45 :: (B ++ t)))) = true := by
      rw [ List.isPrefixOf_iff_prefix]
      exact ⟨t, by simp⟩
    have h2 : (13 :: (10 :: 45 :: 45 :: (B ++ t))).drop ([13, 10] ++ ([45, 45] ++ B)).length
        = t := by
      have : (13 :: (10 :: 45 :: 45 :: (B ++ t))) = ([13, 10] ++ ([45, 45] ++ B)) ++ t := by
        simp
      rw [this, List.drop_left]
    show multipart.scanUntilBoundary _ 0 (13 :: (10 :: 45 :: 45 :: (B ++ t))) = _
    rw [multipart.scanUntilBoundary, h1, if_pos rfl, h2, ht, if_pos rfl]
    simp
  | cons c C ih =>
    have hC1 : ¬ B <:+: C := fun ⟨a, b, hab⟩ => hC ⟨c :: a, b, by simp [← hab]⟩
    have h1 : (([13, 10] ++ ([45, 45] ++ B)).isPrefixOf
        (c :: (C ++ ([13, 10, 45, 45] ++ B ++ t)))) = false := by
      rw [Bool.eq_false_iff]
      intro hpre
      rw [ List.isPrefixOf_iff_prefix] at hpre
      obtain ⟨S, hS⟩ := hpre
      refine not_prefix_of_content [13, 10, 45, 45] B (c :: C) (10 :: 45 :: 45 :: (B ++ t)) S
        h13 ?_ hC (Or.inl (List.cons_ne_nil _ _)) ?_
      · intro x r hxr
        simp only [List.cons.injEq] at hxr
        rw [← hxr.2]
        decide
      · rw [← List.cons_append] at hS
        simpa using hS
    show multipart.scanUntilBoundary _ 0 (c :: (C ++ ([13, 10, 45, 45] ++ B ++ t))) = _
    rw [multipart.scanUntilBoundary, h1, ih hC1]
    simp

theorem readContent_content (B C t : List Nat) (h13 : 13 ∉ B) (hC : ¬ B <:+: C)
    (ht : multipart.matchAfterPrefix t = true) :
    multipart.readContent ([45, 45] ++ B) (C ++ ([13, 10, 45, 45] ++ B ++ t)) =
      some (C, [13, 10, 45, 45] ++ B ++ t) := by
  have h1 : (([45, 45] ++ B).isPrefixOf (C ++ ([13, 10, 45, 45] ++ B ++ t))) = false := by
    rw [Bool.eq_false_iff]
    intro hpre
    rw [ List.isPrefixOf_iff_prefix] at hpre
    obtain ⟨S, hS⟩ := hpre
    refine not_prefix_of_content [45, 45] B C (10 :: 45 :: 45 :: (B ++ t)) S
      h13 ?_ hC (Or.inr (by decide)) ?_
    · intro x r hxr
      simp only [List.cons.injEq] at hxr
      rw [← hxr.2]
      decide
    · simpa using hS
  unfold multipart.readContent
  rw [h1]
  simp only [Bool.false_eq_true, if_false]
  exact scanUntilBoundary_content B C t h13 hC ht

theorem partsTail_shape (B : List Nat) (fs : List MultipartField) :
    ∃ t, partsTail B fs = [13, 10, 45, 45] ++ B ++ t ∧ multipart.matchAfterPrefix t = true := by
  cases fs with
  | nil => exact ⟨[45, 45, 13, 10], rfl, rfl⟩
  | cons f fs =>
    refine ⟨13 :: 10 :: (f.headerBytes ++ [13, 10] ++ f.written.2.2 ++ partsTail B fs), ?_, rfl⟩
    simp [partsTail]

theorem partsTail_length (B : List Nat) (fs : List MultipartField) :
    2 * fs.length + 2 ≤ (partsTail B fs).length := by
  induction fs with
  | nil => simp [partsTail]
  | cons f fs ih =>
    simp only [partsTail, List.length_append, List.length_cons, List.length_nil]
    omega

theorem dash_isPrefixOf_cr (B r : List Nat) (l : List Nat) :
    ((45 :: 45 :: B) ++ l).isPrefixOf (13 :: r) = false := by
  simp [List.isPrefixOf]

theorem nextParts_newline (B X : List Nat) (fuel pr : Nat) (hpr : pr ≠ 0) :
    multipart.nextParts ([45, 45] ++ B) (fuel + 1) pr false (13 :: 10 :: X) =
      multipart.nextParts ([45, 45] ++ B) fuel pr true X := by
  have h1 : bufio.ReadSlice (13 :: 10 :: X) = some ([13, 10], X) :=
    ReadSlice_line [13] X (by decide)
  have h2 := dash_isPrefixOf_cr B [10] []
  have h3 := dash_isPrefixOf_cr B [10] [45, 45]
  simp only [List.append_nil] at h2
  rw [multipart.nextParts, h1]
  simp [multipart.isBoundaryDelimiterLine, multipart.isFinalBoundary, h2, h3, hpr]

theorem nextParts_preamble (B X : List Nat) (fuel : Nat) :
    multipart.nextParts ([45, 45] ++ B) (fuel + 1) 0 false (13 :: 10 :: X) =
      multipart.nextParts ([45, 45] ++ B) fuel 0 false X := by
  have h1 : bufio.ReadSlice (13 :: 10 :: X) = some ([13, 10], X) :=
    ReadSlice_line [13] X (by decide)
  have h2 := dash_isPrefixOf_cr B [10] []
  have h3 := dash_isPrefixOf_cr B [10] [45, 45]
  simp only [List.append_nil] at h2
  rw [multipart.nextParts, h1]
  simp [multipart.isBoundaryDelimiterLine, multipart.isFinalBoundary, h2, h3]

theorem nextParts_final (B : List Nat) (fuel pr : Nat) (e : Bool) (h10 : 10 ∉ B) :
    multipart.nextParts ([45, 45] ++ B) (fuel + 1) pr e ([45, 45] ++ B ++ [45, 45, 13, 10]) =
      some [] := by
  have h1 : bufio.ReadSlice ([45, 45] ++ B ++ [45, 45, 13, 10]) =
      some ([45, 45] ++ B ++ [45, 45, 13, 10], []) := by
    have := ReadSlice_line ([45, 45] ++ B ++ [45, 45, 13]) [] (by simp [h10])
    simpa using this
  have h2 : multipart.isBoundaryDelimiterLine ([45, 45] ++ B)
      ([45, 45] ++ B ++ [45, 45, 13, 10]) = false := by
    unfold multipart.isBoundaryDelimiterLine
    rw [List.drop_left]
    simp [multipart.skipLWSPChar]
  have h3 : multipart.isFinalBoundary ([45, 45] ++ B)
      ([45, 45] ++ B ++ [45, 45, 13, 10]) = true := by
    unfold multipart.isFinalBoundary
    have h4 : [45, 45] ++ B ++ [45, 45, 13, 10] = ([45, 45] ++ B ++ [45, 45]) ++ [13, 10] := by
      simp
    have h5 : ([45, 45] ++ B).length + 2 = ([45, 45] ++ B ++ [45, 45]).length := by simp
    rw [h5, h4, List.drop_left, Bool.and_eq_true]
    constructor
    · rw [ List.isPrefixOf_iff_prefix]
      exact ⟨[13, 10], rfl⟩
    · simp [multipart.skipLWSPChar]
  rw [multipart.nextParts, h1]
  simp only [h2, h3, Bool.false_eq_true, if_false, if_true]

/-- One part, from its boundary line to the end of its content. -/
theorem nextParts_part (B T t : List Nat) (f : MultipartField) (fuel pr : Nat) (e : Bool)
    (h10 : 10 ∉ B) (h13 : 13 ∉ B)
    (hn : headerSafe f.Name = true) (hf : f.IsFile = true → headerSafe f.FileName = true)
    (hC : ¬ B <:+: f.written.2.2)
    (hT : T = [13, 10, 45, 45] ++ B ++ t) (ht : multipart.matchAfterPrefix t = true) :
    multipart.nextParts ([45, 45] ++ B) (fuel + 1) pr e
        ([45, 45] ++ B ++ [13, 10] ++ f.headerBytes ++ [13, 10] ++ f.written.2.2 ++ T) =
      (multipart.nextParts ([45, 45] ++ B) fuel (pr + 1) false T).map
        (fun parts => { Header := f.header, content := f.written.2.2 } :: parts) := by
  have h0 : [45, 45] ++ B ++ [13, 10] ++ f.headerBytes ++ [13, 10] ++ f.written.2.2 ++ T =
      ([45, 45] ++ B ++ [13]) ++ 10 :: (f.headerBytes ++ 13 :: 10 :: (f.written.2.2 ++ T)) := by
    simp
  have h1 := ReadSlice_line ([45, 45] ++ B ++ [13])
    (f.headerBytes ++ 13 :: 10 :: (f.written.2.2 ++ T)) (by simp [h10])
  have h2 : multipart.isBoundaryDelimiterLine ([45, 45] ++ B)
      ([45, 45] ++ B ++ [13] ++ [10]) = true := by
    unfold multipart.isBoundaryDelimiterLine
    have h4 : [45, 45] ++ B ++ [13] ++ [10] = ([45, 45] ++ B) ++ [13, 10] := by simp
    rw [h4, List.drop_left, Bool.and_eq_true]
    constructor
    · rw [ List.isPrefixOf_iff_prefix]
      exact ⟨[13, 10], rfl⟩
    · simp [multipart.skipLWSPChar]
  rw [multipart.nextParts, h0, h1]
  simp only [h2, if_true]
  rw [readMIMEHeader_field f _ hn hf]
  simp only []
  rw [hT, readContent_content B _ t h13 hC ht]
  simp only []
  cases multipart.nextParts ([45, 45] ++ B) fuel (pr + 1) false ([13, 10, 45, 45] ++ B ++ t)
    <;> rfl

theorem nextParts_tail (B : List Nat) (h10 : 10 ∉ B) (h13 : 13 ∉ B)
    (fs : List MultipartField)
    (hfs : ∀ f ∈ fs, headerSafe f.Name = true ∧
      (f.IsFile = true → headerSafe f.FileName = true) ∧ ¬ B <:+: f.written.2.2)
    (fuel pr : Nat) (hfuel : 2 * fs.length + 2 ≤ fuel) (hpr : pr ≠ 0) :
    multipart.nextParts ([45, 45] ++ B) fuel pr false (partsTail B fs) =
      some (fs.map (fun f => { Header := f.header, content := f.written.2.2 })) := by
  induction fs generalizing fuel pr with
  | nil =>
    obtain ⟨n, rfl⟩ : ∃ n, fuel = n + 2 := ⟨fuel - 2, by simp at hfuel; omega⟩
    have := nextParts_newline B ([45, 45] ++ B ++ [45, 45, 13, 10]) (n + 1) pr hpr
    simp only [partsTail]
    simp only [List.cons_append, List.nil_append, List.append_assoc] at this ⊢
    rw [this]
    have h2 := nextParts_final B n pr true h10
    simp only [List.cons_append, List.nil_append, List.append_assoc] at h2
    rw [h2]
    rfl
  | cons f fs ih =>
    obtain ⟨n, rfl⟩ : ∃ n, fuel = n + 2 := ⟨fuel - 2, by simp at hfuel; omega⟩
    have hf := hfs f (List.mem_cons_self _ _)
    obtain ⟨t, hT, ht⟩ := partsTail_shape B fs
    have h1 := nextParts_newline B
      ([45, 45] ++ B ++ [13, 10] ++ f.headerBytes ++ [13, 10] ++ f.written.2.2 ++ partsTail B fs)
      (n + 1) pr hpr
    have h2 := nextParts_part B (partsTail B fs) t f n pr true h10 h13 hf.1 hf.2.1 hf.2.2 hT ht
    have h3 := ih (fun g hg => hfs g (List.mem_cons_of_mem _ hg)) n (pr + 1)
      (by simp only [List.length_cons] at hfuel; omega) (Nat.succ_ne_zero _)
    rw [h3] at h2
    simp only [partsTail]
    simp only [List.cons_append, List.nil_append, List.append_assoc] at h1 h2 ⊢
    rw [h1, h2]
    rfl

theorem takeWhile_stop (p : Nat → Bool) (l r : List Nat) (a : Nat) (hl : ∀ x ∈ l, p x = true)
    (ha : p a = false) : (l ++ a :: r).takeWhile p = l := by
  rw [List.takeWhile_append_of_pos hl, List.takeWhile_cons_of_neg (by simp [ha])]
  simp

theorem dropWhile_stop (p : Nat → Bool) (l r : List Nat) (a : Nat) (hl : ∀ x ∈ l, p x = true)
    (ha : p a = false) : (l ++ a :: r).dropWhile p = a :: r := by
  rw [List.dropWhile_append_of_pos hl, List.dropWhile_cons_of_neg (by simp [ha])]

theorem consumeQuoted_close (R buf : List Nat) :
    mime.consumeQuoted (34 :: R) buf = some (buf.reverse, R) := by
  cases R <;> simp [mime.consumeQuoted]

/-- The quoted string written by `escapeQuotes` is read back as the text. -/
theorem consumeQuoted_escapeBytes (N R buf : List Nat) (h13 : 13 ∉ N) (h10 : 10 ∉ N) :
    mime.consumeQuoted (escapeBytes N ++ 34 :: R) buf = some (buf.reverse ++ N, R) := by
  induction N generalizing buf with
  | nil =>
    have := consumeQuoted_close R buf
    simpa [escapeBytes] using this
  | cons b N ih =>
    have hN13 : 13 ∉ N := fun e => h13 (List.mem_cons_of_mem _ e)
    have hN10 : 10 ∉ N := fun e => h10 (List.mem_cons_of_mem _ e)
    have hb13 : b ≠ 13 := fun e => h13 (e ▸ List.mem_cons_self _ _)
    have hb10 : b ≠ 10 := fun e => h10 (e ▸ List.mem_cons_self _ _)
    rw [escapeBytes_cons]
    by_cases hb : b = 92 ∨ b = 34
    · rw [if_pos hb]
      have hts : mime.isTSpecial b = true := by
        rcases hb with hb | hb <;> subst hb <;> decide
      show mime.consumeQuoted (92 :: b :: (escapeBytes N ++ 34 :: R)) buf = _
      rw [mime.consumeQuoted]
      simp only [show ¬ (92 : Nat) = 34 from by decide, if_false, hts, and_self, if_true]
      rw [ih (b :: buf) hN13 hN10]
      simp
    · rw [if_neg hb, if_neg hb13, if_neg hb10]
      obtain ⟨e, rest, he⟩ : ∃ e rest, escapeBytes N ++ 34 :: R = e :: rest := by
        cases hY : escapeBytes N ++ 34 :: R with
        | nil => simp at hY
        | cons e rest => exact ⟨e, rest, rfl⟩
      show mime.consumeQuoted (b :: (escapeBytes N ++ 34 :: R)) buf = _
      rw [he, mime.consumeQuoted]
      have hb34 : b ≠ 34 := fun e => hb (Or.inr e)
      have hb92 : b ≠ 92 := fun e => hb (Or.inl e)
      simp only [hb34, hb92, hb13, hb10, false_and, or_self, if_false]
      rw [← he, ih (b :: buf) hN13 hN10]
      simp

/-- One parameter `; key="value"` as the writer writes it. -/
theorem consumeMediaParam_quoted (k N R : List Nat) (hk : k ≠ [])
    (hkt : ∀ x ∈ k, mime.isTokenChar x = true) (hkl : mime.toLower k = k)
    (h13 : 13 ∉ N) (h10 : 10 ∉ N) :
    mime.consumeMediaParam (59 :: 32 :: (k ++ 61 :: 34 :: (escapeBytes N ++ 34 :: R))) =
      some (k, N, R) := by
  have hk0 : ∃ a k1, k = a :: k1 := by
    cases k with
    | nil => exact absurd rfl hk
    | cons a k1 => exact ⟨a, k1, rfl⟩
  obtain ⟨a, k1, hak⟩ := hk0
  have ha : mime.isTokenChar a = true := hkt a (by rw [hak]; simp)
  have hasp : mime.isSpaceByte a = false := by
    revert ha
    unfold mime.isTokenChar mime.isSpaceByte
    intro ha
    simp only [Bool.and_eq_true, decide_eq_true_eq] at ha
    have h1 := ha.1.1
    simp only [Bool.or_eq_false_iff, Bool.and_eq_false_iff, decide_eq_false_iff_not]
    omega
  have h1 : (59 :: 32 :: (k ++ 61 :: 34 :: (escapeBytes N ++ 34 :: R))).dropWhile
      mime.isSpaceByte = 59 :: 32 :: (k ++ 61 :: 34 :: (escapeBytes N ++ 34 :: R)) :=
    List.dropWhile_cons_of_neg (by decide)
  have h2 : (32 :: (k ++ 61 :: 34 :: (escapeBytes N ++ 34 :: R))).dropWhile mime.isSpaceByte =
      k ++ 61 :: 34 :: (escapeBytes N ++ 34 :: R) := by
    rw [List.dropWhile_cons_of_pos (by decide), hak, List.cons_append,
      List.dropWhile_cons_of_neg (by simp [hasp])]
  have h3 : mime.consumeToken (k ++ 61 :: 34 :: (escapeBytes N ++ 34 :: R)) =
      (k, 61 :: 34 :: (escapeBytes N ++ 34 :: R)) := by
    unfold mime.consumeToken
    rw [takeWhile_stop _ _ _ _ hkt (by decide), dropWhile_stop _ _ _ _ hkt (by decide)]
  have h4 : (61 :: 34 :: (escapeBytes N ++ 34 :: R)).dropWhile mime.isSpaceByte =
      61 :: 34 :: (escapeBytes N ++ 34 :: R) :=
    List.dropWhile_cons_of_neg (by decide)
  have h5 : (34 :: (escapeBytes N ++ 34 :: R)).dropWhile mime.isSpaceByte =
      34 :: (escapeBytes N ++ 34 :: R) :=
    List.dropWhile_cons_of_neg (by decide)
  have h6 : mime.consumeValue (34 :: (escapeBytes N ++ 34 :: R)) = (N, R) := by
    unfold mime.consumeValue
    simp only [if_true]
    rw [consumeQuoted_escapeBytes N R [] h13 h10]
    rfl
  have h7 : R ≠ 34 :: (escapeBytes N ++ 34 :: R) := by
    intro h
    have := congrArg List.length h
    simp only [List.length_cons, List.length_append] at this
    omega
  unfold mime.consumeMediaParam
  rw [h1]
  simp only [if_true, h2, h3, hk, if_false, h4, h5, h6, h7, and_false, hkl]

theorem filepath_Base_plain (path : List Nat) (hne : path ≠ []) (h : 47 ∉ path) :
    filepath.Base path = path := by
  have h1 : path.reverse.dropWhile (fun b => decide (b = 47)) = path.reverse := by
    cases hr : path.reverse with
    | nil => rfl
    | cons x r =>
      have hx : x ≠ 47 := by
        intro e
        apply h
        rw [← List.mem_reverse, hr, e]
        exact List.mem_cons_self _ _
      exact List.dropWhile_cons_of_neg (by simp [hx])
  have h2 : path.reverse.takeWhile (fun b => decide (b ≠ 47)) = path.reverse := by
    rw [List.takeWhile_eq_self_iff]
    intro x hx
    rw [List.mem_reverse] at hx
    simp only [ne_eq, decide_not, Bool.not_eq_true', decide_eq_false_iff_not]
    intro e
    exact h (e ▸ hx)
  unfold filepath.Base
  simp only [hne, if_false, h1, List.reverse_reverse, h2]

theorem parseMediaParams_step (fuel : Nat) (k N R : List Nat)
    (params : List (List Nat × List Nat)) (hk : k ≠ [])
    (hkt : ∀ x ∈ k, mime.isTokenChar x = true) (hkl : mime.toLower k = k)
    (h13 : 13 ∉ N) (h10 : 10 ∉ N) (hp : params.lookup k = none) :
    mime.parseMediaParams (fuel + 1)
        (59 :: 32 :: (k ++ 61 :: 34 :: (escapeBytes N ++ 34 :: R))) params =
      mime.parseMediaParams fuel R (params ++ [(k, N)]) := by
  have h1 : (59 :: 32 :: (k ++ 61 :: 34 :: (escapeBytes N ++ 34 :: R))).dropWhile
      mime.isSpaceByte = 59 :: 32 :: (k ++ 61 :: 34 :: (escapeBytes N ++ 34 :: R)) :=
    List.dropWhile_cons_of_neg (by decide)
  rw [mime.parseMediaParams]
  simp only [h1, List.cons_ne_nil, if_false,
    consumeMediaParam_quoted k N R hk hkt hkl h13 h10, hp]

theorem parseMediaParams_end (fuel : Nat) (params : List (List Nat × List Nat)) :
    mime.parseMediaParams (fuel + 1) [] params = some params := by
  simp [mime.parseMediaParams]

/-- The `Content-Disposition` value written for a field parses into the disposition
`form-data` with the name, and the file name of a file, as given. -/
theorem ParseMediaType_disposition (f : MultipartField) (hn : headerSafe f.Name = true)
    (hf : f.IsFile = true → headerSafe f.FileName = true) :
    mime.ParseMediaType f.disposition =
      (utf8Bytes "form-data",
        some ((utf8Bytes "name", utf8Bytes f.Name) ::
          (if f.IsFile then [(utf8Bytes "filename", utf8Bytes f.FileName)] else []))) := by
  have hfd : utf8Bytes "form-data; name=\"" =
      utf8Bytes "form-data" ++ 59 :: 32 :: (utf8Bytes "name" ++ [61, 34]) := by decide
  have hfl : utf8Bytes "; filename=\"" = 59 :: 32 :: (utf8Bytes "filename" ++ [61, 34]) := by
    decide
  have hN := valid_ne_lf _ hn
  obtain ⟨R, hR, hRp⟩ : ∃ R, f.disposition =
      utf8Bytes "form-data" ++ 59 :: 32 :: (utf8Bytes "name" ++ 61 :: 34 ::
        (escapeBytes (utf8Bytes f.Name) ++ 34 :: R)) ∧
      ∀ fuel, mime.parseMediaParams (fuel + 2) R [(utf8Bytes "name", utf8Bytes f.Name)] =
        some ((utf8Bytes "name", utf8Bytes f.Name) ::
          (if f.IsFile then [(utf8Bytes "filename", utf8Bytes f.FileName)] else [])) := by
    cases hfile : f.IsFile with
    | false =>
      refine ⟨[], ?_, ?_⟩
      · unfold MultipartField.disposition
        rw [hfd, hfile]
        simp
      · intro fuel
        rw [parseMediaParams_end]
        rfl
    | true =>
      have hF := valid_ne_lf _ (hf hfile)
      refine ⟨59 :: 32 :: (utf8Bytes "filename" ++ 61 :: 34 ::
        (escapeBytes (utf8Bytes f.FileName) ++ 34 :: [])), ?_, ?_⟩
      · unfold MultipartField.disposition
        rw [hfd, hfl, hfile]
        simp
      · intro fuel
        rw [parseMediaParams_step (fuel + 1) (utf8Bytes "filename") _ [] _ (by decide)
          (by decide) (by decide) hF.2 hF.1
            (by simp [List.lookup, show (utf8Bytes "filename" == utf8Bytes "name") = false
              from by decide]), parseMediaParams_end]
        rfl
  have hbase : f.disposition.takeWhile (fun b => decide (b ≠ 59)) = utf8Bytes "form-data" := by
    rw [hR]
    exact takeWhile_stop _ _ _ _ (by decide) (by decide)
  have hdrop : f.disposition.drop (utf8Bytes "form-data").length =
      59 :: 32 :: (utf8Bytes "name" ++ 61 :: 34 ::
        (escapeBytes (utf8Bytes f.Name) ++ 34 :: R)) := by
    rw [hR, List.drop_left]
  obtain ⟨n, hlen⟩ : ∃ n, f.disposition.length + 1 = n + 3 := by
    refine ⟨f.disposition.length - 2, ?_⟩
    rw [hR]
    simp only [List.length_append, List.length_cons]
    omega
  unfold mime.ParseMediaType
  simp only [hbase, hdrop, hlen]
  rw [show mime.trimSpace (mime.toLower (utf8Bytes "form-data")) = utf8Bytes "form-data" from by
    decide]
  rw [show mime.checkMediaTypeDisposition (utf8Bytes "form-data") = true from by decide]
  simp only [if_true]
  rw [parseMediaParams_step (n + 2) (utf8Bytes "name") _ R [] (by decide) (by decide)
    (by decide) hN.2 hN.1 rfl]
  simp only [List.nil_append, hRp]

/-- The part a reader finds for a field gives back the field. -/
theorem Part_read_field (f : MultipartField) (hn : headerSafe f.Name = true)
    (hf : f.IsFile = true → headerSafe f.FileName = true ∧ 47 ∉ utf8Bytes f.FileName) :
    multipart.Part.read { Header := f.header, content := f.written.2.2 } = f.written := by
  have hpm := ParseMediaType_disposition f hn (fun h => (hf h).1)
  have hpcd : multipart.Part.parseContentDisposition
      { Header := f.header, content := f.written.2.2 } =
      (utf8Bytes "form-data",
        (utf8Bytes "name", utf8Bytes f.Name) ::
          (if f.IsFile then [(utf8Bytes "filename", utf8Bytes f.FileName)] else [])) := by
    unfold multipart.Part.parseContentDisposition
    simp only [MultipartField.header, List.lookup_cons_self, Option.getD_some, hpm]
  unfold multipart.Part.read multipart.Part.FormName multipart.Part.FileName
  simp only [hpcd, if_true, List.lookup_cons_self, Option.getD_some]
  have hne : (utf8Bytes "filename" == utf8Bytes "name") = false := by decide
  cases hfile : f.IsFile with
  | false =>
    simp [MultipartField.written, hfile, List.lookup, hne]
  | true =>
    have h47 := (hf hfile).2
    simp only [MultipartField.written, hfile, if_true, List.lookup, hne,
      List.lookup_cons_self, Option.getD_some]
    by_cases he : utf8Bytes f.FileName = []
    · simp [he]
    · simp [he, filepath_Base_plain _ he h47]

theorem readParts_multipartBody (B : List Nat) (hB : B ≠ []) (h10 : 10 ∉ B) (h13 : 13 ∉ B)
    (fs : List MultipartField)
    (hfs : ∀ f ∈ fs, headerSafe f.Name = true ∧
      (f.IsFile = true → headerSafe f.FileName = true) ∧ ¬ B <:+: f.written.2.2) :
    multipart.readParts B (multipartBody B fs) =
      some (fs.map (fun f => { Header := f.header, content := f.written.2.2 })) := by
  unfold multipart.readParts
  rw [if_neg hB]
  cases fs with
  | nil =>
    have key : ∀ n, multipart.nextParts ([45, 45] ++ B) (n + 2) 0 false (partsTail B []) =
        some [] := by
      intro n
      have h1 := nextParts_preamble B ([45, 45] ++ B ++ [45, 45, 13, 10]) (n + 1)
      rw [nextParts_final B n 0 false h10] at h1
      simpa [partsTail] using h1
    obtain ⟨n, hn⟩ : ∃ n, (multipartBody B []).length + 1 = n + 2 :=
      ⟨(multipartBody B []).length - 1, by
        simp only [multipartBody, partsTail, List.length_append, List.length_cons]
        omega⟩
    rw [hn]
    exact key n
  | cons f fs =>
    have hf := hfs f (List.mem_cons_self _ _)
    obtain ⟨t, hT, ht⟩ := partsTail_shape B fs
    have hbody : multipartBody B (f :: fs) =
        [45, 45] ++ B ++ [13, 10] ++ f.headerBytes ++ [13, 10] ++ f.written.2.2 ++
          partsTail B fs := by
      simp [multipartBody, partsTail]
    rw [hbody]
    rw [nextParts_part B (partsTail B fs) t f _ 0 false h10 h13 hf.1 hf.2.1 hf.2.2 hT ht]
    rw [nextParts_tail B h10 h13 fs (fun g hg => hfs g (List.mem_cons_of_mem _ hg)) _ 1 (by
      have := partsTail_length B fs
      simp only [List.length_append]
      omega) (by decide)]
    rfl

theorem plainBoundary_bytes (boundary : String) (h : plainBoundary boundary = true) :
    utf8Bytes boundary ≠ [] ∧ 10 ∉ utf8Bytes boundary ∧ 13 ∉ utf8Bytes boundary := by
  unfold plainBoundary at h
  rw [Bool.and_eq_true, List.all_eq_true] at h
  refine ⟨?_, ?_, ?_⟩
  · intro e
    rw [e] at h
    exact absurd h.1 (by decide)
  · intro e
    have := h.2 _ e
    revert this
    decide
  · intro e
    have := h.2 _ e
    revert this
    decide

/-- The writer's body for readable fields is read back as the fields, in order. -/
theorem readParts_written (boundary : String) (fields : List MultipartField)
    (hb : plainBoundary boundary = true) (hr : ∀ f ∈ fields, f.readable boundary) :
    (multipart.readParts (utf8Bytes boundary)
        (multipartBody (utf8Bytes boundary) fields)).map (List.map multipart.Part.read) =
      some (fields.map MultipartField.written) := by
  obtain ⟨hB, h10, h13⟩ := plainBoundary_bytes boundary hb
  rw [readParts_multipartBody _ hB h10 h13 fields (fun f hf =>
    ⟨(hr f hf).1, fun h => ((hr f hf).2.1 h).1, (hr f hf).2.2⟩)]
  simp only [Option.map_some', List.map_map, Option.some.injEq]
  apply List.map_congr_left
  intro f hf
  exact Part_read_field f (hr f hf).1 (hr f hf).2.1

theorem PostMultipart_body (lib : Lib) (c : Client) (path : String)
    (fields : List MultipartField) (result : Option Dest) (req : Request)
    (h : req ∈ (c.PostMultipart lib path fields result).sent) :
    req.Body = some (multipartBody (utf8Bytes lib.boundary) fields) := by
  obtain ⟨w1, hw, hb, hbuf⟩ := writeFields_buf fields (MultipartWriter.new lib)
  have hclose : utf8Bytes ("\x0d\n--" ++ w1.boundary ++ "--\x0d\n") =
      partsTail (utf8Bytes lib.boundary) [] := by
    rw [hb, utf8Bytes_append, utf8Bytes_append]
    rfl
  unfold Client.PostMultipart at h
  simp only [hw, MultipartWriter.Close] at h
  cases hn : lib.newRequestError "POST" (c.baseURL ++ path) with
  | some err => simp [hn, Outcome.fail] at h
  | none =>
    simp only [hn] at h
    rw [send_sent, List.mem_singleton] at h
    subst h
    show some (w1.buf ++ utf8Bytes ("\x0d\n--" ++ w1.boundary ++ "--\x0d\n")) = _
    rw [hclose]
    have := hbuf
    simp only [MultipartWriter.new, Bool.false_eq_true, if_false, List.nil_append] at this
    rw [this]

theorem PostMultipart_sends (lib : Lib) (c : Client) (path : String)
    (fields : List MultipartField) (result : Option Dest)
    (hn : lib.newRequestError "POST" (c.baseURL ++ path) = none) :
    (c.PostMultipart lib path fields result).sent.length = 1 := by
  obtain ⟨w1, hw, _, _⟩ := writeFields_buf fields (MultipartWriter.new lib)
  unfold Client.PostMultipart
  simp only [hw, MultipartWriter.Close, hn]
  rw [send_sent]
  rfl

set_option maxRecDepth 100000 in
theorem readSent_directory :
    readSent "boundary"
        ((testClient { StatusCode := 200, Body := "" }).PostMultipart stubLib
          "/api/audio/transcriptions" (audioFields "dir/test.wav") none) =
      [some [(utf8Bytes "model", [], utf8Bytes "whisper-1"),
             (utf8Bytes "audio", utf8Bytes "test.wav", utf8Bytes "test audio data")]] := by
  decide

set_option maxRecDepth 100000 in
theorem readSent_line_break :
    readSent "boundary"
        ((testClient { StatusCode := 200, Body := "" }).PostMultipart stubLib
          "/api/audio/transcriptions"
          [{ Name := "a\x0d\nb", Value := "x", IsFile := false, FileName := "", Data := [] }]
          none) =
      [some [(utf8Bytes "a%0D%0Ab", [], utf8Bytes "x")]] := by
  decide

set_option maxRecDepth 100000 in
theorem readSent_boundary_in_value :
    readSent "boundary"
        ((testClient { StatusCode := 200, Body := "" }).PostMultipart stubLib
          "/api/audio/transcriptions"
          [{ Name := "a", Value := "x\x0d\n--boundary--\x0d\ny", IsFile := false,
             FileName := "", Data := [] }]
          none) =
      [some [(utf8Bytes "a", [], utf8Bytes "x")]] := by
  decide

/-- C23 (as stated, refuted): not every field comes back as it was given. With the
fields of `TestPostMultipart` and the file name `dir/test.wav`, the reader's
`FileName()` is `test.wav`: the directory is cut off. A field named `a`, CR, LF, `b`
is written under the name `a%0D%0Ab` and read back under that name. A value that holds
the closing boundary line ends the body early, and the value comes back cut. -/
theorem multipart_fields_not_read_back :
    readSent "boundary"
        ((testClient { StatusCode := 200, Body := "" }).PostMultipart stubLib
          "/api/audio/transcriptions" (audioFields "dir/test.wav") none) =
      [some [(utf8Bytes "model", [], utf8Bytes "whisper-1"),
             (utf8Bytes "audio", utf8Bytes "test.wav", utf8Bytes "test audio data")]] ∧
    readSent "boundary"
        ((testClient { StatusCode := 200, Body := "" }).PostMultipart stubLib
          "/api/audio/transcriptions"
          [{ Name := "a\x0d\nb", Value := "x", IsFile := false, FileName := "", Data := [] }]
          none) =
      [some [(utf8Bytes "a%0D%0Ab", [], utf8Bytes "x")]] ∧
    readSent "boundary"
        ((testClient { StatusCode := 200, Body := "" }).PostMultipart stubLib
          "/api/audio/transcriptions"
          [{ Name := "a", Value := "x\x0d\n--boundary--\x0d\ny", IsFile := false,
             FileName := "", Data := [] }]
          none) =
      [some [(utf8Bytes "a", [], utf8Bytes "x")]] :=
  ⟨readSent_directory, readSent_line_break, readSent_boundary_in_value⟩

/-- C23 (amended): with a boundary of letters and digits (the writer draws 60
hexadecimal digits), and for every list of fields whose names, and file names of files,
hold no CR, LF or other control character but the tab, whose file names hold no slash
and whose bytes (`Data` of a file, `Value` otherwise) do not contain the boundary,
reading the body that `PostMultipart` sends yields the same parts in the same order:
for each field a part whose `FormName()` is the name, whose `FileName()` is the file
name of a file and empty otherwise, and whose content is exactly the bytes of the
field. One request is sent once the request can be built. The part written for a field
depends only on (Name, Value) when `IsFile` is false and only on (Name, FileName, Data)
when it is true. -/
theorem multipart_fields_read_back (lib : Lib) (c : Client) (path : String)
    (fields : List MultipartField) (result : Option Dest)
    (hb : plainBoundary lib.boundary = true)
    (hr : ∀ f ∈ fields, f.readable lib.boundary) :
    (∀ req ∈ (c.PostMultipart lib path fields result).sent,
      ∃ body, req.Body = some body ∧
        (multipart.readParts (utf8Bytes lib.boundary) body).map
            (List.map multipart.Part.read) =
          some (fields.map MultipartField.written)) ∧
    (lib.newRequestError "POST" (c.baseURL ++ path) = none →
      (c.PostMultipart lib path fields result).sent.length = 1) ∧
    (∀ (w : MultipartWriter) (f g : MultipartField) (rest : List MultipartField),
      f.IsFile = false → g.IsFile = false → f.Name = g.Name → f.Value = g.Value →
        writeFields w (f :: rest) = writeFields w (g :: rest)) ∧
    (∀ (w : MultipartWriter) (f g : MultipartField) (rest : List MultipartField),
      f.IsFile = true → g.IsFile = true → f.Name = g.Name → f.FileName = g.FileName →
        f.Data = g.Data → writeFields w (f :: rest) = writeFields w (g :: rest)) := by
  refine ⟨?_, PostMultipart_sends lib c path fields result, ?_, ?_⟩
  · intro req hreq
    exact ⟨_, PostMultipart_body lib c path fields result req hreq,
      readParts_written lib.boundary fields hb hr⟩
  · intro w f g rest hf hg hn hv
    simp [writeFields, hf, hg, hn, hv]
  · intro w f g rest hf hg hn hfn hd
    simp [writeFields, hf, hg, hn, hfn, hd]

set_option maxRecDepth 100000 in
theorem audioFields_readable : ∀ f ∈ audioFields "test.wav", f.readable stubLib.boundary := by
  decide

/-- C23, scenario 6 of the specification: the text field `model=whisper-1` and the file
field `audio` with the file name `test.wav` are read back from the body as they were
given. -/
theorem multipart_fields_read_back_witness :
    plainBoundary stubLib.boundary = true ∧
    (∀ f ∈ audioFields "test.wav", f.readable stubLib.boundary) ∧
    (∀ req ∈ ((testClient { StatusCode := 200, Body := "" }).PostMultipart stubLib
        "/api/audio/transcriptions" (audioFields "test.wav") none).sent,
      ∃ body, req.Body = some body ∧
        (multipart.readParts (utf8Bytes stubLib.boundary) body).map
            (List.map multipart.Part.read) =
          some [(utf8Bytes "model", [], utf8Bytes "whisper-1"),
                (utf8Bytes "audio", utf8Bytes "test.wav", utf8Bytes "test audio data")]) :=
  ⟨by decide, audioFields_readable,
    (multipart_fields_read_back stubLib (testClient { StatusCode := 200, Body := "" })
      "/api/audio/transcriptions" (audioFields "test.wav") none (by decide)
      audioFields_readable).1⟩

end KeywordsAI
